import Mathlib

/-!
# Viewer core: OBJ parser, affine transform engine and model

A shallow embedding of the C++ sources

* `src/model/parser/parser.cc`            (`Parser`)
* `src/libs/s21_matrix_oop.cc`            (`Matrix`)
* `src/model/affine_transform/factory.cc` (`TransformMatrix` hierarchy)
* `src/model/affine_transform/affinetransform.cc` (`AffineTransform`)
* `src/model/model.cc`                    (`Model`)

Conventions of the embedding.

* `float` / `double` values are elements of an ordered field `F` (exact
  arithmetic); `cos` and `sin` are passed in as a `Trig F`.
* Inside `Matrix::Determinant`, which tests its result for NaN, a `double`
  is a `Dbl F`: a finite value of `F`, an infinity or NaN; a division of a
  non-zero value by 0 is an infinity and `0 / 0` is NaN.
* `unsigned int` is `Nat` reduced modulo `2 ^ 32`, `int` is `Int` with the
  explicit wrap `toInt32` where a conversion happens.
* A C++ exception is a value of `Error`; a function that can throw returns
  `Except Error _`, or the state it leaves behind paired with an
  `Option Error`.  An unchecked `operator[]` outside the vector is the error
  kind `outOfBoundsAccess`: it is undefined behaviour, not a typed exception,
  and no `catch` handler sees it.
* A member function that changes its receiver takes the old state and
  returns the new one.  Where it throws a typed exception before its first
  write, `afterCall` gives the state of the receiver after the call.
* A vertex buffer is referred to by its address; a `Heap` gives the contents
  of the vector at each address.
* A `std::istringstream` is the list of characters still to be read plus
  the fail flag; the formatted extractions follow libstdc++ (`num_get` in the
  "C" locale).
* A file system is a function from paths to the characters of the file, `none`
  for a path that cannot be opened.
* Loops over text are defined by recursion on an iteration bound that the
  loop provably never reaches (section "The iteration bounds are never
  reached").
-/

set_option autoImplicit false

namespace s21

/-! ## Errors -/

/-- Dynamic type of a thrown object. `exception` is a plain `std::exception`
(what a sliced copy is); `outOfBoundsAccess` is not an exception at all but an
unchecked access outside a vector. -/
inductive ErrorKind
  | logicError
  | invalidArgument
  | outOfRange
  | rangeError
  | exception
  | outOfBoundsAccess
  deriving DecidableEq, Repr

/-- A thrown object: its dynamic type and the text of `what()`. -/
structure Error where
  kind : ErrorKind
  what : String
  deriving DecidableEq, Repr

/-- The fault raised by `v[i]` with `i >= v.size()`. -/
def Error.ub : Error := ⟨ErrorKind.outOfBoundsAccess, "out-of-bounds access"⟩

/-- Handlers of the form `catch (const std::exception&)` see every typed
exception and nothing else. -/
def Error.isException (e : Error) : Bool :=
  decide (e.kind ≠ ErrorKind.outOfBoundsAccess)

/-- The statement `throw exception;` with `exception` of static type
`const std::exception&`: the thrown object is a copy of the `std::exception`
base sub-object, whose `what()` is the library default. -/
def Error.sliced (_e : Error) : Error := ⟨ErrorKind.exception, "std::exception"⟩

/-! ## Character streams -/

/-- Behaviour of `std::isspace` in the "C" locale. -/
def isSpace (c : Char) : Bool :=
  c.toNat == 32 || (9 ≤ c.toNat && c.toNat ≤ 13)

/-- Decimal digit test used by `num_get`. -/
def isDigit (c : Char) : Bool :=
  48 ≤ c.toNat && c.toNat ≤ 57

/-- Value of a decimal digit character. -/
def digitVal (c : Char) : Nat := c.toNat - 48

/-- Value of a run of decimal digits, most significant first. -/
def digitsVal (ds : List Char) : Nat :=
  ds.foldl (fun acc c => 10 * acc + digitVal c) 0

/-- The skipping of leading white space done by a formatted extraction. -/
def skipWs (s : List Char) : List Char := s.dropWhile isSpace

/-- An input string stream: the unread characters and the fail flag. -/
structure IStream where
  buf : List Char
  fail : Bool
  deriving DecidableEq, Repr

/-- Construction `std::istringstream stream{line}`. -/
def IStream.ofLine (line : List Char) : IStream := ⟨line, false⟩

/-- Extraction `stream >> type` with `type` a `char`: skips white space and
reads one character. -/
def IStream.readChar (s : IStream) : IStream :=
  if s.fail then s else
    match skipWs s.buf with
    | [] => ⟨[], true⟩
    | _ :: rest => ⟨rest, false⟩

def INT_MAX : Int := 2147483647

def INT_MIN : Int := -2147483648

/-- Conversion of an integer value to `int` (two's complement wrap). -/
def toInt32 (x : Int) : Int := (x + 2147483648) % 4294967296 - 2147483648

/-- Conversion of an integer value to `unsigned int`. -/
def toUInt32 (x : Int) : Nat := (x % 4294967296).toNat

/-- Extraction `stream >> x` with `x` an `int` holding `old`: returns the
stream afterwards, the value of `x` afterwards, and whether the extraction
succeeded (the stream converts to `true`).

On a stream that has already failed nothing is read and `x` is unchanged.
Otherwise white space is skipped, an optional sign and all following decimal
digits are consumed; with no digit `x` becomes `0` and the stream fails, with a
value outside `int` `x` becomes `INT_MAX` / `INT_MIN` and the stream fails. -/
def IStream.readInt (s : IStream) (old : Int) : IStream × Int × Bool :=
  if s.fail then (s, old, false) else
    match skipWs s.buf with
    | [] => (⟨[], true⟩, old, false)
    | c :: rest =>
      let neg : Bool := c == '-'
      let body : List Char := if c == '-' || c == '+' then rest else c :: rest
      let ds := body.takeWhile isDigit
      let tl := body.dropWhile isDigit
      if ds = [] then (⟨tl, true⟩, 0, false)
      else
        let v : Int := if neg then -(digitsVal ds : Int) else (digitsVal ds : Int)
        if v < INT_MIN then (⟨tl, true⟩, INT_MIN, false)
        else if INT_MAX < v then (⟨tl, true⟩, INT_MAX, false)
        else (⟨tl, false⟩, v, true)

/-- Call `stream.ignore(256, ' ')`: discards characters up to and including
the first space, at most 256 characters that are not a space. Reaching the end
of the input only sets `eofbit`, which shows as an empty buffer. -/
def IStream.ignore256 (s : IStream) : IStream :=
  if s.fail then s else
    let skipped := (s.buf.take 256).takeWhile (fun c => c != ' ')
    match s.buf.drop skipped.length with
    | [] => ⟨[], false⟩
    | c :: rest => if c == ' ' then ⟨rest, false⟩ else ⟨c :: rest, false⟩

/-- The least magnitude that the conversion to `float` rounds to infinity:
`2^128 - 2^103`, halfway between `FLT_MAX` and `2^128`. -/
def floatOverflow : Nat := 2 ^ 128 - 2 ^ 103

/-- Whether the decimal with the digits `mant`, `frac_len` of them behind the
point, and the exponent `exp` (negative when `exp_neg`) is out of the range of
`float`: its magnitude `mant / 10^frac_len * 10^(+-exp)` is at least
`floatOverflow`. The comparison is done in natural numbers. -/
def exceedsFloat (mant frac_len : Nat) (exp_neg : Bool) (exp : Nat) : Bool :=
  if exp_neg then decide (floatOverflow * 10 ^ (frac_len + exp) ≤ mant)
  else decide (floatOverflow * 10 ^ frac_len ≤ mant * 10 ^ exp)

/-- Extraction `stream >> x` with `x` a `float`: returns the stream afterwards
and the value read, `none` when the extraction fails.

`num_get` accepts an optional sign, decimal digits with at most one decimal
point, and, after at least one mantissa digit, `e` or `E` with an optional sign
and decimal digits. The accepted text converts when the mantissa has a digit
and the exponent, if present, has a digit. When the conversion of the accepted
text yields an infinity (the text is out of the range of `float`), `x` becomes
`FLT_MAX` or `-FLT_MAX` and the stream fails. A value in range is taken
exactly: rounding to `float` is outside the embedding. -/
def IStream.readFloat {F : Type} [Field F] (s : IStream) : IStream × Option F :=
  if s.fail then (s, none) else
    match skipWs s.buf with
    | [] => (⟨[], true⟩, none)
    | c :: rest =>
      let neg : Bool := c == '-'
      let b0 : List Char := if c == '-' || c == '+' then rest else c :: rest
      let ip := b0.takeWhile isDigit
      let b1 := b0.dropWhile isDigit
      let hasDot : Bool := b1.head? == some '.'
      let fp : List Char := if hasDot then (b1.drop 1).takeWhile isDigit else []
      let b3 : List Char := if hasDot then (b1.drop 1).dropWhile isDigit else b1
      if ip = [] ∧ fp = [] then (⟨b3, true⟩, none)
      else
        let mant : F := (digitsVal (ip ++ fp) : F) / (10 : F) ^ fp.length
        let sgn : F := if neg then -1 else 1
        let hasExp : Bool := b3.head? == some 'e' || b3.head? == some 'E'
        if hasExp then
          let b4 := b3.drop 1
          let eneg : Bool := b4.head? == some '-'
          let b5 : List Char :=
            if b4.head? == some '-' || b4.head? == some '+' then b4.drop 1 else b4
          let ed := b5.takeWhile isDigit
          let b6 := b5.dropWhile isDigit
          if ed = [] then (⟨b6, true⟩, none)
          else if exceedsFloat (digitsVal (ip ++ fp)) fp.length eneg (digitsVal ed) then
            (⟨b6, true⟩, none)
          else if eneg then (⟨b6, false⟩, some (sgn * mant / (10 : F) ^ digitsVal ed))
          else (⟨b6, false⟩, some (sgn * mant * (10 : F) ^ digitsVal ed))
        else if exceedsFloat (digitsVal (ip ++ fp)) fp.length false 0 then (⟨b3, true⟩, none)
        else (⟨b3, false⟩, some (sgn * mant))

/-! ## Parser (`parser.cc`) -/

/-- The struct `ObjectData`: the flat vertex buffer (stride 3) and the doubled
edge-index buffer. -/
structure ObjectData (F : Type) where
  vertices : List F
  faces : List Nat

/-- The class `Parser`: its only member is `data_`. -/
structure Parser (F : Type) where
  data_ : ObjectData F

/-- What opening a path yields: the characters of the file, or `none` when
`source.is_open()` is false. -/
abbrev FileSystem := String → Option (List Char)

/-- The line feed character. -/
def newline : Char := Char.ofNat 10

/-- One evaluation of `std::getline(source >> std::ws, line)` on the unread
characters of the file: white space, line feeds included, is skipped; the call
fails (`none`) when the input ends there; otherwise `line` receives the
characters up to the next line feed, which is consumed. The result is `line`
and the characters left unread. -/
def getline (src : List Char) : Option (List Char × List Char) :=
  match skipWs src with
  | [] => none
  | c :: cs =>
    some ((c :: cs).takeWhile (fun d => d != newline),
      ((c :: cs).dropWhile (fun d => d != newline)).drop 1)

/-- The successive values of `line` in the loop
`while (std::getline(source >> std::ws, line))`. The first argument bounds the
number of iterations; every line read consumes a character. -/
def readLines : Nat → List Char → List (List Char)
  | 0, _ => []
  | fuel + 1, src =>
    match getline src with
    | none => []
    | some (line, rest) => line :: readLines fuel rest

/-- The lines both loops of the parser see. Each starts with a character that
is not white space. -/
def fileLines (content : List Char) : List (List Char) :=
  readLines (content.length + 1) content

/-- Function `Parser::ReserveSpace`: the pre-scan. It returns the two counts it
reserves for; `line.at(1)` throws `std::out_of_range` on a line that is the
single character `v`. -/
def ReserveSpace : List (List Char) → Nat × Nat → Except Error (Nat × Nat)
  | [], counts => Except.ok counts
  | line :: more, (vertex_count, face_count) =>
    if line.isEmpty || line.head? == some '#' then
      ReserveSpace more (vertex_count, face_count)
    else if line.head? == some 'v' then
      match line.drop 1 with
      | [] => Except.error ⟨ErrorKind.outOfRange,
          "basic_string::at: __n (which is 1) >= this->size() (which is 1)"⟩
      | c :: _ =>
        if c == ' ' then ReserveSpace more (vertex_count + 1, face_count)
        else ReserveSpace more (vertex_count, face_count)
    else if line.head? == some 'f' then
      ReserveSpace more (vertex_count, face_count + 1)
    else ReserveSpace more (vertex_count, face_count)

/-- The loop `while (stream >> vertex) data_.vertices.push_back(vertex);`. The
first argument bounds the number of iterations; every successful extraction
consumes a character, so the length of the line plus one is never reached. -/
def ParseVertexLoop {F : Type} [Field F] : Nat → IStream → List F → List F
  | 0, _, vertices => vertices
  | fuel + 1, s, vertices =>
    match (s.readFloat : IStream × Option F) with
    | (s1, some vertex) => ParseVertexLoop fuel s1 (vertices ++ [vertex])
    | (_, none) => vertices

/-- Function `Parser::ParseVertex`. -/
def Parser.ParseVertex {F : Type} [Field F] (p : Parser F) (line : List Char) : Parser F :=
  let stream := (IStream.ofLine line).readChar
  { data_ := { p.data_ with
      vertices := ParseVertexLoop (stream.buf.length + 1) stream p.data_.vertices } }

/-- The resolution of a face index read from the file: a negative value becomes
`(data_.vertices.size() / 3) + face + 1`, converted back to `int`. -/
def resolveFace (vertex_count : Nat) (face : Int) : Int :=
  if face < 0 then toInt32 ((vertex_count : Int) + face + 1) else face

/-- The loop `while (stream >> face) { ... }` of `Parser::ParseFaces`, with
`vertex_count = data_.vertices.size() / 3`. The first argument bounds the
number of iterations, as in `ParseVertexLoop`. -/
def ParseFacesLoop (vertex_count : Nat) : Nat → IStream → Int → List Nat → List Nat
  | 0, _, _, faces => faces
  | fuel + 1, s, old, faces =>
    match s.readInt old with
    | (s1, face, true) =>
      let face1 := resolveFace vertex_count face
      ParseFacesLoop vertex_count fuel s1.ignore256 face1
        (faces ++ [toUInt32 (face1 - 1), toUInt32 (face1 - 1)])
    | (_, _, false) => faces

/-- Function `Parser::ParseFaces`. -/
def Parser.ParseFaces {F : Type} (p : Parser F) (line : List Char) : Parser F :=
  let vertex_count := p.data_.vertices.length / 3
  let stream := (IStream.ofLine line).readChar
  let r := stream.readInt 0
  let first_face := resolveFace vertex_count r.2.1
  let faces1 := p.data_.faces ++ [toUInt32 (first_face - 1)]
  let stream2 := r.1.ignore256
  let faces2 := ParseFacesLoop vertex_count (stream2.buf.length + 1) stream2 0 faces1
  { data_ := { p.data_ with faces := faces2 ++ [toUInt32 (first_face - 1)] } }

/-- The body of the second loop of `Parser::ReadData`, for one line. -/
def Parser.readLine {F : Type} [Field F] (p : Parser F) (line : List Char) : Parser F :=
  if line.isEmpty || line.head? == some '#' then p
  else
    let p1 := if line.head? == some 'v' then p.ParseVertex line else p
    if line.head? == some 'f' then p1.ParseFaces line else p1

/-- Function `Parser::ReadData`: the parser afterwards and the exception thrown,
if any. -/
def Parser.ReadData {F : Type} [Field F] (p : Parser F) (fs : FileSystem) (path : String) :
    Parser F × Option Error :=
  match fs path with
  | some content =>
    match ReserveSpace (fileLines content) (0, 0) with
    | Except.error e => (p, some e)
    | Except.ok _ => ((fileLines content).foldl Parser.readLine p, none)
  | none => (p, some ⟨ErrorKind.logicError, "Can't open file"⟩)

/-- Function `Parser::ValidationData`: `none` when it returns, the exception
when it throws. -/
def Parser.ValidationData {F : Type} (p : Parser F) : Option Error :=
  if p.data_.faces.any (fun i => decide (p.data_.vertices.length / 3 ≤ i)) then
    some ⟨ErrorKind.logicError, "Index more then vertices size"⟩
  else none

/-- Function `Parser::LoadFile`: the parser afterwards and the exception that
leaves the function, if any. The members are moved into `last_faces` and
`last_vertices` and cleared; when `ReadData` or `ValidationData` throws, the
handler moves them back and executes `throw exception;`. -/
def Parser.LoadFile {F : Type} [Field F] (p : Parser F) (fs : FileSystem) (path : String) :
    Parser F × Option Error :=
  let last_faces := p.data_.faces
  let last_vertices := p.data_.vertices
  let cleared : Parser F := { data_ := { vertices := [], faces := [] } }
  match cleared.ReadData fs path with
  | (_, some e) =>
    ({ data_ := { vertices := last_vertices, faces := last_faces } }, some e.sliced)
  | (p1, none) =>
    match p1.ValidationData with
    | some e =>
      ({ data_ := { vertices := last_vertices, faces := last_faces } }, some e.sliced)
    | none => (p1, none)

/-- Function `Parser::GetData`. -/
def Parser.GetData {F : Type} (p : Parser F) : ObjectData F := p.data_

/-! ## Matrix (`s21_matrix_oop.cc`) -/

/-- The class `Matrix`: `rows_`, `cols_` and the rows of `matrix_`. -/
structure Matrix (F : Type) where
  rows_ : Nat
  cols_ : Nat
  matrix_ : List (List F)

/-- Constructor `Matrix::Matrix(int rows, int cols)`: a zero-filled grid, or
`std::invalid_argument` when a dimension is not positive. -/
def Matrix.create {F : Type} [Field F] (rows cols : Int) : Except Error (Matrix F) :=
  if rows ≤ 0 ∨ cols ≤ 0 then Except.error ⟨ErrorKind.invalidArgument, "ERROR"⟩
  else Except.ok ⟨rows.toNat, cols.toNat,
    List.replicate rows.toNat (List.replicate cols.toNat 0)⟩

/-- The unchecked read `matrix_[i][j]`. -/
def Matrix.get {F : Type} [Field F] (m : Matrix F) (i j : Nat) : F :=
  (m.matrix_.getD i []).getD j 0

/-- The unchecked write `matrix_[i][j] = v`. -/
def Matrix.set {F : Type} (m : Matrix F) (i j : Nat) (v : F) : Matrix F :=
  { m with matrix_ := m.matrix_.modify (fun row => row.set j v) i }

/-- Read through `Matrix::operator()(int i, int j)`: `std::out_of_range` when
an index is outside the dimensions. -/
def Matrix.at {F : Type} [Field F] (m : Matrix F) (i j : Int) : Except Error F :=
  if (m.rows_ : Int) ≤ i ∨ (m.cols_ : Int) ≤ j ∨ i < 0 ∨ j < 0 then
    Except.error ⟨ErrorKind.outOfRange, "ERROR"⟩
  else Except.ok (m.get i.toNat j.toNat)

/-- Write through the reference returned by `Matrix::operator()(int i, int j)`. -/
def Matrix.setAt {F : Type} (m : Matrix F) (i j : Int) (v : F) : Except Error (Matrix F) :=
  if (m.rows_ : Int) ≤ i ∨ (m.cols_ : Int) ≤ j ∨ i < 0 ∨ j < 0 then
    Except.error ⟨ErrorKind.outOfRange, "ERROR"⟩
  else Except.ok (m.set i.toNat j.toNat v)

/-- Function `Matrix::SumMatrix`: `std::range_error` when the dimensions
differ; otherwise `matrix_[i][j] += other.matrix_[i][j]` for every `i < rows_`
and `j < cols_`. -/
def Matrix.SumMatrix {F : Type} [Field F] (m other : Matrix F) : Except Error (Matrix F) :=
  if m.rows_ ≠ other.rows_ ∨ m.cols_ ≠ other.cols_ then
    Except.error ⟨ErrorKind.rangeError, "ERROR"⟩
  else Except.ok ((List.range m.rows_).foldl (fun acc i =>
    (List.range m.cols_).foldl (fun acc1 j =>
      acc1.set i j (acc1.get i j + other.get i j)) acc) m)

/-- Function `Matrix::SubMatrix`: as `SumMatrix`, with `-=`. -/
def Matrix.SubMatrix {F : Type} [Field F] (m other : Matrix F) : Except Error (Matrix F) :=
  if m.rows_ ≠ other.rows_ ∨ m.cols_ ≠ other.cols_ then
    Except.error ⟨ErrorKind.rangeError, "ERROR"⟩
  else Except.ok ((List.range m.rows_).foldl (fun acc i =>
    (List.range m.cols_).foldl (fun acc1 j =>
      acc1.set i j (acc1.get i j - other.get i j)) acc) m)

/-- Function `Matrix::MulMatrix`: `std::range_error` when the shapes do not
fit; then the local `Matrix result(rows_, other.cols_)` is constructed, which
throws `std::invalid_argument` when a dimension is not positive; otherwise the
receiver becomes the `rows_ x other.cols_` grid in which entry `(i, j)` has
accumulated `this[i][k] * other[k][j]` for `k = 0, 1, ...` in that order,
starting from zero. -/
def Matrix.MulMatrix {F : Type} [Field F] (m other : Matrix F) : Except Error (Matrix F) :=
  if m.cols_ ≠ other.rows_ then Except.error ⟨ErrorKind.rangeError, "ERROR"⟩
  else
    match (Matrix.create (m.rows_ : Int) (other.cols_ : Int) : Except Error (Matrix F)) with
    | Except.error e => Except.error e
    | Except.ok _ => Except.ok ⟨m.rows_, other.cols_,
        (List.range m.rows_).map fun i =>
          (List.range other.cols_).map fun j =>
            (List.range m.cols_).foldl (fun acc k => acc + m.get i k * other.get k j) 0⟩

/-- The operator `Matrix::operator+`: `SumMatrix` on a copy of the receiver. -/
def Matrix.operatorPlus {F : Type} [Field F] (m other : Matrix F) : Except Error (Matrix F) :=
  m.SumMatrix other

/-- The operator `Matrix::operator-`: `SubMatrix` on a copy of the receiver. -/
def Matrix.operatorMinus {F : Type} [Field F] (m other : Matrix F) : Except Error (Matrix F) :=
  m.SubMatrix other

/-- The operator `Matrix::operator*(const Matrix &)`: `MulMatrix` on a copy of
the receiver. -/
def Matrix.operatorTimes {F : Type} [Field F] (m other : Matrix F) : Except Error (Matrix F) :=
  m.MulMatrix other

/-- The object a member function leaves behind. The member functions of this
development are values `r : Except Error σ` computed from the state `old` of
the receiver; those this is applied to throw their typed exceptions before
the first write to the receiver, so after an exception the receiver is as it
was, and after a return it is the state returned. -/
def afterCall {σ : Type} (old : σ) (r : Except Error σ) : σ :=
  match r with
  | Except.ok s => s
  | Except.error _ => old

/-! ## Transform matrices (`factory.h`, `factory.cc`) -/

/-- The struct `Delta`. -/
structure Delta (F : Type) where
  x : F
  y : F
  z : F

/-- The struct `TransformParametrs`. -/
structure TransformParametrs (F : Type) where
  scale : Delta F
  move : Delta F
  rotation : Delta F

/-- The functions `cos` and `sin` of the C library. -/
structure Trig (F : Type) where
  cos : F → F
  sin : F → F

/-- Function `TransformMatrix::SetIdentityMatrix`: writes the four diagonal
entries only. -/
def SetIdentityMatrix {F : Type} [Field F] (m : Matrix F) : Matrix F :=
  (((m.set 0 0 1).set 1 1 1).set 2 2 1).set 3 3 1

/-- Constructor `TransformMatrix::TransformMatrix()`: `Matrix(4, 4)` followed
by `SetIdentityMatrix`. Every variant inherits it. -/
def TransformMatrix.fresh {F : Type} [Field F] : Matrix F :=
  SetIdentityMatrix ⟨4, 4, List.replicate 4 (List.replicate 4 0)⟩

/-- Function `TransformMatrix::IsDelta`: conversion of the three floats to
`bool`. -/
def IsDelta {F : Type} [Field F] [DecidableEq F] (delta : Delta F) : Bool :=
  decide (delta.x ≠ 0) || decide (delta.y ≠ 0) || decide (delta.z ≠ 0)

/-- Function `MoveTransformMatrix::SetTransformMatrix`. -/
def MoveTransformMatrix.SetTransformMatrix {F : Type} [Field F]
    (m : Matrix F) (delta : TransformParametrs F) : Matrix F :=
  ((((((m.set 0 0 1).set 1 1 1).set 2 2 1).set 3 3 1).set 3 0 delta.move.x).set
    3 1 delta.move.y).set 3 2 delta.move.z

/-- Function `ScaleTransformMatrix::SetTransformMatrix`. -/
def ScaleTransformMatrix.SetTransformMatrix {F : Type} [Field F]
    (m : Matrix F) (delta : TransformParametrs F) : Matrix F :=
  (((m.set 0 0 delta.scale.x).set 1 1 delta.scale.y).set 2 2 delta.scale.z).set 3 3 1

/-- Function `RotationXTransformMatrix::SetTransformMatrix`. -/
def RotationXTransformMatrix.SetTransformMatrix {F : Type} [Field F] (T : Trig F)
    (m : Matrix F) (delta : TransformParametrs F) : Matrix F :=
  (((m.set 1 1 (T.cos delta.rotation.x)).set 2 2 (T.cos delta.rotation.x)).set
    2 1 (-T.sin delta.rotation.x)).set 1 2 (T.sin delta.rotation.x)

/-- Function `RotationYTransformMatrix::SetTransformMatrix`. -/
def RotationYTransformMatrix.SetTransformMatrix {F : Type} [Field F] (T : Trig F)
    (m : Matrix F) (delta : TransformParametrs F) : Matrix F :=
  (((m.set 0 0 (T.cos delta.rotation.y)).set 2 2 (T.cos delta.rotation.y)).set
    0 2 (-T.sin delta.rotation.y)).set 2 0 (T.sin delta.rotation.y)

/-- Function `RotationZTransformMatrix::SetTransformMatrix`. -/
def RotationZTransformMatrix.SetTransformMatrix {F : Type} [Field F] (T : Trig F)
    (m : Matrix F) (delta : TransformParametrs F) : Matrix F :=
  (((m.set 0 0 (T.cos delta.rotation.z)).set 1 1 (T.cos delta.rotation.z)).set
    0 1 (T.sin delta.rotation.z)).set 1 0 (-T.sin delta.rotation.z)

/-- Function `RotationTransformMatrix::SetTransformMatrix`: the receiver is
multiplied on the right by a fresh X, then Y, then Z rotation matrix. -/
def RotationTransformMatrix.SetTransformMatrix {F : Type} [Field F] (T : Trig F)
    (m : Matrix F) (delta : TransformParametrs F) : Except Error (Matrix F) := do
  let x_matrix := RotationXTransformMatrix.SetTransformMatrix T TransformMatrix.fresh delta
  let m1 ← m.MulMatrix x_matrix
  let y_matrix := RotationYTransformMatrix.SetTransformMatrix T TransformMatrix.fresh delta
  let m2 ← m1.MulMatrix y_matrix
  let z_matrix := RotationZTransformMatrix.SetTransformMatrix T TransformMatrix.fresh delta
  m2.MulMatrix z_matrix

/-- Function `GeneralTransformMatrix::SetTransformMatrix`: the receiver is
multiplied on the right by a fresh scale, rotation and move matrix, each only
when `IsDelta` holds of its part of `delta`. -/
def GeneralTransformMatrix.SetTransformMatrix {F : Type} [Field F] [DecidableEq F]
    (T : Trig F) (m : Matrix F) (delta : TransformParametrs F) : Except Error (Matrix F) := do
  let m1 ←
    if IsDelta delta.scale then
      m.MulMatrix (ScaleTransformMatrix.SetTransformMatrix TransformMatrix.fresh delta)
    else pure m
  let m2 ←
    if IsDelta delta.rotation then do
      let r_matrix ← RotationTransformMatrix.SetTransformMatrix T TransformMatrix.fresh delta
      m1.MulMatrix r_matrix
    else pure m1
  if IsDelta delta.move then
    m2.MulMatrix (MoveTransformMatrix.SetTransformMatrix TransformMatrix.fresh delta)
  else pure m2

/-- Function `TransformMatrix::IsIdentityMatrix`: exact comparison of the
sixteen entries with the identity pattern. -/
def IsIdentityMatrix {F : Type} [Field F] [DecidableEq F] (m : Matrix F) : Bool :=
  (List.range 4).all fun i =>
    (List.range 4).all fun j =>
      (decide (i = j) && decide (m.get i j = 1)) || (decide (i ≠ j) && decide (m.get i j = 0))

/-! ## AffineTransform (`affinetransform.cc`) -/

/-- The class `AffineTransform`. The member `vertices_` is a non-owning
pointer: `none` is `nullptr`, `some a` is the address `a` of a vertex buffer.
The functions below that dereference it take the contents of the buffer it
points to as the argument `buf` and return the new contents. -/
structure AffineTransform (F : Type) where
  transform_matrix_ : Matrix F
  vertices_ : Option Nat
  translation_ : Delta F

/-- The loops `for i < 4, for j < 4: transform_matrix_(i, j) = (*g_matrix)(i, j)`,
both sides through the checked `operator()`. -/
def copyEntries {F : Type} [Field F] (dst src : Matrix F) : Except Error (Matrix F) :=
  (List.range 4).foldlM (fun d i =>
    (List.range 4).foldlM (fun d1 j => do
      let v ← src.at i j
      d1.setAt i j v) d) dst

/-- Constructor `AffineTransform::AffineTransform()`. -/
def AffineTransform.create {F : Type} [Field F] [DecidableEq F] (T : Trig F) :
    Except Error (AffineTransform F) := do
  let delta : TransformParametrs F := ⟨⟨0, 0, 0⟩, ⟨0, 0, 0⟩, ⟨0, 0, 0⟩⟩
  let g_matrix ← GeneralTransformMatrix.SetTransformMatrix T TransformMatrix.fresh delta
  let tm ← copyEntries TransformMatrix.fresh g_matrix
  pure ⟨tm, none, ⟨0, 0, 0⟩⟩

/-- Function `AffineTransform::AddVertices(vertices)`: `vertices` is the
pointer passed and `contents` the vector it points to. -/
def AffineTransform.AddVertices {F : Type} (a : AffineTransform F)
    (vertices : Option Nat) (contents : List F) : Except Error (AffineTransform F) :=
  if vertices = none ∨ contents.isEmpty ∨ contents.length % 3 ≠ 0 then
    Except.error ⟨ErrorKind.invalidArgument, "Invalid input parameters!\n"⟩
  else if a.vertices_ = none then Except.ok { a with vertices_ := vertices }
  else Except.ok a

/-- Function `AffineTransform::SetTranslation`. -/
def AffineTransform.SetTranslation {F : Type} [Field F] (a : AffineTransform F)
    (delta : Delta F) : AffineTransform F :=
  { a with translation_ :=
      ⟨a.translation_.x + delta.x, a.translation_.y + delta.y, a.translation_.z + delta.z⟩ }

/-- Function `AffineTransform::IsTranslation`. -/
def AffineTransform.IsTranslation {F : Type} [Field F] [DecidableEq F]
    (a : AffineTransform F) : Bool :=
  decide (a.translation_.x ≠ 0) || decide (a.translation_.y ≠ 0) ||
    decide (a.translation_.z ≠ 0)

/-- The body of the loop of `PrivateTransformVertices` for one vertex: the row
`[x y z 1]` is built in a `Matrix(1, 4)`, multiplied by `transform_matrix_`, and
its first three entries are read back. -/
def transformVertex {F : Type} [Field F] (tm : Matrix F) (x y z : F) :
    Except Error (F × F × F) := do
  let m0 ← Matrix.create 1 4
  let m1 ← m0.setAt 0 0 x
  let m2 ← m1.setAt 0 1 y
  let m3 ← m2.setAt 0 2 z
  let m4 ← m3.setAt 0 3 1
  let m_vert ← m4.MulMatrix tm
  let rx ← m_vert.at 0 0
  let ry ← m_vert.at 0 1
  let rz ← m_vert.at 0 2
  pure (rx, ry, rz)

/-- The iterations of `for (i = 0; i < size || i < 1; i += 3)` from an index
`i >= 3` on, or from `i = 0` on a non-empty buffer; the argument is the part
of the buffer from `i` on. The test is then `i < size`, and the body reads
and writes `i`, `i + 1` and `i + 2` unchecked. -/
def transformLoopFrom {F : Type} [Field F] (tm : Matrix F) : List F → Except Error (List F)
  | [] => pure []
  | x :: y :: z :: rest => do
    let r ← transformVertex tm x y z
    let rest1 ← transformLoopFrom tm rest
    pure (r.1 :: r.2.1 :: r.2.2 :: rest1)
  | _ => Except.error Error.ub

/-- The loop `for (i = 0; i < size || i < 1; i += 3)` of
`PrivateTransformVertices`: the clause `i < 1` runs the body at `i = 0` even on
an empty buffer. -/
def transformLoop {F : Type} [Field F] (tm : Matrix F) (buf : List F) :
    Except Error (List F) :=
  match buf with
  | [] => Except.error Error.ub
  | _ => transformLoopFrom tm buf

/-- Function `AffineTransform::PrivateTransformVertices`. -/
def AffineTransform.PrivateTransformVertices {F : Type} [Field F] [DecidableEq F]
    (T : Trig F) (a : AffineTransform F) (buf : List F) (delta : TransformParametrs F) :
    Except Error (AffineTransform F × List F) := do
  let g_matrix ← GeneralTransformMatrix.SetTransformMatrix T TransformMatrix.fresh delta
  let tm ← copyEntries a.transform_matrix_ g_matrix
  let a1 : AffineTransform F := { a with transform_matrix_ := tm }
  if !IsIdentityMatrix tm then do
    let buf1 ← transformLoop tm buf
    pure (a1, buf1)
  else pure (a1, buf)

/-- Function `AffineTransform::TranslateInLocal`. -/
def AffineTransform.TranslateInLocal {F : Type} [Field F] [DecidableEq F]
    (T : Trig F) (a : AffineTransform F) (buf : List F) :
    Except Error (AffineTransform F × List F) :=
  if a.IsTranslation then
    a.PrivateTransformVertices T buf
      ⟨⟨0, 0, 0⟩, ⟨-a.translation_.x, -a.translation_.y, -a.translation_.z⟩, ⟨0, 0, 0⟩⟩
  else pure (a, buf)

/-- Function `AffineTransform::TranslateInGlobal`. -/
def AffineTransform.TranslateInGlobal {F : Type} [Field F] [DecidableEq F]
    (T : Trig F) (a : AffineTransform F) (buf : List F) :
    Except Error (AffineTransform F × List F) :=
  if a.IsTranslation then
    a.PrivateTransformVertices T buf
      ⟨⟨0, 0, 0⟩, ⟨a.translation_.x, a.translation_.y, a.translation_.z⟩, ⟨0, 0, 0⟩⟩
  else pure (a, buf)

/-- Function `AffineTransform::TransformVertices`. -/
def AffineTransform.TransformVertices {F : Type} [Field F] [DecidableEq F]
    (T : Trig F) (a : AffineTransform F) (buf : List F) (delta : TransformParametrs F) :
    Except Error (AffineTransform F × List F) :=
  if a.vertices_ = none then
    Except.error ⟨ErrorKind.invalidArgument, "Add vertices!\n"⟩
  else do
    let r1 ← a.TranslateInLocal T buf
    let r2 ← r1.1.PrivateTransformVertices T r1.2 delta
    let r3 ← r2.1.TranslateInGlobal T r2.2
    pure (r3.1.SetTranslation delta.move, r3.2)

/-! ## Model (`model.cc`) -/

/-- The class `Model`. The pointer held by `affine_transform_`, once set, is
`&object_data_.vertices`, the address `Model.verticesAddr`. -/
structure Model (F : Type) where
  parser_ : Parser F
  affine_transform_ : AffineTransform F
  object_data_ : ObjectData F
  current_state_ : TransformParametrs F

/-- The address of the member `object_data_.vertices`. -/
def Model.verticesAddr : Nat := 0

/-- Constructor `Model::Model()`; the initial `current_state_` is not set by
the constructor and is taken as an argument. -/
def Model.create {F : Type} [Field F] [DecidableEq F] (T : Trig F)
    (current_state : TransformParametrs F) : Except Error (Model F) := do
  let a ← AffineTransform.create T
  pure ⟨⟨⟨[], []⟩⟩, a, ⟨[], []⟩, current_state⟩

/-- Function `Model::GetVertices`. -/
def Model.GetVertices {F : Type} (m : Model F) : List F := m.object_data_.vertices

/-- Function `Model::GetFaces`. -/
def Model.GetFaces {F : Type} (m : Model F) : List Nat := m.object_data_.faces

/-- Value of `std::numeric_limits<float>::max()`. -/
def fltMax {F : Type} [Field F] : F := 340282346638528859811704183484516925440

/-- The six outputs of `CalculateBoundingBox`. -/
structure BoundingBox (F : Type) where
  min_x : F
  min_y : F
  min_z : F
  max_x : F
  max_y : F
  max_z : F

/-- The loop `for (i = 0; i < size; i += 3)` of `CalculateBoundingBox`; the
argument is the part of the buffer from `i` on. -/
def boundingBoxLoop {F : Type} [LinearOrderedField F] :
    List F → BoundingBox F → Except Error (BoundingBox F)
  | [], b => pure b
  | x :: y :: z :: rest, b =>
    boundingBoxLoop rest
      ⟨min b.min_x x, min b.min_y y, min b.min_z z, max b.max_x x, max b.max_y y, max b.max_z z⟩
  | _, _ => Except.error Error.ub

/-- Function `Model::CalculateBoundingBox`. -/
def Model.CalculateBoundingBox {F : Type} [LinearOrderedField F] (m : Model F) :
    Except Error (BoundingBox F) :=
  if m.object_data_.vertices.isEmpty then
    Except.error ⟨ErrorKind.invalidArgument, "Vertices array is empty!"⟩
  else
    boundingBoxLoop m.object_data_.vertices
      ⟨fltMax, fltMax, fltMax, -fltMax, -fltMax, -fltMax⟩

/-- The loop `for (i = 0; i < size; i += 3)` of `ResetTransform`. -/
def normalizeLoop {F : Type} [Field F] (center_x center_y center_z max_size : F) :
    List F → Except Error (List F)
  | [] => pure []
  | x :: y :: z :: rest => do
    let rest1 ← normalizeLoop center_x center_y center_z max_size rest
    pure ((x - center_x) / max_size :: (y - center_y) / max_size ::
      (z - center_z) / max_size :: rest1)
  | _ => Except.error Error.ub

/-- Function `Model::ResetTransform`. -/
def Model.ResetTransform {F : Type} [LinearOrderedField F] (m : Model F) :
    Except Error (Model F) :=
  if m.object_data_.vertices.isEmpty then
    Except.error ⟨ErrorKind.invalidArgument, "Vertices array is empty!"⟩
  else do
    let b ← m.CalculateBoundingBox
    let center_x := b.min_x + (b.max_x - b.min_x) / 2
    let center_y := b.min_y + (b.max_y - b.min_y) / 2
    let center_z := b.min_z + (b.max_z - b.min_z) / 2
    let size_x := b.max_x - b.min_x
    let size_y := b.max_y - b.min_y
    let size_z := b.max_z - b.min_z
    let max_size0 := max (max size_x size_y) size_z
    let max_size := if max_size0 = 0 then 1 else max_size0
    let vs ← normalizeLoop center_x center_y center_z max_size m.object_data_.vertices
    pure { m with
      object_data_ := { m.object_data_ with vertices := vs }
      current_state_ := ⟨⟨1, 1, 1⟩, ⟨0, 0, 0⟩, ⟨0, 0, 0⟩⟩ }

/-- Function `Model::Transform`: the buffer `affine_transform_` points to is
`object_data_.vertices`. -/
def Model.Transform {F : Type} [LinearOrderedField F] (T : Trig F) (m : Model F)
    (delta : TransformParametrs F) : Except Error (Model F) := do
  let r ← m.affine_transform_.TransformVertices T m.object_data_.vertices delta
  pure { m with
    affine_transform_ := r.1
    object_data_ := { m.object_data_ with vertices := r.2 } }

/-- The handler `catch (const std::exception &e)` of `Model::LoadFile`, entered
in state `m`: a typed exception becomes the return value `{false, e.what()}`;
an out-of-bounds access is not an exception and is not handled. -/
def Model.catchException {F : Type} (m : Model F) (e : Error) :
    Except Error (Model F × Bool × String) :=
  if e.isException then Except.ok (m, false, e.what) else Except.error e

/-- Function `Model::LoadFile`: the model afterwards and the pair returned. -/
def Model.LoadFile {F : Type} [LinearOrderedField F] (m : Model F)
    (fs : FileSystem) (path : String) : Except Error (Model F × Bool × String) :=
  match m.parser_.LoadFile fs path with
  | (p1, some e) => Model.catchException { m with parser_ := p1 } e
  | (p1, none) =>
    let m1 : Model F := { m with parser_ := p1, object_data_ := p1.GetData }
    match m1.affine_transform_.AddVertices (some Model.verticesAddr) m1.object_data_.vertices with
    | Except.error e => Model.catchException m1 e
    | Except.ok a =>
      let m2 : Model F := { m1 with affine_transform_ := a }
      match m2.ResetTransform with
      | Except.error e => Model.catchException m2 e
      | Except.ok m3 => Except.ok (m3, true, "")


/-! ## Matrix: comparison, resizing, determinant, inverse (`s21_matrix_oop.cc`) -/

/-- The literal `1e-7`. -/
def eps7 {F : Type} [Field F] : F := 1 / 10000000

/-- The literal `1e-6`. -/
def eps6 {F : Type} [Field F] : F := 1 / 1000000

/-- Function `Matrix::EqMatrix`, with its flag `flag_eq` and both loop
conditions `... && flag_eq == 0`. -/
def Matrix.EqMatrix {F : Type} [LinearOrderedField F] (m other : Matrix F) : Bool :=
  if m.rows_ = other.rows_ ∧ m.cols_ = other.cols_ then
    let flag_eq : Nat := (List.range m.rows_).foldl (fun flag i =>
      if flag = 0 then
        (List.range m.cols_).foldl (fun flag1 j =>
          if flag1 = 0 then
            if |m.get i j - other.get i j| ≥ eps7 then 1 else flag1
          else flag1) flag
      else flag) 0
    if flag_eq = 1 then false else true
  else false

/-- The operator `Matrix::operator==`. -/
def Matrix.operatorEq {F : Type} [LinearOrderedField F] (m other : Matrix F) : Bool :=
  m.EqMatrix other

/-- Function `Matrix::Transpose`: the constructor of `result` throws when a
dimension is not positive. -/
def Matrix.Transpose {F : Type} [Field F] (m : Matrix F) : Except Error (Matrix F) :=
  match (Matrix.create (m.cols_ : Int) (m.rows_ : Int) : Except Error (Matrix F)) with
  | Except.error e => Except.error e
  | Except.ok _ => Except.ok ⟨m.cols_, m.rows_,
      (List.range m.cols_).map fun i => (List.range m.rows_).map fun j => m.get j i⟩

/-- Function `Matrix::MulNumber`: every cell is multiplied by `number`. -/
def Matrix.MulNumber {F : Type} [Field F] (m : Matrix F) (number : F) : Matrix F :=
  { m with matrix_ := m.matrix_.map fun row => row.map fun x => x * number }

/-- Function `Matrix::SetRows`. Shrinking deletes the rows from `rows` on and
keeps the others; growing copies the old cells into a zero-filled
`Matrix TMP(rows, cols_)`, whose constructor can throw. -/
def Matrix.SetRows {F : Type} [Field F] (m : Matrix F) (rows : Int) :
    Except Error (Matrix F) :=
  if rows ≤ 0 then Except.error ⟨ErrorKind.invalidArgument, "ERROR"⟩
  else if rows < (m.rows_ : Int) then
    Except.ok { m with rows_ := rows.toNat, matrix_ := m.matrix_.take rows.toNat }
  else if rows > (m.rows_ : Int) then
    match (Matrix.create rows (m.cols_ : Int) : Except Error (Matrix F)) with
    | Except.error e => Except.error e
    | Except.ok _ => Except.ok ⟨rows.toNat, m.cols_,
        (List.range rows.toNat).map fun i =>
          (List.range m.cols_).map fun j => if i < m.rows_ then m.get i j else 0⟩
  else Except.ok m

/-- Function `Matrix::SetCols`. The copy loop runs `j` up to the new `cols`
and reads `this->matrix_[i][j]` unchecked: for `j >= cols_` that is a read
outside the row. -/
def Matrix.SetCols {F : Type} [Field F] (m : Matrix F) (cols : Int) :
    Except Error (Matrix F) :=
  if cols ≤ 0 then Except.error ⟨ErrorKind.invalidArgument, "ERROR"⟩
  else if cols ≠ (m.cols_ : Int) then
    match (Matrix.create (m.rows_ : Int) cols : Except Error (Matrix F)) with
    | Except.error e => Except.error e
    | Except.ok _ => do
      let cells ← (List.range m.rows_).mapM fun i =>
        (List.range cols.toNat).mapM fun j =>
          if j < m.cols_ then Except.ok (m.get i j) else Except.error Error.ub
      pure ⟨m.rows_, cols.toNat, cells⟩
  else Except.ok m

/-! ## Determinant and inverse (`s21_matrix_oop.cc`)

`Determinant` tests its result for NaN (`result != result`), so its local
values are modelled as `double`s that can be finite, infinite or NaN. -/

/-- A value of type `double` inside `Determinant`: a finite value (exact),
an infinity with its sign, or NaN. A zero has no sign. -/
inductive Dbl (F : Type)
  | fin (x : F)
  | inf (negative : Bool)
  | nan
  deriving DecidableEq

/-- Subtraction of `double`s. -/
def Dbl.sub {F : Type} [LinearOrderedField F] : Dbl F → Dbl F → Dbl F
  | Dbl.fin x, Dbl.fin y => Dbl.fin (x - y)
  | Dbl.fin _, Dbl.inf s => Dbl.inf (!s)
  | Dbl.inf s, Dbl.fin _ => Dbl.inf s
  | Dbl.inf s, Dbl.inf t => if s = t then Dbl.nan else Dbl.inf s
  | Dbl.nan, _ => Dbl.nan
  | _, Dbl.nan => Dbl.nan

/-- Multiplication of `double`s. -/
def Dbl.mul {F : Type} [LinearOrderedField F] : Dbl F → Dbl F → Dbl F
  | Dbl.fin x, Dbl.fin y => Dbl.fin (x * y)
  | Dbl.fin x, Dbl.inf s => if x = 0 then Dbl.nan else Dbl.inf (xor s (decide (x < 0)))
  | Dbl.inf s, Dbl.fin y => if y = 0 then Dbl.nan else Dbl.inf (xor s (decide (y < 0)))
  | Dbl.inf s, Dbl.inf t => Dbl.inf (xor s t)
  | Dbl.nan, _ => Dbl.nan
  | _, Dbl.nan => Dbl.nan

/-- Division of `double`s: `0 / 0` is NaN and `x / 0` is an infinity. -/
def Dbl.div {F : Type} [LinearOrderedField F] : Dbl F → Dbl F → Dbl F
  | Dbl.fin x, Dbl.fin y =>
    if y = 0 then (if x = 0 then Dbl.nan else Dbl.inf (decide (x < 0))) else Dbl.fin (x / y)
  | Dbl.fin _, Dbl.inf _ => Dbl.fin 0
  | Dbl.inf s, Dbl.fin y => Dbl.inf (xor s (decide (y < 0)))
  | Dbl.inf _, Dbl.inf _ => Dbl.nan
  | Dbl.nan, _ => Dbl.nan
  | _, Dbl.nan => Dbl.nan

/-- The function `fabs` of the C library. -/
def Dbl.fabs {F : Type} [LinearOrderedField F] : Dbl F → Dbl F
  | Dbl.fin x => Dbl.fin |x|
  | Dbl.inf _ => Dbl.inf false
  | Dbl.nan => Dbl.nan

/-- The comparison `a > b` of `double`s: false when either is NaN. -/
def Dbl.gt {F : Type} [LinearOrderedField F] : Dbl F → Dbl F → Bool
  | Dbl.fin x, Dbl.fin y => decide (y < x)
  | Dbl.fin _, Dbl.inf t => t
  | Dbl.inf s, Dbl.fin _ => !s
  | Dbl.inf s, Dbl.inf t => !s && t
  | Dbl.nan, _ => false
  | _, Dbl.nan => false

/-- The comparison `a < b` of `double`s. -/
def Dbl.lt {F : Type} [LinearOrderedField F] (a b : Dbl F) : Bool := Dbl.gt b a

/-- The comparison `a >= b` of `double`s: false when either is NaN. -/
def Dbl.ge {F : Type} [LinearOrderedField F] : Dbl F → Dbl F → Bool
  | Dbl.fin x, Dbl.fin y => decide (y ≤ x)
  | Dbl.fin _, Dbl.inf t => t
  | Dbl.inf s, Dbl.fin _ => !s
  | Dbl.inf s, Dbl.inf t => !s || t
  | Dbl.nan, _ => false
  | _, Dbl.nan => false

/-- The comparison `a != b` of `double`s: true when either is NaN. -/
def Dbl.ne {F : Type} [LinearOrderedField F] : Dbl F → Dbl F → Bool
  | Dbl.fin x, Dbl.fin y => decide (x ≠ y)
  | Dbl.inf s, Dbl.inf t => decide (s ≠ t)
  | Dbl.fin _, Dbl.inf _ => true
  | Dbl.inf _, Dbl.fin _ => true
  | Dbl.nan, _ => true
  | _, Dbl.nan => true

/-- The comparison `a == b` of `double`s: false when either is NaN. -/
def Dbl.eq {F : Type} [LinearOrderedField F] (a b : Dbl F) : Bool := !Dbl.ne a b

/-- A `double` stored into a cell of a `Matrix`, whose cells are finite values
in this development. The functions that store the result of `Determinant` are
shown to receive a finite value. -/
def Dbl.toField {F : Type} [LinearOrderedField F] : Dbl F → F
  | Dbl.fin x => x
  | _ => 0

/-- The cells of the local `Matrix TMP` of `Determinant`, by row and column.
Only the cells inside `rows_ x cols_` exist; `Determinant` touches no other. -/
abbrev Grid (F : Type) := Nat → Nat → Dbl F

/-- The write `matrix_[i][j] = v`. -/
def Grid.set {F : Type} (g : Grid F) (i j : Nat) (v : Dbl F) : Grid F :=
  fun a b => if a = i ∧ b = j then v else g a b

/-- The exchange of the row pointers `matrix_[k]` and `matrix_[raw_i]`. -/
def Grid.swapRows {F : Type} (g : Grid F) (k raw_i : Nat) : Grid F :=
  fun a => if a = k then g raw_i else if a = raw_i then g k else g a

/-- Function `Matrix::RawRearrange(k, &sign)` on the cells of `TMP`: the scan
`for (i = k; i < rows_; i++)` with its state `(max_val, raw_i)`, then the
exchange of rows and the flip of `sign` when `max_val` has changed. -/
def RawRearrange {F : Type} [LinearOrderedField F] (rows : Nat) (g : Grid F) (k : Nat)
    (sign : F) : Grid F × F :=
  let scan := (List.range (rows - k)).foldl (fun (s : Dbl F × Nat) d =>
    if Dbl.gt (Dbl.fabs (g (k + d) k)) (Dbl.fabs s.1) then (Dbl.fabs (g (k + d) k), k + d)
    else s) (Dbl.fabs (g k k), k)
  if Dbl.ne scan.1 (Dbl.fabs (g k k)) then
    (g.swapRows k scan.2, if sign = 1 then -1 else 1)
  else (g, sign)

/-- The body of the loop over `i` in `Determinant`: the quotient `tmp`, then
the loop over `j`. -/
def eliminateRow {F : Type} [LinearOrderedField F] (cols k i : Nat) (g : Grid F) : Grid F :=
  let tmp := Dbl.div (g i k) (g k k)
  (List.range cols).foldl (fun acc j =>
    if k < i ∧ k ≤ j then acc.set i j (Dbl.sub (acc i j) (Dbl.mul tmp (acc k j))) else acc) g

/-- The loop over `i` in `Determinant` for one `k`. -/
def eliminateColumn {F : Type} [LinearOrderedField F] (rows cols k : Nat) (g : Grid F) :
    Grid F :=
  (List.range rows).foldl (fun acc i => eliminateRow cols k i acc) g

/-- The loop `for (k = 0; k < cols_ - 1; k++)` of `Determinant` on the cells
of `TMP` and `sign`. -/
def eliminate {F : Type} [LinearOrderedField F] (rows cols : Nat) (steps : Nat)
    (s : Grid F × F) : Grid F × F :=
  (List.range steps).foldl (fun s k =>
    let r := RawRearrange rows s.1 k s.2
    (eliminateColumn rows cols k r.1, r.2)) s

/-- Function `Matrix::Determinant`. The result is the `double` returned. -/
def Matrix.Determinant {F : Type} [LinearOrderedField F] (m : Matrix F) :
    Except Error (Dbl F) :=
  if m.cols_ ≠ m.rows_ then Except.error ⟨ErrorKind.rangeError, "ERROR"⟩
  else
    match (Matrix.create (m.rows_ : Int) (m.cols_ : Int) : Except Error (Matrix F)) with
    | Except.error e => Except.error e
    | Except.ok _ =>
      let s := eliminate m.rows_ m.cols_ (m.cols_ - 1) (fun i j => Dbl.fin (m.get i j), 1)
      let result := (List.range m.cols_).foldl (fun r i => Dbl.mul r (s.1 i i)) (Dbl.fin 1)
      let result := if Dbl.ne result result then Dbl.fin 0 else Dbl.mul result (Dbl.fin s.2)
      let result := if Dbl.lt (Dbl.fabs result) (Dbl.fin eps6) then Dbl.fin 0 else result
      Except.ok result

/-- Function `Matrix::CreateMinor(row_i, column_j)`. -/
def Matrix.CreateMinor {F : Type} [Field F] (m : Matrix F) (row_i column_j : Nat) :
    Except Error (Matrix F) :=
  match (Matrix.create ((m.rows_ : Int) - 1) ((m.cols_ : Int) - 1) :
      Except Error (Matrix F)) with
  | Except.error e => Except.error e
  | Except.ok _ => Except.ok ⟨m.rows_ - 1, m.cols_ - 1,
      (List.range (m.rows_ - 1)).map fun i =>
        (List.range (m.cols_ - 1)).map fun j =>
          if i < row_i ∧ j < column_j then m.get i j
          else if row_i ≤ i ∧ j < column_j then m.get (i + 1) j
          else if i < row_i ∧ column_j ≤ j then m.get i (j + 1)
          else if row_i ≤ i ∧ column_j ≤ j then m.get (i + 1) (j + 1)
          else 0⟩

/-- Function `Matrix::CalcComplements`. The two local matrices are constructed
before the loops, and each constructor throws on a dimension that is not
positive. -/
def Matrix.CalcComplements {F : Type} [LinearOrderedField F] (m : Matrix F) :
    Except Error (Matrix F) :=
  if m.cols_ ≠ m.rows_ then Except.error ⟨ErrorKind.rangeError, "ERROR"⟩
  else do
    let _ ← (Matrix.create ((m.rows_ : Int) - 1) ((m.cols_ : Int) - 1) :
      Except Error (Matrix F))
    let _ ← (Matrix.create (m.rows_ : Int) (m.cols_ : Int) : Except Error (Matrix F))
    let cells ← (List.range m.rows_).mapM fun i =>
      (List.range m.cols_).mapM fun j => do
        let minor ← m.CreateMinor i j
        let d ← minor.Determinant
        pure (Dbl.mul d (Dbl.fin ((-1) ^ (i + j)))).toField
    pure ⟨m.rows_, m.cols_, cells⟩

/-- Function `Matrix::InverseMatrix`. -/
def Matrix.InverseMatrix {F : Type} [LinearOrderedField F] (m : Matrix F) :
    Except Error (Matrix F) := do
  let determinant ← m.Determinant
  if Dbl.eq determinant (Dbl.fin 0) then
    Except.error ⟨ErrorKind.invalidArgument, "ERROR"⟩
  else do
    let result ← (Matrix.create (m.rows_ : Int) (m.cols_ : Int) : Except Error (Matrix F))
    if m.rows_ = m.cols_ ∧ m.rows_ = 1 then
      if |m.get 0 0| ≥ eps7 then pure (result.set 0 0 (1 / m.get 0 0)) else pure result
    else if Dbl.ge (Dbl.fabs determinant) (Dbl.fin eps7) = true ∧ m.rows_ = m.cols_ then do
      let TMP ← m.CalcComplements
      let transposed ← TMP.Transpose
      pure (transposed.MulNumber (Dbl.div (Dbl.fin 1) determinant).toField)
    else pure result
/-! ## Definitions used to state the properties -/

/-- A parser whose buffers are empty, the state `Parser::LoadFile` parses
into. -/
def Parser.cleared {F : Type} : Parser F := ⟨⟨[], []⟩⟩

/-- A model holding the one-vertex geometry of the file `v 0 0 0` / `f 1`, as
`LoadFile` leaves it. -/
def pointModel : Model ℚ :=
  ⟨⟨⟨[0, 0, 0], [0, 0]⟩⟩, ⟨TransformMatrix.fresh, some Model.verticesAddr, ⟨0, 0, 0⟩⟩,
    ⟨[0, 0, 0], [0, 0]⟩, ⟨⟨1, 1, 1⟩, ⟨0, 0, 0⟩, ⟨0, 0, 0⟩⟩⟩

/-- A file system with no file at all. -/
def noFiles : FileSystem := fun _ => none

/-- Four openable files: a one-vertex object, a file holding a comment line
only, a file whose single vertex line carries four floats, and a triangle. -/
def demoFiles : FileSystem := fun path =>
  if path = "point.obj" then some "v 0 0 0\nf 1\n".toList
  else if path = "comment.obj" then some "# no geometry\n".toList
  else if path = "four.obj" then some "v 1 2 3 4\n".toList
  else if path = "triangle.obj" then some "v 0 0 0\nv 2 0 0\nv 0 4 0\nf 1 2 3\n".toList
  else none

/-- Stand-in for `cos` and `sin` over the rationals, for runs that never
rotate. -/
def noRotation : Trig ℚ := ⟨fun _ => 1, fun _ => 0⟩

/-- An initial value for `current_state_`. -/
def unitState : TransformParametrs ℚ := ⟨⟨1, 1, 1⟩, ⟨0, 0, 0⟩, ⟨0, 0, 0⟩⟩

/-! ### Face lines as the specification describes them -/

/-- One token of a face line `f t1 t2 ... tN`: the number of extra spaces in
front of it, an optional sign, the decimal digits of the index, and what
follows the index inside the token (a `/...` texture / normal suffix). -/
structure FaceToken where
  gap : Nat
  sign : List Char
  digits : List Char
  suffix : List Char
  deriving DecidableEq, Repr

/-- The integer a token starts with. -/
def FaceToken.value (t : FaceToken) : Int :=
  if t.sign = ['-'] then -(digitsVal t.digits : Int) else (digitsVal t.digits : Int)

/-- The characters of a token. -/
def FaceToken.text (t : FaceToken) : List Char := t.sign ++ t.digits ++ t.suffix

/-- A token is well formed when its sign is absent, `-` or `+`, it has at least
one digit, its value is an `int`, and its suffix is empty or starts with a
character that is not a digit (such as `/`), holds no space and is at most 256
characters long (the reach of `ignore(256, ' ')`). -/
def FaceToken.WF (t : FaceToken) : Prop :=
  (t.sign = [] ∨ t.sign = ['-'] ∨ t.sign = ['+']) ∧
  t.digits ≠ [] ∧ (∀ c ∈ t.digits, isDigit c = true) ∧
  (∀ c ∈ t.suffix.take 1, isDigit c = false) ∧
  (∀ c ∈ t.suffix, c ≠ ' ') ∧ t.suffix.length ≤ 256 ∧
  INT_MIN ≤ t.value ∧ t.value ≤ INT_MAX

instance (t : FaceToken) : Decidable t.WF := by
  unfold FaceToken.WF
  exact inferInstance

/-- The text of a face line after the tag: every token is preceded by one or
more spaces, and `trailing` (white space, such as a carriage return) ends the
line. -/
def faceTail (trailing : List Char) : List FaceToken → List Char
  | [] => trailing
  | t :: ts => List.replicate (t.gap + 1) ' ' ++ t.text ++ faceTail trailing ts

/-- The face line `f t1 t2 ... tN`. -/
def faceLine (ts : List FaceToken) (trailing : List Char) : List Char :=
  'f' :: faceTail trailing ts

/-- The 0-based index an integer `i` of a face line denotes when
`vertex_count` vertices have been read: `i - 1` for the 1-based `i`,
`vertex_count + i` for a negative `i`, as an `unsigned int`. -/
def zeroBased (vertex_count : Nat) (i : Int) : Nat :=
  toUInt32 (if i < 0 then (vertex_count : Int) + i else i - 1)

/-- The edges `(r1, r2), (r2, r3), ..., (rN, r1)` of the closed polygon over
the indices `r1 ... rN`. -/
def polygonEdges (rs : List Nat) : List (Nat × Nat) :=
  rs.zip (rs.drop 1 ++ rs.take 1)

/-- The endpoints of a list of edges, edge after edge. -/
def flattenEdges (es : List (Nat × Nat)) : List Nat :=
  es.flatMap fun e => [e.1, e.2]

/-- The unread text of a face line from the next token on, once the white
space in front of that token has been set aside. -/
def pendingTokens (trailing : List Char) : List FaceToken → List Char
  | [] => []
  | t :: ts => t.text ++ faceTail trailing ts

/-- The carriage return character. -/
def carriageReturn : Char := Char.ofNat 13

/-- A parser holding three vertices and no face. -/
def threeVertexParser : Parser ℚ := ⟨⟨[0, 0, 0, 1, 0, 0, 0, 1, 0], []⟩⟩

/-- The tokens `1/1/1`, `2/2/2` and `-1//7` (the last after two spaces). -/
def demoTokens : List FaceToken :=
  [⟨0, [], ['1'], ['/', '1', '/', '1']⟩, ⟨0, [], ['2'], ['/', '2', '/', '2']⟩,
    ⟨1, ['-'], ['1'], ['/', '/', '7']⟩]

/-- The tokens `-1`, `-2`, `-3` of the fixture `negative_faces.obj`. -/
def negativeTokens : List FaceToken :=
  [⟨0, ['-'], ['1'], []⟩, ⟨0, ['-'], ['2'], []⟩, ⟨0, ['-'], ['3'], []⟩]

/-- Four vertex lines, as they stand in front of the face line of
`negative_faces.obj`. -/
def fourVertexLines : List (List Char) :=
  ["v 0 0 0".toList, "v 1 0 0".toList, "v 1 1 0".toList, "v 0 1 0".toList]

/-- A cube file with 8 vertices and 6 quad faces. -/
def cubeQuads : List Char :=
  ("v 1 1 -1\nv 1 -1 -1\nv 1 1 1\nv 1 -1 1\nv -1 1 -1\nv -1 -1 -1\nv -1 1 1\nv -1 -1 1\n" ++
    "f 1 5 7 3\nf 4 3 7 8\nf 8 7 5 6\nf 6 2 4 8\nf 2 1 3 4\nf 6 5 1 2\n").toList

/-- The same cube with every quad split into two triangles: 12 faces. -/
def cubeTriangles : List Char :=
  ("v 1 1 -1\nv 1 -1 -1\nv 1 1 1\nv 1 -1 1\nv -1 1 -1\nv -1 -1 -1\nv -1 1 1\nv -1 -1 1\n" ++
    "f 5 3 1\nf 3 8 4\nf 7 6 8\nf 2 8 6\nf 1 4 2\nf 5 2 6\n" ++
    "f 5 7 3\nf 3 7 8\nf 7 5 6\nf 2 4 8\nf 1 3 4\nf 5 1 2\n").toList

/-- A file system holding the two cube files. -/
def cubeFiles : FileSystem := fun path =>
  if path = "cube_quads.obj" then some cubeQuads
  else if path = "cube.obj" then some cubeTriangles
  else none

/-- A token made of one digit, after a single space. -/
def digitToken (c : Char) : FaceToken := ⟨0, [], [c], []⟩

end s21

/-! ## Linear algebra used to state the transform properties

The 3 x 3 matrices below are Mathlib matrices, not the `s21.Matrix` of the
program: they state what the program is meant to compute. -/

namespace ViewerSpec

/-- A 3 x 3 matrix over `F`. -/
abbrev Mat3 (F : Type) := Matrix (Fin 3) (Fin 3) F

/-- A row vector with three entries. -/
abbrev Vec3 (F : Type) := Fin 3 → F

/-- The matrix `diag(scale)`, or the identity when `scale` is all-zero. -/
def scaleMat {F : Type} [Field F] [DecidableEq F] (d : s21.Delta F) : Mat3 F :=
  if d.x = 0 ∧ d.y = 0 ∧ d.z = 0 then 1 else Matrix.diagonal ![d.x, d.y, d.z]

/-- Rotation about the X axis, row-vector form. -/
def rotX {F : Type} [Field F] (T : s21.Trig F) (a : F) : Mat3 F :=
  !![1, 0, 0; 0, T.cos a, T.sin a; 0, -T.sin a, T.cos a]

/-- Rotation about the Y axis, row-vector form. -/
def rotY {F : Type} [Field F] (T : s21.Trig F) (a : F) : Mat3 F :=
  !![T.cos a, 0, -T.sin a; 0, 1, 0; T.sin a, 0, T.cos a]

/-- Rotation about the Z axis, row-vector form. -/
def rotZ {F : Type} [Field F] (T : s21.Trig F) (a : F) : Mat3 F :=
  !![T.cos a, T.sin a, 0; -T.sin a, T.cos a, 0; 0, 0, 1]

/-- The product `RotateX * RotateY * RotateZ` of a rotation triple. -/
def rotMat {F : Type} [Field F] (T : s21.Trig F) (r : s21.Delta F) : Mat3 F :=
  rotX T r.x * rotY T r.y * rotZ T r.z

/-- The linear part `L = S * R` of an edit. -/
def linearPart {F : Type} [Field F] [DecidableEq F] (T : s21.Trig F)
    (delta : s21.TransformParametrs F) : Mat3 F :=
  scaleMat delta.scale * rotMat T delta.rotation

/-- The map `v => (v - t) * L + move + t` on a vertex `(x, y, z)`: the edit
`delta` pivoting about the accumulated translation `t`. -/
def pivotTransform {F : Type} [Field F] [DecidableEq F] (T : s21.Trig F)
    (t : s21.Delta F) (delta : s21.TransformParametrs F) (x y z : F) : F × F × F :=
  (Matrix.vecMul ![x - t.x, y - t.y, z - t.z] (linearPart T delta) 0 + delta.move.x + t.x,
   Matrix.vecMul ![x - t.x, y - t.y, z - t.z] (linearPart T delta) 1 + delta.move.y + t.y,
   Matrix.vecMul ![x - t.x, y - t.y, z - t.z] (linearPart T delta) 2 + delta.move.z + t.z)

/-- The map `v => v * L + m` on a vertex `(x, y, z)`. -/
def affineMap {F : Type} [Field F] (L : Mat3 F) (m : s21.Delta F) (x y z : F) : F × F × F :=
  (Matrix.vecMul ![x, y, z] L 0 + m.x, Matrix.vecMul ![x, y, z] L 1 + m.y,
   Matrix.vecMul ![x, y, z] L 2 + m.z)

/-- The program's 4 x 4 homogeneous matrix with linear block `L`, translation
row `m` and last column `(0, 0, 0, 1)`. -/
def homogeneous {F : Type} [Field F] (L : Mat3 F) (m : s21.Delta F) : s21.Matrix F :=
  ⟨4, 4, [[L 0 0, L 0 1, L 0 2, 0], [L 1 0, L 1 1, L 1 2, 0], [L 2 0, L 2 1, L 2 2, 0],
    [m.x, m.y, m.z, 1]]⟩

end ViewerSpec

namespace s21

/-- A function on vertices applied to every vertex `(x, y, z)` of a flat
buffer, vertex by vertex; fewer than three trailing floats are left as they
are. -/
def mapVertices {F : Type} (f : F → F → F → F × F × F) : List F → List F
  | x :: y :: z :: rest => (f x y z).1 :: (f x y z).2.1 :: (f x y z).2.2 :: mapVertices f rest
  | l => l

/-- The class invariant of a `TransformMatrix`: four rows of four entries. -/
def Matrix.Is4x4 {F : Type} (m : Matrix F) : Prop :=
  m.rows_ = 4 ∧ m.cols_ = 4 ∧ m.matrix_.length = 4 ∧ ∀ row ∈ m.matrix_, row.length = 4

/-- An `AffineTransform` as constructed, bound to the buffer at address 0. -/
def boundTransform (F : Type) [Field F] : AffineTransform F :=
  ⟨TransformMatrix.fresh, some 0, ⟨0, 0, 0⟩⟩


end s21

namespace ViewerSpec

/-- A 4 x 4 matrix over `F`. -/
abbrev Mat4 (F : Type) := Matrix (Fin 4) (Fin 4) F

/-- The sixteen entries of a program matrix, read as a Mathlib matrix. -/
def toMat4 {F : Type} [Field F] (m : s21.Matrix F) : Mat4 F :=
  Matrix.of fun i j => m.get i.val j.val

end ViewerSpec

namespace s21

/-- The product `scale_matrix * Rotate(delta.rotation) * Move(delta.move)` with
each factor built on a fresh instance and every factor multiplied, none
skipped. -/
def productScaleRotateMove {F : Type} [Field F] (T : Trig F) (scale_matrix : Matrix F)
    (delta : TransformParametrs F) : Except Error (Matrix F) := do
  let r_matrix ← RotationTransformMatrix.SetTransformMatrix T TransformMatrix.fresh delta
  let sr ← scale_matrix.MulMatrix r_matrix
  sr.MulMatrix (MoveTransformMatrix.SetTransformMatrix TransformMatrix.fresh delta)

/-- The product `Scale(delta.scale) * Rotate(delta.rotation) * Move(delta.move)`
with all three factors multiplied unconditionally. -/
def unconditionalGeneral {F : Type} [Field F] (T : Trig F) (delta : TransformParametrs F) :
    Except Error (Matrix F) :=
  productScaleRotateMove T (ScaleTransformMatrix.SetTransformMatrix TransformMatrix.fresh delta)
    delta

/-- The memory that holds the vertex buffers: the contents of the vector at
each address. -/
abbrev Heap (F : Type) := Nat → List F

/-- The call `AddVertices(vertices)` with the vector read from memory. -/
def AffineTransform.AddVerticesAt {F : Type} (a : AffineTransform F) (heap : Heap F)
    (vertices : Option Nat) : Except Error (AffineTransform F) :=
  match vertices with
  | none => a.AddVertices none []
  | some p => a.AddVertices (some p) (heap p)

/-- The call `TransformVertices(delta)` on memory: the vector read and written
is the one at the address `vertices_`. -/
def AffineTransform.TransformVerticesAt {F : Type} [Field F] [DecidableEq F] (T : Trig F)
    (a : AffineTransform F) (heap : Heap F) (delta : TransformParametrs F) :
    Except Error (AffineTransform F × Heap F) :=
  match a.vertices_ with
  | none => do
    let r ← a.TransformVertices T [] delta
    pure (r.1, heap)
  | some p => do
    let r ← a.TransformVertices T (heap p) delta
    pure (r.1, Function.update heap p r.2)

/-- A sequence of calls `TransformVertices(delta)`, one for each element of
`deltas` in order. -/
def AffineTransform.transformAll {F : Type} [Field F] [DecidableEq F] (T : Trig F) :
    List (TransformParametrs F) → AffineTransform F × Heap F →
      Except Error (AffineTransform F × Heap F)
  | [], s => pure s
  | delta :: rest, s => do
    let s1 ← s.1.TransformVerticesAt T s.2 delta
    AffineTransform.transformAll T rest s1

end s21

namespace ViewerSpec

/-- The `n x n` Mathlib matrix with entries `g i j`. -/
def fnMat {F : Type} (n : Nat) (g : Nat → Nat → F) : Matrix (Fin n) (Fin n) F :=
  Matrix.of fun i j => g i.val j.val

/-- The cells of a program matrix read as an `n x n` Mathlib matrix. -/
def toMat {F : Type} [Field F] (n : Nat) (m : s21.Matrix F) : Matrix (Fin n) (Fin n) F :=
  fnMat n m.get

/-- A value with absolute value below `1e-6` replaced by 0. -/
def snap {F : Type} [LinearOrderedField F] (d : F) : F :=
  if |d| < 1 / 1000000 then 0 else d

end ViewerSpec

namespace s21

/-- The shape of a constructed `Matrix`: `rows_` rows of `cols_` cells. -/
def Matrix.WellShaped {F : Type} (m : Matrix F) : Prop :=
  m.matrix_.length = m.rows_ ∧ ∀ row ∈ m.matrix_, row.length = m.cols_

/-- The vertices of a flat buffer, three floats each. -/
def vertexList {F : Type} : List F → List (F × F × F)
  | x :: y :: z :: rest => (x, y, z) :: vertexList rest
  | _ => []

/-- A model as constructed that holds the given vertex buffer. -/
def modelOf {F : Type} [LinearOrderedField F] (vertices : List F) : Model F :=
  ⟨⟨⟨[], []⟩⟩, ⟨TransformMatrix.fresh, none, ⟨0, 0, 0⟩⟩, ⟨vertices, []⟩,
    ⟨⟨1, 1, 1⟩, ⟨0, 0, 0⟩, ⟨0, 0, 0⟩⟩⟩

/-- The cube with corners at `+-1`, as eight vertices. -/
def unitCube : List ℚ :=
  [-1, -1, -1, 1, -1, -1, 1, 1, -1, -1, 1, -1, -1, -1, 1, 1, -1, 1, 1, 1, 1, -1, 1, 1]

/-- The grid of finite `double`s with the values `g i j`. -/
def finGrid {F : Type} (g : Nat → Nat → F) : Grid F := fun i j => Dbl.fin (g i j)

/-- The cells below the diagonal in the first `t` columns of the `n` rows
are zero. -/
def LowerZero {F : Type} [Zero F] (n t : Nat) (g : Nat → Nat → F) : Prop :=
  ∀ i j, j < t → j < i → i < n → g i j = 0

/-- Every cell of the rows after `k0`, from column `k0` on, is NaN. -/
def Poisoned {F : Type} (n k0 : Nat) (g : Grid F) : Prop :=
  ∀ a b, k0 < a → a < n → k0 ≤ b → b < n → g a b = Dbl.nan

/-- The rows `k` and `r` of `g` exchanged. -/
def swapRowsF {F : Type} (g : Nat → Nat → F) (k r : Nat) : Nat → Nat → F :=
  fun a => if a = k then g r else if a = r then g k else g a

/-- The cells of `g` with row `i` and column `j` deleted. -/
def minorCells {F : Type} (g : Nat → Nat → F) (i j : Nat) : Nat → Nat → F :=
  fun a b => g (if a < i then a else a + 1) (if b < j then b else b + 1)

/-- A 2 x 2 matrix of determinant 1 with the small entry `1 / 2000000`. -/
def smallMinor : Matrix ℚ := ⟨2, 2, [[2000000, 0], [0, 1 / 2000000]]⟩

/-- The identity matrix with `n` rows. -/
def identityMatrix {F : Type} [Field F] (n : Nat) : Matrix F :=
  ⟨n, n, (List.range n).map fun i => (List.range n).map fun j => if i = j then 1 else 0⟩

/-- The 2 x 2 matrix `diag(2, 4)`. -/
def diagTwoFour : Matrix ℚ := ⟨2, 2, [[2, 0], [0, 4]]⟩

/-! ## Definitions used to state the parser and model properties of the last sections -/

/-- Two openable files: one whose face line names vertex 2 of a one-vertex
object, and one whose face line names vertex 0. -/
def faultyFiles : FileSystem := fun path =>
  if path = "bad_index.obj" then some "v 0 0 0\nf 2\n".toList
  else if path = "zero_index.obj" then some "v 0 0 0\nf 1 0 1\n".toList
  else none

/-- The model a freshly constructed `Model` becomes by loading the file
`triangle.obj` of `demoFiles`: the normalised triangle, bound to its vertex
buffer, with no accumulated translation. -/
def triangleModel : Model ℚ :=
  ⟨⟨⟨[0, 0, 0, 2, 0, 0, 0, 4, 0], [0, 1, 1, 2, 2, 0]⟩⟩,
    ⟨TransformMatrix.fresh, some Model.verticesAddr, ⟨0, 0, 0⟩⟩,
    ⟨[-1 / 4, -1 / 2, 0, 1 / 4, -1 / 2, 0, -1 / 4, 1 / 2, 0], [0, 1, 1, 2, 2, 0]⟩,
    ⟨⟨1, 1, 1⟩, ⟨0, 0, 0⟩, ⟨0, 0, 0⟩⟩⟩

/-- Whether a text starts with an integer as `stream >> int` reads it: after
white space and an optional sign comes a decimal digit. -/
def startsWithInteger (s : List Char) : Bool :=
  match skipWs s with
  | [] => false
  | c :: rest => ((if c == '-' || c == '+' then rest else c :: rest).head?).any isDigit

/-- `SpaceRuns s s1`: the text `s1` is the text `s` with some of its runs of
spaces made longer (a space of `s` followed, in `s1`, by further spaces). -/
inductive SpaceRuns : List Char → List Char → Prop
  | nil : SpaceRuns [] []
  | cons (c : Char) {s s1 : List Char} (h : SpaceRuns s s1) : SpaceRuns (c :: s) (c :: s1)
  | extra {s s1 : List Char} (h : SpaceRuns (' ' :: s) s1) : SpaceRuns (' ' :: s) (' ' :: s1)

/-- A blank line or a comment line: white space only, or white space
followed by `#` and any text, without a line feed. -/
def isBlankOrComment (line : List Char) : Bool :=
  !line.contains newline && ((skipWs line).isEmpty || (skipWs line).head? == some '#')

/-- The file `point.obj` of `demoFiles` with a comment line in front of the
face line. -/
def commentedFiles : FileSystem := fun path =>
  if path = "point.obj" then some "v 0 0 0\n# one vertex\nf 1\n".toList else none

/-- The triangle of `demoFiles` with three spaces between the tokens `1` and
`2` of its face line. -/
def spacedFiles : FileSystem := fun path =>
  if path = "triangle.obj" then some "v 0 0 0\nv 2 0 0\nv 0 4 0\nf 1   2 3\n".toList else none

/-! ### Vertex lines as the specification describes them -/

/-- One float of a vertex line as the file spells it: the number of extra
spaces in front of it, an optional sign, the digits before the point, the
point (`['.']` or nothing) with the digits behind it, and an exponent (the
mark `e` or `E`, an optional sign and digits) or nothing. -/
structure FloatToken where
  gap : Nat
  sign : List Char
  whole : List Char
  point : List Char
  frac : List Char
  expMark : List Char
  expSign : List Char
  expDigits : List Char
  deriving DecidableEq, Repr

/-- The characters of a float. -/
def FloatToken.text (t : FloatToken) : List Char :=
  t.sign ++ (t.whole ++ (t.point ++ (t.frac ++ (t.expMark ++ (t.expSign ++ t.expDigits)))))

/-- A float is well formed when its sign is absent, `-` or `+`, it has a digit
before or behind the point, digits stand behind a point only, and its
exponent, when present, has the mark `e` or `E`, a sign that is absent, `-`
or `+`, and at least one digit. -/
def FloatToken.WF (t : FloatToken) : Prop :=
  (t.sign = [] ∨ t.sign = ['-'] ∨ t.sign = ['+']) ∧
  (∀ c ∈ t.whole, isDigit c = true) ∧
  ((t.point = [] ∧ t.frac = []) ∨ t.point = ['.']) ∧
  (∀ c ∈ t.frac, isDigit c = true) ∧
  (t.whole ≠ [] ∨ t.frac ≠ []) ∧
  ((t.expMark = [] ∧ t.expSign = [] ∧ t.expDigits = []) ∨
    ((t.expMark = ['e'] ∨ t.expMark = ['E']) ∧
      (t.expSign = [] ∨ t.expSign = ['-'] ∨ t.expSign = ['+']) ∧
      t.expDigits ≠ [] ∧ ∀ c ∈ t.expDigits, isDigit c = true))

instance (t : FloatToken) : Decidable t.WF := by
  unfold FloatToken.WF
  exact inferInstance

/-- The number a float denotes: sign, decimal mantissa and power of ten. -/
def FloatToken.value {F : Type} [Field F] (t : FloatToken) : F :=
  let mant : F := (digitsVal (t.whole ++ t.frac) : F) / (10 : F) ^ t.frac.length
  let sgn : F := if t.sign = ['-'] then -1 else 1
  if t.expMark = [] then sgn * mant
  else if t.expSign = ['-'] then sgn * mant / (10 : F) ^ digitsVal t.expDigits
  else sgn * mant * (10 : F) ^ digitsVal t.expDigits

/-- Whether a float is out of the range of `float`, so that its conversion
yields an infinity: the magnitude of its value is at least `floatOverflow`. -/
def FloatToken.exceeds (t : FloatToken) : Bool :=
  exceedsFloat (digitsVal (t.whole ++ t.frac)) t.frac.length (decide (t.expSign = ['-']))
    (digitsVal t.expDigits)

/-- The text of a vertex line after the tag: every float is preceded by one
or more spaces, and `rest` ends the line. -/
def floatTail (rest : List Char) : List FloatToken → List Char
  | [] => rest
  | t :: ts => List.replicate (t.gap + 1) ' ' ++ (t.text ++ floatTail rest ts)

/-- Whether a text cannot continue a float that stands in front of it: it is
empty or starts with a character that is not a digit, a point, `e` or `E`. -/
def endsFloat (rest : List Char) : Bool :=
  match rest.head? with
  | none => true
  | some c => !(isDigit c || c == '.' || c == 'e' || c == 'E')

/-- Whether a text starts with a float as `stream >> float` reads it: after
white space and an optional sign comes a digit, or a point followed by a
digit. -/
def startsWithFloat (s : List Char) : Bool :=
  match skipWs s with
  | [] => false
  | c :: rest =>
    match (if c == '-' || c == '+' then rest else c :: rest) with
    | [] => false
    | d :: more => isDigit d || (d == '.' && (more.head?).any isDigit)

/-- A float as a single token after one space, without exponent. -/
def plainFloat (sign whole : List Char) : FloatToken := ⟨0, sign, whole, [], [], [], [], []⟩

/-- The fixture `tests/files/cube_with_textures.obj` as the test
`CubeWithTextures` of `parser_test.cc` determines it: 8 vertex lines, texture
and normal lines, and the twelve triangles whose edges the test expects, each
token with a texture and a normal index. -/
def cubeWithTextures : List Char :=
  ("# cube\nv 1 1 -1\nv 1 -1 -1\nv 1 1 1\nv 1 -1 1\nv -1 1 -1\nv -1 -1 -1\nv -1 1 1\n" ++
    "v -1 -1 1\nvt 0.5 0.5\nvt 0.5 1.0\nvt 1.0 0.5\nvt 1.0 1.0\n" ++
    "vn 0 1 0\nvn 0 0 1\nvn -1 0 0\nvn 0 -1 0\nvn 1 0 0\nvn 0 0 -1\n" ++
    "f 2/1/1 3/2/1 4/3/1\nf 8/1/2 7/2/2 6/3/2\nf 5/1/3 6/2/3 2/3/3\nf 6/1/4 7/2/4 3/3/4\n" ++
    "f 3/1/5 7/2/5 8/3/5\nf 1/1/6 4/2/6 8/3/6\nf 1/1/1 2/2/1 4/3/1\nf 5/1/2 8/2/2 6/3/2\n" ++
    "f 1/1/3 5/2/3 2/3/3\nf 2/1/4 6/2/4 3/3/4\nf 4/1/5 3/2/5 8/3/5\nf 5/1/6 1/2/6 8/3/6\n").toList

/-- The vector `expected_faces` of the test `CubeWithTextures`. -/
def expectedTextureFaces : List Nat :=
  [1, 2, 2, 3, 3, 1, 7, 6, 6, 5, 5, 7, 4, 5, 5, 1, 1, 4, 5, 6, 6, 2, 2, 5,
    2, 6, 6, 7, 7, 2, 0, 3, 3, 7, 7, 0, 0, 1, 1, 3, 3, 0, 4, 7, 7, 5, 5, 4,
    0, 4, 4, 1, 1, 0, 1, 5, 5, 2, 2, 1, 3, 2, 2, 7, 7, 3, 4, 0, 0, 7, 7, 4]

/-- A file system holding the cube with textures. -/
def textureFiles : FileSystem := fun path =>
  if path = "cube_with_textures.obj" then some cubeWithTextures else none

/-- Three one-vertex files whose face line holds the index 0: behind a token
that is not an integer, behind a tab, and in front of a token that is not an
integer. -/
def unreadFiles : FileSystem := fun path =>
  if path = "skipped_zero.obj" then some "v 0 0 0\nf 1 x 0\n".toList
  else if path = "tab_zero.obj" then some "v 0 0 0\nf 1\t0\n".toList
  else if path = "reached_zero.obj" then some "v 0 0 0\nf 1 0 x\n".toList
  else none
/-! ## Closed forms of the 4 x 4 matrix operations -/

section Matrix4

variable {F : Type} [Field F]

theorem copyEntries_4x4 (d00 d01 d02 d03 d10 d11 d12 d13 d20 d21 d22 d23 d30 d31 d32 d33
    s00 s01 s02 s03 s10 s11 s12 s13 s20 s21 s22 s23 s30 s31 s32 s33 : F) :
    copyEntries ⟨4, 4, [[d00, d01, d02, d03], [d10, d11, d12, d13], [d20, d21, d22, d23], [d30, d31, d32, d33]]⟩
      ⟨4, 4, [[s00, s01, s02, s03], [s10, s11, s12, s13], [s20, s21, s22, s23], [s30, s31, s32, s33]]⟩ =
    Except.ok ⟨4, 4, [[s00, s01, s02, s03], [s10, s11, s12, s13], [s20, s21, s22, s23], [s30, s31, s32, s33]]⟩ := by
  rfl

theorem MulMatrix_4x4 (a00 a01 a02 a03 a10 a11 a12 a13 a20 a21 a22 a23 a30 a31 a32 a33
    b00 b01 b02 b03 b10 b11 b12 b13 b20 b21 b22 b23 b30 b31 b32 b33 : F) :
    Matrix.MulMatrix ⟨4, 4, [[a00, a01, a02, a03], [a10, a11, a12, a13], [a20, a21, a22, a23], [a30, a31, a32, a33]]⟩
      ⟨4, 4, [[b00, b01, b02, b03], [b10, b11, b12, b13], [b20, b21, b22, b23], [b30, b31, b32, b33]]⟩ =
    Except.ok ⟨4, 4,
      [[0 + a00 * b00 + a01 * b10 + a02 * b20 + a03 * b30, 0 + a00 * b01 + a01 * b11 + a02 * b21 + a03 * b31,
        0 + a00 * b02 + a01 * b12 + a02 * b22 + a03 * b32, 0 + a00 * b03 + a01 * b13 + a02 * b23 + a03 * b33],
       [0 + a10 * b00 + a11 * b10 + a12 * b20 + a13 * b30, 0 + a10 * b01 + a11 * b11 + a12 * b21 + a13 * b31,
        0 + a10 * b02 + a11 * b12 + a12 * b22 + a13 * b32, 0 + a10 * b03 + a11 * b13 + a12 * b23 + a13 * b33],
       [0 + a20 * b00 + a21 * b10 + a22 * b20 + a23 * b30, 0 + a20 * b01 + a21 * b11 + a22 * b21 + a23 * b31,
        0 + a20 * b02 + a21 * b12 + a22 * b22 + a23 * b32, 0 + a20 * b03 + a21 * b13 + a22 * b23 + a23 * b33],
       [0 + a30 * b00 + a31 * b10 + a32 * b20 + a33 * b30, 0 + a30 * b01 + a31 * b11 + a32 * b21 + a33 * b31,
        0 + a30 * b02 + a31 * b12 + a32 * b22 + a33 * b32, 0 + a30 * b03 + a31 * b13 + a32 * b23 + a33 * b33]]⟩ := by
  rfl

theorem transformVertex_4x4 (x y z : F) (b00 b01 b02 b03 b10 b11 b12 b13 b20 b21 b22 b23 b30 b31 b32 b33 : F) :
    transformVertex ⟨4, 4, [[b00, b01, b02, b03], [b10, b11, b12, b13], [b20, b21, b22, b23], [b30, b31, b32, b33]]⟩ x y z =
    Except.ok (0 + x * b00 + y * b10 + z * b20 + 1 * b30, 0 + x * b01 + y * b11 + z * b21 + 1 * b31,
      0 + x * b02 + y * b12 + z * b22 + 1 * b32) := by
  rfl

theorem TransformMatrix.fresh_eq : (TransformMatrix.fresh : Matrix F) = ⟨4, 4, [[1, 0, 0, 0], [0, 1, 0, 0], [0, 0, 1, 0], [0, 0, 0, 1]]⟩ := by
  rfl

end Matrix4


/-! ## Reload behaviour of `Parser` and `Model` -/


theorem Parser.LoadFile_eq {F : Type} [Field F] (p : Parser F) (fs : FileSystem)
    (path : String) :
    p.LoadFile fs path =
      if ((Parser.cleared : Parser F).ReadData fs path).2.isSome ∨
          (((Parser.cleared : Parser F).ReadData fs path).1.ValidationData).isSome then
        (p, some ⟨ErrorKind.exception, "std::exception"⟩)
      else (((Parser.cleared : Parser F).ReadData fs path).1, none) := by
  unfold Parser.LoadFile Parser.cleared
  rcases h : (({ data_ := { vertices := [], faces := [] } } : Parser F).ReadData fs path)
    with ⟨p1, _ | e⟩
  · rcases hv : p1.ValidationData with _ | e
    · simp [h, hv]
    · simp [h, hv, Error.sliced]
  · simp [h, Error.sliced]

theorem Parser.ReadData_unopenable {F : Type} [Field F] (p : Parser F) (fs : FileSystem)
    (path : String) (h : fs path = none) :
    p.ReadData fs path = (p, some ⟨ErrorKind.logicError, "Can't open file"⟩) := by
  simp [Parser.ReadData, h]

/-- C3. `Parser::LoadFile` is atomic: when it raises an error the data returned by
`GetData` afterwards is the data held before the call, and when it succeeds the
data is what parsing the file into empty buffers gives, whatever was held
before. -/
theorem Parser.LoadFile_atomic {F : Type} [Field F] (p : Parser F) (fs : FileSystem)
    (path : String) :
    (p.LoadFile fs path).1.GetData =
      (match (p.LoadFile fs path).2 with
        | some _ => p.GetData
        | none => ((Parser.cleared : Parser F).ReadData fs path).1.GetData) ∧
    (fs path = none → (p.LoadFile fs path).2.isSome = true) ∧
    (((Parser.cleared : Parser F).ReadData fs path).2.isSome = true →
      (p.LoadFile fs path).2.isSome = true) ∧
    ((((Parser.cleared : Parser F).ReadData fs path).1.ValidationData).isSome = true →
      (p.LoadFile fs path).2.isSome = true) := by
  rw [Parser.LoadFile_eq]
  refine ⟨?_, ?_, ?_, ?_⟩
  · split_ifs <;> rfl
  · intro h
    simp [Parser.ReadData_unopenable _ fs path h]
  · intro h
    simp [h]
  · intro h
    simp [h]


theorem ReserveSpace_error_iff (lines : List (List Char)) (counts : Nat × Nat) :
    (∃ e, ReserveSpace lines counts = Except.error e) ↔ ['v'] ∈ lines := by
  induction lines generalizing counts with
  | nil => simp [ReserveSpace]
  | cons line more ih =>
    obtain ⟨vc, fc⟩ := counts
    rcases line with _ | ⟨c, tl⟩
    · simp [ReserveSpace, ih]
    · by_cases h1 : c = '#'
      · subst h1
        simp [ReserveSpace, ih]
      · by_cases h2 : c = 'v'
        · subst h2
          rcases tl with _ | ⟨d, tl⟩
          · simp [ReserveSpace]
          · by_cases h3 : d = ' '
            · simp [ReserveSpace, ih, h3]
            · simp [ReserveSpace, ih, h3]
        · by_cases h3 : c = 'f'
          · subst h3
            simp [ReserveSpace, ih]
          · simp [ReserveSpace, ih, h1, h2, h3]
            intro h
            exact absurd h.symm h2

theorem Parser.ReadData_error_iff {F : Type} [Field F] (p : Parser F) (fs : FileSystem)
    (path : String) (content : List Char) (h : fs path = some content) :
    (p.ReadData fs path).2.isSome = true ↔ ['v'] ∈ fileLines content := by
  rw [← ReserveSpace_error_iff (fileLines content) (0, 0)]
  unfold Parser.ReadData
  rw [h]
  rcases hr : ReserveSpace (fileLines content) (0, 0) with e | c
  · dsimp only
    rw [hr]
    simp
  · dsimp only
    rw [hr]
    simp

theorem Parser.ValidationData_isSome_iff {F : Type} (p : Parser F) :
    p.ValidationData.isSome = true ↔
      ∃ i ∈ p.data_.faces, p.data_.vertices.length / 3 ≤ i := by
  unfold Parser.ValidationData
  split_ifs with h
  · simp only [Option.isSome_some, true_iff]
    simpa using h
  · simp only [Option.isSome_none, Bool.false_eq_true, false_iff]
    simpa using h

/-- C7. `Parser::LoadFile` fails exactly when `ReadData` raises or, in the buffers
as they stand after the whole file has been read, some face entry is at least
`vertices.size() / 3`; for an openable file `ReadData` raises exactly when a
line consists of the single character `v`. After a successful load every face
entry is strictly below the vertex count. -/
theorem Parser.LoadFile_fails_iff {F : Type} [Field F] (p : Parser F) (fs : FileSystem)
    (path : String) :
    ((p.LoadFile fs path).2.isSome = true ↔
      (((Parser.cleared : Parser F).ReadData fs path).2.isSome = true ∨
        ∃ i ∈ ((Parser.cleared : Parser F).ReadData fs path).1.data_.faces,
          ((Parser.cleared : Parser F).ReadData fs path).1.data_.vertices.length / 3 ≤ i)) ∧
    (∀ content, fs path = some content →
      (((Parser.cleared : Parser F).ReadData fs path).2.isSome = true ↔
        ['v'] ∈ fileLines content)) ∧
    ((p.LoadFile fs path).2 = none →
      ∀ i ∈ (p.LoadFile fs path).1.data_.faces,
        i < (p.LoadFile fs path).1.data_.vertices.length / 3) := by
  refine ⟨?_, ?_, ?_⟩
  · rw [Parser.LoadFile_eq, ← Parser.ValidationData_isSome_iff]
    split_ifs with h
    · simpa using h
    · simpa using h
  · intro content h
    exact Parser.ReadData_error_iff _ fs path content h
  · rw [Parser.LoadFile_eq]
    split_ifs with h
    · simp
    · intro _ i hi
      have h2 : ¬ ∃ i ∈ ((Parser.cleared : Parser F).ReadData fs path).1.data_.faces,
          ((Parser.cleared : Parser F).ReadData fs path).1.data_.vertices.length / 3 ≤ i := by
        rw [← Parser.ValidationData_isSome_iff]
        exact fun hv => h (Or.inr hv)
      by_contra hlt
      exact h2 ⟨i, hi, Nat.le_of_not_lt hlt⟩

/-- When the parser raises, `Model::LoadFile` returns `false` with the message of
the sliced exception and leaves the model as it was. -/
theorem Model.LoadFile_parser_failure {F : Type} [LinearOrderedField F] (m : Model F)
    (fs : FileSystem) (path : String) (h : (m.parser_.LoadFile fs path).2.isSome = true) :
    m.LoadFile fs path = Except.ok (m, false, "std::exception") := by
  unfold Model.LoadFile
  rw [Parser.LoadFile_eq] at h ⊢
  split_ifs at h ⊢ with hc
  · simp [Model.catchException, Error.isException]
  · simp at h

/-- When the parser succeeds but the vertex buffer it produced is empty or its
length is not a multiple of 3, `Model::LoadFile` returns `false` after having
replaced `object_data_` by the data of the rejected file. -/
theorem Model.LoadFile_rejected {F : Type} [LinearOrderedField F] (m : Model F)
    (fs : FileSystem) (path : String) (h : (m.parser_.LoadFile fs path).2 = none)
    (hbad : (m.parser_.LoadFile fs path).1.data_.vertices = [] ∨
      (m.parser_.LoadFile fs path).1.data_.vertices.length % 3 ≠ 0) :
    m.LoadFile fs path =
      Except.ok ({ m with
        parser_ := (m.parser_.LoadFile fs path).1
        object_data_ := (m.parser_.LoadFile fs path).1.data_ },
        false, "Invalid input parameters!\n") := by
  unfold Model.LoadFile
  rcases hp : m.parser_.LoadFile fs path with ⟨p1, _ | e⟩
  · rw [hp] at hbad
    simp only at hbad
    have hadd : AffineTransform.AddVertices m.affine_transform_ (some Model.verticesAddr)
        p1.GetData.vertices =
        Except.error ⟨ErrorKind.invalidArgument, "Invalid input parameters!\n"⟩ := by
      unfold AffineTransform.AddVertices Parser.GetData
      rw [if_pos]
      rcases hbad with h0 | h3
      · exact Or.inr (Or.inl (by simp [h0]))
      · exact Or.inr (Or.inr h3)
    simp only [hadd, Model.catchException, Error.isException]
    simp [Parser.GetData]
  · rw [hp] at h
    simp at h

/-- C2. On a path that cannot be opened `Model::LoadFile` returns normally with
`false` and a non-empty message, and the vertices and faces exposed by the
model are those exposed before the call. -/
theorem Model.LoadFile_unopenable {F : Type} [LinearOrderedField F] (m : Model F)
    (fs : FileSystem) (path : String) (h : fs path = none) :
    ∃ m1 msg, m.LoadFile fs path = Except.ok (m1, false, msg) ∧ msg ≠ "" ∧
      m1.GetVertices = m.GetVertices ∧ m1.GetFaces = m.GetFaces := by
  refine ⟨m, "std::exception", ?_, by decide, rfl, rfl⟩
  unfold Model.LoadFile
  rw [Parser.LoadFile_eq, Parser.ReadData_unopenable _ fs path h]
  simp [Model.catchException, Error.isException]


theorem Model.LoadFile_unopenable_witness :
    ∃ m1 msg, pointModel.LoadFile noFiles "tests/files/invalid_file.obj" =
        Except.ok (m1, false, msg) ∧ msg ≠ "" ∧
      m1.GetVertices = pointModel.GetVertices ∧ m1.GetFaces = pointModel.GetFaces :=
  Model.LoadFile_unopenable pointModel noFiles "tests/files/invalid_file.obj" rfl

theorem Model.create_eq {F : Type} [LinearOrderedField F] (T : Trig F)
    (cs : TransformParametrs F) :
    Model.create T cs =
      Except.ok ⟨⟨⟨[], []⟩⟩, ⟨TransformMatrix.fresh, none, ⟨0, 0, 0⟩⟩, ⟨[], []⟩, cs⟩ := by
  simp [Model.create, AffineTransform.create, GeneralTransformMatrix.SetTransformMatrix,
    IsDelta, TransformMatrix.fresh_eq, copyEntries_4x4, bind, Except.bind, pure, Except.pure]

/-- C1, at an input where the code departs from it. A model is created, loads
the one-vertex file (success, geometry `[0, 0, 0]` / `[0, 0]`), then loads a
file that can be opened but holds no vertex line: the second call returns
`false`, and the vertices and faces exposed afterwards are empty, not those of
the first load. With a second file whose vertex line carries four floats the
call returns `false` and the four floats are exposed. -/
theorem Model.LoadFile_rejected_file_replaces_geometry :
    (do
      let m0 ← Model.create noRotation unitState
      let r1 ← m0.LoadFile demoFiles "point.obj"
      let r2 ← r1.1.LoadFile demoFiles "comment.obj"
      pure (r1.2.1, r1.1.GetVertices, r1.1.GetFaces,
        r2.2.1, r2.2.2, r2.1.GetVertices, r2.1.GetFaces)) =
      Except.ok (true, [0, 0, 0], [0, 0], false, "Invalid input parameters!\n", [], []) ∧
    (do
      let m0 ← Model.create noRotation unitState
      let r1 ← m0.LoadFile demoFiles "point.obj"
      let r2 ← r1.1.LoadFile demoFiles "four.obj"
      pure (r1.2.1, r1.1.GetVertices, r1.1.GetFaces,
        r2.2.1, r2.2.2, r2.1.GetVertices, r2.1.GetFaces)) =
      Except.ok (true, [0, 0, 0], [0, 0], false, "Invalid input parameters!\n",
        [1, 2, 3, 4], []) := by
  rw [Model.create_eq]
  constructor
  all_goals
    simp [Model.LoadFile, Parser.LoadFile, Parser.ValidationData, Parser.GetData,
      AffineTransform.AddVertices, Model.ResetTransform, Model.CalculateBoundingBox,
      boundingBoxLoop, normalizeLoop, Model.catchException, Error.isException,
      Model.GetVertices, Model.GetFaces, fltMax,
      Parser.ReadData, demoFiles, fileLines, readLines, getline, newline, skipWs, isSpace,
      ReserveSpace, Parser.readLine, Parser.ParseVertex, Parser.ParseFaces, ParseVertexLoop,
      ParseFacesLoop, IStream.readFloat, exceedsFloat, floatOverflow, IStream.readInt, IStream.readChar, IStream.ofLine,
      IStream.ignore256, isDigit, digitsVal, digitVal, resolveFace, toUInt32, toInt32,
      INT_MAX, INT_MIN, bind, Except.bind, pure, Except.pure]

/-- C4, at an input where the code departs from it. A model is created and
loads a file that can be opened and whose vertex line carries four floats; the
call returns `false` but leaves the four floats in the vertex buffer, and the
loop of `CalculateBoundingBox` then reads index 4 of a buffer of length 4. -/
theorem Model.CalculateBoundingBox_out_of_bounds :
    (do
      let m0 ← Model.create noRotation unitState
      let r1 ← m0.LoadFile demoFiles "four.obj"
      pure (r1.2.1, r1.1.GetVertices.length)) = Except.ok (false, 4) ∧
    (do
      let m0 ← Model.create noRotation unitState
      let r1 ← m0.LoadFile demoFiles "four.obj"
      r1.1.CalculateBoundingBox) = Except.error Error.ub := by
  constructor <;> rfl

/-! ## Face lines -/

theorem isSpace_space : isSpace ' ' = true := by decide

theorem isSpace_of_isDigit {c : Char} (h : isDigit c = true) : isSpace c = false := by
  simp only [isDigit, isSpace, Bool.and_eq_true, decide_eq_true_eq, Bool.or_eq_false_iff,
    beq_eq_false_iff_ne, ne_eq, Bool.and_eq_false_iff, decide_eq_false_iff_not] at *
  omega

theorem skipWs_append (ws : List Char) (c : Char) (r : List Char)
    (hws : ∀ d ∈ ws, isSpace d = true) (hc : isSpace c = false) :
    skipWs (ws ++ c :: r) = c :: r := by
  induction ws with
  | nil => simp [skipWs, List.dropWhile, hc]
  | cons d ws ih =>
    have hd : isSpace d = true := hws d (List.mem_cons_self _ _)
    have := ih (fun e he => hws e (List.mem_cons_of_mem _ he))
    simpa [skipWs, List.dropWhile, hd] using this

theorem skipWs_all (ws : List Char) (hws : ∀ d ∈ ws, isSpace d = true) : skipWs ws = [] := by
  induction ws with
  | nil => rfl
  | cons d ws ih =>
    have hd : isSpace d = true := hws d (List.mem_cons_self _ _)
    have := ih (fun e he => hws e (List.mem_cons_of_mem _ he))
    simpa [skipWs, List.dropWhile, hd] using this

theorem takeWhile_append_of_all {α : Type} (p : α → Bool) (l r : List α)
    (hl : ∀ a ∈ l, p a = true) :
    (l ++ r).takeWhile p = l ++ r.takeWhile p := by
  induction l with
  | nil => rfl
  | cons a l ih =>
    have ha : p a = true := hl a (List.mem_cons_self _ _)
    simp [List.takeWhile, ha, ih (fun b hb => hl b (List.mem_cons_of_mem _ hb))]

theorem dropWhile_append_of_all {α : Type} (p : α → Bool) (l r : List α)
    (hl : ∀ a ∈ l, p a = true) :
    (l ++ r).dropWhile p = r.dropWhile p := by
  induction l with
  | nil => rfl
  | cons a l ih =>
    have ha : p a = true := hl a (List.mem_cons_self _ _)
    simp [List.dropWhile, ha, ih (fun b hb => hl b (List.mem_cons_of_mem _ hb))]

/-- The modular identity behind `resolveFace`: what is pushed for an index
read from the file is its 0-based index as an `unsigned int`. -/
theorem toUInt32_resolveFace (n : Nat) (i : Int) :
    toUInt32 (resolveFace n i - 1) = zeroBased n i := by
  unfold resolveFace zeroBased toUInt32 toInt32
  split_ifs with h
  · congr 1
    omega
  · rfl


theorem not_isDigit_head_of {l : List Char} (h : ∀ c ∈ l.head?, isDigit c = false) :
    l.takeWhile isDigit = [] ∧ l.dropWhile isDigit = l := by
  rcases l with _ | ⟨c, l⟩
  · exact ⟨rfl, rfl⟩
  · have hc : isDigit c = false := h c (by simp)
    simp [List.takeWhile, List.dropWhile, hc]

/-- Reading the integer of a well-formed token: `stream >> face` on white
space, the sign and digits of the token, then text that does not continue the
number. -/
theorem IStream.readInt_token (t : FaceToken) (ht : t.WF) (ws rest : List Char) (old : Int)
    (hws : ∀ d ∈ ws, isSpace d = true) (hrest : ∀ c ∈ rest.head?, isDigit c = false) :
    IStream.readInt ⟨ws ++ (t.sign ++ t.digits ++ rest), false⟩ old =
      (⟨rest, false⟩, t.value, true) := by
  obtain ⟨hsign, hne, hdig, -, -, -, hmin, hmax⟩ := ht
  obtain ⟨hr1, hr2⟩ := not_isDigit_head_of hrest
  have htw : (t.digits ++ rest).takeWhile isDigit = t.digits := by
    rw [takeWhile_append_of_all _ _ _ hdig, hr1, List.append_nil]
  have hdw : (t.digits ++ rest).dropWhile isDigit = rest := by
    rw [dropWhile_append_of_all _ _ _ hdig, hr2]
  obtain ⟨d, ds, hds⟩ : ∃ d ds, t.digits = d :: ds := by
    rcases hq : t.digits with _ | ⟨d, ds⟩
    · exact absurd hq hne
    · exact ⟨d, ds, rfl⟩
  have hd : isDigit d = true := hdig d (by simp [hds])
  have hdsp : isSpace d = false := isSpace_of_isDigit hd
  have hdm : d ≠ '-' := by
    rintro rfl
    exact absurd hd (by decide)
  have hdp : d ≠ '+' := by
    rintro rfl
    exact absurd hd (by decide)
  unfold FaceToken.value at hmin hmax ⊢
  rcases hsign with hs | hs | hs
  · rw [hs] at hmin hmax ⊢
    simp only [List.nil_append]
    have hsk : skipWs (ws ++ (t.digits ++ rest)) = d :: (ds ++ rest) := by
      rw [hds]
      exact skipWs_append ws d (ds ++ rest) hws hdsp
    have htw2 : (d :: (ds ++ rest)).takeWhile isDigit = d :: ds := by
      rw [← List.cons_append, ← hds]
      exact htw
    have hdw2 : (d :: (ds ++ rest)).dropWhile isDigit = rest := by
      rw [← List.cons_append, ← hds]
      exact hdw
    simp only [IStream.readInt, hsk, Bool.false_eq_true, if_false]
    simp [hdm, hdp, htw2, hdw2, ← hds] at hmin hmax ⊢
    simp [not_lt.mpr hmin, not_lt.mpr hmax, hne]
  · rw [hs] at hmin hmax ⊢
    have hsk : skipWs (ws ++ (['-'] ++ t.digits ++ rest)) = '-' :: (t.digits ++ rest) := by
      simpa using skipWs_append ws '-' (t.digits ++ rest) hws (by decide)
    simp only [IStream.readInt, hsk, Bool.false_eq_true, if_false]
    simp [htw, hdw, hne] at hmin hmax ⊢
    simp [not_lt.mpr hmin, not_lt.mpr hmax]
  · rw [hs] at hmin hmax ⊢
    have hsk : skipWs (ws ++ (['+'] ++ t.digits ++ rest)) = '+' :: (t.digits ++ rest) := by
      simpa using skipWs_append ws '+' (t.digits ++ rest) hws (by decide)
    simp only [IStream.readInt, hsk, Bool.false_eq_true, if_false]
    simp [htw, hdw, hne] at hmin hmax ⊢
    simp [not_lt.mpr hmin, not_lt.mpr hmax]


theorem IStream.ignore256_suffix (suffix X : List Char) (hno : ∀ c ∈ suffix, c ≠ ' ')
    (hlen : suffix.length ≤ 256) :
    IStream.ignore256 ⟨suffix ++ X, false⟩ =
      (match X.drop ((X.take (256 - suffix.length)).takeWhile (fun c => c != ' ')).length with
        | [] => ⟨[], false⟩
        | c :: rest => if c == ' ' then ⟨rest, false⟩ else ⟨c :: rest, false⟩) := by
  have hp : ∀ c ∈ suffix, (fun c : Char => c != ' ') c = true := by
    intro c hc
    simpa using hno c hc
  have h1 : (suffix ++ X).take 256 = suffix ++ X.take (256 - suffix.length) := by
    rw [List.take_append_eq_append_take, List.take_of_length_le hlen]
  have h2 : (((suffix ++ X).take 256).takeWhile (fun c => c != ' ')).length =
      suffix.length + ((X.take (256 - suffix.length)).takeWhile (fun c => c != ' ')).length := by
    rw [h1, takeWhile_append_of_all _ _ _ hp, List.length_append]
  simp only [IStream.ignore256, Bool.false_eq_true, if_false, h2]
  rw [← List.drop_drop, List.drop_left]

/-- After the integer of a token has been read, `ignore(256, ' ')` discards the
rest of the token and the space behind it: what remains is white space
followed by the next token on. -/
theorem IStream.ignore256_token (t : FaceToken) (ht : t.WF) (tr : List Char)
    (htr : ∀ c ∈ tr, isSpace c = true) (ts : List FaceToken) :
    ∃ ws : List Char, (∀ c ∈ ws, isSpace c = true) ∧
      IStream.ignore256 ⟨t.suffix ++ faceTail tr ts, false⟩ =
        ⟨ws ++ pendingTokens tr ts, false⟩ := by
  obtain ⟨-, -, -, -, hno, hlen, -, -⟩ := ht
  rw [IStream.ignore256_suffix _ _ hno hlen]
  rcases ts with _ | ⟨t2, ts⟩
  · simp only [faceTail, pendingTokens, List.append_nil]
    generalize hj : ((tr.take (256 - t.suffix.length)).takeWhile (fun c => c != ' ')).length = j
    have hsub : ∀ c ∈ tr.drop j, isSpace c = true :=
      fun c hc => htr c (List.mem_of_mem_drop hc)
    rcases hd : tr.drop j with _ | ⟨c, rest⟩
    · exact ⟨[], by simp, rfl⟩
    · rw [hd] at hsub
      by_cases hc : c = ' '
      · refine ⟨rest, fun e he => hsub e (List.mem_cons_of_mem _ he), ?_⟩
        simp [hc]
      · refine ⟨c :: rest, hsub, ?_⟩
        simp [hc]
  · refine ⟨List.replicate t2.gap ' ', ?_, ?_⟩
    · intro c hc
      rw [List.eq_of_mem_replicate hc]
      exact isSpace_space
    · have h0 : faceTail tr (t2 :: ts) =
          ' ' :: (List.replicate t2.gap ' ' ++ pendingTokens tr (t2 :: ts)) := by
        simp [faceTail, pendingTokens, List.replicate_succ]
      rw [h0]
      have h1 : ((List.take (256 - t.suffix.length)
          (' ' :: (List.replicate t2.gap ' ' ++ pendingTokens tr (t2 :: ts)))).takeWhile
            (fun c => c != ' ')).length = 0 := by
        rcases hk : 256 - t.suffix.length with _ | k
        · simp
        · simp [List.take, List.takeWhile]
      rw [h1]
      simp


theorem isDigit_of_isSpace {c : Char} (h : isSpace c = true) : isDigit c = false := by
  cases hd : isDigit c
  · rfl
  · rw [isSpace_of_isDigit hd] at h
    exact absurd h (by decide)

theorem faceTail_head (tr : List Char) (htr : ∀ c ∈ tr, isSpace c = true)
    (ts : List FaceToken) : ∀ c ∈ (faceTail tr ts).head?, isSpace c = true := by
  rcases ts with _ | ⟨t2, ts⟩
  · intro c hc
    exact htr c (List.mem_of_mem_head? hc)
  · intro c hc
    simp [faceTail, List.replicate_succ] at hc
    rw [← hc]
    exact isSpace_space

theorem suffix_faceTail_head (t : FaceToken) (ht : t.WF) (tr : List Char)
    (htr : ∀ c ∈ tr, isSpace c = true) (ts : List FaceToken) :
    ∀ c ∈ (t.suffix ++ faceTail tr ts).head?, isDigit c = false := by
  obtain ⟨-, -, -, hsuf, -, -, -, -⟩ := ht
  rcases hs : t.suffix with _ | ⟨s, suf⟩
  · intro c hc
    simp only [List.nil_append] at hc
    exact isDigit_of_isSpace (faceTail_head tr htr ts c hc)
  · rw [hs] at hsuf
    intro c hc
    simp at hsuf hc
    rw [← hc]
    exact hsuf

theorem length_le_pendingTokens (tr : List Char) (ts : List FaceToken)
    (hts : ∀ t ∈ ts, t.WF) : ts.length ≤ (pendingTokens tr ts).length := by
  have key : ∀ ts : List FaceToken, (∀ t ∈ ts, t.WF) →
      ts.length ≤ (faceTail tr ts).length := by
    intro ts
    induction ts with
    | nil => intro _; simp
    | cons t ts ih =>
      intro h
      have := ih (fun u hu => h u (List.mem_cons_of_mem _ hu))
      simp only [faceTail, List.length_append, List.length_cons, List.length_replicate]
      omega
  rcases ts with _ | ⟨t, ts⟩
  · simp
  · have h1 := key ts (fun u hu => hts u (List.mem_cons_of_mem _ hu))
    obtain ⟨-, hne, -⟩ := hts t (List.mem_cons_self _ _)
    have h2 : 0 < t.digits.length := List.length_pos.mpr hne
    simp only [pendingTokens, FaceToken.text, List.length_append, List.length_cons]
    omega

/-- The loop of `ParseFaces` over the remaining tokens of a well-formed face
line pushes the 0-based index of every token twice. -/
theorem ParseFacesLoop_tokens (n : Nat) (tr : List Char)
    (htr : ∀ c ∈ tr, isSpace c = true) :
    ∀ (ts : List FaceToken), (∀ t ∈ ts, t.WF) →
      ∀ (fuel : Nat) (ws : List Char) (old : Int) (faces : List Nat),
        ts.length < fuel → (∀ c ∈ ws, isSpace c = true) →
        ParseFacesLoop n fuel ⟨ws ++ pendingTokens tr ts, false⟩ old faces =
          faces ++ ts.flatMap (fun t => [zeroBased n t.value, zeroBased n t.value]) := by
  intro ts
  induction ts with
  | nil =>
    intro _ fuel ws old faces hfuel hws
    obtain ⟨f, rfl⟩ : ∃ f, fuel = f + 1 := ⟨fuel - 1, by omega⟩
    simp [ParseFacesLoop, pendingTokens, IStream.readInt, skipWs_all ws hws]
  | cons t ts ih =>
    intro hts fuel ws old faces hfuel hws
    obtain ⟨f, rfl⟩ : ∃ f, fuel = f + 1 := ⟨fuel - 1, by omega⟩
    have ht : t.WF := hts t (List.mem_cons_self _ _)
    have hts2 : ∀ u ∈ ts, u.WF := fun u hu => hts u (List.mem_cons_of_mem _ hu)
    have hread := IStream.readInt_token t ht ws (t.suffix ++ faceTail tr ts) old hws
      (suffix_faceTail_head t ht tr htr ts)
    obtain ⟨ws2, hws2, hign⟩ := IStream.ignore256_token t ht tr htr ts
    have hbuf : ws ++ pendingTokens tr (t :: ts) =
        ws ++ (t.sign ++ t.digits ++ (t.suffix ++ faceTail tr ts)) := by
      simp [pendingTokens, FaceToken.text]
    rw [hbuf]
    simp only [ParseFacesLoop, hread, hign]
    rw [ih hts2 f ws2 _ _ (by simpa using hfuel) hws2, toUInt32_resolveFace]
    simp


theorem flattenEdges_zip_closing (rs : List Nat) :
    ∀ a c : Nat, flattenEdges ((a :: rs).zip (rs ++ [c])) =
      a :: rs.flatMap (fun x => [x, x]) ++ [c] := by
  induction rs with
  | nil => intro a c; simp [flattenEdges]
  | cons r rs ih =>
    intro a c
    have h := ih r c
    simp only [flattenEdges, List.cons_append, List.zip_cons_cons, List.flatMap_cons] at h ⊢
    rw [h]
    simp

theorem length_flatMap_pair {α : Type} (f : α → Nat) (l : List α) :
    (l.flatMap fun t => [f t, f t]).length = 2 * l.length := by
  induction l with
  | nil => rfl
  | cons a l ih =>
    simp only [List.flatMap_cons, List.length_append, List.length_cons, List.length_nil, ih]
    omega

theorem flattenEdges_polygonEdges (r : Nat) (rs : List Nat) :
    flattenEdges (polygonEdges (r :: rs)) = r :: rs.flatMap (fun x => [x, x]) ++ [r] := by
  have h := flattenEdges_zip_closing rs r r
  simpa [polygonEdges] using h

theorem Parser.ParseFaces_tokens {F : Type} (p : Parser F) (t1 : FaceToken)
    (ts : List FaceToken) (trailing : List Char) (hwf : ∀ t ∈ t1 :: ts, t.WF)
    (htr : ∀ c ∈ trailing, isSpace c = true) :
    p.ParseFaces (faceLine (t1 :: ts) trailing) =
      { data_ := { p.data_ with
          faces := p.data_.faces ++
            (zeroBased (p.data_.vertices.length / 3) t1.value ::
              ts.flatMap (fun t => [zeroBased (p.data_.vertices.length / 3) t.value,
                zeroBased (p.data_.vertices.length / 3) t.value]) ++
              [zeroBased (p.data_.vertices.length / 3) t1.value]) } } := by
  have ht1 : t1.WF := hwf t1 (List.mem_cons_self _ _)
  have hts : ∀ u ∈ ts, u.WF := fun u hu => hwf u (List.mem_cons_of_mem _ hu)
  have hchar : (IStream.ofLine (faceLine (t1 :: ts) trailing)).readChar =
      ⟨List.replicate (t1.gap + 1) ' ' ++
        (t1.sign ++ t1.digits ++ (t1.suffix ++ faceTail trailing ts)), false⟩ := by
    have hsk : skipWs ('f' :: faceTail trailing (t1 :: ts)) =
        'f' :: faceTail trailing (t1 :: ts) := by
      simpa using skipWs_append [] 'f' (faceTail trailing (t1 :: ts)) (by simp) (by decide)
    unfold IStream.ofLine IStream.readChar faceLine
    simp only [Bool.false_eq_true, if_false, hsk]
    simp [faceTail, FaceToken.text]
  have hws : ∀ c ∈ List.replicate (t1.gap + 1) ' ', isSpace c = true := by
    intro c hc
    rw [List.eq_of_mem_replicate hc]
    exact isSpace_space
  have hread := IStream.readInt_token t1 ht1 (List.replicate (t1.gap + 1) ' ')
    (t1.suffix ++ faceTail trailing ts) 0 hws (suffix_faceTail_head t1 ht1 trailing htr ts)
  obtain ⟨ws2, hws2, hign⟩ := IStream.ignore256_token t1 ht1 trailing htr ts
  have hfuel : ts.length < (ws2 ++ pendingTokens trailing ts).length + 1 := by
    have := length_le_pendingTokens trailing ts hts
    simp only [List.length_append]
    omega
  unfold Parser.ParseFaces
  simp only [hchar, hread, hign]
  rw [ParseFacesLoop_tokens _ trailing htr ts hts _ ws2 _ _ hfuel hws2, toUInt32_resolveFace]
  simp

theorem Parser.ParseFaces_faces_edges {F : Type} (p : Parser F) (t1 : FaceToken)
    (ts : List FaceToken) (trailing : List Char) (hwf : ∀ t ∈ t1 :: ts, t.WF)
    (htr : ∀ c ∈ trailing, isSpace c = true) :
    (p.ParseFaces (faceLine (t1 :: ts) trailing)).data_.faces =
      p.data_.faces ++ flattenEdges (polygonEdges
        ((t1 :: ts).map fun t => zeroBased (p.data_.vertices.length / 3) t.value)) := by
  rw [Parser.ParseFaces_tokens p t1 ts trailing hwf htr]
  simp only [List.map_cons, flattenEdges_polygonEdges, List.flatMap_map]

theorem Parser.ParseFaces_faces_length {F : Type} (p : Parser F) (t1 : FaceToken)
    (ts : List FaceToken) (trailing : List Char) (hwf : ∀ t ∈ t1 :: ts, t.WF)
    (htr : ∀ c ∈ trailing, isSpace c = true) :
    (p.ParseFaces (faceLine (t1 :: ts) trailing)).data_.faces.length =
      p.data_.faces.length + 2 * (t1 :: ts).length := by
  rw [Parser.ParseFaces_tokens p t1 ts trailing hwf htr]
  simp only [List.length_append, List.length_cons, length_flatMap_pair, List.length_nil]
  omega

/-- C5. For a face line `f t1 t2 ... tN` (`N >= 1`) of well-formed tokens with
integers `i1 ... iN`, `ParseFaces` appends to the face buffer exactly the `2N`
entries `r1, r2, r2, ..., rN, rN, r1`, where `rk` is the 0-based index of `ik`:
the endpoints of the edges `(r1, r2), ..., (rN, r1)` of the closed polygon. The
vertex buffer is not touched. -/
theorem Parser.ParseFaces_edge_list {F : Type} (p : Parser F) (t1 : FaceToken)
    (ts : List FaceToken) (trailing : List Char) (hwf : ∀ t ∈ t1 :: ts, t.WF)
    (htr : ∀ c ∈ trailing, isSpace c = true) :
    (p.ParseFaces (faceLine (t1 :: ts) trailing)).data_.faces =
      p.data_.faces ++
        (zeroBased (p.data_.vertices.length / 3) t1.value ::
          ts.flatMap (fun t => [zeroBased (p.data_.vertices.length / 3) t.value,
            zeroBased (p.data_.vertices.length / 3) t.value]) ++
          [zeroBased (p.data_.vertices.length / 3) t1.value]) ∧
    (p.ParseFaces (faceLine (t1 :: ts) trailing)).data_.faces =
      p.data_.faces ++ flattenEdges (polygonEdges
        ((t1 :: ts).map fun t => zeroBased (p.data_.vertices.length / 3) t.value)) ∧
    (p.ParseFaces (faceLine (t1 :: ts) trailing)).data_.faces.length =
      p.data_.faces.length + 2 * (t1 :: ts).length ∧
    (p.ParseFaces (faceLine (t1 :: ts) trailing)).data_.vertices = p.data_.vertices := by
  refine ⟨?_, Parser.ParseFaces_faces_edges p t1 ts trailing hwf htr,
    Parser.ParseFaces_faces_length p t1 ts trailing hwf htr, ?_⟩
  · rw [Parser.ParseFaces_tokens p t1 ts trailing hwf htr]
  · rw [Parser.ParseFaces_tokens p t1 ts trailing hwf htr]

theorem Parser.ParseFaces_edge_list_witness :
    (∀ t ∈ demoTokens, t.WF) ∧
    faceLine demoTokens [carriageReturn] = "f 1/1/1 2/2/2  -1//7".toList ++ [carriageReturn] ∧
    (threeVertexParser.ParseFaces (faceLine demoTokens [carriageReturn])).data_.faces =
      [0, 1, 1, 2, 2, 0] :=
  ⟨by decide, by decide,
    (Parser.ParseFaces_edge_list threeVertexParser ⟨0, [], ['1'], ['/', '1', '/', '1']⟩
      [⟨0, [], ['2'], ['/', '2', '/', '2']⟩, ⟨1, ['-'], ['1'], ['/', '/', '7']⟩]
      [carriageReturn] (by decide) (by decide)).1.trans (by decide)⟩

theorem ParseFacesLoop_prefix (n : Nat) :
    ∀ (fuel : Nat) (s : IStream) (old : Int) (faces : List Nat),
      ∃ more, ParseFacesLoop n fuel s old faces = faces ++ more := by
  intro fuel
  induction fuel with
  | zero => intro s old faces; exact ⟨[], by simp [ParseFacesLoop]⟩
  | succ f ih =>
    intro s old faces
    rcases hr : s.readInt old with ⟨s1, face, ok⟩
    cases ok
    · exact ⟨[], by simp [ParseFacesLoop, hr]⟩
    · obtain ⟨more, hmore⟩ := ih s1.ignore256 (resolveFace n face)
        (faces ++ [toUInt32 (resolveFace n face - 1), toUInt32 (resolveFace n face - 1)])
      refine ⟨[toUInt32 (resolveFace n face - 1), toUInt32 (resolveFace n face - 1)] ++ more, ?_⟩
      simp only [ParseFacesLoop, hr, hmore, List.append_assoc]

theorem Parser.ParseFaces_faces_prefix {F : Type} (p : Parser F) (line : List Char) :
    ∃ more, (p.ParseFaces line).data_.faces = p.data_.faces ++ more := by
  obtain ⟨more, hmore⟩ := ParseFacesLoop_prefix (p.data_.vertices.length / 3)
    (((((IStream.ofLine line).readChar).readInt 0).1.ignore256).buf.length + 1)
    ((((IStream.ofLine line).readChar).readInt 0).1.ignore256) 0
    (p.data_.faces ++
      [toUInt32 (resolveFace (p.data_.vertices.length / 3)
        (((IStream.ofLine line).readChar).readInt 0).2.1 - 1)])
  exact ⟨[toUInt32 (resolveFace (p.data_.vertices.length / 3)
      (((IStream.ofLine line).readChar).readInt 0).2.1 - 1)] ++ more ++
    [toUInt32 (resolveFace (p.data_.vertices.length / 3)
      (((IStream.ofLine line).readChar).readInt 0).2.1 - 1)],
    by simp only [Parser.ParseFaces, hmore, List.append_assoc]⟩

theorem Parser.readLine_faces_prefix {F : Type} [Field F] (p : Parser F) (line : List Char) :
    ∃ more, (p.readLine line).data_.faces = p.data_.faces ++ more := by
  unfold Parser.readLine
  split_ifs with h1 h2 h3 h4
  · exact ⟨[], by simp⟩
  · obtain ⟨more, hmore⟩ := Parser.ParseFaces_faces_prefix (p.ParseVertex line) line
    exact ⟨more, by rw [hmore]; rfl⟩
  · exact ⟨[], by simp [Parser.ParseVertex]⟩
  · exact Parser.ParseFaces_faces_prefix p line
  · exact ⟨[], by simp⟩

theorem Parser.foldl_readLine_faces_prefix {F : Type} [Field F] (lines : List (List Char)) :
    ∀ p : Parser F, ∃ more, (lines.foldl Parser.readLine p).data_.faces = p.data_.faces ++ more := by
  induction lines with
  | nil => intro p; exact ⟨[], by simp⟩
  | cons line lines ih =>
    intro p
    obtain ⟨m1, h1⟩ := Parser.readLine_faces_prefix p line
    obtain ⟨m2, h2⟩ := ih (p.readLine line)
    exact ⟨m1 ++ m2, by simp only [List.foldl_cons, h2, h1, List.append_assoc]⟩

theorem Parser.readLine_faceLine {F : Type} [Field F] (p : Parser F) (ts : List FaceToken)
    (tr : List Char) : p.readLine (faceLine ts tr) = p.ParseFaces (faceLine ts tr) := by
  simp [Parser.readLine, faceLine]

theorem zeroBased_negative (n : Nat) (i : Int) (hn : n ≤ 4294967296)
    (hlo : -(n : Int) ≤ i) (hhi : i ≤ -1) : zeroBased n i = ((n : Int) + i).toNat := by
  unfold zeroBased toUInt32
  rw [if_pos (by omega)]
  congr 1
  omega

/-- C6. A negative index `k` of a face line, with `-n <= k <= -1` for the number
`n` of vertices read before that line (`n` within the range of
`unsigned int`), is pushed as the 0-based index `n + k`: whatever lines follow
in the file, the face buffer continues, after what was there when the line is
reached, with the edge list over the indices `n + k`. -/
theorem Parser.negative_index_relative {F : Type} [Field F] (p : Parser F)
    (pre post : List (List Char)) (t1 : FaceToken) (ts : List FaceToken)
    (trailing : List Char) (n : Nat)
    (hn : n = (pre.foldl Parser.readLine p).data_.vertices.length / 3)
    (hbound : n ≤ 4294967296)
    (hwf : ∀ t ∈ t1 :: ts, t.WF) (htr : ∀ c ∈ trailing, isSpace c = true)
    (hneg : ∀ t ∈ t1 :: ts, -(n : Int) ≤ t.value ∧ t.value ≤ -1) :
    ∃ more, ((pre ++ faceLine (t1 :: ts) trailing :: post).foldl Parser.readLine p).data_.faces =
      (pre.foldl Parser.readLine p).data_.faces ++
        flattenEdges (polygonEdges ((t1 :: ts).map fun t => ((n : Int) + t.value).toNat)) ++
        more := by
  obtain ⟨more, hmore⟩ := Parser.foldl_readLine_faces_prefix post
    ((pre.foldl Parser.readLine p).readLine (faceLine (t1 :: ts) trailing))
  refine ⟨more, ?_⟩
  rw [List.foldl_append, List.foldl_cons, hmore, Parser.readLine_faceLine,
    Parser.ParseFaces_faces_edges _ t1 ts trailing hwf htr, ← hn]
  have hmap : ((t1 :: ts).map fun t => zeroBased n t.value) =
      ((t1 :: ts).map fun t => ((n : Int) + t.value).toNat) := by
    apply List.map_congr_left
    intro t ht
    exact zeroBased_negative n t.value hbound (hneg t ht).1 (hneg t ht).2
  rw [hmap]

theorem Parser.negative_index_relative_witness :
    ∃ more, ((fourVertexLines ++ faceLine negativeTokens [] :: ["v 2 2 2".toList]).foldl
        Parser.readLine (Parser.cleared : Parser ℚ)).data_.faces =
      (fourVertexLines.foldl Parser.readLine (Parser.cleared : Parser ℚ)).data_.faces ++
        flattenEdges (polygonEdges [3, 2, 1]) ++ more :=
  Parser.negative_index_relative (Parser.cleared : Parser ℚ) fourVertexLines ["v 2 2 2".toList]
    ⟨0, ['-'], ['1'], []⟩ [⟨0, ['-'], ['2'], []⟩, ⟨0, ['-'], ['3'], []⟩] [] 4
    (by rfl) (by decide) (by decide) (by decide) (by decide)


theorem Parser.readLine_faces_of_not_face {F : Type} [Field F] (p : Parser F)
    (line : List Char) (h : line.head? ≠ some 'f') :
    (p.readLine line).data_.faces = p.data_.faces := by
  unfold Parser.readLine
  have h2 : (line.head? == some 'f') = false := by simpa using h
  split_ifs <;> simp_all [Parser.ParseVertex]

theorem Parser.foldl_readLine_faces_length {F : Type} [Field F] (k : Nat)
    (lines : List (List Char))
    (h : ∀ line ∈ lines, line.head? = some 'f' →
      ∃ t1 ts tr, (t1 :: ts).length = k ∧ (∀ t ∈ t1 :: ts, t.WF) ∧
        (∀ c ∈ tr, isSpace c = true) ∧ line = faceLine (t1 :: ts) tr) :
    ∀ p : Parser F, (lines.foldl Parser.readLine p).data_.faces.length =
      p.data_.faces.length + 2 * k * (lines.filter fun l => l.head? == some 'f').length := by
  induction lines with
  | nil => intro p; simp
  | cons line lines ih =>
    intro p
    have ih2 := ih (fun l hl => h l (List.mem_cons_of_mem _ hl)) (p.readLine line)
    rw [List.foldl_cons, ih2]
    by_cases hf : line.head? = some 'f'
    · obtain ⟨t1, ts, tr, hk, hwf, htr, rfl⟩ := h line (List.mem_cons_self _ _) hf
      rw [Parser.readLine_faceLine, Parser.ParseFaces_faces_length p t1 ts tr hwf htr, hk,
        List.filter_cons_of_pos (by simpa using hf), List.length_cons]
      ring
    · rw [Parser.readLine_faces_of_not_face p line hf,
        List.filter_cons_of_neg (by simpa using hf)]

/-- C8, as amended. A file whose face lines each list `k` vertex indices yields
`2 * k` face entries per face line: a cube file with 6 quad faces yields
exactly 48 entries, and 72 entries are what 12 triangular faces yield. -/
theorem Parser.ReadData_face_count {F : Type} [Field F] (fs : FileSystem) (path : String)
    (content : List Char) (k count : Nat) (hopen : fs path = some content)
    (hv : ['v'] ∉ fileLines content)
    (hcount : ((fileLines content).filter fun l => l.head? == some 'f').length = count)
    (hfaces : ∀ line ∈ fileLines content, line.head? = some 'f' →
      ∃ t1 ts tr, (t1 :: ts).length = k ∧ (∀ t ∈ t1 :: ts, t.WF) ∧
        (∀ c ∈ tr, isSpace c = true) ∧ line = faceLine (t1 :: ts) tr) :
    ((Parser.cleared : Parser F).ReadData fs path).2 = none ∧
    ((Parser.cleared : Parser F).ReadData fs path).1.data_.faces.length = 2 * k * count ∧
    (k = 4 → count = 6 →
      ((Parser.cleared : Parser F).ReadData fs path).1.data_.faces.length = 48) ∧
    (k = 3 → count = 12 →
      ((Parser.cleared : Parser F).ReadData fs path).1.data_.faces.length = 72) := by
  have hok : ∃ c, ReserveSpace (fileLines content) (0, 0) = Except.ok c := by
    rcases hr : ReserveSpace (fileLines content) (0, 0) with e | c
    · exact absurd ((ReserveSpace_error_iff _ _).mp ⟨e, hr⟩) hv
    · exact ⟨c, rfl⟩
  obtain ⟨c, hc⟩ := hok
  have hlen := Parser.foldl_readLine_faces_length k (fileLines content) hfaces
    (Parser.cleared : Parser F)
  have hrd : (Parser.cleared : Parser F).ReadData fs path =
      ((fileLines content).foldl Parser.readLine Parser.cleared, none) := by
    unfold Parser.ReadData
    rw [hopen]
    dsimp only
    rw [hc]
  rw [hrd]
  have h0 : (Parser.cleared : Parser F).data_.faces.length = 0 := rfl
  rw [h0, hcount] at hlen
  refine ⟨rfl, by simpa using hlen, ?_, ?_⟩
  · rintro rfl rfl
    simpa using hlen
  · rintro rfl rfl
    simpa using hlen

set_option maxRecDepth 8000

theorem fileLines_cubeQuads : fileLines cubeQuads =
    ["v 1 1 -1".toList, "v 1 -1 -1".toList, "v 1 1 1".toList, "v 1 -1 1".toList,
      "v -1 1 -1".toList, "v -1 -1 -1".toList, "v -1 1 1".toList, "v -1 -1 1".toList,
      faceLine [digitToken '1', digitToken '5', digitToken '7', digitToken '3'] [],
      faceLine [digitToken '4', digitToken '3', digitToken '7', digitToken '8'] [],
      faceLine [digitToken '8', digitToken '7', digitToken '5', digitToken '6'] [],
      faceLine [digitToken '6', digitToken '2', digitToken '4', digitToken '8'] [],
      faceLine [digitToken '2', digitToken '1', digitToken '3', digitToken '4'] [],
      faceLine [digitToken '6', digitToken '5', digitToken '1', digitToken '2'] []] := by
  decide

theorem Parser.ReadData_face_count_witness :
    ((Parser.cleared : Parser ℚ).ReadData cubeFiles "cube_quads.obj").2 = none ∧
    ((Parser.cleared : Parser ℚ).ReadData cubeFiles "cube_quads.obj").1.data_.faces.length =
      48 :=
  have h := Parser.ReadData_face_count (F := ℚ) cubeFiles "cube_quads.obj" cubeQuads 4 6 rfl
    (by decide) (by decide)
    (by
      intro line hl hf
      rw [fileLines_cubeQuads] at hl
      simp only [List.mem_cons, List.mem_singleton, List.not_mem_nil, or_false] at hl
      rcases hl with rfl | rfl | rfl | rfl | rfl | rfl | rfl | rfl | rfl | rfl | rfl | rfl |
        rfl | rfl
      · exact absurd hf (by decide)
      · exact absurd hf (by decide)
      · exact absurd hf (by decide)
      · exact absurd hf (by decide)
      · exact absurd hf (by decide)
      · exact absurd hf (by decide)
      · exact absurd hf (by decide)
      · exact absurd hf (by decide)
      · exact ⟨digitToken '1', [digitToken '5', digitToken '7', digitToken '3'], [], rfl,
          by decide, by decide, rfl⟩
      · exact ⟨digitToken '4', [digitToken '3', digitToken '7', digitToken '8'], [], rfl,
          by decide, by decide, rfl⟩
      · exact ⟨digitToken '8', [digitToken '7', digitToken '5', digitToken '6'], [], rfl,
          by decide, by decide, rfl⟩
      · exact ⟨digitToken '6', [digitToken '2', digitToken '4', digitToken '8'], [], rfl,
          by decide, by decide, rfl⟩
      · exact ⟨digitToken '2', [digitToken '1', digitToken '3', digitToken '4'], [], rfl,
          by decide, by decide, rfl⟩
      · exact ⟨digitToken '6', [digitToken '5', digitToken '1', digitToken '2'], [], rfl,
          by decide, by decide, rfl⟩)
  ⟨h.1, h.2.1⟩

/-- C8, as stated, fails: the cube file with 8 vertices and 6 quad faces loads
successfully and its face list has 48 entries, not 72. -/
theorem Parser.cube_quads_not_72 :
    ((Parser.cleared : Parser ℚ).LoadFile cubeFiles "cube_quads.obj").2 = none ∧
    ((Parser.cleared : Parser ℚ).LoadFile cubeFiles "cube_quads.obj").1.GetData.vertices.length =
      3 * 8 ∧
    ((Parser.cleared : Parser ℚ).LoadFile cubeFiles "cube_quads.obj").1.GetData.faces.length =
      48 ∧
    ((Parser.cleared : Parser ℚ).LoadFile cubeFiles "cube_quads.obj").1.GetData.faces.length ≠
      72 := by
  decide

theorem Parser.cube_triangles_72 :
    ((Parser.cleared : Parser ℚ).LoadFile cubeFiles "cube.obj").1.GetData.faces =
      [4, 2, 2, 0, 0, 4, 2, 7, 7, 3, 3, 2, 6, 5, 5, 7, 7, 6, 1, 7, 7, 5, 5, 1,
       0, 3, 3, 1, 1, 0, 4, 1, 1, 5, 5, 4, 4, 6, 6, 2, 2, 4, 2, 6, 6, 7, 7, 2,
       6, 4, 4, 5, 5, 6, 1, 3, 3, 7, 7, 1, 0, 2, 2, 3, 3, 0, 4, 0, 0, 1, 1, 4] := by
  decide


/-! ## The iteration bounds are never reached -/

theorem skipWs_length_le (s : List Char) : (skipWs s).length ≤ s.length := by
  unfold skipWs
  exact (List.dropWhile_sublist isSpace).length_le

theorem length_takeWhile_add_dropWhile {α : Type} (p : α → Bool) (l : List α) :
    (l.takeWhile p).length + (l.dropWhile p).length = l.length := by
  rw [← List.length_append, List.takeWhile_append_dropWhile]

/-- A successful `stream >> face` consumes at least one character. -/
theorem IStream.readInt_length_lt (s s1 : IStream) (old v : Int)
    (h : s.readInt old = (s1, v, true)) : s1.buf.length < s.buf.length := by
  unfold IStream.readInt at h
  split_ifs at h with hf
  · simp at h
  · split at h
    · simp at h
    · rename_i c rest hsk
      have hle := skipWs_length_le s.buf
      rw [hsk] at hle
      simp only at h
      generalize hbd : (if (c == '-' || c == '+') = true then rest else c :: rest) = body at h
      have hbody : body.length ≤ (c :: rest).length := by
        rw [← hbd]
        split_ifs <;> simp
      have hsum := length_takeWhile_add_dropWhile isDigit body
      by_cases hds : body.takeWhile isDigit = []
      · simp [hds] at h
      · have hpos : 0 < (body.takeWhile isDigit).length := List.length_pos.mpr hds
        simp only [hds, if_false] at h
        split_ifs at h <;> simp at h <;>
          (obtain ⟨h, -⟩ := h
           subst h
           simp only [List.length_cons] at hle hbody
           simp only
           omega)

theorem IStream.ignore256_length_le (s : IStream) : s.ignore256.buf.length ≤ s.buf.length := by
  unfold IStream.ignore256
  split_ifs with hf
  · exact Nat.le_refl _
  · simp only
    have hd := List.length_drop
      ((s.buf.take 256).takeWhile fun c => c != ' ').length s.buf
    split
    · simp
    · rename_i c rest hdrop
      rw [hdrop] at hd
      simp only [List.length_cons] at hd
      split_ifs <;> simp only [List.length_cons] <;> omega

/-- The bound on the iterations of the loop of `ParseFaces` is never reached:
any two bounds above the number of unread characters give the same result. -/
theorem ParseFacesLoop_fuel (n : Nat) :
    ∀ (fuel1 fuel2 : Nat) (s : IStream) (old : Int) (faces : List Nat),
      s.buf.length < fuel1 → s.buf.length < fuel2 →
      ParseFacesLoop n fuel1 s old faces = ParseFacesLoop n fuel2 s old faces := by
  intro fuel1
  induction fuel1 with
  | zero => intro fuel2 s old faces h1; exact absurd h1 (Nat.not_lt_zero _)
  | succ f ih =>
    intro fuel2 s old faces h1 h2
    obtain ⟨g, rfl⟩ : ∃ g, fuel2 = g + 1 := ⟨fuel2 - 1, by omega⟩
    rcases hr : s.readInt old with ⟨s1, face, ok⟩
    cases ok
    · simp only [ParseFacesLoop, hr]
    · have hlt := IStream.readInt_length_lt s s1 old face hr
      have hle := IStream.ignore256_length_le s1
      simp only [ParseFacesLoop, hr]
      exact ih g _ _ _ (by omega) (by omega)


theorem getline_length_lt (src line rest : List Char) (h : getline src = some (line, rest)) :
    rest.length < src.length := by
  unfold getline at h
  have hle := skipWs_length_le src
  split at h
  · simp at h
  · rename_i c cs hsk
    rw [hsk] at hle
    simp only [Option.some.injEq, Prod.mk.injEq] at h
    obtain ⟨-, h⟩ := h
    subst h
    have hd : ((c :: cs).dropWhile fun d => d != newline).length ≤ (c :: cs).length :=
      (List.dropWhile_sublist _).length_le
    simp only [List.length_drop, List.length_cons] at hd hle ⊢
    omega

/-- The bound on the iterations of the line loop is never reached. -/
theorem readLines_fuel :
    ∀ (fuel1 fuel2 : Nat) (src : List Char), src.length < fuel1 → src.length < fuel2 →
      readLines fuel1 src = readLines fuel2 src := by
  intro fuel1
  induction fuel1 with
  | zero => intro fuel2 src h1; exact absurd h1 (Nat.not_lt_zero _)
  | succ f ih =>
    intro fuel2 src h1 h2
    obtain ⟨g, rfl⟩ : ∃ g, fuel2 = g + 1 := ⟨fuel2 - 1, by omega⟩
    rcases hg : getline src with _ | ⟨line, rest⟩
    · simp only [readLines, hg]
    · have hlt := getline_length_lt src line rest hg
      simp only [readLines, hg]
      rw [ih g rest (by omega) (by omega)]

/-- Every line the parser sees starts with a character that is not white
space. -/
theorem getline_head (src line rest : List Char) (h : getline src = some (line, rest)) :
    ∃ c cs, line = c :: cs ∧ isSpace c = false := by
  unfold getline at h
  split at h
  · simp at h
  · rename_i c cs hsk
    simp only [Option.some.injEq, Prod.mk.injEq] at h
    obtain ⟨h, -⟩ := h
    have hc : isSpace c = false := by
      unfold skipWs at hsk
      have := List.head_dropWhile_not isSpace src (by rw [hsk]; simp)
      simpa [hsk] using this
    have hnl : (c != newline) = true := by
      have : c ≠ newline := by
        rintro rfl
        exact absurd hc (by decide)
      simpa using this
    refine ⟨c, cs.takeWhile (fun d => d != newline), ?_, hc⟩
    rw [← h]
    simp [List.takeWhile, hnl]


theorem length_dropWhile_le {α : Type} (p : α → Bool) (l : List α) :
    (l.dropWhile p).length ≤ l.length :=
  (List.dropWhile_sublist p).length_le

set_option maxHeartbeats 1000000 in
/-- A successful `stream >> vertex` consumes at least one character. -/
theorem IStream.readFloat_length_lt {F : Type} [Field F] (s s1 : IStream) (v : F)
    (h : (s.readFloat : IStream × Option F) = (s1, some v)) :
    s1.buf.length < s.buf.length := by
  unfold IStream.readFloat at h
  split_ifs at h with hf
  · simp at h
  · split at h
    · simp at h
    · rename_i c rest hsk
      have hle := skipWs_length_le s.buf
      rw [hsk] at hle
      simp only at h
      generalize hb0 : (if (c == '-' || c == '+') = true then rest else c :: rest) = b0 at h
      have hb0len : b0.length ≤ (c :: rest).length := by
        rw [← hb0]
        split_ifs <;> simp
      have hsum0 := length_takeWhile_add_dropWhile isDigit b0
      generalize hip : b0.takeWhile isDigit = ip at h hsum0
      generalize hb1 : b0.dropWhile isDigit = b1 at h hsum0
      have hsum1 := length_takeWhile_add_dropWhile isDigit (b1.drop 1)
      have hd1 : (b1.drop 1).length = b1.length - 1 := List.length_drop 1 b1
      generalize hfp : (b1.drop 1).takeWhile isDigit = fp at h hsum1
      generalize hb3 : (b1.drop 1).dropWhile isDigit = b3 at h hsum1
      have hipos : ip ≠ [] → 0 < ip.length := List.length_pos.mpr
      have hfpos : fp ≠ [] → 0 < fp.length := List.length_pos.mpr
      have e1 : ∀ l : List Char, ((l.drop 1).dropWhile isDigit).length ≤ l.length := by
        intro l
        have := length_dropWhile_le isDigit (l.drop 1)
        have := List.length_drop 1 l
        omega
      have e2 : ∀ l : List Char, (((l.drop 1).drop 1).dropWhile isDigit).length ≤ l.length := by
        intro l
        have := length_dropWhile_le isDigit ((l.drop 1).drop 1)
        have := List.length_drop 1 (l.drop 1)
        have := List.length_drop 1 l
        omega
      have e1b1 := e1 b1
      have e2b1 := e2 b1
      have e1b3 := e1 b3
      have e2b3 := e2 b3
      simp only [List.length_cons] at hle hb0len
      have hlen0 : ∀ l : List Char, l = [] → l.length = 0 := by
        intro l hl
        rw [hl]
        rfl
      by_cases hdot : (b1.head? == some '.') = true
      · have hb1pos : 0 < b1.length := by
          rcases b1 with _ | ⟨d, tl⟩
          · simp at hdot
          · simp
        simp only [hdot, if_true] at h
        split_ifs at h with hm he hed hen
        all_goals first
          | (have hs := (Prod.mk.inj h).1
             subst hs
             have hmant : 0 < ip.length + fp.length := by
               by_contra hc
               exact hm ⟨List.length_eq_zero.mp (by omega), List.length_eq_zero.mp (by omega)⟩
             dsimp only
             omega)
          | (simp at h)
      · simp only [hdot, Bool.false_eq_true, if_false] at h
        split_ifs at h with hm he hed hen
        all_goals first
          | (have hs := (Prod.mk.inj h).1
             subst hs
             have hmant : 0 < ip.length := by
               by_contra hc
               have hnil : ip = [] := List.length_eq_zero.mp (by omega)
               simp [hnil] at hm
             dsimp only
             omega)
          | (simp at h)

/-- The bound on the iterations of the loop of `ParseVertex` is never
reached. -/
theorem ParseVertexLoop_fuel {F : Type} [Field F] :
    ∀ (fuel1 fuel2 : Nat) (s : IStream) (vertices : List F),
      s.buf.length < fuel1 → s.buf.length < fuel2 →
      ParseVertexLoop fuel1 s vertices = ParseVertexLoop fuel2 s vertices := by
  intro fuel1
  induction fuel1 with
  | zero => intro fuel2 s vertices h1; exact absurd h1 (Nat.not_lt_zero _)
  | succ f ih =>
    intro fuel2 s vertices h1 h2
    obtain ⟨g, rfl⟩ : ∃ g, fuel2 = g + 1 := ⟨fuel2 - 1, by omega⟩
    rcases hr : (s.readFloat : IStream × Option F) with ⟨s1, _ | v⟩
    · simp only [ParseVertexLoop, hr]
    · have hlt := IStream.readFloat_length_lt s s1 v hr
      simp only [ParseVertexLoop, hr]
      exact ih g _ _ (by omega) (by omega)


/-! ## The transform engine -/

section Transform

open ViewerSpec

theorem Matrix.Is4x4.exists_entries {F : Type} {m : Matrix F} (h : m.Is4x4) :
    ∃ d00 d01 d02 d03 d10 d11 d12 d13 d20 d21 d22 d23 d30 d31 d32 d33 : F,
      m = ⟨4, 4, [[d00, d01, d02, d03], [d10, d11, d12, d13], [d20, d21, d22, d23],
        [d30, d31, d32, d33]]⟩ := by
  obtain ⟨r, c, rows⟩ := m
  obtain ⟨hr, hc, hl, hrow⟩ := h
  simp only at hr hc hl hrow
  subst hr hc
  have row4 : ∀ row : List F, row.length = 4 → ∃ a b c d, row = [a, b, c, d] := by
    intro row h4
    match row, h4 with
    | [a, b, c, d], _ => exact ⟨a, b, c, d, rfl⟩
  match rows, hl, hrow with
  | [r0, r1, r2, r3], _, hrow =>
    obtain ⟨a0, b0, c0, d0, rfl⟩ := row4 r0 (hrow _ (by simp))
    obtain ⟨a1, b1, c1, d1, rfl⟩ := row4 r1 (hrow _ (by simp))
    obtain ⟨a2, b2, c2, d2, rfl⟩ := row4 r2 (hrow _ (by simp))
    obtain ⟨a3, b3, c3, d3, rfl⟩ := row4 r3 (hrow _ (by simp))
    exact ⟨a0, b0, c0, d0, a1, b1, c1, d1, a2, b2, c2, d2, a3, b3, c3, d3, rfl⟩

variable {F : Type} [Field F]

theorem homogeneous_is4x4 (L : Mat3 F) (m : Delta F) : (homogeneous L m).Is4x4 := by
  simp [homogeneous, Matrix.Is4x4]

theorem copyEntries_homogeneous (dst : Matrix F) (h : dst.Is4x4) (L : Mat3 F) (m : Delta F) :
    copyEntries dst (homogeneous L m) = Except.ok (homogeneous L m) := by
  obtain ⟨d00, d01, d02, d03, d10, d11, d12, d13, d20, d21, d22, d23, d30, d31, d32, d33, rfl⟩ :=
    h.exists_entries
  exact copyEntries_4x4 _ _ _ _ _ _ _ _ _ _ _ _ _ _ _ _ _ _ _ _ _ _ _ _ _ _ _ _ _ _ _ _

theorem list4_congr {α : Type} {a b c d a1 b1 c1 d1 : α} (ha : a = a1) (hb : b = b1)
    (hc : c = c1) (hd : d = d1) : [a, b, c, d] = [a1, b1, c1, d1] := by
  subst ha hb hc hd
  rfl

/-- Multiplying two homogeneous matrices composes the affine maps. -/
theorem MulMatrix_homogeneous (L1 L2 : Mat3 F) (m1 m2 : Delta F) :
    (homogeneous L1 m1).MulMatrix (homogeneous L2 m2) =
      Except.ok (homogeneous (L1 * L2)
        ⟨Matrix.vecMul ![m1.x, m1.y, m1.z] L2 0 + m2.x,
         Matrix.vecMul ![m1.x, m1.y, m1.z] L2 1 + m2.y,
         Matrix.vecMul ![m1.x, m1.y, m1.z] L2 2 + m2.z⟩) := by
  unfold homogeneous
  rw [MulMatrix_4x4]
  simp only [Matrix.mul_apply, Fin.sum_univ_three, Matrix.vecMul, Matrix.dotProduct,
    Matrix.cons_val_zero, Matrix.cons_val_one, Matrix.head_cons, Matrix.cons_val_two,
    Matrix.tail_cons]
  refine congrArg Except.ok (congrArg (Matrix.mk 4 4) ?_)
  refine list4_congr (list4_congr ?_ ?_ ?_ ?_) (list4_congr ?_ ?_ ?_ ?_)
    (list4_congr ?_ ?_ ?_ ?_) (list4_congr ?_ ?_ ?_ ?_)
  all_goals ring

theorem MulMatrix_homogeneous_zero (L1 L2 : Mat3 F) (m2 : Delta F) :
    (homogeneous L1 ⟨0, 0, 0⟩).MulMatrix (homogeneous L2 m2) =
      Except.ok (homogeneous (L1 * L2) m2) := by
  rw [MulMatrix_homogeneous]
  simp [Matrix.vecMul, Matrix.dotProduct, Fin.sum_univ_three]

theorem fresh_homogeneous :
    (TransformMatrix.fresh : Matrix F) = homogeneous (1 : Mat3 F) ⟨0, 0, 0⟩ := by
  rw [TransformMatrix.fresh_eq]
  simp [homogeneous, Matrix.one_apply]

theorem Scale_fresh (delta : TransformParametrs F) :
    ScaleTransformMatrix.SetTransformMatrix TransformMatrix.fresh delta =
      homogeneous (Matrix.diagonal ![delta.scale.x, delta.scale.y, delta.scale.z])
        ⟨0, 0, 0⟩ := by
  rw [TransformMatrix.fresh_eq]
  simp [homogeneous, ScaleTransformMatrix.SetTransformMatrix, Matrix.set, List.modify,
    Matrix.diagonal_apply]

theorem Move_fresh (delta : TransformParametrs F) :
    MoveTransformMatrix.SetTransformMatrix TransformMatrix.fresh delta =
      homogeneous (1 : Mat3 F) delta.move := by
  rw [TransformMatrix.fresh_eq]
  simp [homogeneous, MoveTransformMatrix.SetTransformMatrix, Matrix.set, List.modify,
    Matrix.one_apply]

theorem RotationX_fresh (T : Trig F) (delta : TransformParametrs F) :
    RotationXTransformMatrix.SetTransformMatrix T TransformMatrix.fresh delta =
      homogeneous (rotX T delta.rotation.x) ⟨0, 0, 0⟩ := by
  rw [TransformMatrix.fresh_eq]
  simp [homogeneous, RotationXTransformMatrix.SetTransformMatrix, Matrix.set, List.modify, rotX,
    Matrix.vecHead, Matrix.vecTail]

theorem RotationY_fresh (T : Trig F) (delta : TransformParametrs F) :
    RotationYTransformMatrix.SetTransformMatrix T TransformMatrix.fresh delta =
      homogeneous (rotY T delta.rotation.y) ⟨0, 0, 0⟩ := by
  rw [TransformMatrix.fresh_eq]
  simp [homogeneous, RotationYTransformMatrix.SetTransformMatrix, Matrix.set, List.modify, rotY,
    Matrix.vecHead, Matrix.vecTail]

theorem RotationZ_fresh (T : Trig F) (delta : TransformParametrs F) :
    RotationZTransformMatrix.SetTransformMatrix T TransformMatrix.fresh delta =
      homogeneous (rotZ T delta.rotation.z) ⟨0, 0, 0⟩ := by
  rw [TransformMatrix.fresh_eq]
  simp [homogeneous, RotationZTransformMatrix.SetTransformMatrix, Matrix.set, List.modify, rotZ,
    Matrix.vecHead, Matrix.vecTail]

/-- The composite rotation applied to a homogeneous matrix without translation
multiplies its linear block by `RotateX * RotateY * RotateZ`. -/
theorem Rotation_homogeneous (T : Trig F) (L : Mat3 F) (delta : TransformParametrs F) :
    RotationTransformMatrix.SetTransformMatrix T (homogeneous L ⟨0, 0, 0⟩) delta =
      Except.ok (homogeneous (L * rotMat T delta.rotation) ⟨0, 0, 0⟩) := by
  simp only [RotationTransformMatrix.SetTransformMatrix, RotationX_fresh, RotationY_fresh,
    RotationZ_fresh, MulMatrix_homogeneous_zero, bind, Except.bind, rotMat, Matrix.mul_assoc]

theorem Rotation_fresh (T : Trig F) (delta : TransformParametrs F) :
    RotationTransformMatrix.SetTransformMatrix T TransformMatrix.fresh delta =
      Except.ok (homogeneous (rotMat T delta.rotation) ⟨0, 0, 0⟩) := by
  have h := Rotation_homogeneous T (1 : Mat3 F) delta
  rw [← fresh_homogeneous, Matrix.one_mul] at h
  exact h

theorem rotMat_zero (T : Trig F) (hcos : T.cos 0 = 1) (hsin : T.sin 0 = 0) :
    rotMat T ⟨0, 0, 0⟩ = 1 := by
  ext i j
  fin_cases i <;> fin_cases j <;>
    simp [rotMat, rotX, rotY, rotZ, Matrix.mul_apply, Fin.sum_univ_three, hcos, hsin,
      Matrix.vecHead, Matrix.vecTail]

theorem transformVertex_homogeneous (L : Mat3 F) (m : Delta F) (x y z : F) :
    transformVertex (homogeneous L m) x y z = Except.ok (affineMap L m x y z) := by
  unfold homogeneous
  rw [transformVertex_4x4]
  simp only [affineMap, Matrix.vecMul, Matrix.dotProduct, Fin.sum_univ_three,
    Matrix.cons_val_zero, Matrix.cons_val_one, Matrix.head_cons, Matrix.cons_val_two,
    Matrix.tail_cons]
  refine congrArg Except.ok (Prod.ext ?_ (Prod.ext ?_ ?_)) <;> simp only <;> ring

theorem exists_triple_of_length {α : Type} (n : Nat) (buf : List α)
    (h : buf.length = 3 * (n + 1)) :
    ∃ x y z rest, buf = x :: y :: z :: rest ∧ rest.length = 3 * n := by
  match buf, h with
  | x :: y :: z :: rest, h =>
    refine ⟨x, y, z, rest, rfl, ?_⟩
    simp only [List.length_cons] at h
    omega

theorem transformLoopFrom_homogeneous (L : Mat3 F) (m : Delta F) :
    ∀ (n : Nat) (buf : List F), buf.length = 3 * n →
      transformLoopFrom (homogeneous L m) buf = Except.ok (mapVertices (affineMap L m) buf) := by
  intro n
  induction n with
  | zero =>
    intro buf h
    have : buf = [] := List.length_eq_zero.mp (by simpa using h)
    subst this
    rfl
  | succ n ih =>
    intro buf h
    obtain ⟨x, y, z, rest, rfl, hrest⟩ := exists_triple_of_length n buf h
    simp only [transformLoopFrom, transformVertex_homogeneous, ih rest hrest, bind, Except.bind,
      pure, Except.pure, mapVertices]

theorem mapVertices_id {α : Type} (f : α → α → α → α × α × α)
    (hf : ∀ x y z, f x y z = (x, y, z)) :
    ∀ (n : Nat) (buf : List α), buf.length = 3 * n → mapVertices f buf = buf := by
  intro n
  induction n with
  | zero =>
    intro buf h
    have : buf = [] := List.length_eq_zero.mp (by simpa using h)
    subst this
    rfl
  | succ n ih =>
    intro buf h
    obtain ⟨x, y, z, rest, rfl, hrest⟩ := exists_triple_of_length n buf h
    simp only [mapVertices, hf, ih rest hrest]

theorem mapVertices_comp {α : Type} (f g : α → α → α → α × α × α) :
    ∀ (n : Nat) (buf : List α), buf.length = 3 * n →
      mapVertices g (mapVertices f buf) =
        mapVertices (fun x y z => g (f x y z).1 (f x y z).2.1 (f x y z).2.2) buf := by
  intro n
  induction n with
  | zero =>
    intro buf h
    have : buf = [] := List.length_eq_zero.mp (by simpa using h)
    subst this
    rfl
  | succ n ih =>
    intro buf h
    obtain ⟨x, y, z, rest, rfl, hrest⟩ := exists_triple_of_length n buf h
    simp only [mapVertices, ih rest hrest]

theorem mapVertices_length {α : Type} (f : α → α → α → α × α × α) :
    ∀ (n : Nat) (buf : List α), buf.length = 3 * n → (mapVertices f buf).length = 3 * n := by
  intro n
  induction n with
  | zero =>
    intro buf h
    have : buf = [] := List.length_eq_zero.mp (by simpa using h)
    subst this
    rfl
  | succ n ih =>
    intro buf h
    obtain ⟨x, y, z, rest, rfl, hrest⟩ := exists_triple_of_length n buf h
    simp only [mapVertices, List.length_cons, ih rest hrest]
    omega

theorem mapVertices_congr {α : Type} (f g : α → α → α → α × α × α)
    (hfg : ∀ x y z, f x y z = g x y z) (buf : List α) :
    mapVertices f buf = mapVertices g buf := by
  have : f = g := by
    funext x y z
    exact hfg x y z
  rw [this]

theorem affineMap_one (mv : Delta F) (x y z : F) :
    affineMap (1 : Mat3 F) mv x y z = (x + mv.x, y + mv.y, z + mv.z) := by
  simp [affineMap, Matrix.vecMul_one]

section General

variable [DecidableEq F]

theorem IsDelta_eq_false_iff (d : Delta F) :
    IsDelta d = false ↔ d.x = 0 ∧ d.y = 0 ∧ d.z = 0 := by
  simp [IsDelta, and_assoc]

theorem Delta.eq_zero_of_IsDelta_false {d : Delta F} (h : IsDelta d = false) :
    d = ⟨0, 0, 0⟩ := by
  obtain ⟨hx, hy, hz⟩ := (IsDelta_eq_false_iff d).mp h
  cases d
  simp_all

theorem scaleMat_of_IsDelta (d : Delta F) :
    scaleMat d = if IsDelta d then Matrix.diagonal ![d.x, d.y, d.z] else 1 := by
  unfold scaleMat
  by_cases h : IsDelta d = true
  · have h2 : ¬(d.x = 0 ∧ d.y = 0 ∧ d.z = 0) := by
      intro h3
      rw [(IsDelta_eq_false_iff d).mpr h3] at h
      exact absurd h (by decide)
    rw [if_neg h2, if_pos h]
  · have h3 : IsDelta d = false := by simpa using h
    rw [if_pos ((IsDelta_eq_false_iff d).mp h3), if_neg h]

/-- The matrix built by `GeneralTransformMatrix::SetTransformMatrix` on a fresh
instance is the homogeneous matrix of `L = S * R` and `delta.move`. -/
theorem General_fresh (T : Trig F) (hcos : T.cos 0 = 1) (hsin : T.sin 0 = 0)
    (delta : TransformParametrs F) :
    GeneralTransformMatrix.SetTransformMatrix T TransformMatrix.fresh delta =
      Except.ok (homogeneous (linearPart T delta) delta.move) := by
  unfold GeneralTransformMatrix.SetTransformMatrix linearPart
  simp only [Scale_fresh, Move_fresh, Rotation_fresh]
  rw [scaleMat_of_IsDelta, fresh_homogeneous]
  by_cases hs : IsDelta delta.scale = true <;> by_cases hr : IsDelta delta.rotation = true <;>
    by_cases hm : IsDelta delta.move = true
  all_goals
    try (have hr0 := Delta.eq_zero_of_IsDelta_false (by simpa using hr : IsDelta delta.rotation = false))
    try (have hm0 := Delta.eq_zero_of_IsDelta_false (by simpa using hm : IsDelta delta.move = false))
    simp only [hs, hr, hm, if_true, if_false, Bool.false_eq_true, bind, Except.bind, pure,
      Except.pure, Scale_fresh, Move_fresh, MulMatrix_homogeneous_zero, Rotation_homogeneous,
      Matrix.one_mul, Matrix.mul_one]
    try rw [hr0, rotMat_zero T hcos hsin]
    try rw [hm0]
    try simp only [Matrix.one_mul, Matrix.mul_one]

theorem IsIdentityMatrix_homogeneous {L : Mat3 F} {m : Delta F}
    (h : IsIdentityMatrix (homogeneous L m) = true) (x y z : F) :
    affineMap L m x y z = (x, y, z) := by
  simp only [IsIdentityMatrix, homogeneous, Matrix.get, List.all_eq_true, List.mem_range] at h
  have h00 := h 0 (by norm_num) 0 (by norm_num)
  have h01 := h 0 (by norm_num) 1 (by norm_num)
  have h02 := h 0 (by norm_num) 2 (by norm_num)
  have h10 := h 1 (by norm_num) 0 (by norm_num)
  have h11 := h 1 (by norm_num) 1 (by norm_num)
  have h12 := h 1 (by norm_num) 2 (by norm_num)
  have h20 := h 2 (by norm_num) 0 (by norm_num)
  have h21 := h 2 (by norm_num) 1 (by norm_num)
  have h22 := h 2 (by norm_num) 2 (by norm_num)
  have h30 := h 3 (by norm_num) 0 (by norm_num)
  have h31 := h 3 (by norm_num) 1 (by norm_num)
  have h32 := h 3 (by norm_num) 2 (by norm_num)
  simp at h00 h01 h02 h10 h11 h12 h20 h21 h22 h30 h31 h32
  simp [affineMap, Matrix.vecMul, Matrix.dotProduct, Fin.sum_univ_three, h00, h01, h02, h10,
    h11, h12, h20, h21, h22, h30, h31, h32]

/-- One pass of `PrivateTransformVertices` over a well-shaped buffer applies
`v => v * L + move` to every vertex and leaves the homogeneous matrix of the
edit in `transform_matrix_`. -/
theorem PrivateTransformVertices_eq (T : Trig F) (hcos : T.cos 0 = 1) (hsin : T.sin 0 = 0)
    (a : AffineTransform F) (h4 : a.transform_matrix_.Is4x4) (n : Nat) (buf : List F)
    (hlen : buf.length = 3 * (n + 1)) (delta : TransformParametrs F) :
    a.PrivateTransformVertices T buf delta =
      Except.ok ({ a with transform_matrix_ := homogeneous (linearPart T delta) delta.move },
        mapVertices (affineMap (linearPart T delta) delta.move) buf) := by
  unfold AffineTransform.PrivateTransformVertices
  rw [General_fresh T hcos hsin]
  simp only [bind, Except.bind, copyEntries_homogeneous _ h4, pure, Except.pure]
  by_cases hid : IsIdentityMatrix (homogeneous (linearPart T delta) delta.move) = true
  · simp only [hid, Bool.not_true, Bool.false_eq_true, if_false]
    rw [mapVertices_id _ (IsIdentityMatrix_homogeneous hid) (n + 1) buf hlen]
  · have hne : buf ≠ [] := by
      intro h0
      rw [h0] at hlen
      simp at hlen
    have hloop : transformLoop (homogeneous (linearPart T delta) delta.move) buf =
        transformLoopFrom (homogeneous (linearPart T delta) delta.move) buf := by
      cases buf with
      | nil => exact absurd rfl hne
      | cons x xs => rfl
    simp only [hid, Bool.not_false, if_true, hloop,
      transformLoopFrom_homogeneous _ _ (n + 1) buf hlen]

theorem linearPart_move_only (T : Trig F) (hcos : T.cos 0 = 1) (hsin : T.sin 0 = 0)
    (mv : Delta F) : linearPart T ⟨⟨0, 0, 0⟩, mv, ⟨0, 0, 0⟩⟩ = 1 := by
  simp [linearPart, scaleMat, rotMat_zero T hcos hsin]

theorem IsTranslation_false_iff (a : AffineTransform F) :
    a.IsTranslation = false ↔ a.translation_ = ⟨0, 0, 0⟩ := by
  obtain ⟨tm, v, ⟨tx, ty, tz⟩⟩ := a
  simp [AffineTransform.IsTranslation, and_assoc]

theorem TranslateInLocal_eq (T : Trig F) (hcos : T.cos 0 = 1) (hsin : T.sin 0 = 0)
    (a : AffineTransform F) (h4 : a.transform_matrix_.Is4x4) (n : Nat) (buf : List F)
    (hlen : buf.length = 3 * (n + 1)) :
    ∃ tm : Matrix F, tm.Is4x4 ∧ a.TranslateInLocal T buf =
      Except.ok ({ a with transform_matrix_ := tm },
        mapVertices (fun x y z =>
          (x - a.translation_.x, y - a.translation_.y, z - a.translation_.z)) buf) := by
  unfold AffineTransform.TranslateInLocal
  by_cases ht : a.IsTranslation = true
  · refine ⟨homogeneous (1 : Mat3 F)
      ⟨-a.translation_.x, -a.translation_.y, -a.translation_.z⟩, homogeneous_is4x4 _ _, ?_⟩
    rw [if_pos ht, PrivateTransformVertices_eq T hcos hsin a h4 n buf hlen,
      linearPart_move_only T hcos hsin]
    congr 2
    apply mapVertices_congr
    intro x y z
    rw [affineMap_one]
    simp only [sub_eq_add_neg]
  · have h0 := (IsTranslation_false_iff a).mp (by simpa using ht)
    refine ⟨a.transform_matrix_, h4, ?_⟩
    rw [if_neg ht]
    have hid : mapVertices (fun x y z : F =>
        (x - a.translation_.x, y - a.translation_.y, z - a.translation_.z)) buf = buf :=
      mapVertices_id _ (by intro x y z; simp [h0]) (n + 1) buf hlen
    rw [hid]
    rfl

theorem TranslateInGlobal_eq (T : Trig F) (hcos : T.cos 0 = 1) (hsin : T.sin 0 = 0)
    (a : AffineTransform F) (h4 : a.transform_matrix_.Is4x4) (n : Nat) (buf : List F)
    (hlen : buf.length = 3 * (n + 1)) :
    ∃ tm : Matrix F, tm.Is4x4 ∧ a.TranslateInGlobal T buf =
      Except.ok ({ a with transform_matrix_ := tm },
        mapVertices (fun x y z =>
          (x + a.translation_.x, y + a.translation_.y, z + a.translation_.z)) buf) := by
  unfold AffineTransform.TranslateInGlobal
  by_cases ht : a.IsTranslation = true
  · refine ⟨homogeneous (1 : Mat3 F)
      ⟨a.translation_.x, a.translation_.y, a.translation_.z⟩, homogeneous_is4x4 _ _, ?_⟩
    rw [if_pos ht, PrivateTransformVertices_eq T hcos hsin a h4 n buf hlen,
      linearPart_move_only T hcos hsin]
    congr 2
    apply mapVertices_congr
    intro x y z
    rw [affineMap_one]
  · have h0 := (IsTranslation_false_iff a).mp (by simpa using ht)
    refine ⟨a.transform_matrix_, h4, ?_⟩
    rw [if_neg ht]
    have hid : mapVertices (fun x y z : F =>
        (x + a.translation_.x, y + a.translation_.y, z + a.translation_.z)) buf = buf :=
      mapVertices_id _ (by intro x y z; simp [h0]) (n + 1) buf hlen
    rw [hid]
    rfl

/-- `TransformVertices` on a bound, well-shaped buffer: every vertex `v` becomes
`(v - t) * L + move + t` and the accumulated translation becomes `t + move`. -/
theorem TransformVertices_eq (T : Trig F) (hcos : T.cos 0 = 1) (hsin : T.sin 0 = 0)
    (a : AffineTransform F) (hbound : a.vertices_ ≠ none) (h4 : a.transform_matrix_.Is4x4)
    (n : Nat) (buf : List F) (hlen : buf.length = 3 * (n + 1)) (delta : TransformParametrs F) :
    ∃ tm : Matrix F, tm.Is4x4 ∧ a.TransformVertices T buf delta =
      Except.ok (⟨tm, a.vertices_,
          ⟨a.translation_.x + delta.move.x, a.translation_.y + delta.move.y,
            a.translation_.z + delta.move.z⟩⟩,
        mapVertices (pivotTransform T a.translation_ delta) buf) := by
  obtain ⟨tm1, h41, hloc⟩ := TranslateInLocal_eq T hcos hsin a h4 n buf hlen
  have hlen1 := mapVertices_length (fun x y z : F =>
    (x - a.translation_.x, y - a.translation_.y, z - a.translation_.z)) (n + 1) buf hlen
  have hpriv := PrivateTransformVertices_eq T hcos hsin
    { a with transform_matrix_ := tm1 } h41 n _ hlen1 delta
  have hlen2 := mapVertices_length (affineMap (linearPart T delta) delta.move) (n + 1) _ hlen1
  obtain ⟨tm3, h43, hglob⟩ := TranslateInGlobal_eq T hcos hsin
    { a with transform_matrix_ := homogeneous (linearPart T delta) delta.move }
    (homogeneous_is4x4 _ _) n _ hlen2
  refine ⟨tm3, h43, ?_⟩
  unfold AffineTransform.TransformVertices
  rw [if_neg hbound]
  simp only [bind, Except.bind, hloc, hpriv, hglob, pure, Except.pure,
    AffineTransform.SetTranslation]
  rw [mapVertices_comp _ _ (n + 1) buf hlen, mapVertices_comp _ _ (n + 1) buf hlen]
  rfl

theorem length_eq_three_mul_succ {α : Type} (buf : List α) (hne : buf ≠ [])
    (hlen : buf.length % 3 = 0) : ∃ n, buf.length = 3 * (n + 1) := by
  have hpos : 0 < buf.length := List.length_pos.mpr hne
  exact ⟨buf.length / 3 - 1, by omega⟩

/-- C9. In exact arithmetic, for a bound vertex buffer (non-empty, length a
multiple of 3), accumulated translation `t` and edit `delta`,
`TransformVertices` replaces every vertex `v` by `(v - t) * L + delta.move + t`,
with `L = S * R`, `S = diag(delta.scale)` (the identity for an all-zero scale)
and `R = RotateX * RotateY * RotateZ`, and replaces `t` by `t + delta.move`; so
`v' - t' = (v - t) * L`, each vertex is transformed on its own, and the length
of the buffer is unchanged. -/
theorem AffineTransform.TransformVertices_pivot (T : Trig F) (hcos : T.cos 0 = 1)
    (hsin : T.sin 0 = 0) (a : AffineTransform F) (buf : List F)
    (delta : TransformParametrs F) (hbound : a.vertices_ ≠ none)
    (h4 : a.transform_matrix_.Is4x4) (hne : buf ≠ []) (hlen : buf.length % 3 = 0) :
    ∃ a1 : AffineTransform F,
      a.TransformVertices T buf delta =
        Except.ok (a1, mapVertices (pivotTransform T a.translation_ delta) buf) ∧
      a1.translation_ = ⟨a.translation_.x + delta.move.x, a.translation_.y + delta.move.y,
        a.translation_.z + delta.move.z⟩ ∧
      a1.vertices_ = a.vertices_ ∧ a1.transform_matrix_.Is4x4 ∧
      (mapVertices (pivotTransform T a.translation_ delta) buf).length = buf.length ∧
      ∀ x y z : F,
        (pivotTransform T a.translation_ delta x y z).1 - a1.translation_.x =
          Matrix.vecMul ![x - a.translation_.x, y - a.translation_.y, z - a.translation_.z]
            (scaleMat delta.scale *
              (rotX T delta.rotation.x * rotY T delta.rotation.y * rotZ T delta.rotation.z)) 0 ∧
        (pivotTransform T a.translation_ delta x y z).2.1 - a1.translation_.y =
          Matrix.vecMul ![x - a.translation_.x, y - a.translation_.y, z - a.translation_.z]
            (scaleMat delta.scale *
              (rotX T delta.rotation.x * rotY T delta.rotation.y * rotZ T delta.rotation.z)) 1 ∧
        (pivotTransform T a.translation_ delta x y z).2.2 - a1.translation_.z =
          Matrix.vecMul ![x - a.translation_.x, y - a.translation_.y, z - a.translation_.z]
            (scaleMat delta.scale *
              (rotX T delta.rotation.x * rotY T delta.rotation.y * rotZ T delta.rotation.z)) 2 := by
  obtain ⟨n, hn⟩ := length_eq_three_mul_succ buf hne hlen
  obtain ⟨tm, htm, h⟩ := TransformVertices_eq T hcos hsin a hbound h4 n buf hn delta
  refine ⟨_, h, rfl, rfl, htm, ?_, ?_⟩
  · rw [mapVertices_length _ (n + 1) buf hn, hn]
  · intro x y z
    simp only [pivotTransform, linearPart, rotMat]
    refine ⟨by ring, by ring, by ring⟩

end General

end Transform


section RealWitness

open ViewerSpec

theorem fresh_is4x4 {F : Type} [Field F] : (TransformMatrix.fresh : Matrix F).Is4x4 := by
  rw [fresh_homogeneous]
  exact homogeneous_is4x4 _ _

theorem AffineTransform.TransformVertices_pivot_witness :
    (∃ a1 : AffineTransform ℝ,
      (boundTransform ℝ).TransformVertices ⟨Real.cos, Real.sin⟩ [1, 1, 1]
          ⟨⟨1, 2, 3⟩, ⟨5, 6, 7⟩, ⟨Real.pi / 2, Real.pi / 3, 0⟩⟩ =
        Except.ok (a1, [11 / 2 + Real.sqrt 3, 3, 8 - Real.sqrt 3 / 2])) ∧
    |11 / 2 + Real.sqrt 3 - 7.23205| < (1 / 1000 : ℝ) ∧
    |8 - Real.sqrt 3 / 2 - 7.13399| < (1 / 1000 : ℝ) ∧
    (∃ (a1 a2 : AffineTransform ℝ) (buf1 : List ℝ),
      (boundTransform ℝ).TransformVertices ⟨Real.cos, Real.sin⟩
          [-1, 1, 0, 1, 1, 0, 1, -1, 0, -1, -1, 0]
          ⟨⟨2, 2, 2⟩, ⟨10, 0, 0⟩, ⟨0, Real.pi, 0⟩⟩ = Except.ok (a1, buf1) ∧
      a1.TransformVertices ⟨Real.cos, Real.sin⟩ buf1
          ⟨⟨2, 2, 2⟩, ⟨0, 0, 0⟩, ⟨0, Real.pi, 0⟩⟩ =
        Except.ok (a2, [6, 4, 0, 14, 4, 0, 14, -4, 0, 6, -4, 0])) := by
  have hs1 : (1.732 : ℝ) < Real.sqrt 3 := by
    rw [Real.lt_sqrt (by norm_num)]
    norm_num
  have hs2 : Real.sqrt 3 < (1.7321 : ℝ) := by
    rw [Real.sqrt_lt' (by norm_num)]
    norm_num
  refine ⟨?_, ?_, ?_, ?_⟩
  · obtain ⟨a1, h, -⟩ := AffineTransform.TransformVertices_pivot
      (⟨Real.cos, Real.sin⟩ : Trig ℝ) Real.cos_zero Real.sin_zero (boundTransform ℝ) [1, 1, 1]
      ⟨⟨1, 2, 3⟩, ⟨5, 6, 7⟩, ⟨Real.pi / 2, Real.pi / 3, 0⟩⟩ (by simp [boundTransform])
      fresh_is4x4 (by simp) (by rfl)
    refine ⟨a1, ?_⟩
    rw [h]
    simp [mapVertices, pivotTransform, linearPart, scaleMat, rotMat, rotX, rotY, rotZ,
      Matrix.vecMul, Matrix.dotProduct, Fin.sum_univ_three, Matrix.mul_apply,
      Matrix.diagonal_apply, boundTransform, Matrix.vecHead, Matrix.vecTail]
    refine ⟨?_, ?_, ?_⟩ <;> ring
  · rw [abs_lt]
    constructor <;> linarith
  · rw [abs_lt]
    constructor <;> linarith
  · obtain ⟨a1, h1, ht1, hv1, h41, hl1, -⟩ := AffineTransform.TransformVertices_pivot
      (⟨Real.cos, Real.sin⟩ : Trig ℝ) Real.cos_zero Real.sin_zero (boundTransform ℝ)
      [-1, 1, 0, 1, 1, 0, 1, -1, 0, -1, -1, 0]
      ⟨⟨2, 2, 2⟩, ⟨10, 0, 0⟩, ⟨0, Real.pi, 0⟩⟩ (by simp [boundTransform])
      fresh_is4x4 (by simp) (by rfl)
    generalize hb : mapVertices (pivotTransform (⟨Real.cos, Real.sin⟩ : Trig ℝ)
      (boundTransform ℝ).translation_ ⟨⟨2, 2, 2⟩, ⟨10, 0, 0⟩, ⟨0, Real.pi, 0⟩⟩)
      [-1, 1, 0, 1, 1, 0, 1, -1, 0, -1, -1, 0] = buf1 at h1 hl1
    obtain ⟨a2, h2, -⟩ := AffineTransform.TransformVertices_pivot
      (⟨Real.cos, Real.sin⟩ : Trig ℝ) Real.cos_zero Real.sin_zero a1 buf1
      ⟨⟨2, 2, 2⟩, ⟨0, 0, 0⟩, ⟨0, Real.pi, 0⟩⟩
      (by rw [hv1]; simp [boundTransform]) h41
      (by intro h0; rw [h0] at hl1; simp at hl1) (by rw [hl1]; rfl)
    refine ⟨a1, a2, buf1, h1, ?_⟩
    rw [h2, ht1, ← hb]
    simp [mapVertices, pivotTransform, linearPart, scaleMat, rotMat, rotX, rotY, rotZ,
      Matrix.vecMul, Matrix.dotProduct, Fin.sum_univ_three, Matrix.mul_apply,
      Matrix.diagonal_apply, boundTransform, Matrix.vecHead, Matrix.vecTail]
    norm_num

end RealWitness


/-! ## Reload and the accumulated translation -/

section Reload

open ViewerSpec

theorem Model.Transform_eq {F : Type} [LinearOrderedField F] (T : Trig F)
    (hcos : T.cos 0 = 1) (hsin : T.sin 0 = 0) (m : Model F)
    (hbound : m.affine_transform_.vertices_ ≠ none)
    (h4 : m.affine_transform_.transform_matrix_.Is4x4) (n : Nat)
    (hlen : m.object_data_.vertices.length = 3 * (n + 1)) (delta : TransformParametrs F) :
    ∃ tm : Matrix F, tm.Is4x4 ∧ m.Transform T delta =
      Except.ok { m with
        affine_transform_ := ⟨tm, m.affine_transform_.vertices_,
          ⟨m.affine_transform_.translation_.x + delta.move.x,
            m.affine_transform_.translation_.y + delta.move.y,
            m.affine_transform_.translation_.z + delta.move.z⟩⟩
        object_data_ := { m.object_data_ with
          vertices := mapVertices (pivotTransform T m.affine_transform_.translation_ delta)
            m.object_data_.vertices } } := by
  obtain ⟨tm, htm, h⟩ := TransformVertices_eq T hcos hsin m.affine_transform_ hbound h4 n
    m.object_data_.vertices hlen delta
  refine ⟨tm, htm, ?_⟩
  simp only [Model.Transform, h, bind, Except.bind, pure, Except.pure]

theorem Model.LoadFile_triangle (m : Model ℚ) :
    m.LoadFile demoFiles "triangle.obj" =
      Except.ok (⟨⟨⟨[0, 0, 0, 2, 0, 0, 0, 4, 0], [0, 1, 1, 2, 2, 0]⟩⟩,
        (if m.affine_transform_.vertices_ = none then
          { m.affine_transform_ with vertices_ := some Model.verticesAddr }
        else m.affine_transform_),
        ⟨[-1 / 4, -1 / 2, 0, 1 / 4, -1 / 2, 0, -1 / 4, 1 / 2, 0], [0, 1, 1, 2, 2, 0]⟩,
        ⟨⟨1, 1, 1⟩, ⟨0, 0, 0⟩, ⟨0, 0, 0⟩⟩⟩, true, "") := by
  have hmax : ((2 : ℚ) ⊔ 4) = 4 := by norm_num
  by_cases hb : m.affine_transform_.vertices_ = none
  all_goals
    simp [Model.LoadFile, Parser.LoadFile, Parser.ValidationData, Parser.GetData,
      AffineTransform.AddVertices, Model.ResetTransform, Model.CalculateBoundingBox,
      boundingBoxLoop, normalizeLoop, Model.catchException, Error.isException, fltMax,
      Parser.ReadData, demoFiles, fileLines, readLines, getline, newline, skipWs, isSpace, ReserveSpace,
      Parser.readLine, Parser.ParseVertex, Parser.ParseFaces, ParseVertexLoop, ParseFacesLoop,
      IStream.readFloat, exceedsFloat, floatOverflow, IStream.readInt, IStream.readChar, IStream.ofLine, IStream.ignore256,
      isDigit, digitsVal, digitVal, resolveFace, toUInt32, toInt32, INT_MAX, INT_MIN,
      bind, Except.bind, pure, Except.pure, hb, hmax]
    norm_num

theorem noRotation_cos : noRotation.cos 0 = 1 := rfl

theorem noRotation_sin : noRotation.sin 0 = 0 := rfl

/-- C10, at an input where the code departs from it. A model loads a triangle,
is moved by `(10, 0, 0)`, and is replaced by a successful reload of the same
file. The reload leaves the accumulated translation at `(10, 0, 0)`, and the
scale-only edit by 2 that follows maps the vertex `(-1/4, -1/2, 0)` of the
normalised model to `(-21/2, -1, 0)`, which is `(v - t) * 2 + t`, and not to
`v * 2 = (-1/2, -1, 0)`. -/
theorem Model.LoadFile_keeps_translation :
    (do
      let m0 ← Model.create noRotation unitState
      let r1 ← m0.LoadFile demoFiles "triangle.obj"
      let m2 ← r1.1.Transform noRotation ⟨⟨0, 0, 0⟩, ⟨10, 0, 0⟩, ⟨0, 0, 0⟩⟩
      let r3 ← m2.LoadFile demoFiles "triangle.obj"
      let m4 ← r3.1.Transform noRotation ⟨⟨2, 2, 2⟩, ⟨0, 0, 0⟩, ⟨0, 0, 0⟩⟩
      pure (r3.2.1, r3.1.GetVertices,
        (r3.1.affine_transform_.translation_.x, r3.1.affine_transform_.translation_.y,
          r3.1.affine_transform_.translation_.z), m4.GetVertices)) =
    Except.ok (true, [-1 / 4, -1 / 2, 0, 1 / 4, -1 / 2, 0, -1 / 4, 1 / 2, 0], (10, 0, 0),
      [-21 / 2, -1, 0, -19 / 2, -1, 0, -21 / 2, 1, 0]) := by
  rw [Model.create_eq]
  simp only [bind, Except.bind, Model.LoadFile_triangle, if_true]
  obtain ⟨tm2, h42, h2⟩ := Model.Transform_eq noRotation noRotation_cos noRotation_sin
    (⟨⟨⟨[0, 0, 0, 2, 0, 0, 0, 4, 0], [0, 1, 1, 2, 2, 0]⟩⟩,
      ⟨TransformMatrix.fresh, some Model.verticesAddr, ⟨0, 0, 0⟩⟩,
      ⟨[-1 / 4, -1 / 2, 0, 1 / 4, -1 / 2, 0, -1 / 4, 1 / 2, 0], [0, 1, 1, 2, 2, 0]⟩,
      ⟨⟨1, 1, 1⟩, ⟨0, 0, 0⟩, ⟨0, 0, 0⟩⟩⟩ : Model ℚ)
    (by simp) fresh_is4x4 2 rfl ⟨⟨0, 0, 0⟩, ⟨10, 0, 0⟩, ⟨0, 0, 0⟩⟩
  rw [h2]
  simp only [Model.LoadFile_triangle, reduceCtorEq, if_false]
  obtain ⟨tm4, h44, h4⟩ := Model.Transform_eq noRotation noRotation_cos noRotation_sin
    (⟨⟨⟨[0, 0, 0, 2, 0, 0, 0, 4, 0], [0, 1, 1, 2, 2, 0]⟩⟩,
      ⟨tm2, some Model.verticesAddr, ⟨0 + 10, 0 + 0, 0 + 0⟩⟩,
      ⟨[-1 / 4, -1 / 2, 0, 1 / 4, -1 / 2, 0, -1 / 4, 1 / 2, 0], [0, 1, 1, 2, 2, 0]⟩,
      ⟨⟨1, 1, 1⟩, ⟨0, 0, 0⟩, ⟨0, 0, 0⟩⟩⟩ : Model ℚ)
    (by simp) h42 2 rfl ⟨⟨2, 2, 2⟩, ⟨0, 0, 0⟩, ⟨0, 0, 0⟩⟩
  rw [h4]
  simp [Model.GetVertices, mapVertices, pivotTransform, linearPart, scaleMat, rotMat, rotX,
    rotY, rotZ, Matrix.vecMul, Matrix.dotProduct, Fin.sum_univ_three, Matrix.mul_apply,
    Matrix.diagonal_apply, noRotation, Matrix.vecHead, Matrix.vecTail, pure, Except.pure]
  norm_num

/-- Every return of `Model::LoadFile`, successful or not, leaves the accumulated
translation of the `AffineTransform` as it was. -/
theorem Model.LoadFile_translation {F : Type} [LinearOrderedField F] (m : Model F)
    (fs : FileSystem) (path : String) (r : Model F × Bool × String)
    (h : m.LoadFile fs path = Except.ok r) :
    r.1.affine_transform_.translation_ = m.affine_transform_.translation_ := by
  unfold Model.LoadFile at h
  rcases hp : m.parser_.LoadFile fs path with ⟨p1, _ | e⟩
  · rw [hp] at h
    simp only at h
    rcases ha : AffineTransform.AddVertices m.affine_transform_ (some Model.verticesAddr)
      (Parser.GetData p1).vertices with e | a
    · rw [ha] at h
      simp only [Model.catchException] at h
      split_ifs at h
      cases h
      rfl
    · rw [ha] at h
      simp only at h
      have hat : a.translation_ = m.affine_transform_.translation_ := by
        unfold AffineTransform.AddVertices at ha
        split_ifs at ha <;> cases ha <;> rfl
      rcases hr : Model.ResetTransform
        { m with parser_ := p1, object_data_ := p1.GetData, affine_transform_ := a } with e | m3
      · rw [hr] at h
        simp only [Model.catchException] at h
        split_ifs at h
        cases h
        exact hat
      · rw [hr] at h
        cases h
        have h3 : m3.affine_transform_ = a := by
          unfold Model.ResetTransform at hr
          split_ifs at hr
          simp only [bind, Except.bind] at hr
          split at hr
          · cases hr
          · split at hr
            · cases hr
            · simp only [pure, Except.pure] at hr
              cases hr
              rfl
        simp only [h3, hat]
  · rw [hp] at h
    simp only [Model.catchException] at h
    split_ifs at h
    cases h
    rfl

end Reload


/-! ## The transform matrices -/

section TransformMatrices

open ViewerSpec

variable {F : Type} [Field F]

theorem toMat4_entries (a00 a01 a02 a03 a10 a11 a12 a13 a20 a21 a22 a23 a30 a31 a32 a33 : F) :
    toMat4 ⟨4, 4, [[a00, a01, a02, a03], [a10, a11, a12, a13], [a20, a21, a22, a23],
        [a30, a31, a32, a33]]⟩ =
      !![a00, a01, a02, a03; a10, a11, a12, a13; a20, a21, a22, a23; a30, a31, a32, a33] := by
  ext i j
  fin_cases i <;> fin_cases j <;> rfl

theorem toMat4_fresh : toMat4 (TransformMatrix.fresh : Matrix F) = 1 := by
  rw [TransformMatrix.fresh_eq, toMat4_entries]
  ext i j
  fin_cases i <;> fin_cases j <;> simp [Matrix.vecHead, Matrix.vecTail]

theorem foldl_add_eq_sum (f : Nat → F) (n : Nat) :
    (List.range n).foldl (fun acc k => acc + f k) 0 = ∑ k in Finset.range n, f k := by
  induction n with
  | zero => simp
  | succ n ih => rw [List.range_succ, List.foldl_append, ih, Finset.sum_range_succ]; rfl

theorem Matrix.get_grid (r c : Nat) (f : Nat → Nat → F) (i j : Nat) (hi : i < r) (hj : j < c) :
    Matrix.get ⟨r, c, (List.range r).map fun i => (List.range c).map fun j => f i j⟩ i j =
      f i j := by
  simp [Matrix.get, List.getD_eq_getElem?_getD, hi, hj]

/-- When the shapes fit and the result has a row and a column, `MulMatrix`
returns the grid of accumulated products. -/
theorem MulMatrix_ok (a b : Matrix F) (h : a.cols_ = b.rows_) (hr : 0 < a.rows_)
    (hc : 0 < b.cols_) :
    a.MulMatrix b = Except.ok ⟨a.rows_, b.cols_,
      (List.range a.rows_).map fun i =>
        (List.range b.cols_).map fun j =>
          (List.range a.cols_).foldl (fun acc k => acc + a.get i k * b.get k j) 0⟩ := by
  have h1 : ¬((a.rows_ : Int) ≤ 0 ∨ (b.cols_ : Int) ≤ 0) := by omega
  simp only [Matrix.MulMatrix, Matrix.create, h, ne_eq, not_true_eq_false, if_false, h1]

/-- On 4 x 4 matrices `MulMatrix` returns, and returns the matrix product. -/
theorem toMat4_MulMatrix {a b : Matrix F} (ha : a.Is4x4) (hb : b.Is4x4) :
    ∃ c, a.MulMatrix b = Except.ok c ∧ c.Is4x4 ∧ toMat4 c = toMat4 a * toMat4 b := by
  obtain ⟨har, hac, -, -⟩ := ha
  obtain ⟨hbr, hbc, -, -⟩ := hb
  refine ⟨_, MulMatrix_ok a b (by omega) (by omega) (by omega), ?_, ?_⟩
  · simp [Matrix.Is4x4, har, hbc]
  · ext i j
    rw [Matrix.mul_apply]
    simp only [toMat4, Matrix.of_apply]
    rw [Matrix.get_grid _ _ _ _ _ (by omega) (by omega), foldl_add_eq_sum, hac,
      Finset.sum_range]

theorem IsIdentityMatrix_iff [DecidableEq F] (m : Matrix F) :
    IsIdentityMatrix m = true ↔
      ∀ i < 4, ∀ j < 4, m.get i j = if i = j then 1 else 0 := by
  simp only [IsIdentityMatrix, List.all_eq_true, List.mem_range, Bool.or_eq_true,
    Bool.and_eq_true, decide_eq_true_eq]
  constructor
  · intro h i hi j hj
    rcases h i hi j hj with ⟨e, v⟩ | ⟨ne, v⟩
    · rw [if_pos e, v]
    · rw [if_neg ne, v]
  · intro h i hi j hj
    by_cases e : i = j
    · exact Or.inl ⟨e, by rw [h i hi j hj, if_pos e]⟩
    · exact Or.inr ⟨e, by rw [h i hi j hj, if_neg e]⟩

theorem IsIdentityMatrix_fresh [DecidableEq F] :
    IsIdentityMatrix (TransformMatrix.fresh : Matrix F) = true := by
  rw [IsIdentityMatrix_iff, TransformMatrix.fresh_eq]
  intro i hi j hj
  interval_cases i <;> interval_cases j <;> simp [Matrix.get]

theorem General_zero [DecidableEq F] (T : Trig F) (m : Matrix F) :
    GeneralTransformMatrix.SetTransformMatrix T m ⟨⟨0, 0, 0⟩, ⟨0, 0, 0⟩, ⟨0, 0, 0⟩⟩ =
      Except.ok m := by
  simp [GeneralTransformMatrix.SetTransformMatrix, IsDelta, bind, Except.bind, pure, Except.pure]

/-- Claim C16: a freshly constructed transform matrix is exactly the 4 x 4
identity, so is the General matrix after `SetTransformMatrix` with the all-zero
delta on a fresh instance, `IsIdentityMatrix` returns true for it, and
`IsIdentityMatrix` returns true if and only if every diagonal entry equals
exactly 1 and every off-diagonal entry equals exactly 0. -/
theorem IsIdentityMatrix_exact [DecidableEq F] (T : Trig F) (m : Matrix F) :
    (TransformMatrix.fresh : Matrix F) =
        ⟨4, 4, [[1, 0, 0, 0], [0, 1, 0, 0], [0, 0, 1, 0], [0, 0, 0, 1]]⟩ ∧
      toMat4 (TransformMatrix.fresh : Matrix F) = 1 ∧
      GeneralTransformMatrix.SetTransformMatrix T TransformMatrix.fresh
          ⟨⟨0, 0, 0⟩, ⟨0, 0, 0⟩, ⟨0, 0, 0⟩⟩ = Except.ok TransformMatrix.fresh ∧
      IsIdentityMatrix (TransformMatrix.fresh : Matrix F) = true ∧
      (IsIdentityMatrix m = true ↔
        ∀ i < 4, ∀ j < 4, m.get i j = if i = j then 1 else 0) :=
  ⟨TransformMatrix.fresh_eq, toMat4_fresh, General_zero T _, IsIdentityMatrix_fresh,
    IsIdentityMatrix_iff m⟩

end TransformMatrices

/-! ## Rotation matrices -/

section RotationForms

open ViewerSpec

variable {F : Type} [Field F]

theorem RotationX_entries (T : Trig F) (delta : TransformParametrs F) :
    RotationXTransformMatrix.SetTransformMatrix T TransformMatrix.fresh delta =
      ⟨4, 4, [[1, 0, 0, 0], [0, T.cos delta.rotation.x, T.sin delta.rotation.x, 0],
        [0, -T.sin delta.rotation.x, T.cos delta.rotation.x, 0], [0, 0, 0, 1]]⟩ := by
  rw [TransformMatrix.fresh_eq]
  rfl

theorem RotationY_entries (T : Trig F) (delta : TransformParametrs F) :
    RotationYTransformMatrix.SetTransformMatrix T TransformMatrix.fresh delta =
      ⟨4, 4, [[T.cos delta.rotation.y, 0, -T.sin delta.rotation.y, 0], [0, 1, 0, 0],
        [T.sin delta.rotation.y, 0, T.cos delta.rotation.y, 0], [0, 0, 0, 1]]⟩ := by
  rw [TransformMatrix.fresh_eq]
  rfl

theorem RotationZ_entries (T : Trig F) (delta : TransformParametrs F) :
    RotationZTransformMatrix.SetTransformMatrix T TransformMatrix.fresh delta =
      ⟨4, 4, [[T.cos delta.rotation.z, T.sin delta.rotation.z, 0, 0],
        [-T.sin delta.rotation.z, T.cos delta.rotation.z, 0, 0], [0, 0, 1, 0],
        [0, 0, 0, 1]]⟩ := by
  rw [TransformMatrix.fresh_eq]
  rfl

theorem rotX_zero (T : Trig F) (hcos : T.cos 0 = 1) (hsin : T.sin 0 = 0) : rotX T 0 = 1 := by
  ext i j
  fin_cases i <;> fin_cases j <;> simp [rotX, hcos, hsin, Matrix.vecHead, Matrix.vecTail]

theorem rotY_zero (T : Trig F) (hcos : T.cos 0 = 1) (hsin : T.sin 0 = 0) : rotY T 0 = 1 := by
  ext i j
  fin_cases i <;> fin_cases j <;> simp [rotY, hcos, hsin, Matrix.vecHead, Matrix.vecTail]

theorem rotZ_zero (T : Trig F) (hcos : T.cos 0 = 1) (hsin : T.sin 0 = 0) : rotZ T 0 = 1 := by
  ext i j
  fin_cases i <;> fin_cases j <;> simp [rotZ, hcos, hsin, Matrix.vecHead, Matrix.vecTail]

theorem linearPart_rotation_only [DecidableEq F] (T : Trig F) (r : Delta F) :
    linearPart T ⟨⟨0, 0, 0⟩, ⟨0, 0, 0⟩, r⟩ = rotMat T r := by
  simp [linearPart, scaleMat]

/-- Claim C13: for every angle the single-axis matrices built on a fresh
instance are the row-vector forms of the right-handed rotations about X, Y
and Z, and (with `cos 0 = 1` and `sin 0 = 0`) the General matrix built on a
fresh instance for a delta whose only non-zero component is that rotation
angle is the same matrix. -/
theorem single_axis_rotation_forms [DecidableEq F] (T : Trig F)
    (delta : TransformParametrs F) (a : F) :
    RotationXTransformMatrix.SetTransformMatrix T TransformMatrix.fresh delta =
        ⟨4, 4, [[1, 0, 0, 0], [0, T.cos delta.rotation.x, T.sin delta.rotation.x, 0],
          [0, -T.sin delta.rotation.x, T.cos delta.rotation.x, 0], [0, 0, 0, 1]]⟩ ∧
      RotationYTransformMatrix.SetTransformMatrix T TransformMatrix.fresh delta =
        ⟨4, 4, [[T.cos delta.rotation.y, 0, -T.sin delta.rotation.y, 0], [0, 1, 0, 0],
          [T.sin delta.rotation.y, 0, T.cos delta.rotation.y, 0], [0, 0, 0, 1]]⟩ ∧
      RotationZTransformMatrix.SetTransformMatrix T TransformMatrix.fresh delta =
        ⟨4, 4, [[T.cos delta.rotation.z, T.sin delta.rotation.z, 0, 0],
          [-T.sin delta.rotation.z, T.cos delta.rotation.z, 0, 0], [0, 0, 1, 0],
          [0, 0, 0, 1]]⟩ ∧
      (T.cos 0 = 1 → T.sin 0 = 0 →
        GeneralTransformMatrix.SetTransformMatrix T TransformMatrix.fresh
            ⟨⟨0, 0, 0⟩, ⟨0, 0, 0⟩, ⟨a, 0, 0⟩⟩ =
          Except.ok ⟨4, 4, [[1, 0, 0, 0], [0, T.cos a, T.sin a, 0],
            [0, -T.sin a, T.cos a, 0], [0, 0, 0, 1]]⟩ ∧
        GeneralTransformMatrix.SetTransformMatrix T TransformMatrix.fresh
            ⟨⟨0, 0, 0⟩, ⟨0, 0, 0⟩, ⟨0, a, 0⟩⟩ =
          Except.ok ⟨4, 4, [[T.cos a, 0, -T.sin a, 0], [0, 1, 0, 0],
            [T.sin a, 0, T.cos a, 0], [0, 0, 0, 1]]⟩ ∧
        GeneralTransformMatrix.SetTransformMatrix T TransformMatrix.fresh
            ⟨⟨0, 0, 0⟩, ⟨0, 0, 0⟩, ⟨0, 0, a⟩⟩ =
          Except.ok ⟨4, 4, [[T.cos a, T.sin a, 0, 0], [-T.sin a, T.cos a, 0, 0],
            [0, 0, 1, 0], [0, 0, 0, 1]]⟩) := by
  refine ⟨RotationX_entries T delta, RotationY_entries T delta, RotationZ_entries T delta, ?_⟩
  intro hcos hsin
  refine ⟨?_, ?_, ?_⟩
  · rw [General_fresh T hcos hsin, linearPart_rotation_only, rotMat]
    simp only [rotY_zero T hcos hsin, rotZ_zero T hcos hsin, Matrix.mul_one]
    simp [homogeneous, rotX, Matrix.vecHead, Matrix.vecTail]
  · rw [General_fresh T hcos hsin, linearPart_rotation_only, rotMat]
    simp only [rotX_zero T hcos hsin, rotZ_zero T hcos hsin, Matrix.mul_one, Matrix.one_mul]
    simp [homogeneous, rotY, Matrix.vecHead, Matrix.vecTail]
  · rw [General_fresh T hcos hsin, linearPart_rotation_only, rotMat]
    simp only [rotX_zero T hcos hsin, rotY_zero T hcos hsin, Matrix.mul_one, Matrix.one_mul]
    simp [homogeneous, rotZ, Matrix.vecHead, Matrix.vecTail]

theorem single_axis_rotation_forms_witness :
    GeneralTransformMatrix.SetTransformMatrix (⟨Real.cos, Real.sin⟩ : Trig ℝ)
        TransformMatrix.fresh ⟨⟨0, 0, 0⟩, ⟨0, 0, 0⟩, ⟨Real.pi / 4, 0, 0⟩⟩ =
      Except.ok ⟨4, 4, [[1, 0, 0, 0], [0, Real.sqrt 2 / 2, Real.sqrt 2 / 2, 0],
        [0, -(Real.sqrt 2 / 2), Real.sqrt 2 / 2, 0], [0, 0, 0, 1]]⟩ ∧
    |Real.sqrt 2 / 2 - 0.707107| < (1 / 1000 : ℝ) := by
  have h := ((single_axis_rotation_forms (⟨Real.cos, Real.sin⟩ : Trig ℝ)
    ⟨⟨0, 0, 0⟩, ⟨0, 0, 0⟩, ⟨0, 0, 0⟩⟩ (Real.pi / 4)).2.2.2 Real.cos_zero Real.sin_zero).1
  simp only [Real.cos_pi_div_four, Real.sin_pi_div_four] at h
  refine ⟨h, ?_⟩
  have hs1 : (1.414 : ℝ) < Real.sqrt 2 := by
    rw [Real.lt_sqrt (by norm_num)]
    norm_num
  have hs2 : Real.sqrt 2 < (1.4143 : ℝ) := by
    rw [Real.sqrt_lt' (by norm_num)]
    norm_num
  rw [abs_lt]
  constructor <;> linarith

end RotationForms

section KnownMatrices

open ViewerSpec

theorem sqrt_three_bounds : (1.732 : ℝ) < Real.sqrt 3 ∧ Real.sqrt 3 < (1.7321 : ℝ) := by
  constructor
  · rw [Real.lt_sqrt (by norm_num)]
    norm_num
  · rw [Real.sqrt_lt' (by norm_num)]
    norm_num

theorem sqrt_two_bounds : (1.414 : ℝ) < Real.sqrt 2 ∧ Real.sqrt 2 < (1.4143 : ℝ) := by
  constructor
  · rw [Real.lt_sqrt (by norm_num)]
    norm_num
  · rw [Real.sqrt_lt' (by norm_num)]
    norm_num

/-- Claim C11: the General matrix built on a fresh instance from the delta
with scale (1, 2, 3), move (5, 6, 7) and rotation (pi/2, pi/3, 0) is exactly
`[[1/2, 0, -sqrt 3 / 2, 0], [sqrt 3, 0, 1, 0], [0, -3, 0, 0], [5, 6, 7, 1]]`
over the reals, and every entry is within 1e-3 of
`[[0.5, 0, -0.866025, 0], [1.73205, 0, 1, 0], [0, -3, 0, 0], [5, 6, 7, 1]]`. -/
theorem General_known_matrix :
    ∃ m : Matrix ℝ,
      GeneralTransformMatrix.SetTransformMatrix (⟨Real.cos, Real.sin⟩ : Trig ℝ)
          TransformMatrix.fresh ⟨⟨1, 2, 3⟩, ⟨5, 6, 7⟩, ⟨Real.pi / 2, Real.pi / 3, 0⟩⟩ =
        Except.ok m ∧
      m = ⟨4, 4, [[1 / 2, 0, -(Real.sqrt 3 / 2), 0], [Real.sqrt 3, 0, 1, 0], [0, -3, 0, 0],
        [5, 6, 7, 1]]⟩ ∧
      ∀ i < 4, ∀ j < 4,
        |m.get i j - Matrix.get ⟨4, 4, [[0.5, 0, -0.866025, 0], [1.73205, 0, 1, 0],
          [0, -3, 0, 0], [5, 6, 7, 1]]⟩ i j| < (1 / 1000 : ℝ) := by
  obtain ⟨hs1, hs2⟩ := sqrt_three_bounds
  have hm : GeneralTransformMatrix.SetTransformMatrix (⟨Real.cos, Real.sin⟩ : Trig ℝ)
      TransformMatrix.fresh ⟨⟨1, 2, 3⟩, ⟨5, 6, 7⟩, ⟨Real.pi / 2, Real.pi / 3, 0⟩⟩ =
      Except.ok ⟨4, 4, [[1 / 2, 0, -(Real.sqrt 3 / 2), 0], [Real.sqrt 3, 0, 1, 0],
        [0, -3, 0, 0], [5, 6, 7, 1]]⟩ := by
    rw [General_fresh _ Real.cos_zero Real.sin_zero]
    simp [homogeneous, linearPart, scaleMat, rotMat, rotX, rotY, rotZ, Matrix.mul_apply,
      Fin.sum_univ_three, Matrix.diagonal_apply, Matrix.vecHead, Matrix.vecTail]
    ring
  refine ⟨_, hm, rfl, ?_⟩
  intro i hi j hj
  interval_cases i <;> interval_cases j <;> simp [Matrix.get] <;> norm_num <;> rw [abs_lt] <;>
    constructor <;> linarith

end KnownMatrices

section CompositeRotation

open ViewerSpec

variable {F : Type} [Field F]

theorem RotationX_is4x4 (T : Trig F) (delta : TransformParametrs F) :
    (RotationXTransformMatrix.SetTransformMatrix T TransformMatrix.fresh delta).Is4x4 := by
  rw [RotationX_fresh]
  exact homogeneous_is4x4 _ _

theorem RotationY_is4x4 (T : Trig F) (delta : TransformParametrs F) :
    (RotationYTransformMatrix.SetTransformMatrix T TransformMatrix.fresh delta).Is4x4 := by
  rw [RotationY_fresh]
  exact homogeneous_is4x4 _ _

theorem RotationZ_is4x4 (T : Trig F) (delta : TransformParametrs F) :
    (RotationZTransformMatrix.SetTransformMatrix T TransformMatrix.fresh delta).Is4x4 := by
  rw [RotationZ_fresh]
  exact homogeneous_is4x4 _ _

/-- The composite rotation multiplies any 4 x 4 receiver on the right by
`RotateX`, `RotateY` and `RotateZ` in that order. -/
theorem Rotation_toMat4 (T : Trig F) {m : Matrix F} (hm : m.Is4x4)
    (delta : TransformParametrs F) :
    ∃ r, RotationTransformMatrix.SetTransformMatrix T m delta = Except.ok r ∧ r.Is4x4 ∧
      toMat4 r = toMat4 m *
        (toMat4 (RotationXTransformMatrix.SetTransformMatrix T TransformMatrix.fresh delta) *
          toMat4 (RotationYTransformMatrix.SetTransformMatrix T TransformMatrix.fresh delta) *
          toMat4 (RotationZTransformMatrix.SetTransformMatrix T TransformMatrix.fresh delta)) := by
  obtain ⟨c1, h1, h41, e1⟩ := toMat4_MulMatrix hm (RotationX_is4x4 T delta)
  obtain ⟨c2, h2, h42, e2⟩ := toMat4_MulMatrix h41 (RotationY_is4x4 T delta)
  obtain ⟨c3, h3, h43, e3⟩ := toMat4_MulMatrix h42 (RotationZ_is4x4 T delta)
  refine ⟨c3, ?_, h43, ?_⟩
  · simp only [RotationTransformMatrix.SetTransformMatrix, h1, h2, h3, bind, Except.bind]
  · rw [e3, e2, e1, Matrix.mul_assoc, Matrix.mul_assoc, Matrix.mul_assoc]

/-- Claim C12: for every rotation triple the composite Rotate matrix built on
a fresh instance is the matrix product `RotateX(rx) * RotateY(ry) * RotateZ(rz)`
of the three single-axis matrices, in that left-to-right order; the same
matrix results from multiplying the three with `MulMatrix`. -/
theorem Rotation_is_product_XYZ (T : Trig F) (delta : TransformParametrs F) :
    ∃ r, RotationTransformMatrix.SetTransformMatrix T TransformMatrix.fresh delta =
        Except.ok r ∧ r.Is4x4 ∧
      toMat4 r =
        toMat4 (RotationXTransformMatrix.SetTransformMatrix T TransformMatrix.fresh delta) *
          toMat4 (RotationYTransformMatrix.SetTransformMatrix T TransformMatrix.fresh delta) *
          toMat4 (RotationZTransformMatrix.SetTransformMatrix T TransformMatrix.fresh delta) ∧
      (do
        let xy ← (RotationXTransformMatrix.SetTransformMatrix T TransformMatrix.fresh
          delta).MulMatrix
            (RotationYTransformMatrix.SetTransformMatrix T TransformMatrix.fresh delta)
        xy.MulMatrix (RotationZTransformMatrix.SetTransformMatrix T TransformMatrix.fresh
          delta)) = Except.ok r := by
  obtain ⟨r, h, h4, e⟩ := Rotation_toMat4 T fresh_is4x4 delta
  refine ⟨r, h, h4, by rw [e, toMat4_fresh, Matrix.one_mul], ?_⟩
  rw [Rotation_fresh] at h
  rw [← h]
  simp only [RotationX_fresh, RotationY_fresh, RotationZ_fresh, MulMatrix_homogeneous_zero,
    bind, Except.bind, rotMat]

end CompositeRotation

section CompositeRotationWitness

open ViewerSpec

theorem Rotation_is_product_XYZ_witness :
    (∃ r, RotationTransformMatrix.SetTransformMatrix (⟨Real.cos, Real.sin⟩ : Trig ℝ)
        TransformMatrix.fresh ⟨⟨0, 0, 0⟩, ⟨0, 0, 0⟩, ⟨Real.pi / 2, Real.pi / 3, Real.pi / 4⟩⟩ =
          Except.ok r ∧
      transformVertex r 1 1 1 = Except.ok ((3 + Real.sqrt 3) * Real.sqrt 2 / 4,
        (Real.sqrt 3 - 1) * Real.sqrt 2 / 4, 1 / 2 - Real.sqrt 3 / 2)) ∧
    |(3 + Real.sqrt 3) * Real.sqrt 2 / 4 - 1.673032| < (1 / 1000 : ℝ) ∧
    |(Real.sqrt 3 - 1) * Real.sqrt 2 / 4 - 0.258825| < (1 / 1000 : ℝ) ∧
    |1 / 2 - Real.sqrt 3 / 2 - (-0.36602)| < (1 / 1000 : ℝ) := by
  obtain ⟨hs1, hs2⟩ := sqrt_three_bounds
  obtain ⟨ht1, ht2⟩ := sqrt_two_bounds
  have hp1 := mul_pos (sub_pos.2 hs1) (sub_pos.2 ht1)
  have hp2 := mul_pos (sub_pos.2 hs2) (sub_pos.2 ht1)
  have hp3 := mul_pos (sub_pos.2 hs1) (sub_pos.2 ht2)
  have hp4 := mul_pos (sub_pos.2 hs2) (sub_pos.2 ht2)
  refine ⟨?_, ?_, ?_, ?_⟩
  · obtain ⟨r, h, -, -, -⟩ := Rotation_is_product_XYZ (⟨Real.cos, Real.sin⟩ : Trig ℝ)
      ⟨⟨0, 0, 0⟩, ⟨0, 0, 0⟩, ⟨Real.pi / 2, Real.pi / 3, Real.pi / 4⟩⟩
    refine ⟨r, h, ?_⟩
    rw [Rotation_fresh] at h
    rw [← Except.ok.inj h, transformVertex_homogeneous]
    simp [affineMap, rotMat, rotX, rotY, rotZ, Matrix.vecMul, Matrix.dotProduct,
      Fin.sum_univ_three, Matrix.mul_apply, Matrix.vecHead, Matrix.vecTail]
    refine ⟨?_, ?_, ?_⟩ <;> ring
  · rw [abs_lt]
    constructor <;> nlinarith
  · rw [abs_lt]
    constructor <;> nlinarith
  · rw [abs_lt]
    constructor <;> linarith

end CompositeRotationWitness

/-! ## The General product and repeated calls of `SetTransformMatrix` -/

section GeneralProduct

open ViewerSpec

variable {F : Type} [Field F]

theorem productScaleRotateMove_homogeneous (T : Trig F) (S : Mat3 F)
    (delta : TransformParametrs F) :
    productScaleRotateMove T (homogeneous S ⟨0, 0, 0⟩) delta =
      Except.ok (homogeneous (S * rotMat T delta.rotation) delta.move) := by
  simp only [productScaleRotateMove, Rotation_fresh, Move_fresh, MulMatrix_homogeneous_zero,
    bind, Except.bind, Matrix.mul_one]

theorem unconditionalGeneral_eq (T : Trig F) (delta : TransformParametrs F) :
    unconditionalGeneral T delta =
      Except.ok (homogeneous
        (Matrix.diagonal ![delta.scale.x, delta.scale.y, delta.scale.z] *
          rotMat T delta.rotation) delta.move) := by
  rw [unconditionalGeneral, Scale_fresh, productScaleRotateMove_homogeneous]

variable [DecidableEq F]

/-- Claim C14, amended: the General matrix built on a fresh instance is the
product of the three factors, all multiplied, in which the Scale factor is
`Scale(delta.scale)` when some component of the scale is non-zero and the
identity when the scale is all-zero. So it is the unconditional product
`Scale * Rotate * Move` whenever some component of the scale is non-zero
(skipping an all-zero rotation or move changes nothing), while for an
all-zero scale the unconditional product has the zero matrix as its linear
block. -/
theorem General_eq_product (T : Trig F) (hcos : T.cos 0 = 1) (hsin : T.sin 0 = 0)
    (delta : TransformParametrs F) :
    GeneralTransformMatrix.SetTransformMatrix T TransformMatrix.fresh delta =
        productScaleRotateMove T
          (if IsDelta delta.scale then
            ScaleTransformMatrix.SetTransformMatrix TransformMatrix.fresh delta
          else TransformMatrix.fresh) delta ∧
      (IsDelta delta.scale = true →
        GeneralTransformMatrix.SetTransformMatrix T TransformMatrix.fresh delta =
          unconditionalGeneral T delta) ∧
      (IsDelta delta.scale = false →
        unconditionalGeneral T delta = Except.ok (homogeneous 0 delta.move)) := by
  have h1 : GeneralTransformMatrix.SetTransformMatrix T TransformMatrix.fresh delta =
      productScaleRotateMove T
        (if IsDelta delta.scale then
          ScaleTransformMatrix.SetTransformMatrix TransformMatrix.fresh delta
        else TransformMatrix.fresh) delta := by
    rw [General_fresh T hcos hsin, linearPart, scaleMat_of_IsDelta]
    by_cases hs : IsDelta delta.scale = true
    · simp only [hs, if_true, Scale_fresh, productScaleRotateMove_homogeneous]
    · simp only [hs, Bool.false_eq_true, if_false, fresh_homogeneous,
        productScaleRotateMove_homogeneous]
  refine ⟨h1, ?_, ?_⟩
  · intro hs
    rw [h1, unconditionalGeneral]
    simp only [hs, if_true]
  · intro hs
    obtain ⟨hx, hy, hz⟩ := (IsDelta_eq_false_iff delta.scale).mp hs
    rw [unconditionalGeneral_eq, hx, hy, hz]
    have hz0 : Matrix.diagonal ![(0 : F), 0, 0] = 0 := by
      ext i j
      fin_cases i <;> fin_cases j <;> simp
    rw [hz0, Matrix.zero_mul]

end GeneralProduct

section GeneralProductWitness

open ViewerSpec

theorem General_eq_product_witness :
    (noRotation.cos 0 = 1 ∧ noRotation.sin 0 = 0) ∧
      GeneralTransformMatrix.SetTransformMatrix noRotation TransformMatrix.fresh
          ⟨⟨2, 2, 2⟩, ⟨5, 6, 7⟩, ⟨0, 0, 0⟩⟩ =
        unconditionalGeneral noRotation ⟨⟨2, 2, 2⟩, ⟨5, 6, 7⟩, ⟨0, 0, 0⟩⟩ :=
  ⟨⟨noRotation_cos, noRotation_sin⟩,
    (General_eq_product noRotation noRotation_cos noRotation_sin
      ⟨⟨2, 2, 2⟩, ⟨5, 6, 7⟩, ⟨0, 0, 0⟩⟩).2.1 (by simp [IsDelta])⟩

/-- Claim C14 as stated fails at the all-zero delta: the General matrix built
on a fresh instance is the identity, while the product
`Scale * Rotate * Move` with all three factors multiplied has `Scale(0, 0, 0)`,
whose diagonal is `(0, 0, 0, 1)`, as its first factor. -/
theorem General_zero_scale_not_unconditional :
    GeneralTransformMatrix.SetTransformMatrix noRotation TransformMatrix.fresh
        ⟨⟨0, 0, 0⟩, ⟨0, 0, 0⟩, ⟨0, 0, 0⟩⟩ ≠
      unconditionalGeneral noRotation ⟨⟨0, 0, 0⟩, ⟨0, 0, 0⟩, ⟨0, 0, 0⟩⟩ := by
  rw [General_zero, unconditionalGeneral_eq, fresh_homogeneous]
  intro h
  have h1 := congrArg (fun m : Matrix ℚ => m.get 0 0) (Except.ok.inj h)
  simp [homogeneous, Matrix.get] at h1

end GeneralProductWitness

section RepeatedCalls

open ViewerSpec

/-- Claim C15: the variants Move, Scale, RotateX, RotateY and RotateZ write
the same entries on every call, so on an instance that was constructed fresh
the matrix after a call depends on the delta of that call only. The variants
Rotate and General do not overwrite: they multiply the receiver. On the same
instance a second `SetTransformMatrix` with rotation (pi/2, 0, 0) leaves the
Rotate matrix at the half turn `diag(1, -1, -1, 1)`, not at the quarter turn
a fresh instance gets, and a second call with scale (2, 2, 2) leaves the
General matrix at `diag(4, 4, 4, 1)`, not at `diag(2, 2, 2, 1)`. -/
theorem SetTransformMatrix_twice :
    (∀ (T : Trig ℝ) (d1 d2 : TransformParametrs ℝ),
      MoveTransformMatrix.SetTransformMatrix
          (MoveTransformMatrix.SetTransformMatrix TransformMatrix.fresh d1) d2 =
        MoveTransformMatrix.SetTransformMatrix TransformMatrix.fresh d2 ∧
      ScaleTransformMatrix.SetTransformMatrix
          (ScaleTransformMatrix.SetTransformMatrix TransformMatrix.fresh d1) d2 =
        ScaleTransformMatrix.SetTransformMatrix TransformMatrix.fresh d2 ∧
      RotationXTransformMatrix.SetTransformMatrix T
          (RotationXTransformMatrix.SetTransformMatrix T TransformMatrix.fresh d1) d2 =
        RotationXTransformMatrix.SetTransformMatrix T TransformMatrix.fresh d2 ∧
      RotationYTransformMatrix.SetTransformMatrix T
          (RotationYTransformMatrix.SetTransformMatrix T TransformMatrix.fresh d1) d2 =
        RotationYTransformMatrix.SetTransformMatrix T TransformMatrix.fresh d2 ∧
      RotationZTransformMatrix.SetTransformMatrix T
          (RotationZTransformMatrix.SetTransformMatrix T TransformMatrix.fresh d1) d2 =
        RotationZTransformMatrix.SetTransformMatrix T TransformMatrix.fresh d2) ∧
    (∃ once twice : Matrix ℝ,
      RotationTransformMatrix.SetTransformMatrix ⟨Real.cos, Real.sin⟩ TransformMatrix.fresh
          ⟨⟨0, 0, 0⟩, ⟨0, 0, 0⟩, ⟨Real.pi / 2, 0, 0⟩⟩ = Except.ok once ∧
      RotationTransformMatrix.SetTransformMatrix ⟨Real.cos, Real.sin⟩ once
          ⟨⟨0, 0, 0⟩, ⟨0, 0, 0⟩, ⟨Real.pi / 2, 0, 0⟩⟩ = Except.ok twice ∧
      once = ⟨4, 4, [[1, 0, 0, 0], [0, 0, 1, 0], [0, -1, 0, 0], [0, 0, 0, 1]]⟩ ∧
      twice = ⟨4, 4, [[1, 0, 0, 0], [0, -1, 0, 0], [0, 0, -1, 0], [0, 0, 0, 1]]⟩ ∧
      twice ≠ once) ∧
    (∃ once twice : Matrix ℚ,
      GeneralTransformMatrix.SetTransformMatrix noRotation TransformMatrix.fresh
          ⟨⟨2, 2, 2⟩, ⟨0, 0, 0⟩, ⟨0, 0, 0⟩⟩ = Except.ok once ∧
      GeneralTransformMatrix.SetTransformMatrix noRotation once
          ⟨⟨2, 2, 2⟩, ⟨0, 0, 0⟩, ⟨0, 0, 0⟩⟩ = Except.ok twice ∧
      once = ⟨4, 4, [[2, 0, 0, 0], [0, 2, 0, 0], [0, 0, 2, 0], [0, 0, 0, 1]]⟩ ∧
      twice = ⟨4, 4, [[4, 0, 0, 0], [0, 4, 0, 0], [0, 0, 4, 0], [0, 0, 0, 1]]⟩ ∧
      twice ≠ once) := by
  refine ⟨?_, ?_, ?_⟩
  · intro T d1 d2
    rw [TransformMatrix.fresh_eq]
    exact ⟨rfl, rfl, rfl, rfl, rfl⟩
  · have h1 : RotationTransformMatrix.SetTransformMatrix (⟨Real.cos, Real.sin⟩ : Trig ℝ)
        TransformMatrix.fresh ⟨⟨0, 0, 0⟩, ⟨0, 0, 0⟩, ⟨Real.pi / 2, 0, 0⟩⟩ =
        Except.ok ⟨4, 4, [[1, 0, 0, 0], [0, 0, 1, 0], [0, -1, 0, 0], [0, 0, 0, 1]]⟩ := by
      rw [Rotation_fresh]
      simp [homogeneous, rotMat, rotX, rotY, rotZ, Matrix.mul_apply, Fin.sum_univ_three,
        Matrix.vecHead, Matrix.vecTail]
    have h2 : RotationTransformMatrix.SetTransformMatrix (⟨Real.cos, Real.sin⟩ : Trig ℝ)
        ⟨4, 4, [[1, 0, 0, 0], [0, 0, 1, 0], [0, -1, 0, 0], [0, 0, 0, 1]]⟩
        ⟨⟨0, 0, 0⟩, ⟨0, 0, 0⟩, ⟨Real.pi / 2, 0, 0⟩⟩ =
        Except.ok ⟨4, 4, [[1, 0, 0, 0], [0, -1, 0, 0], [0, 0, -1, 0], [0, 0, 0, 1]]⟩ := by
      have e : (⟨4, 4, [[1, 0, 0, 0], [0, 0, 1, 0], [0, -1, 0, 0], [0, 0, 0, 1]]⟩ : Matrix ℝ) =
          homogeneous !![1, 0, 0; 0, 0, 1; 0, -1, 0] ⟨0, 0, 0⟩ := by
        simp [homogeneous, Matrix.vecHead, Matrix.vecTail]
      rw [e, Rotation_homogeneous]
      simp [homogeneous, rotMat, rotX, rotY, rotZ, Matrix.mul_apply, Fin.sum_univ_three,
        Matrix.vecHead, Matrix.vecTail]
    refine ⟨_, _, h1, h2, rfl, rfl, ?_⟩
    intro h
    have h3 := congrArg (fun m : Matrix ℝ => m.get 1 1) h
    simp [Matrix.get] at h3
  · have h1 : GeneralTransformMatrix.SetTransformMatrix noRotation TransformMatrix.fresh
        ⟨⟨2, 2, 2⟩, ⟨0, 0, 0⟩, ⟨0, 0, 0⟩⟩ =
        Except.ok ⟨4, 4, [[2, 0, 0, 0], [0, 2, 0, 0], [0, 0, 2, 0], [0, 0, 0, 1]]⟩ := by
      rw [General_fresh noRotation noRotation_cos noRotation_sin]
      simp [homogeneous, linearPart, scaleMat, rotMat_zero noRotation noRotation_cos
        noRotation_sin, Matrix.diagonal_apply]
    have h2 : GeneralTransformMatrix.SetTransformMatrix noRotation
        ⟨4, 4, [[2, 0, 0, 0], [0, 2, 0, 0], [0, 0, 2, 0], [0, 0, 0, 1]]⟩
        ⟨⟨2, 2, 2⟩, ⟨0, 0, 0⟩, ⟨0, 0, 0⟩⟩ =
        Except.ok ⟨4, 4, [[4, 0, 0, 0], [0, 4, 0, 0], [0, 0, 4, 0], [0, 0, 0, 1]]⟩ := by
      have e : (⟨4, 4, [[2, 0, 0, 0], [0, 2, 0, 0], [0, 0, 2, 0], [0, 0, 0, 1]]⟩ : Matrix ℚ) =
          homogeneous (Matrix.diagonal ![2, 2, 2]) ⟨0, 0, 0⟩ := by
        simp [homogeneous, Matrix.diagonal_apply]
      rw [e]
      simp only [GeneralTransformMatrix.SetTransformMatrix, IsDelta, Scale_fresh,
        MulMatrix_homogeneous_zero, bind, Except.bind, pure, Except.pure]
      simp [homogeneous, Matrix.mul_apply, Fin.sum_univ_three, Matrix.diagonal_apply]
      norm_num
    refine ⟨_, _, h1, h2, rfl, rfl, ?_⟩
    intro h
    have h3 := congrArg (fun m : Matrix ℚ => m.get 0 0) h
    simp [Matrix.get] at h3

end RepeatedCalls

/-! ## Binding a vertex buffer -/

section Binding

open ViewerSpec

variable {F : Type} [Field F]

theorem transformLoopFrom_cases (L : Mat3 F) (m : Delta F) :
    ∀ (n : Nat) (buf : List F), buf.length ≤ n →
      (∃ r, transformLoopFrom (homogeneous L m) buf = Except.ok r ∧ r.length = buf.length) ∨
        transformLoopFrom (homogeneous L m) buf = Except.error Error.ub := by
  intro n
  induction n with
  | zero =>
    intro buf h
    have h0 : buf = [] := List.length_eq_zero.mp (by omega)
    subst h0
    exact Or.inl ⟨[], rfl, rfl⟩
  | succ n ih =>
    intro buf h
    match buf, h with
    | [], _ => exact Or.inl ⟨[], rfl, rfl⟩
    | [_], _ => exact Or.inr rfl
    | [_, _], _ => exact Or.inr rfl
    | x :: y :: z :: rest, h =>
      have hrest : rest.length ≤ n := by
        simp only [List.length_cons] at h
        omega
      rw [transformLoopFrom, transformVertex_homogeneous]
      rcases ih rest hrest with ⟨r, hr, hl⟩ | he
      · refine Or.inl ⟨(affineMap L m x y z).1 :: (affineMap L m x y z).2.1 ::
          (affineMap L m x y z).2.2 :: r, ?_, ?_⟩
        · simp only [bind, Except.bind, hr, pure, Except.pure]
        · simp [hl]
      · refine Or.inr ?_
        simp only [bind, Except.bind, he]

theorem transformLoop_cases (L : Mat3 F) (m : Delta F) (buf : List F) :
    (∃ r, transformLoop (homogeneous L m) buf = Except.ok r ∧ r.length = buf.length) ∨
      transformLoop (homogeneous L m) buf = Except.error Error.ub := by
  cases buf with
  | nil => exact Or.inr rfl
  | cons x xs => exact transformLoopFrom_cases L m _ (x :: xs) (le_refl _)

variable [DecidableEq F]

theorem General_fresh_shape (T : Trig F) (delta : TransformParametrs F) :
    ∃ (L : Mat3 F) (m : Delta F),
      GeneralTransformMatrix.SetTransformMatrix T TransformMatrix.fresh delta =
        Except.ok (homogeneous L m) := by
  unfold GeneralTransformMatrix.SetTransformMatrix
  simp only [Scale_fresh, Move_fresh, Rotation_fresh]
  rw [fresh_homogeneous]
  by_cases hs : IsDelta delta.scale = true <;> by_cases hr : IsDelta delta.rotation = true <;>
    by_cases hm : IsDelta delta.move = true
  all_goals
    simp only [hs, hr, hm, if_true, if_false, Bool.false_eq_true, bind, Except.bind, pure,
      Except.pure, MulMatrix_homogeneous_zero]
    exact ⟨_, _, rfl⟩

/-- With the class invariant, `PrivateTransformVertices` either returns, with
the members `vertices_` and `translation_` and the length of the buffer as
they were, or makes an out-of-bounds access. -/
theorem PrivateTransformVertices_cases (T : Trig F) (a : AffineTransform F)
    (h4 : a.transform_matrix_.Is4x4) (buf : List F) (delta : TransformParametrs F) :
    (∃ a1 buf1, a.PrivateTransformVertices T buf delta = Except.ok (a1, buf1) ∧
        a1.transform_matrix_.Is4x4 ∧ a1.vertices_ = a.vertices_ ∧
        a1.translation_ = a.translation_ ∧ buf1.length = buf.length) ∨
      a.PrivateTransformVertices T buf delta = Except.error Error.ub := by
  obtain ⟨L, m, hg⟩ := General_fresh_shape T delta
  unfold AffineTransform.PrivateTransformVertices
  rw [hg]
  simp only [bind, Except.bind, copyEntries_homogeneous _ h4, pure, Except.pure]
  by_cases hid : IsIdentityMatrix (homogeneous L m) = true
  · simp only [hid, Bool.not_true, Bool.false_eq_true, if_false]
    exact Or.inl ⟨_, _, rfl, homogeneous_is4x4 _ _, rfl, rfl, rfl⟩
  · simp only [hid, Bool.not_false, if_true]
    rcases transformLoop_cases L m buf with ⟨r, hr, hl⟩ | he
    · rw [hr]
      exact Or.inl ⟨_, _, rfl, homogeneous_is4x4 _ _, rfl, rfl, hl⟩
    · rw [he]
      exact Or.inr rfl

theorem TranslateInLocal_cases (T : Trig F) (a : AffineTransform F)
    (h4 : a.transform_matrix_.Is4x4) (buf : List F) :
    (∃ a1 buf1, a.TranslateInLocal T buf = Except.ok (a1, buf1) ∧
        a1.transform_matrix_.Is4x4 ∧ a1.vertices_ = a.vertices_ ∧
        a1.translation_ = a.translation_ ∧ buf1.length = buf.length) ∨
      a.TranslateInLocal T buf = Except.error Error.ub := by
  unfold AffineTransform.TranslateInLocal
  by_cases ht : a.IsTranslation = true
  · rw [if_pos ht]
    exact PrivateTransformVertices_cases T a h4 buf _
  · rw [if_neg ht]
    exact Or.inl ⟨_, _, rfl, h4, rfl, rfl, rfl⟩

theorem TranslateInGlobal_cases (T : Trig F) (a : AffineTransform F)
    (h4 : a.transform_matrix_.Is4x4) (buf : List F) :
    (∃ a1 buf1, a.TranslateInGlobal T buf = Except.ok (a1, buf1) ∧
        a1.transform_matrix_.Is4x4 ∧ a1.vertices_ = a.vertices_ ∧
        a1.translation_ = a.translation_ ∧ buf1.length = buf.length) ∨
      a.TranslateInGlobal T buf = Except.error Error.ub := by
  unfold AffineTransform.TranslateInGlobal
  by_cases ht : a.IsTranslation = true
  · rw [if_pos ht]
    exact PrivateTransformVertices_cases T a h4 buf _
  · rw [if_neg ht]
    exact Or.inl ⟨_, _, rfl, h4, rfl, rfl, rfl⟩

/-- With the class invariant and a buffer bound, `TransformVertices` either
returns, with the binding and the length of the buffer as they were, or makes
an out-of-bounds access; it throws nothing. -/
theorem TransformVertices_cases (T : Trig F) (a : AffineTransform F)
    (hbound : a.vertices_ ≠ none) (h4 : a.transform_matrix_.Is4x4) (buf : List F)
    (delta : TransformParametrs F) :
    (∃ a1 buf1, a.TransformVertices T buf delta = Except.ok (a1, buf1) ∧
        a1.transform_matrix_.Is4x4 ∧ a1.vertices_ = a.vertices_ ∧
        buf1.length = buf.length) ∨
      a.TransformVertices T buf delta = Except.error Error.ub := by
  unfold AffineTransform.TransformVertices
  rw [if_neg hbound]
  rcases TranslateInLocal_cases T a h4 buf with ⟨a1, b1, e1, h41, hv1, -, hl1⟩ | e1
  · rcases PrivateTransformVertices_cases T a1 h41 b1 delta with
      ⟨a2, b2, e2, h42, hv2, -, hl2⟩ | e2
    · rcases TranslateInGlobal_cases T a2 h42 b2 with ⟨a3, b3, e3, h43, hv3, -, hl3⟩ | e3
      · refine Or.inl ⟨a3.SetTranslation delta.move, b3, ?_, h43, ?_, ?_⟩
        · simp only [bind, Except.bind, e1, e2, e3, pure, Except.pure]
        · rw [← hv1, ← hv2, ← hv3]
          rfl
        · omega
      · refine Or.inr ?_
        simp only [bind, Except.bind, e1, e2, e3]
    · refine Or.inr ?_
      simp only [bind, Except.bind, e1, e2]
  · refine Or.inr ?_
    simp only [bind, Except.bind, e1]

end Binding

section BindingClaims

open ViewerSpec

variable {F : Type} [Field F] [DecidableEq F]

/-- Claim C17: `AddVertices` raises invalid-argument if and only if the
pointer is null, the buffer is empty, or its length is not a multiple of 3,
whatever the current binding; it raises nothing else, on error the object
(hence the binding) is unchanged, and otherwise it returns, binding the
buffer when none was bound. -/
theorem AffineTransform.AddVertices_invalid_iff {F : Type} (a : AffineTransform F)
    (vertices : Option Nat) (contents : List F) :
    ((∃ msg, a.AddVertices vertices contents =
          Except.error ⟨ErrorKind.invalidArgument, msg⟩) ↔
        (vertices = none ∨ contents = [] ∨ contents.length % 3 ≠ 0)) ∧
      (∀ e, a.AddVertices vertices contents = Except.error e →
        e = ⟨ErrorKind.invalidArgument, "Invalid input parameters!\n"⟩ ∧
          afterCall a (a.AddVertices vertices contents) = a ∧
          (afterCall a (a.AddVertices vertices contents)).vertices_ = a.vertices_) ∧
      (¬(vertices = none ∨ contents = [] ∨ contents.length % 3 ≠ 0) →
        a.AddVertices vertices contents =
          Except.ok (if a.vertices_ = none then { a with vertices_ := vertices } else a)) := by
  by_cases h : vertices = none ∨ contents = [] ∨ contents.length % 3 ≠ 0
  · have he : a.AddVertices vertices contents =
        Except.error ⟨ErrorKind.invalidArgument, "Invalid input parameters!\n"⟩ := by
      unfold AffineTransform.AddVertices
      rw [if_pos (by simpa [List.isEmpty_iff] using h)]
    refine ⟨⟨fun _ => h, fun _ => ⟨_, he⟩⟩, ?_, fun hn => absurd h hn⟩
    intro e h1
    rw [he] at h1
    refine ⟨(Except.error.inj h1).symm, ?_, ?_⟩ <;> rw [he] <;> rfl
  · have hok : a.AddVertices vertices contents =
        Except.ok (if a.vertices_ = none then { a with vertices_ := vertices } else a) := by
      unfold AffineTransform.AddVertices
      rw [if_neg (by simpa [List.isEmpty_iff] using h)]
      by_cases hv : a.vertices_ = none
      · rw [if_pos hv, if_pos hv]
      · rw [if_neg hv, if_neg hv]
    refine ⟨⟨?_, fun h1 => absurd h1 h⟩, ?_, fun _ => hok⟩
    · rintro ⟨msg, h1⟩
      rw [hok] at h1
      cases h1
    · intro e h1
      rw [hok] at h1
      cases h1

/-- Claim C19: `TransformVertices(delta)` raises invalid-argument if and only
if no buffer is bound, and then the object, hence the accumulated translation,
and the buffer passed are left as they were. -/
theorem AffineTransform.TransformVertices_invalid_iff (T : Trig F) (a : AffineTransform F)
    (h4 : a.transform_matrix_.Is4x4) (buf : List F) (delta : TransformParametrs F) :
    ((∃ msg, a.TransformVertices T buf delta =
          Except.error ⟨ErrorKind.invalidArgument, msg⟩) ↔ a.vertices_ = none) ∧
      (a.vertices_ = none →
        a.TransformVertices T buf delta =
            Except.error ⟨ErrorKind.invalidArgument, "Add vertices!\n"⟩ ∧
          afterCall (a, buf) (a.TransformVertices T buf delta) = (a, buf) ∧
          (afterCall (a, buf) (a.TransformVertices T buf delta)).1.translation_ =
            a.translation_) := by
  have hnone : a.vertices_ = none → a.TransformVertices T buf delta =
      Except.error ⟨ErrorKind.invalidArgument, "Add vertices!\n"⟩ := by
    intro hv
    unfold AffineTransform.TransformVertices
    rw [if_pos hv]
  refine ⟨⟨?_, fun hv => ⟨_, hnone hv⟩⟩, ?_⟩
  · rintro ⟨msg, h1⟩
    by_contra hv
    rcases TransformVertices_cases T a hv h4 buf delta with ⟨a1, b1, e1, -⟩ | e1
    · rw [e1] at h1
      cases h1
    · rw [e1] at h1
      have h2 := congrArg Error.kind (Except.error.inj h1)
      simp [Error.ub] at h2
  · intro hv
    refine ⟨hnone hv, ?_, ?_⟩ <;> rw [hnone hv] <;> rfl

end BindingClaims

section BindingWitness

open ViewerSpec

theorem AffineTransform.TransformVertices_invalid_iff_witness :
    (TransformMatrix.fresh : Matrix ℚ).Is4x4 ∧
      AffineTransform.TransformVertices noRotation ⟨TransformMatrix.fresh, none, ⟨1, 2, 3⟩⟩ []
          ⟨⟨0, 0, 0⟩, ⟨5, 6, 7⟩, ⟨0, 0, 0⟩⟩ =
        Except.error ⟨ErrorKind.invalidArgument, "Add vertices!\n"⟩ :=
  ⟨fresh_is4x4,
    ((AffineTransform.TransformVertices_invalid_iff noRotation
      ⟨TransformMatrix.fresh, none, ⟨1, 2, 3⟩⟩ fresh_is4x4 []
      ⟨⟨0, 0, 0⟩, ⟨5, 6, 7⟩, ⟨0, 0, 0⟩⟩).2 rfl).1⟩

end BindingWitness

section FirstBind

open ViewerSpec

variable {F : Type} [Field F] [DecidableEq F]

theorem TransformVerticesAt_bound (T : Trig F) (a : AffineTransform F) (heap : Heap F)
    (b1 : Nat) (hb : a.vertices_ = some b1) (delta : TransformParametrs F) :
    a.TransformVerticesAt T heap delta =
      (a.TransformVertices T (heap b1) delta).bind fun r =>
        Except.ok (r.1, Function.update heap b1 r.2) := by
  unfold AffineTransform.TransformVerticesAt
  rw [hb]
  rfl

/-- A sequence of calls of `TransformVertices` that returns keeps the binding
and writes no vector but the bound one. -/
theorem transformAll_frame (T : Trig F) (b1 : Nat) :
    ∀ (deltas : List (TransformParametrs F)) (a : AffineTransform F) (heap : Heap F),
      a.vertices_ = some b1 → a.transform_matrix_.Is4x4 →
      ∀ a1 heap1, AffineTransform.transformAll T deltas (a, heap) = Except.ok (a1, heap1) →
        a1.vertices_ = some b1 ∧ ∀ p, p ≠ b1 → heap1 p = heap p := by
  intro deltas
  induction deltas with
  | nil =>
    intro a heap hb _ a1 heap1 h
    simp only [AffineTransform.transformAll, pure, Except.pure, Except.ok.injEq,
      Prod.mk.injEq] at h
    obtain ⟨rfl, rfl⟩ := h
    exact ⟨hb, fun _ _ => rfl⟩
  | cons delta rest ih =>
    intro a heap hb h4 a1 heap1 h
    rw [AffineTransform.transformAll] at h
    simp only [TransformVerticesAt_bound T a heap b1 hb] at h
    rcases TransformVertices_cases T a (by rw [hb]; simp) h4 (heap b1) delta with
      ⟨a2, buf2, e2, h42, hv2, -⟩ | e2
    · rw [e2] at h
      simp only [bind, Except.bind] at h
      obtain ⟨hv, hframe⟩ := ih a2 (Function.update heap b1 buf2) (by rw [hv2, hb]) h42 a1
        heap1 h
      refine ⟨hv, fun p hp => ?_⟩
      rw [hframe p hp, Function.update_noteq hp]
    · rw [e2] at h
      simp only [bind, Except.bind] at h
      cases h

/-- On a bound buffer of whole vertices every sequence of calls of
`TransformVertices` returns. -/
theorem transformAll_returns (T : Trig F) (hcos : T.cos 0 = 1) (hsin : T.sin 0 = 0) (b1 : Nat) :
    ∀ (deltas : List (TransformParametrs F)) (a : AffineTransform F) (heap : Heap F),
      a.vertices_ = some b1 → a.transform_matrix_.Is4x4 →
      (∃ n, (heap b1).length = 3 * (n + 1)) →
      ∃ a1 heap1, AffineTransform.transformAll T deltas (a, heap) = Except.ok (a1, heap1) := by
  intro deltas
  induction deltas with
  | nil =>
    intro a heap _ _ _
    exact ⟨a, heap, rfl⟩
  | cons delta rest ih =>
    intro a heap hb h4 hlen
    obtain ⟨n, hn⟩ := hlen
    obtain ⟨tm, htm, e⟩ := TransformVertices_eq T hcos hsin a (by rw [hb]; simp) h4 n (heap b1)
      hn delta
    rw [AffineTransform.transformAll]
    simp only [TransformVerticesAt_bound T a heap b1 hb, e, bind, Except.bind]
    refine ih _ _ hb htm ⟨n, ?_⟩
    rw [Function.update_same]
    exact mapVertices_length _ (n + 1) _ hn

/-- Claim C18: first bind wins. With a buffer B1 bound, `AddVertices(B2)` with
another valid buffer B2 returns and leaves the object as it was (binding and
accumulated translation included) and writes no memory; every sequence of later
calls of `TransformVertices` that returns keeps the binding to B1 and leaves
every vector but B1, so B2, as it was; and when B1 holds whole vertices (and
`cos 0 = 1`, `sin 0 = 0`) every such sequence does return. -/
theorem AffineTransform.first_bind_wins (T : Trig F) (a : AffineTransform F) (heap : Heap F)
    (b1 b2 : Nat) (hb : a.vertices_ = some b1) (h4 : a.transform_matrix_.Is4x4)
    (hother : b2 ≠ b1) (hne : heap b2 ≠ []) (hlen : (heap b2).length % 3 = 0) :
    a.AddVerticesAt heap (some b2) = Except.ok a ∧
      (∀ deltas a1 heap1,
        AffineTransform.transformAll T deltas (a, heap) = Except.ok (a1, heap1) →
          a1.vertices_ = some b1 ∧ heap1 b2 = heap b2 ∧ ∀ p, p ≠ b1 → heap1 p = heap p) ∧
      (T.cos 0 = 1 → T.sin 0 = 0 → heap b1 ≠ [] → (heap b1).length % 3 = 0 →
        ∀ deltas, ∃ a1 heap1,
          AffineTransform.transformAll T deltas (a, heap) = Except.ok (a1, heap1)) := by
  refine ⟨?_, ?_, ?_⟩
  · unfold AffineTransform.AddVerticesAt AffineTransform.AddVertices
    simp only
    rw [if_neg (by simp [List.isEmpty_iff, hne, hlen]), if_neg (by rw [hb]; simp)]
  · intro deltas a1 heap1 h
    obtain ⟨hv, hframe⟩ := transformAll_frame T b1 deltas a heap hb h4 a1 heap1 h
    exact ⟨hv, hframe b2 hother, hframe⟩
  · intro hcos hsin hne1 hlen1 deltas
    exact transformAll_returns T hcos hsin b1 deltas a heap hb h4
      (length_eq_three_mul_succ _ hne1 hlen1)

end FirstBind

section FirstBindWitness

open ViewerSpec

/-- The memory of the witness: the triangle `[0, 0, 0, 1, 0, 0, 0, 1, 0]` at
address 0 and the vertex `[9, 9, 9]` at address 1. -/
theorem AffineTransform.first_bind_wins_witness :
    ((boundTransform ℚ).vertices_ = some 0 ∧ (boundTransform ℚ).transform_matrix_.Is4x4 ∧
      (1 : Nat) ≠ 0) ∧
    (boundTransform ℚ).AddVerticesAt
        (fun p => if p = 0 then [0, 0, 0, 1, 0, 0, 0, 1, 0] else [9, 9, 9]) (some 1) =
      Except.ok (boundTransform ℚ) ∧
    ∃ a1 heap1,
      AffineTransform.transformAll noRotation
          [⟨⟨2, 2, 2⟩, ⟨5, 6, 7⟩, ⟨0, 0, 0⟩⟩, ⟨⟨0, 0, 0⟩, ⟨1, 0, 0⟩, ⟨0, 0, 0⟩⟩]
          (boundTransform ℚ,
            fun p => if p = 0 then [0, 0, 0, 1, 0, 0, 0, 1, 0] else [9, 9, 9]) =
        Except.ok (a1, heap1) ∧ a1.vertices_ = some 0 ∧ heap1 1 = [9, 9, 9] := by
  have h := AffineTransform.first_bind_wins noRotation (boundTransform ℚ)
    (fun p => if p = 0 then [0, 0, 0, 1, 0, 0, 0, 1, 0] else [9, 9, 9]) 0 1 rfl fresh_is4x4
    (by decide) (by simp) (by simp)
  refine ⟨⟨rfl, fresh_is4x4, by decide⟩, h.1, ?_⟩
  obtain ⟨a1, heap1, e⟩ := h.2.2 noRotation_cos noRotation_sin (by simp) (by simp)
    [⟨⟨2, 2, 2⟩, ⟨5, 6, 7⟩, ⟨0, 0, 0⟩⟩, ⟨⟨0, 0, 0⟩, ⟨1, 0, 0⟩, ⟨0, 0, 0⟩⟩]
  obtain ⟨hv, h2, -⟩ := h.2.1 _ a1 heap1 e
  exact ⟨a1, heap1, e, hv, by rw [h2]; simp⟩

end FirstBindWitness

/-! ## Matrix arithmetic -/

section MatrixArithmetic

variable {F : Type} [Field F]

theorem SumMatrix_error_iff (a b : Matrix F) :
    (∃ msg, a.SumMatrix b = Except.error ⟨ErrorKind.rangeError, msg⟩) ↔
      (a.rows_ ≠ b.rows_ ∨ a.cols_ ≠ b.cols_) := by
  unfold Matrix.SumMatrix
  by_cases h : a.rows_ ≠ b.rows_ ∨ a.cols_ ≠ b.cols_
  · rw [if_pos h]
    exact ⟨fun _ => h, fun _ => ⟨_, rfl⟩⟩
  · rw [if_neg h]
    refine ⟨?_, fun h1 => absurd h1 h⟩
    rintro ⟨msg, h1⟩
    cases h1

theorem SubMatrix_error_iff (a b : Matrix F) :
    (∃ msg, a.SubMatrix b = Except.error ⟨ErrorKind.rangeError, msg⟩) ↔
      (a.rows_ ≠ b.rows_ ∨ a.cols_ ≠ b.cols_) := by
  unfold Matrix.SubMatrix
  by_cases h : a.rows_ ≠ b.rows_ ∨ a.cols_ ≠ b.cols_
  · rw [if_pos h]
    exact ⟨fun _ => h, fun _ => ⟨_, rfl⟩⟩
  · rw [if_neg h]
    refine ⟨?_, fun h1 => absurd h1 h⟩
    rintro ⟨msg, h1⟩
    cases h1

theorem MulMatrix_mismatch (a b : Matrix F) (h : a.cols_ ≠ b.rows_) :
    a.MulMatrix b = Except.error ⟨ErrorKind.rangeError, "ERROR"⟩ := by
  unfold Matrix.MulMatrix
  rw [if_pos h]

/-- When the shapes fit but the result would have no row or no column, the
constructor of the local `result` throws. -/
theorem MulMatrix_degenerate (a b : Matrix F) (h : a.cols_ = b.rows_)
    (h0 : a.rows_ = 0 ∨ b.cols_ = 0) :
    a.MulMatrix b = Except.error ⟨ErrorKind.invalidArgument, "ERROR"⟩ := by
  have h1 : (a.rows_ : Int) ≤ 0 ∨ (b.cols_ : Int) ≤ 0 := by omega
  simp only [Matrix.MulMatrix, Matrix.create, h, ne_eq, not_true_eq_false, if_false, h1,
    if_true]

theorem MulMatrix_error_iff (a b : Matrix F) :
    (∃ msg, a.MulMatrix b = Except.error ⟨ErrorKind.rangeError, msg⟩) ↔ a.cols_ ≠ b.rows_ := by
  refine ⟨?_, fun h => ⟨_, MulMatrix_mismatch a b h⟩⟩
  rintro ⟨msg, h1⟩ h
  by_cases h0 : a.rows_ = 0 ∨ b.cols_ = 0
  · rw [MulMatrix_degenerate a b h h0] at h1
    cases h1
  · rw [MulMatrix_ok a b h (by omega) (by omega)] at h1
    cases h1

/-- The result of a `MulMatrix` that returns: its shape and its entries. -/
theorem MulMatrix_product (a b c : Matrix F) (h : a.MulMatrix b = Except.ok c) :
    c.rows_ = a.rows_ ∧ c.cols_ = b.cols_ ∧ c.matrix_.length = a.rows_ ∧
      (∀ row ∈ c.matrix_, row.length = b.cols_) ∧
      ∀ i < a.rows_, ∀ j < b.cols_,
        c.get i j = ∑ k in Finset.range a.cols_, a.get i k * b.get k j := by
  by_cases hm : a.cols_ = b.rows_
  · by_cases h0 : a.rows_ = 0 ∨ b.cols_ = 0
    · rw [MulMatrix_degenerate a b hm h0] at h
      cases h
    · rw [MulMatrix_ok a b hm (by omega) (by omega)] at h
      have hc := Except.ok.inj h
      subst hc
      refine ⟨rfl, rfl, by simp, ?_, ?_⟩
      · intro row hrow
        simp only [List.mem_map, List.mem_range] at hrow
        obtain ⟨i, -, rfl⟩ := hrow
        simp
      · intro i hi j hj
        rw [Matrix.get_grid _ _ _ _ _ hi hj, foldl_add_eq_sum]
  · rw [MulMatrix_mismatch a b hm] at h
    cases h

/-- Claim C20: `SumMatrix`, `operator+`, `SubMatrix` and `operator-` raise the
range error if and only if the two matrices differ in row count or column
count; `MulMatrix` and `operator*` raise it if and only if the column count
of the receiver differs from the row count of the argument; after such an
error the receiver is as it was; a `MulMatrix` that returns leaves the
`rows(this) x cols(other)` matrix whose entry `(i, j)` is the sum over `k` of
`this(i, k) * other(k, j)`, and it returns whenever the shapes fit and the
result has a row and a column. -/
theorem Matrix.arithmetic_errors (a b : Matrix F) :
    ((∃ msg, a.SumMatrix b = Except.error ⟨ErrorKind.rangeError, msg⟩) ↔
        (a.rows_ ≠ b.rows_ ∨ a.cols_ ≠ b.cols_)) ∧
      ((∃ msg, a.operatorPlus b = Except.error ⟨ErrorKind.rangeError, msg⟩) ↔
        (a.rows_ ≠ b.rows_ ∨ a.cols_ ≠ b.cols_)) ∧
      ((∃ msg, a.SubMatrix b = Except.error ⟨ErrorKind.rangeError, msg⟩) ↔
        (a.rows_ ≠ b.rows_ ∨ a.cols_ ≠ b.cols_)) ∧
      ((∃ msg, a.operatorMinus b = Except.error ⟨ErrorKind.rangeError, msg⟩) ↔
        (a.rows_ ≠ b.rows_ ∨ a.cols_ ≠ b.cols_)) ∧
      ((∃ msg, a.MulMatrix b = Except.error ⟨ErrorKind.rangeError, msg⟩) ↔
        a.cols_ ≠ b.rows_) ∧
      ((∃ msg, a.operatorTimes b = Except.error ⟨ErrorKind.rangeError, msg⟩) ↔
        a.cols_ ≠ b.rows_) ∧
      ((∃ e, a.SumMatrix b = Except.error e) → afterCall a (a.SumMatrix b) = a) ∧
      ((∃ e, a.SubMatrix b = Except.error e) → afterCall a (a.SubMatrix b) = a) ∧
      ((∃ e, a.MulMatrix b = Except.error e) → afterCall a (a.MulMatrix b) = a) ∧
      (∀ c, a.MulMatrix b = Except.ok c →
        c.rows_ = a.rows_ ∧ c.cols_ = b.cols_ ∧ c.matrix_.length = a.rows_ ∧
          (∀ row ∈ c.matrix_, row.length = b.cols_) ∧
          ∀ i < a.rows_, ∀ j < b.cols_,
            c.get i j = ∑ k in Finset.range a.cols_, a.get i k * b.get k j) ∧
      (a.cols_ = b.rows_ → 0 < a.rows_ → 0 < b.cols_ → ∃ c, a.MulMatrix b = Except.ok c) := by
  refine ⟨SumMatrix_error_iff a b, SumMatrix_error_iff a b, SubMatrix_error_iff a b,
    SubMatrix_error_iff a b, MulMatrix_error_iff a b, MulMatrix_error_iff a b, ?_, ?_, ?_,
    fun c h => MulMatrix_product a b c h, fun h hr hc => ⟨_, MulMatrix_ok a b h hr hc⟩⟩
  · rintro ⟨e, h⟩
    rw [h]
    rfl
  · rintro ⟨e, h⟩
    rw [h]
    rfl
  · rintro ⟨e, h⟩
    rw [h]
    rfl

end MatrixArithmetic

/-! ## Matrix comparison and resizing -/

section MatrixCompare

variable {F : Type} [LinearOrderedField F]

theorem flag_loop (p : Nat → Prop) [DecidablePred p] (n : Nat) :
    (List.range n).foldl (fun flag j => if flag = 0 then (if p j then 1 else flag) else flag) 0 =
      if ∃ j, j < n ∧ p j then 1 else 0 := by
  induction n with
  | zero => simp
  | succ n ih =>
    rw [List.range_succ, List.foldl_append, ih]
    by_cases h : ∃ j, j < n ∧ p j
    · obtain ⟨j, hj, hp⟩ := h
      have h1 : ∃ j, j < n + 1 ∧ p j := ⟨j, by omega, hp⟩
      simp [if_pos (⟨j, hj, hp⟩ : ∃ j, j < n ∧ p j), if_pos h1]
    · rw [if_neg h]
      by_cases hp : p n
      · have h1 : ∃ j, j < n + 1 ∧ p j := ⟨n, by omega, hp⟩
        simp [hp, if_pos h1]
      · have h1 : ¬∃ j, j < n + 1 ∧ p j := by
          rintro ⟨j, hj, hpj⟩
          by_cases e : j = n
          · exact hp (e ▸ hpj)
          · exact h ⟨j, by omega, hpj⟩
        simp [hp, if_neg h1]

theorem EqMatrix_flag (a b : Matrix F) :
    (List.range a.rows_).foldl (fun flag i =>
      if flag = 0 then
        (List.range a.cols_).foldl (fun flag1 j =>
          if flag1 = 0 then
            if |a.get i j - b.get i j| ≥ eps7 then 1 else flag1
          else flag1) flag
      else flag) 0 =
      if ∃ i, i < a.rows_ ∧ ∃ j, j < a.cols_ ∧ |a.get i j - b.get i j| ≥ eps7 then 1 else 0 := by
  rw [← flag_loop (fun i => ∃ j, j < a.cols_ ∧ |a.get i j - b.get i j| ≥ eps7)]
  congr 1
  funext flag i
  by_cases hf : flag = 0
  · subst hf
    rw [if_pos rfl, if_pos rfl, flag_loop (fun j => |a.get i j - b.get i j| ≥ eps7)]
  · rw [if_neg hf, if_neg hf]

/-- What `EqMatrix` returns, as a statement about the entries. -/
theorem EqMatrix_true_iff (a b : Matrix F) :
    a.EqMatrix b = true ↔
      a.rows_ = b.rows_ ∧ a.cols_ = b.cols_ ∧
        ∀ i < a.rows_, ∀ j < a.cols_, |a.get i j - b.get i j| < 1 / 10000000 := by
  unfold Matrix.EqMatrix
  by_cases hd : a.rows_ = b.rows_ ∧ a.cols_ = b.cols_
  · rw [if_pos hd]
    simp only [EqMatrix_flag]
    by_cases h : ∃ i, i < a.rows_ ∧ ∃ j, j < a.cols_ ∧ |a.get i j - b.get i j| ≥ eps7
    · rw [if_pos h]
      simp only [if_true, Bool.false_eq_true, false_iff, not_and, not_forall, not_lt]
      intro _ _
      obtain ⟨i, hi, j, hj, hp⟩ := h
      exact ⟨i, hi, j, hj, hp⟩
    · rw [if_neg h]
      simp only [zero_ne_one, if_false, true_iff]
      refine ⟨hd.1, hd.2, fun i hi j hj => ?_⟩
      by_contra hlt
      exact h ⟨i, hi, j, hj, by simpa [eps7] using hlt⟩
  · rw [if_neg hd]
    simp only [Bool.false_eq_true, false_iff]
    intro h
    exact hd ⟨h.1, h.2.1⟩

/-- Claim C21: `EqMatrix`, and with it `operator==`, returns true if and only
if the two matrices have the same row count and the same column count and
every pair of corresponding entries differs in absolute value by strictly
less than `1e-7`. -/
theorem Matrix.EqMatrix_iff (a b : Matrix F) :
    (a.EqMatrix b = true ↔
        a.rows_ = b.rows_ ∧ a.cols_ = b.cols_ ∧
          ∀ i < a.rows_, ∀ j < a.cols_, |a.get i j - b.get i j| < 1 / 10000000) ∧
      (a.operatorEq b = true ↔
        a.rows_ = b.rows_ ∧ a.cols_ = b.cols_ ∧
          ∀ i < a.rows_, ∀ j < a.cols_, |a.get i j - b.get i j| < 1 / 10000000) :=
  ⟨EqMatrix_true_iff a b, EqMatrix_true_iff a b⟩

end MatrixCompare

section MatrixResize

variable {F : Type} [Field F]

theorem mapM_ok {α β : Type} (g : α → Except Error β) (f : α → β) :
    ∀ l : List α, (∀ x ∈ l, g x = Except.ok (f x)) → l.mapM g = Except.ok (l.map f) := by
  intro l
  induction l with
  | nil => intro _; rfl
  | cons x xs ih =>
    intro h
    rw [List.mapM_cons, h x (List.mem_cons_self _ _),
      ih (fun y hy => h y (List.mem_cons_of_mem _ hy))]
    rfl

theorem Matrix.get_take (m : Matrix F) (n i j : Nat) (hi : i < n) :
    Matrix.get { m with rows_ := n, matrix_ := m.matrix_.take n } i j = m.get i j := by
  simp [Matrix.get, List.getD_eq_getElem?_getD, List.getElem?_take, hi]

/-- Claim C27: for a matrix with at least one column and every integer `n`,
`SetRows(n)` raises invalid-argument if and only if `n <= 0`; otherwise it
returns, the matrix has `n` rows and its old number of columns, every entry
of a row that existed before and still exists is unchanged, and every entry
of a new row is 0. -/
theorem Matrix.SetRows_spec (m : Matrix F) (hc : 0 < m.cols_) (rows : Int) :
    ((∃ msg, m.SetRows rows = Except.error ⟨ErrorKind.invalidArgument, msg⟩) ↔ rows ≤ 0) ∧
      (0 < rows → ∃ m1, m.SetRows rows = Except.ok m1 ∧ m1.rows_ = rows.toNat ∧
        m1.cols_ = m.cols_ ∧
        (∀ i j, i < min m.rows_ rows.toNat → j < m.cols_ → m1.get i j = m.get i j) ∧
        (∀ i j, m.rows_ ≤ i → i < rows.toNat → j < m.cols_ → m1.get i j = 0)) := by
  have hpos : 0 < rows → ∃ m1, m.SetRows rows = Except.ok m1 ∧ m1.rows_ = rows.toNat ∧
      m1.cols_ = m.cols_ ∧
      (∀ i j, i < min m.rows_ rows.toNat → j < m.cols_ → m1.get i j = m.get i j) ∧
      (∀ i j, m.rows_ ≤ i → i < rows.toNat → j < m.cols_ → m1.get i j = 0) := by
    intro hr
    unfold Matrix.SetRows
    rw [if_neg (by omega)]
    by_cases h1 : rows < (m.rows_ : Int)
    · rw [if_pos h1]
      refine ⟨_, rfl, rfl, rfl, ?_, ?_⟩
      · intro i j hi _
        exact Matrix.get_take m _ i j (by omega)
      · intro i j h2 h3 _
        omega
    · rw [if_neg h1]
      by_cases h2 : rows > (m.rows_ : Int)
      · rw [if_pos h2]
        have h3 : ¬(rows ≤ 0 ∨ (m.cols_ : Int) ≤ 0) := by omega
        simp only [Matrix.create, h3, if_false]
        refine ⟨_, rfl, rfl, rfl, ?_, ?_⟩
        · intro i j hi hj
          rw [Matrix.get_grid _ _ _ _ _ (by omega) hj, if_pos (by omega)]
        · intro i j h4 h5 hj
          rw [Matrix.get_grid _ _ _ _ _ h5 hj, if_neg (by omega)]
      · rw [if_neg h2]
        refine ⟨m, rfl, by omega, rfl, fun _ _ _ _ => rfl, ?_⟩
        intro i j h4 h5 _
        omega
  refine ⟨⟨?_, ?_⟩, hpos⟩
  · rintro ⟨msg, h⟩
    by_contra hr
    obtain ⟨m1, h1, -⟩ := hpos (by omega)
    rw [h1] at h
    cases h
  · intro hr
    unfold Matrix.SetRows
    rw [if_pos hr]
    exact ⟨_, rfl⟩

/-- When the number of columns does not grow, `SetCols` behaves as claim C28
says: it truncates every row. -/
theorem SetCols_shrink (m : Matrix F) (hr : 0 < m.rows_) (cols : Int) (h0 : 0 < cols)
    (hle : cols ≤ (m.cols_ : Int)) :
    ∃ m1, m.SetCols cols = Except.ok m1 ∧ m1.rows_ = m.rows_ ∧ m1.cols_ = cols.toNat ∧
      ∀ i j, i < m.rows_ → j < cols.toNat → m1.get i j = m.get i j := by
  unfold Matrix.SetCols
  rw [if_neg (by omega)]
  by_cases h1 : cols = (m.cols_ : Int)
  · rw [if_neg (by simpa using h1)]
    exact ⟨m, rfl, rfl, by omega, fun _ _ _ _ => rfl⟩
  · rw [if_pos h1]
    have h3 : ¬((m.rows_ : Int) ≤ 0 ∨ cols ≤ 0) := by omega
    simp only [Matrix.create, h3, if_false]
    have hcells : ((List.range m.rows_).mapM fun i =>
        (List.range cols.toNat).mapM fun j =>
          if j < m.cols_ then Except.ok (m.get i j) else Except.error Error.ub) =
        Except.ok ((List.range m.rows_).map fun i =>
          (List.range cols.toNat).map fun j => m.get i j) := by
      apply mapM_ok
      intro i _
      apply mapM_ok
      intro j hj
      rw [if_pos (by have := List.mem_range.mp hj; omega)]
    rw [hcells]
    refine ⟨_, rfl, rfl, rfl, ?_⟩
    intro i j hi hj
    exact Matrix.get_grid _ _ _ _ _ hi hj

theorem range_split (k n : Nat) (h : k < n) :
    ∃ l2, List.range n = List.range k ++ k :: l2 := by
  obtain ⟨d, rfl⟩ : ∃ d, n = k + (d + 1) := ⟨n - k - 1, by omega⟩
  rw [List.range_add, List.range_succ_eq_map]
  exact ⟨List.map (fun x => k + x) (List.map Nat.succ (List.range d)), by simp⟩

/-- Growing the number of columns of a matrix that has a row reads outside
that row. -/
theorem SetCols_grow (m : Matrix F) (hr : 0 < m.rows_) (cols : Int)
    (hgt : (m.cols_ : Int) < cols) : m.SetCols cols = Except.error Error.ub := by
  unfold Matrix.SetCols
  rw [if_neg (by omega), if_pos (by omega)]
  have h3 : ¬((m.rows_ : Int) ≤ 0 ∨ cols ≤ 0) := by omega
  simp only [Matrix.create, h3, if_false]
  obtain ⟨r, hr1⟩ : ∃ r, m.rows_ = r + 1 := ⟨m.rows_ - 1, by omega⟩
  obtain ⟨l2, hsplit⟩ := range_split m.cols_ cols.toNat (by omega)
  have hrow : ∀ i, ((List.range cols.toNat).mapM fun j =>
      if j < m.cols_ then Except.ok (m.get i j) else Except.error Error.ub) =
      (Except.error Error.ub : Except Error (List F)) := by
    intro i
    rw [hsplit, List.mapM_append, mapM_ok _ (fun j => m.get i j) (List.range m.cols_)
      (fun j hj => by rw [if_pos (List.mem_range.mp hj)]), List.mapM_cons,
      if_neg (lt_irrefl _)]
    rfl
  rw [hr1, List.range_succ_eq_map, List.mapM_cons, hrow]
  rfl

/-- Claim C28, at an input where the code departs from it: `SetCols(3)` on the
2 x 2 matrix `[[1, 2], [3, 4]]` reads `matrix_[0][2]`, outside the first row,
instead of filling the new column with 0; the sibling `SetRows(3)` copies
the old cells only and returns `[[1, 2], [3, 4], [0, 0]]`. Shrinking with
`SetCols(1)` returns `[[1], [3]]`. -/
theorem Matrix.SetCols_reads_outside_row :
    Matrix.SetCols (⟨2, 2, [[1, 2], [3, 4]]⟩ : Matrix ℚ) 3 = Except.error Error.ub ∧
      Matrix.SetRows (⟨2, 2, [[1, 2], [3, 4]]⟩ : Matrix ℚ) 3 =
        Except.ok ⟨3, 2, [[1, 2], [3, 4], [0, 0]]⟩ ∧
      Matrix.SetCols (⟨2, 2, [[1, 2], [3, 4]]⟩ : Matrix ℚ) 1 =
        Except.ok ⟨2, 1, [[1], [3]]⟩ := by
  refine ⟨SetCols_grow _ (by decide) 3 (by decide), rfl, rfl⟩

theorem Matrix.SetRows_spec_witness :
    ∃ m1, Matrix.SetRows (⟨2, 2, [[1, 2], [3, 4]]⟩ : Matrix ℚ) 3 = Except.ok m1 ∧
      m1.rows_ = 3 ∧ m1.cols_ = 2 ∧ m1.get 1 1 = 4 ∧ m1.get 2 1 = 0 := by
  obtain ⟨m1, h, hr, hc, hold, hnew⟩ :=
    (Matrix.SetRows_spec (⟨2, 2, [[1, 2], [3, 4]]⟩ : Matrix ℚ) (by decide) 3).2 (by decide)
  refine ⟨m1, h, hr, hc, ?_, ?_⟩
  · rw [hold 1 1 (by decide) (by decide)]
    rfl
  · exact hnew 2 1 (by decide) (by decide) (by decide)

end MatrixResize

/-! ## Bounding box and normalisation -/

section BoundingBoxLemmas

variable {F : Type} [LinearOrderedField F]

theorem foldl_min_le (l : List F) : ∀ a : F, l.foldl min a ≤ a := by
  induction l with
  | nil => intro a; exact le_refl a
  | cons x xs ih => intro a; exact le_trans (ih (min a x)) (min_le_left a x)

theorem foldl_min_le_mem (l : List F) : ∀ a : F, ∀ x ∈ l, l.foldl min a ≤ x := by
  induction l with
  | nil => intro a x hx; cases hx
  | cons y ys ih =>
    intro a x hx
    rcases List.mem_cons.mp hx with rfl | h
    · exact le_trans (foldl_min_le ys (min a x)) (min_le_right a x)
    · exact ih (min a y) x h

theorem foldl_min_mem (l : List F) : ∀ a : F, l.foldl min a = a ∨ l.foldl min a ∈ l := by
  induction l with
  | nil => intro a; exact Or.inl rfl
  | cons y ys ih =>
    intro a
    rcases ih (min a y) with h | h
    · rcases min_choice a y with h1 | h1
      · exact Or.inl (by rw [List.foldl_cons, h, h1])
      · exact Or.inr (by rw [List.foldl_cons, h, h1]; exact List.mem_cons_self _ _)
    · exact Or.inr (List.mem_cons_of_mem _ h)

theorem le_foldl_max (l : List F) : ∀ a : F, a ≤ l.foldl max a := by
  induction l with
  | nil => intro a; exact le_refl a
  | cons x xs ih => intro a; exact le_trans (le_max_left a x) (ih (max a x))

theorem mem_le_foldl_max (l : List F) : ∀ a : F, ∀ x ∈ l, x ≤ l.foldl max a := by
  induction l with
  | nil => intro a x hx; cases hx
  | cons y ys ih =>
    intro a x hx
    rcases List.mem_cons.mp hx with rfl | h
    · exact le_trans (le_max_right a x) (le_foldl_max ys (max a x))
    · exact ih (max a y) x h

theorem foldl_max_mem (l : List F) : ∀ a : F, l.foldl max a = a ∨ l.foldl max a ∈ l := by
  induction l with
  | nil => intro a; exact Or.inl rfl
  | cons y ys ih =>
    intro a
    rcases ih (max a y) with h | h
    · rcases max_choice a y with h1 | h1
      · exact Or.inl (by rw [List.foldl_cons, h, h1])
      · exact Or.inr (by rw [List.foldl_cons, h, h1]; exact List.mem_cons_self _ _)
    · exact Or.inr (List.mem_cons_of_mem _ h)

/-- On a buffer of whole vertices the loop of `CalculateBoundingBox` returns
the running minima and maxima of the three coordinates. -/
theorem boundingBoxLoop_eq :
    ∀ (n : Nat) (buf : List F), buf.length = 3 * n → ∀ b : BoundingBox F,
      boundingBoxLoop buf b = Except.ok
        ⟨((vertexList buf).map fun v => v.1).foldl min b.min_x,
          ((vertexList buf).map fun v => v.2.1).foldl min b.min_y,
          ((vertexList buf).map fun v => v.2.2).foldl min b.min_z,
          ((vertexList buf).map fun v => v.1).foldl max b.max_x,
          ((vertexList buf).map fun v => v.2.1).foldl max b.max_y,
          ((vertexList buf).map fun v => v.2.2).foldl max b.max_z⟩ := by
  intro n
  induction n with
  | zero =>
    intro buf h b
    have : buf = [] := List.length_eq_zero.mp (by simpa using h)
    subst this
    rfl
  | succ n ih =>
    intro buf h b
    obtain ⟨x, y, z, rest, rfl, hrest⟩ := exists_triple_of_length n buf h
    rw [boundingBoxLoop, ih rest hrest]
    rfl

/-- The loop of `CalculateBoundingBox` returns or reads outside the buffer. -/
theorem boundingBoxLoop_cases :
    ∀ (n : Nat) (buf : List F), buf.length ≤ n → ∀ b : BoundingBox F,
      (∃ b1, boundingBoxLoop buf b = Except.ok b1) ∨
        boundingBoxLoop buf b = Except.error Error.ub := by
  intro n
  induction n with
  | zero =>
    intro buf h b
    have : buf = [] := List.length_eq_zero.mp (by omega)
    subst this
    exact Or.inl ⟨b, rfl⟩
  | succ n ih =>
    intro buf h b
    match buf, h with
    | [], _ => exact Or.inl ⟨b, rfl⟩
    | [_], _ => exact Or.inr rfl
    | [_, _], _ => exact Or.inr rfl
    | x :: y :: z :: rest, h =>
      rw [boundingBoxLoop]
      exact ih rest (by simp only [List.length_cons] at h; omega) _

end BoundingBoxLemmas

section VertexList

variable {α : Type}

theorem vertexList_ne_nil (n : Nat) (buf : List α) (h : buf.length = 3 * (n + 1)) :
    vertexList buf ≠ [] := by
  obtain ⟨x, y, z, rest, rfl, -⟩ := exists_triple_of_length n buf h
  simp [vertexList]

/-- Every float of a buffer of whole vertices is a coordinate of a vertex. -/
theorem mem_vertexList_of_mem :
    ∀ (n : Nat) (buf : List α), buf.length = 3 * n → ∀ x ∈ buf,
      ∃ v ∈ vertexList buf, x = v.1 ∨ x = v.2.1 ∨ x = v.2.2 := by
  intro n
  induction n with
  | zero =>
    intro buf h x hx
    have : buf = [] := List.length_eq_zero.mp (by simpa using h)
    subst this
    cases hx
  | succ n ih =>
    intro buf h x hx
    obtain ⟨a, b, c, rest, rfl, hrest⟩ := exists_triple_of_length n buf h
    simp only [List.mem_cons] at hx
    rcases hx with rfl | rfl | rfl | hx
    · exact ⟨(x, b, c), by simp [vertexList], Or.inl rfl⟩
    · exact ⟨(a, x, c), by simp [vertexList], Or.inr (Or.inl rfl)⟩
    · exact ⟨(a, b, x), by simp [vertexList], Or.inr (Or.inr rfl)⟩
    · obtain ⟨v, hv, hx1⟩ := ih rest hrest x hx
      exact ⟨v, by simp [vertexList, hv], hx1⟩

/-- Every coordinate of a vertex of a buffer is a float of the buffer. -/
theorem mem_of_mem_vertexList :
    ∀ (n : Nat) (buf : List α), buf.length ≤ n → ∀ v ∈ vertexList buf,
      v.1 ∈ buf ∧ v.2.1 ∈ buf ∧ v.2.2 ∈ buf := by
  intro n
  induction n with
  | zero =>
    intro buf h v hv
    have : buf = [] := List.length_eq_zero.mp (by omega)
    subst this
    simp [vertexList] at hv
  | succ n ih =>
    intro buf h v hv
    match buf, h, hv with
    | [], _, hv => simp [vertexList] at hv
    | [_], _, hv => simp [vertexList] at hv
    | [_, _], _, hv => simp [vertexList] at hv
    | a :: b :: c :: rest, h, hv =>
      simp only [vertexList, List.mem_cons] at hv
      rcases hv with rfl | hv
      · simp
      · obtain ⟨h1, h2, h3⟩ := ih rest (by simp only [List.length_cons] at h; omega) v hv
        simp [h1, h2, h3]

end VertexList

section BoundingBox

variable {F : Type} [LinearOrderedField F]

theorem fltMax_pos : (0 : F) < fltMax := by
  unfold fltMax
  norm_num

/-- The box `CalculateBoundingBox` returns on a non-empty buffer of whole
vertices. -/
theorem CalculateBoundingBox_eq (m : Model F) (n : Nat)
    (hlen : m.object_data_.vertices.length = 3 * (n + 1)) :
    m.CalculateBoundingBox = Except.ok
      ⟨((vertexList m.object_data_.vertices).map fun v => v.1).foldl min fltMax,
        ((vertexList m.object_data_.vertices).map fun v => v.2.1).foldl min fltMax,
        ((vertexList m.object_data_.vertices).map fun v => v.2.2).foldl min fltMax,
        ((vertexList m.object_data_.vertices).map fun v => v.1).foldl max (-fltMax),
        ((vertexList m.object_data_.vertices).map fun v => v.2.1).foldl max (-fltMax),
        ((vertexList m.object_data_.vertices).map fun v => v.2.2).foldl max (-fltMax)⟩ := by
  unfold Model.CalculateBoundingBox
  have hne : m.object_data_.vertices.isEmpty = false := by
    cases hv : m.object_data_.vertices with
    | nil => rw [hv] at hlen; simp at hlen
    | cons x xs => rfl
  rw [hne]
  exact boundingBoxLoop_eq (n + 1) _ hlen _

/-- The minimum found from `FLT_MAX` over a non-empty list of values that do
not exceed `FLT_MAX` is a member of the list. -/
theorem foldl_min_attained (l : List F) (hne : l ≠ []) (hfin : ∀ x ∈ l, x ≤ fltMax) :
    l.foldl min fltMax ∈ l := by
  rcases foldl_min_mem l fltMax with h | h
  · obtain ⟨x, hx⟩ := List.exists_mem_of_ne_nil l hne
    have h1 := foldl_min_le_mem l fltMax x hx
    have h2 : x = l.foldl min fltMax := le_antisymm (by rw [h]; exact hfin x hx) h1
    rw [← h2]
    exact hx
  · exact h

theorem foldl_max_attained (l : List F) (hne : l ≠ []) (hfin : ∀ x ∈ l, -fltMax ≤ x) :
    l.foldl max (-fltMax) ∈ l := by
  rcases foldl_max_mem l (-fltMax) with h | h
  · obtain ⟨x, hx⟩ := List.exists_mem_of_ne_nil l hne
    have h1 := mem_le_foldl_max l (-fltMax) x hx
    have h2 : x = l.foldl max (-fltMax) := le_antisymm h1 (by rw [h]; exact hfin x hx)
    rw [← h2]
    exact hx
  · exact h

/-- On a non-empty buffer of whole vertices whose floats are finite,
`CalculateBoundingBox` returns bounds that are attained. -/
theorem CalculateBoundingBox_bounds (m : Model F) (hne : m.object_data_.vertices ≠ [])
    (hlen : m.object_data_.vertices.length % 3 = 0)
    (hfin : ∀ x ∈ m.object_data_.vertices, |x| ≤ fltMax) :
    ∃ b, m.CalculateBoundingBox = Except.ok b ∧
      (∀ v ∈ vertexList m.object_data_.vertices,
        b.min_x ≤ v.1 ∧ v.1 ≤ b.max_x ∧ b.min_y ≤ v.2.1 ∧ v.2.1 ≤ b.max_y ∧
          b.min_z ≤ v.2.2 ∧ v.2.2 ≤ b.max_z) ∧
      (∃ v ∈ vertexList m.object_data_.vertices, b.min_x = v.1) ∧
      (∃ v ∈ vertexList m.object_data_.vertices, b.max_x = v.1) ∧
      (∃ v ∈ vertexList m.object_data_.vertices, b.min_y = v.2.1) ∧
      (∃ v ∈ vertexList m.object_data_.vertices, b.max_y = v.2.1) ∧
      (∃ v ∈ vertexList m.object_data_.vertices, b.min_z = v.2.2) ∧
      (∃ v ∈ vertexList m.object_data_.vertices, b.max_z = v.2.2) := by
  obtain ⟨n, hn⟩ := length_eq_three_mul_succ _ hne hlen
  have hvl := vertexList_ne_nil n _ hn
  have hmem := mem_of_mem_vertexList _ m.object_data_.vertices (le_refl _)
  refine ⟨_, CalculateBoundingBox_eq m n hn, ?_, ?_, ?_, ?_, ?_, ?_, ?_⟩
  · intro v hv
    exact ⟨foldl_min_le_mem _ _ _ (List.mem_map_of_mem _ hv),
      mem_le_foldl_max _ _ _ (List.mem_map_of_mem _ hv),
      foldl_min_le_mem _ _ _ (List.mem_map_of_mem (fun v : F × F × F => v.2.1) hv),
      mem_le_foldl_max _ _ _ (List.mem_map_of_mem (fun v : F × F × F => v.2.1) hv),
      foldl_min_le_mem _ _ _ (List.mem_map_of_mem (fun v : F × F × F => v.2.2) hv),
      mem_le_foldl_max _ _ _ (List.mem_map_of_mem (fun v : F × F × F => v.2.2) hv)⟩
  · have h := foldl_min_attained ((vertexList m.object_data_.vertices).map fun v => v.1)
      (by simpa using hvl) (by
        intro x hx
        obtain ⟨v, hv, rfl⟩ := List.mem_map.mp hx
        exact (abs_le.mp (hfin _ (hmem v hv).1)).2)
    obtain ⟨v, hv, e⟩ := List.mem_map.mp h
    exact ⟨v, hv, e.symm⟩
  · have h := foldl_max_attained ((vertexList m.object_data_.vertices).map fun v => v.1)
      (by simpa using hvl) (by
        intro x hx
        obtain ⟨v, hv, rfl⟩ := List.mem_map.mp hx
        exact (abs_le.mp (hfin _ (hmem v hv).1)).1)
    obtain ⟨v, hv, e⟩ := List.mem_map.mp h
    exact ⟨v, hv, e.symm⟩
  · have h := foldl_min_attained ((vertexList m.object_data_.vertices).map fun v => v.2.1)
      (by simpa using hvl) (by
        intro x hx
        obtain ⟨v, hv, rfl⟩ := List.mem_map.mp hx
        exact (abs_le.mp (hfin _ (hmem v hv).2.1)).2)
    obtain ⟨v, hv, e⟩ := List.mem_map.mp h
    exact ⟨v, hv, e.symm⟩
  · have h := foldl_max_attained ((vertexList m.object_data_.vertices).map fun v => v.2.1)
      (by simpa using hvl) (by
        intro x hx
        obtain ⟨v, hv, rfl⟩ := List.mem_map.mp hx
        exact (abs_le.mp (hfin _ (hmem v hv).2.1)).1)
    obtain ⟨v, hv, e⟩ := List.mem_map.mp h
    exact ⟨v, hv, e.symm⟩
  · have h := foldl_min_attained ((vertexList m.object_data_.vertices).map fun v => v.2.2)
      (by simpa using hvl) (by
        intro x hx
        obtain ⟨v, hv, rfl⟩ := List.mem_map.mp hx
        exact (abs_le.mp (hfin _ (hmem v hv).2.2)).2)
    obtain ⟨v, hv, e⟩ := List.mem_map.mp h
    exact ⟨v, hv, e.symm⟩
  · have h := foldl_max_attained ((vertexList m.object_data_.vertices).map fun v => v.2.2)
      (by simpa using hvl) (by
        intro x hx
        obtain ⟨v, hv, rfl⟩ := List.mem_map.mp hx
        exact (abs_le.mp (hfin _ (hmem v hv).2.2)).1)
    obtain ⟨v, hv, e⟩ := List.mem_map.mp h
    exact ⟨v, hv, e.symm⟩

/-- Claim C29: `CalculateBoundingBox` raises invalid-argument if and only if
the vertex buffer is empty; on a non-empty buffer of whole vertices whose
floats are finite (between `-FLT_MAX` and `FLT_MAX`) it returns, each minimum
(maximum) is less (greater) than or equal to that coordinate of every vertex,
and each is that coordinate of some vertex. The function has no output but
the box: the buffer is not written. -/
theorem Model.CalculateBoundingBox_spec (m : Model F) :
    ((∃ msg, m.CalculateBoundingBox = Except.error ⟨ErrorKind.invalidArgument, msg⟩) ↔
        m.object_data_.vertices = []) ∧
      (m.object_data_.vertices ≠ [] → m.object_data_.vertices.length % 3 = 0 →
        (∀ x ∈ m.object_data_.vertices, |x| ≤ fltMax) →
        ∃ b, m.CalculateBoundingBox = Except.ok b ∧
          (∀ v ∈ vertexList m.object_data_.vertices,
            b.min_x ≤ v.1 ∧ v.1 ≤ b.max_x ∧ b.min_y ≤ v.2.1 ∧ v.2.1 ≤ b.max_y ∧
              b.min_z ≤ v.2.2 ∧ v.2.2 ≤ b.max_z) ∧
          (∃ v ∈ vertexList m.object_data_.vertices, b.min_x = v.1) ∧
          (∃ v ∈ vertexList m.object_data_.vertices, b.max_x = v.1) ∧
          (∃ v ∈ vertexList m.object_data_.vertices, b.min_y = v.2.1) ∧
          (∃ v ∈ vertexList m.object_data_.vertices, b.max_y = v.2.1) ∧
          (∃ v ∈ vertexList m.object_data_.vertices, b.min_z = v.2.2) ∧
          (∃ v ∈ vertexList m.object_data_.vertices, b.max_z = v.2.2)) := by
  constructor
  · constructor
    · rintro ⟨msg, h⟩
      by_contra hne
      unfold Model.CalculateBoundingBox at h
      have he : m.object_data_.vertices.isEmpty = false := by
        cases hv : m.object_data_.vertices with
        | nil => exact absurd hv hne
        | cons x xs => rfl
      rw [he] at h
      simp only [Bool.false_eq_true, if_false] at h
      rcases boundingBoxLoop_cases _ m.object_data_.vertices (le_refl _)
        ⟨fltMax, fltMax, fltMax, -fltMax, -fltMax, -fltMax⟩ with ⟨b1, h1⟩ | h1
      · rw [h1] at h
        cases h
      · rw [h1] at h
        have h2 := congrArg Error.kind (Except.error.inj h)
        simp [Error.ub] at h2
    · intro h
      unfold Model.CalculateBoundingBox
      rw [h]
      exact ⟨_, rfl⟩
  · exact CalculateBoundingBox_bounds m

end BoundingBox

section Normalise

variable {F : Type} [LinearOrderedField F]

theorem normalizeLoop_eq (cx cy cz s : F) :
    ∀ (n : Nat) (buf : List F), buf.length = 3 * n →
      normalizeLoop cx cy cz s buf =
        Except.ok (mapVertices (fun x y z => ((x - cx) / s, (y - cy) / s, (z - cz) / s)) buf) := by
  intro n
  induction n with
  | zero =>
    intro buf h
    have : buf = [] := List.length_eq_zero.mp (by simpa using h)
    subst this
    rfl
  | succ n ih =>
    intro buf h
    obtain ⟨x, y, z, rest, rfl, hrest⟩ := exists_triple_of_length n buf h
    simp only [normalizeLoop, ih rest hrest, bind, Except.bind, pure, Except.pure, mapVertices]

theorem vertexList_mapVertices {α : Type} (f : α → α → α → α × α × α) :
    ∀ (n : Nat) (buf : List α), buf.length = 3 * n →
      vertexList (mapVertices f buf) = (vertexList buf).map fun v => f v.1 v.2.1 v.2.2 := by
  intro n
  induction n with
  | zero =>
    intro buf h
    have : buf = [] := List.length_eq_zero.mp (by simpa using h)
    subst this
    rfl
  | succ n ih =>
    intro buf h
    obtain ⟨x, y, z, rest, rfl, hrest⟩ := exists_triple_of_length n buf h
    simp only [mapVertices, vertexList, ih rest hrest, List.map_cons]

/-- A monotone map that keeps the values below `FLT_MAX` commutes with the
minimum found from `FLT_MAX`. -/
theorem foldl_min_map (l : List F) (hne : l ≠ []) (hfin : ∀ x ∈ l, x ≤ fltMax) (g : F → F)
    (hg : ∀ x y, x ≤ y → g x ≤ g y) (hgfin : ∀ x ∈ l, g x ≤ fltMax) :
    (l.map g).foldl min fltMax = g (l.foldl min fltMax) := by
  have hr := foldl_min_attained l hne hfin
  have hr1 : (l.map g).foldl min fltMax ∈ l.map g :=
    foldl_min_attained (l.map g) (by simpa using hne) (by
      intro y hy
      obtain ⟨x, hx, rfl⟩ := List.mem_map.mp hy
      exact hgfin x hx)
  apply le_antisymm
  · exact foldl_min_le_mem _ _ _ (List.mem_map_of_mem g hr)
  · obtain ⟨x, hx, e⟩ := List.mem_map.mp hr1
    rw [← e]
    exact hg _ _ (foldl_min_le_mem l fltMax x hx)

theorem foldl_max_map (l : List F) (hne : l ≠ []) (hfin : ∀ x ∈ l, -fltMax ≤ x) (g : F → F)
    (hg : ∀ x y, x ≤ y → g x ≤ g y) (hgfin : ∀ x ∈ l, -fltMax ≤ g x) :
    (l.map g).foldl max (-fltMax) = g (l.foldl max (-fltMax)) := by
  have hr := foldl_max_attained l hne hfin
  have hr1 : (l.map g).foldl max (-fltMax) ∈ l.map g :=
    foldl_max_attained (l.map g) (by simpa using hne) (by
      intro y hy
      obtain ⟨x, hx, rfl⟩ := List.mem_map.mp hy
      exact hgfin x hx)
  apply le_antisymm
  · obtain ⟨x, hx, e⟩ := List.mem_map.mp hr1
    rw [← e]
    exact hg _ _ (mem_le_foldl_max l (-fltMax) x hx)
  · exact mem_le_foldl_max _ _ _ (List.mem_map_of_mem g hr)

/-- A coordinate between the minimum and the maximum of its axis, centred and
divided by the divisor of `ResetTransform`, lies between -1/2 and 1/2. -/
theorem normalized_bound (lo hi x size0 : F) (h1 : lo ≤ x) (h2 : x ≤ hi)
    (h3 : hi - lo ≤ size0) :
    |(x - (lo + (hi - lo) / 2)) / (if size0 = 0 then 1 else size0)| ≤ 1 / 2 := by
  have h0 : 0 ≤ size0 := by linarith
  by_cases hs : size0 = 0
  · rw [if_pos hs, div_one]
    have : x - (lo + (hi - lo) / 2) = 0 := by
      have e1 : hi = lo := by linarith
      have e2 : x = lo := by linarith
      rw [e1, e2]
      ring
    rw [this, abs_zero]
    norm_num
  · rw [if_neg hs]
    have hpos : 0 < size0 := lt_of_le_of_ne h0 (Ne.symm hs)
    rw [abs_div, abs_of_pos hpos, div_le_iff₀ hpos, abs_le]
    constructor <;> linarith

end Normalise

section ResetTransform

variable {F : Type} [LinearOrderedField F]

/-- What `ResetTransform` returns on a non-empty buffer of whole vertices, in
terms of the box `b` found by `CalculateBoundingBox`. -/
theorem ResetTransform_eq (m : Model F) (n : Nat)
    (hlen : m.object_data_.vertices.length = 3 * (n + 1)) (b : BoundingBox F)
    (hb : m.CalculateBoundingBox = Except.ok b) (s : F)
    (hs : s = if max (max (b.max_x - b.min_x) (b.max_y - b.min_y)) (b.max_z - b.min_z) = 0
      then 1 else max (max (b.max_x - b.min_x) (b.max_y - b.min_y)) (b.max_z - b.min_z)) :
    m.ResetTransform = Except.ok { m with
      object_data_ := { m.object_data_ with
        vertices := mapVertices (fun x y z =>
          ((x - (b.min_x + (b.max_x - b.min_x) / 2)) / s,
            (y - (b.min_y + (b.max_y - b.min_y) / 2)) / s,
            (z - (b.min_z + (b.max_z - b.min_z) / 2)) / s)) m.object_data_.vertices }
      current_state_ := ⟨⟨1, 1, 1⟩, ⟨0, 0, 0⟩, ⟨0, 0, 0⟩⟩ } := by
  unfold Model.ResetTransform
  have hne : m.object_data_.vertices.isEmpty = false := by
    cases hv : m.object_data_.vertices with
    | nil => rw [hv] at hlen; simp at hlen
    | cons x xs => rfl
  rw [hne, hb]
  simp only [Bool.false_eq_true, if_false, bind, Except.bind, pure, Except.pure]
  rw [normalizeLoop_eq _ _ _ _ (n + 1) _ hlen, hs]

/-- The box of a buffer after every vertex went through a map that is
monotone on each axis and keeps the floats finite. -/
theorem CalculateBoundingBox_map (m m1 : Model F) (n : Nat)
    (hlen : m.object_data_.vertices.length = 3 * (n + 1))
    (hfin : ∀ x ∈ m.object_data_.vertices, |x| ≤ fltMax) (gx gy gz : F → F)
    (hgx : ∀ x y, x ≤ y → gx x ≤ gx y) (hgy : ∀ x y, x ≤ y → gy x ≤ gy y)
    (hgz : ∀ x y, x ≤ y → gz x ≤ gz y)
    (hbx : ∀ v ∈ vertexList m.object_data_.vertices, |gx v.1| ≤ fltMax)
    (hby : ∀ v ∈ vertexList m.object_data_.vertices, |gy v.2.1| ≤ fltMax)
    (hbz : ∀ v ∈ vertexList m.object_data_.vertices, |gz v.2.2| ≤ fltMax)
    (hm1 : m1.object_data_.vertices =
      mapVertices (fun x y z => (gx x, gy y, gz z)) m.object_data_.vertices)
    (b : BoundingBox F) (hb : m.CalculateBoundingBox = Except.ok b) :
    m1.CalculateBoundingBox = Except.ok
      ⟨gx b.min_x, gy b.min_y, gz b.min_z, gx b.max_x, gy b.max_y, gz b.max_z⟩ := by
  have hlen1 : m1.object_data_.vertices.length = 3 * (n + 1) := by
    rw [hm1]
    exact mapVertices_length _ (n + 1) _ hlen
  rw [CalculateBoundingBox_eq m n hlen] at hb
  have hb1 := Except.ok.inj hb
  subst hb1
  rw [CalculateBoundingBox_eq m1 n hlen1, hm1, vertexList_mapVertices _ (n + 1) _ hlen]
  have hvl := vertexList_ne_nil n _ hlen
  have hmem := mem_of_mem_vertexList _ m.object_data_.vertices (le_refl _)
  simp only [List.map_map]
  have ex : ((fun v : F × F × F => v.1) ∘ fun v : F × F × F => (gx v.1, gy v.2.1, gz v.2.2)) =
      gx ∘ fun v : F × F × F => v.1 := rfl
  have ey : ((fun v : F × F × F => v.2.1) ∘ fun v : F × F × F => (gx v.1, gy v.2.1, gz v.2.2)) =
      gy ∘ fun v : F × F × F => v.2.1 := rfl
  have ez : ((fun v : F × F × F => v.2.2) ∘ fun v : F × F × F => (gx v.1, gy v.2.1, gz v.2.2)) =
      gz ∘ fun v : F × F × F => v.2.2 := rfl
  rw [ex, ey, ez]
  simp only [← List.map_map]
  rw [foldl_min_map _ (by simpa using hvl) _ gx hgx, foldl_min_map _ (by simpa using hvl) _ gy hgy,
    foldl_min_map _ (by simpa using hvl) _ gz hgz, foldl_max_map _ (by simpa using hvl) _ gx hgx,
    foldl_max_map _ (by simpa using hvl) _ gy hgy, foldl_max_map _ (by simpa using hvl) _ gz hgz]
  all_goals
    intro x hx
    obtain ⟨v, hv, rfl⟩ := List.mem_map.mp hx
    first
      | exact (abs_le.mp (hfin _ (hmem v hv).1)).2
      | exact (abs_le.mp (hfin _ (hmem v hv).1)).1
      | exact (abs_le.mp (hfin _ (hmem v hv).2.1)).2
      | exact (abs_le.mp (hfin _ (hmem v hv).2.1)).1
      | exact (abs_le.mp (hfin _ (hmem v hv).2.2)).2
      | exact (abs_le.mp (hfin _ (hmem v hv).2.2)).1
      | exact (abs_le.mp (hbx v hv)).2
      | exact (abs_le.mp (hbx v hv)).1
      | exact (abs_le.mp (hby v hv)).2
      | exact (abs_le.mp (hby v hv)).1
      | exact (abs_le.mp (hbz v hv)).2
      | exact (abs_le.mp (hbz v hv)).1

end ResetTransform

section ResetTransformClaim

variable {F : Type} [LinearOrderedField F]

theorem half_le_fltMax : (1 / 2 : F) ≤ fltMax := by
  unfold fltMax
  norm_num

/-- Claim C30: for every non-empty buffer of whole vertices whose floats are
finite, `ResetTransform` returns, and afterwards the bounding box is centred
on the origin on every axis (min = -max); when two vertices differ its
largest axis extent is exactly 1, and when all vertices coincide the divisor
is 1 and every float of the buffer is 0. -/
theorem Model.ResetTransform_normalizes (m : Model F) (hne : m.object_data_.vertices ≠ [])
    (hlen : m.object_data_.vertices.length % 3 = 0)
    (hfin : ∀ x ∈ m.object_data_.vertices, |x| ≤ fltMax) :
    ∃ m1 b1, m.ResetTransform = Except.ok m1 ∧ m1.CalculateBoundingBox = Except.ok b1 ∧
      b1.min_x = -b1.max_x ∧ b1.min_y = -b1.max_y ∧ b1.min_z = -b1.max_z ∧
      ((∃ v ∈ vertexList m.object_data_.vertices, ∃ w ∈ vertexList m.object_data_.vertices,
          v ≠ w) →
        max (max (b1.max_x - b1.min_x) (b1.max_y - b1.min_y)) (b1.max_z - b1.min_z) = 1) ∧
      ((∀ v ∈ vertexList m.object_data_.vertices, ∀ w ∈ vertexList m.object_data_.vertices,
          v = w) →
        ∀ x ∈ m1.object_data_.vertices, x = 0) := by
  obtain ⟨n, hn⟩ := length_eq_three_mul_succ _ hne hlen
  obtain ⟨b, hb, hbound, ⟨vx0, hvx0, ex0⟩, ⟨vx1, hvx1, ex1⟩, ⟨vy0, hvy0, ey0⟩, ⟨vy1, hvy1, ey1⟩,
    ⟨vz0, hvz0, ez0⟩, ⟨vz1, hvz1, ez1⟩⟩ := CalculateBoundingBox_bounds m hne hlen hfin
  obtain ⟨s, hs⟩ : ∃ s : F, s =
      if max (max (b.max_x - b.min_x) (b.max_y - b.min_y)) (b.max_z - b.min_z) = 0 then 1
      else max (max (b.max_x - b.min_x) (b.max_y - b.min_y)) (b.max_z - b.min_z) := ⟨_, rfl⟩
  have hsx : b.max_x - b.min_x ≤
      max (max (b.max_x - b.min_x) (b.max_y - b.min_y)) (b.max_z - b.min_z) :=
    le_trans (le_max_left _ _) (le_max_left _ _)
  have hsy : b.max_y - b.min_y ≤
      max (max (b.max_x - b.min_x) (b.max_y - b.min_y)) (b.max_z - b.min_z) :=
    le_trans (le_max_right _ _) (le_max_left _ _)
  have hsz : b.max_z - b.min_z ≤
      max (max (b.max_x - b.min_x) (b.max_y - b.min_y)) (b.max_z - b.min_z) :=
    le_max_right _ _
  have hx0 : 0 ≤ b.max_x - b.min_x := by
    have := hbound vx0 hvx0
    linarith [this.1, this.2.1]
  have hS0 : 0 ≤ max (max (b.max_x - b.min_x) (b.max_y - b.min_y)) (b.max_z - b.min_z) :=
    le_trans hx0 hsx
  have hspos : 0 < s := by
    rw [hs]
    split_ifs with h0
    · exact one_pos
    · exact lt_of_le_of_ne hS0 (Ne.symm h0)
  have hmono : ∀ c : F, ∀ x y : F, x ≤ y → (x - c) / s ≤ (y - c) / s := by
    intro c x y hxy
    exact div_le_div_of_nonneg_right (by linarith) (le_of_lt hspos)
  have hm1 := ResetTransform_eq m n hn b hb s hs
  obtain ⟨m1, hm1def⟩ : ∃ m1 : Model F, m1 = { m with
      object_data_ := { m.object_data_ with
        vertices := mapVertices (fun x y z =>
          ((x - (b.min_x + (b.max_x - b.min_x) / 2)) / s,
            (y - (b.min_y + (b.max_y - b.min_y) / 2)) / s,
            (z - (b.min_z + (b.max_z - b.min_z) / 2)) / s)) m.object_data_.vertices }
      current_state_ := ⟨⟨1, 1, 1⟩, ⟨0, 0, 0⟩, ⟨0, 0, 0⟩⟩ } := ⟨_, rfl⟩
  rw [← hm1def] at hm1
  have hv1 : m1.object_data_.vertices = mapVertices (fun x y z =>
      ((x - (b.min_x + (b.max_x - b.min_x) / 2)) / s,
        (y - (b.min_y + (b.max_y - b.min_y) / 2)) / s,
        (z - (b.min_z + (b.max_z - b.min_z) / 2)) / s)) m.object_data_.vertices := by
    rw [hm1def]
  have hb1 := CalculateBoundingBox_map m m1 n hn hfin
    (fun x => (x - (b.min_x + (b.max_x - b.min_x) / 2)) / s)
    (fun y => (y - (b.min_y + (b.max_y - b.min_y) / 2)) / s)
    (fun z => (z - (b.min_z + (b.max_z - b.min_z) / 2)) / s)
    (hmono _) (hmono _) (hmono _)
    (fun v hv => le_trans (by
      have h := normalized_bound b.min_x b.max_x v.1 _ (hbound v hv).1 (hbound v hv).2.1 hsx
      rw [← hs] at h
      exact h) half_le_fltMax)
    (fun v hv => le_trans (by
      have h := normalized_bound b.min_y b.max_y v.2.1 _ (hbound v hv).2.2.1
        (hbound v hv).2.2.2.1 hsy
      rw [← hs] at h
      exact h) half_le_fltMax)
    (fun v hv => le_trans (by
      have h := normalized_bound b.min_z b.max_z v.2.2 _ (hbound v hv).2.2.2.2.1
        (hbound v hv).2.2.2.2.2 hsz
      rw [← hs] at h
      exact h) half_le_fltMax)
    hv1 b hb
  refine ⟨m1, _, hm1, hb1, ?_, ?_, ?_, ?_, ?_⟩
  · simp only
    ring
  · simp only
    ring
  · simp only
    ring
  · rintro ⟨v, hv, w, hw, hvw⟩
    have hne0 : max (max (b.max_x - b.min_x) (b.max_y - b.min_y)) (b.max_z - b.min_z) ≠ 0 := by
      intro h0
      apply hvw
      have bv := hbound v hv
      have bw := hbound w hw
      rw [h0] at hsx hsy hsz
      refine Prod.ext ?_ (Prod.ext ?_ ?_)
      · linarith [bv.1, bv.2.1, bw.1, bw.2.1, le_antisymm (by linarith : v.1 ≤ w.1)
          (by linarith : w.1 ≤ v.1)]
      · linarith [le_antisymm (by linarith [bv.2.2.1, bv.2.2.2.1, bw.2.2.1, bw.2.2.2.1] :
          v.2.1 ≤ w.2.1) (by linarith [bv.2.2.1, bv.2.2.2.1, bw.2.2.1, bw.2.2.2.1] :
          w.2.1 ≤ v.2.1)]
      · linarith [le_antisymm (by linarith [bv.2.2.2.2.1, bv.2.2.2.2.2, bw.2.2.2.2.1,
          bw.2.2.2.2.2] : v.2.2 ≤ w.2.2) (by linarith [bv.2.2.2.2.1, bv.2.2.2.2.2,
          bw.2.2.2.2.1, bw.2.2.2.2.2] : w.2.2 ≤ v.2.2)]
    have hs1 : s = max (max (b.max_x - b.min_x) (b.max_y - b.min_y)) (b.max_z - b.min_z) := by
      rw [hs, if_neg hne0]
    simp only
    have e1 : ∀ lo hi : F, (hi - (lo + (hi - lo) / 2)) / s - (lo - (lo + (hi - lo) / 2)) / s =
        (hi - lo) / s := by
      intro lo hi
      ring
    rw [e1, e1, e1, max_div_div_right (le_of_lt hspos), max_div_div_right (le_of_lt hspos),
      ← hs1, div_self (ne_of_gt hspos)]
  · intro hall x hx
    rw [hv1] at hx
    have hlen1 := mapVertices_length (fun x y z : F =>
      ((x - (b.min_x + (b.max_x - b.min_x) / 2)) / s,
        (y - (b.min_y + (b.max_y - b.min_y) / 2)) / s,
        (z - (b.min_z + (b.max_z - b.min_z) / 2)) / s)) (n + 1) _ hn
    obtain ⟨v1, hv1, hx1⟩ := mem_vertexList_of_mem (n + 1) _ hlen1 x hx
    rw [vertexList_mapVertices _ (n + 1) _ hn] at hv1
    obtain ⟨v, hv, rfl⟩ := List.mem_map.mp hv1
    have e1 : b.min_x = v.1 := by rw [ex0, hall vx0 hvx0 v hv]
    have e2 : b.max_x = v.1 := by rw [ex1, hall vx1 hvx1 v hv]
    have e3 : b.min_y = v.2.1 := by rw [ey0, hall vy0 hvy0 v hv]
    have e4 : b.max_y = v.2.1 := by rw [ey1, hall vy1 hvy1 v hv]
    have e5 : b.min_z = v.2.2 := by rw [ez0, hall vz0 hvz0 v hv]
    have e6 : b.max_z = v.2.2 := by rw [ez1, hall vz1 hvz1 v hv]
    simp only [e1, e2, e3, e4, e5, e6] at hx1
    rcases hx1 with h | h | h <;> rw [h] <;> simp

end ResetTransformClaim

section NormaliseWitness

theorem unitCube_box :
    (modelOf unitCube).CalculateBoundingBox = Except.ok ⟨-1, -1, -1, 1, 1, 1⟩ := by
  simp only [Model.CalculateBoundingBox, modelOf, unitCube, List.isEmpty_cons,
    Bool.false_eq_true, if_false, boundingBoxLoop, pure, Except.pure, fltMax]
  norm_num

theorem unitCube_reset :
    ∃ m1, (modelOf unitCube).ResetTransform = Except.ok m1 ∧
      m1.object_data_.vertices =
        [-1 / 2, -1 / 2, -1 / 2, 1 / 2, -1 / 2, -1 / 2, 1 / 2, 1 / 2, -1 / 2, -1 / 2, 1 / 2,
          -1 / 2, -1 / 2, -1 / 2, 1 / 2, 1 / 2, -1 / 2, 1 / 2, 1 / 2, 1 / 2, 1 / 2, -1 / 2,
          1 / 2, 1 / 2] := by
  refine ⟨_, ResetTransform_eq (modelOf unitCube) 7 rfl _ unitCube_box _ rfl, ?_⟩
  simp only [modelOf, unitCube, mapVertices]
  norm_num

theorem unitCube_finite : ∀ x ∈ (modelOf unitCube).object_data_.vertices, |x| ≤ fltMax := by
  simp only [modelOf, unitCube, List.forall_mem_cons]
  norm_num [fltMax, abs_le]

theorem Model.CalculateBoundingBox_spec_witness :
    ∃ b, (modelOf unitCube).CalculateBoundingBox = Except.ok b ∧
      b = ⟨-1, -1, -1, 1, 1, 1⟩ ∧
      (∀ v ∈ vertexList unitCube, b.min_x ≤ v.1 ∧ v.1 ≤ b.max_x) ∧
      ∃ v ∈ vertexList unitCube, b.min_x = v.1 := by
  obtain ⟨b, hb, hbound, hmin, -⟩ := (Model.CalculateBoundingBox_spec (modelOf unitCube)).2
    (by simp [modelOf, unitCube]) (by rfl) unitCube_finite
  refine ⟨b, hb, ?_, fun v hv => ⟨(hbound v hv).1, (hbound v hv).2.1⟩, hmin⟩
  rw [unitCube_box] at hb
  exact (Except.ok.inj hb).symm

theorem Model.ResetTransform_normalizes_witness :
    ∃ m1 b1, (modelOf unitCube).ResetTransform = Except.ok m1 ∧
      m1.object_data_.vertices =
        [-1 / 2, -1 / 2, -1 / 2, 1 / 2, -1 / 2, -1 / 2, 1 / 2, 1 / 2, -1 / 2, -1 / 2, 1 / 2,
          -1 / 2, -1 / 2, -1 / 2, 1 / 2, 1 / 2, -1 / 2, 1 / 2, 1 / 2, 1 / 2, 1 / 2, -1 / 2,
          1 / 2, 1 / 2] ∧
      m1.CalculateBoundingBox = Except.ok b1 ∧
      b1.min_x = -b1.max_x ∧ b1.min_y = -b1.max_y ∧ b1.min_z = -b1.max_z ∧
      max (max (b1.max_x - b1.min_x) (b1.max_y - b1.min_y)) (b1.max_z - b1.min_z) = 1 := by
  obtain ⟨m1, b1, h1, h2, hx, hy, hz, hext, -⟩ := Model.ResetTransform_normalizes
    (modelOf unitCube) (by simp [modelOf, unitCube]) (by rfl) unitCube_finite
  obtain ⟨m2, h3, h4⟩ := unitCube_reset
  have e : m2 = m1 := Except.ok.inj (h3.symm.trans h1)
  subst e
  refine ⟨m2, b1, h1, h4, h2, hx, hy, hz, hext ⟨(-1, -1, -1), ?_, (1, -1, -1), ?_, ?_⟩⟩
  · simp [modelOf, unitCube, vertexList]
  · simp [modelOf, unitCube, vertexList]
  · norm_num

end NormaliseWitness

/-! ## Determinant: the loops in closed form -/

section DeterminantLoops

variable {F : Type} [LinearOrderedField F]

theorem Dbl.sub_nan_left (x : Dbl F) : Dbl.sub Dbl.nan x = Dbl.nan := by
  cases x <;> rfl

theorem Dbl.sub_nan_right (x : Dbl F) : Dbl.sub x Dbl.nan = Dbl.nan := by
  cases x <;> rfl

theorem Dbl.mul_nan_left (x : Dbl F) : Dbl.mul Dbl.nan x = Dbl.nan := by
  cases x <;> rfl

theorem Dbl.mul_nan_right (x : Dbl F) : Dbl.mul x Dbl.nan = Dbl.nan := by
  cases x <;> rfl

theorem Dbl.div_fin (x y : F) (hy : y ≠ 0) : Dbl.div (Dbl.fin x) (Dbl.fin y) = Dbl.fin (x / y) := by
  simp [Dbl.div, hy]

theorem Dbl.div_zero_zero : Dbl.div (Dbl.fin (0 : F)) (Dbl.fin 0) = Dbl.nan := by
  simp [Dbl.div]

/-- The loop over `j` for one row `i`: the cells of row `i` from column `k`
on change when `i > k`, every other cell stays. -/
theorem eliminateRow_eq (cols k i : Nat) (g : Grid F) :
    eliminateRow cols k i g = fun a b =>
      if a = i ∧ b < cols ∧ k < i ∧ k ≤ b then
        Dbl.sub (g i b) (Dbl.mul (Dbl.div (g i k) (g k k)) (g k b))
      else g a b := by
  unfold eliminateRow
  induction cols with
  | zero =>
    funext a b
    simp
  | succ c ih =>
    rw [List.range_succ, List.foldl_append, ih]
    simp only [List.foldl_cons, List.foldl_nil]
    funext a b
    by_cases hki : k < i
    · by_cases hkc : k ≤ c
      · have hne : k ≠ i := by omega
        simp only [hki, hkc, and_self, if_true, Grid.set, lt_irrefl, false_and, and_false,
          if_false, hne, true_and]
        by_cases ha : a = i
        · by_cases hb : b = c
          · subst ha hb
            simp [hkc]
          · have h1 : (b < c + 1 ∧ k ≤ b) ↔ (b < c ∧ k ≤ b) := by omega
            simp [ha, hb, h1]
        · simp [ha]
      · have h1 : ∀ b, (b < c + 1 ∧ k ≤ b) ↔ (b < c ∧ k ≤ b) := by
          intro b
          omega
        simp only [hki, hkc, and_false, if_false, true_and, h1]
    · simp [hki]

/-- The loop over `i` for one `k`: the cells below row `k` from column `k` on
change, every other cell stays. -/
theorem eliminateColumn_eq (rows cols k : Nat) (g : Grid F) :
    eliminateColumn rows cols k g = fun a b =>
      if a < rows ∧ b < cols ∧ k < a ∧ k ≤ b then
        Dbl.sub (g a b) (Dbl.mul (Dbl.div (g a k) (g k k)) (g k b))
      else g a b := by
  unfold eliminateColumn
  induction rows with
  | zero =>
    funext a b
    simp
  | succ r ih =>
    rw [List.range_succ, List.foldl_append, ih]
    simp only [List.foldl_cons, List.foldl_nil]
    rw [eliminateRow_eq]
    funext a b
    by_cases ha : a = r
    · subst ha
      by_cases hka : k < a
      · have hkk : ¬(k < k) := lt_irrefl k
        simp [hka, hkk]
      · simp [hka]
    · have h1 : (a < r + 1) ↔ (a < r) := by omega
      simp [ha, h1]

end DeterminantLoops

section Rearrange

theorem finGrid_swapRowsF {F : Type} (g : Nat → Nat → F) (k r : Nat) :
    (finGrid g).swapRows k r = finGrid (swapRowsF g k r) := by
  funext a b
  simp only [Grid.swapRows, finGrid, swapRowsF]
  split_ifs <;> rfl

variable {F : Type} [LinearOrderedField F]

/-- The index found by the scan of `RawRearrange` is `k` or a later row. -/
theorem scan_index (g : Grid F) (k d : Nat) :
    k ≤ ((List.range d).foldl (fun (s : Dbl F × Nat) dd =>
        if Dbl.gt (Dbl.fabs (g (k + dd) k)) (Dbl.fabs s.1) then (Dbl.fabs (g (k + dd) k), k + dd)
        else s) (Dbl.fabs (g k k), k)).2 ∧
      (((List.range d).foldl (fun (s : Dbl F × Nat) dd =>
        if Dbl.gt (Dbl.fabs (g (k + dd) k)) (Dbl.fabs s.1) then (Dbl.fabs (g (k + dd) k), k + dd)
        else s) (Dbl.fabs (g k k), k)).2 = k ∨
       ((List.range d).foldl (fun (s : Dbl F × Nat) dd =>
        if Dbl.gt (Dbl.fabs (g (k + dd) k)) (Dbl.fabs s.1) then (Dbl.fabs (g (k + dd) k), k + dd)
        else s) (Dbl.fabs (g k k), k)).2 < k + d) := by
  induction d with
  | zero => simp
  | succ d ih =>
    rw [List.range_succ, List.foldl_append]
    simp only [List.foldl_cons, List.foldl_nil]
    split_ifs
    · simp
    · obtain ⟨h1, h2⟩ := ih
      exact ⟨h1, by omega⟩

/-- On finite cells the scan of `RawRearrange` finds a row of largest absolute
value in column `k` among the rows `k, ..., k + d - 1`. -/
theorem scan_fin (g : Nat → Nat → F) (k d : Nat) :
    ∃ r, (List.range d).foldl (fun (s : Dbl F × Nat) dd =>
        if Dbl.gt (Dbl.fabs (finGrid g (k + dd) k)) (Dbl.fabs s.1) then
          (Dbl.fabs (finGrid g (k + dd) k), k + dd)
        else s) (Dbl.fabs (finGrid g k k), k) = (Dbl.fin |g r k|, r) ∧
      k ≤ r ∧ (r = k ∨ r < k + d) ∧ |g k k| ≤ |g r k| ∧
      ∀ dd, dd < d → |g (k + dd) k| ≤ |g r k| := by
  induction d with
  | zero => exact ⟨k, rfl, le_refl k, Or.inl rfl, le_refl _, fun dd h => absurd h (by omega)⟩
  | succ d ih =>
    obtain ⟨r, hr, h1, h2, h3, h4⟩ := ih
    rw [List.range_succ, List.foldl_append, hr]
    simp only [List.foldl_cons, List.foldl_nil, finGrid, Dbl.fabs, Dbl.gt, abs_abs]
    by_cases hlt : |g r k| < |g (k + d) k|
    · rw [if_pos (by simpa using hlt)]
      refine ⟨k + d, rfl, by omega, Or.inr (by omega), le_trans h3 (le_of_lt hlt), ?_⟩
      intro dd hdd
      by_cases e : dd = d
      · rw [e]
      · exact le_trans (h4 dd (by omega)) (le_of_lt hlt)
    · rw [if_neg (by simpa using hlt)]
      refine ⟨r, rfl, h1, by omega, h3, ?_⟩
      intro dd hdd
      by_cases e : dd = d
      · rw [e]
        exact not_lt.mp hlt
      · exact h4 dd (by omega)

/-- Function `RawRearrange` leaves the grid and the sign as they are or
exchanges row `k` with a later row and flips the sign. -/
theorem RawRearrange_cases (rows : Nat) (g : Grid F) (k : Nat) (sign : F) :
    RawRearrange rows g k sign = (g, sign) ∨
      ∃ r, k ≤ r ∧ (r = k ∨ r < rows) ∧
        RawRearrange rows g k sign = (g.swapRows k r, if sign = 1 then -1 else 1) := by
  have hidx := scan_index g k (rows - k)
  unfold RawRearrange
  simp only
  generalize List.foldl _ _ _ = s at hidx ⊢
  by_cases h : Dbl.ne s.1 (Dbl.fabs (g k k)) = true
  · rw [if_pos h]
    exact Or.inr ⟨s.2, hidx.1, by omega, rfl⟩
  · rw [if_neg h]
    exact Or.inl rfl

/-- Function `RawRearrange` on finite cells: afterwards the pivot has the
largest absolute value of its column from row `k` on. -/
theorem RawRearrange_fin (rows : Nat) (g : Nat → Nat → F) (k : Nat) (sign : F) :
    ∃ g1 sign1, RawRearrange rows (finGrid g) k sign = (finGrid g1, sign1) ∧
      (∀ i, k ≤ i → i < rows → |g1 i k| ≤ |g1 k k|) ∧
      ((g1 = g ∧ sign1 = sign) ∨
        ∃ r, k < r ∧ r < rows ∧ g1 = swapRowsF g k r ∧
          sign1 = if sign = 1 then -1 else 1) := by
  obtain ⟨r, hr, h1, h2, h3, h4⟩ := scan_fin g k (rows - k)
  unfold RawRearrange
  simp only [hr]
  have hmax : ∀ i, k ≤ i → i < rows → |g i k| ≤ |g r k| := by
    intro i hi1 hi2
    have := h4 (i - k) (by omega)
    rwa [show k + (i - k) = i by omega] at this
  by_cases hne : |g r k| = |g k k|
  · have hn : Dbl.ne (Dbl.fin |g r k|) (Dbl.fabs (finGrid g k k)) = false := by
      simp [Dbl.ne, Dbl.fabs, finGrid, hne]
    rw [hn]
    simp only [Bool.false_eq_true, if_false]
    refine ⟨g, sign, rfl, ?_, Or.inl ⟨rfl, rfl⟩⟩
    intro i hi1 hi2
    rw [← hne]
    exact hmax i hi1 hi2
  · have hn : Dbl.ne (Dbl.fin |g r k|) (Dbl.fabs (finGrid g k k)) = true := by
      simp [Dbl.ne, Dbl.fabs, finGrid, hne]
    rw [hn]
    simp only [if_true]
    have hrk : r ≠ k := by
      intro e
      rw [e] at hne
      exact hne rfl
    refine ⟨swapRowsF g k r, _, by rw [finGrid_swapRowsF], ?_,
      Or.inr ⟨r, by omega, by omega, rfl, rfl⟩⟩
    intro i hi1 hi2
    simp only [swapRowsF, if_true]
    by_cases e1 : i = k
    · simp [e1]
    · by_cases e2 : i = r
      · simp [e1, e2, hrk, h3]
      · simp only [e1, e2, if_false]
        exact hmax i hi1 hi2

end Rearrange

/-! ## Determinant: the row operations and the mathematical determinant -/

section DeterminantAlgebra

open ViewerSpec

variable {F : Type} [LinearOrderedField F]

/-- Exchanging two different rows negates the determinant. -/
theorem det_swapRowsF (n : Nat) (g : Nat → Nat → F) (k r : Nat) (hk : k < n) (hr : r < n)
    (hne : k ≠ r) : Matrix.det (fnMat n (swapRowsF g k r)) = -Matrix.det (fnMat n g) := by
  have e : fnMat n (swapRowsF g k r) =
      (fnMat n g).submatrix (Equiv.swap (⟨k, hk⟩ : Fin n) ⟨r, hr⟩) id := by
    ext i j
    simp only [fnMat, swapRowsF, Matrix.of_apply, Matrix.submatrix_apply, id,
      Equiv.swap_apply_def]
    by_cases h1 : i.val = k
    · have h2 : i = ⟨k, hk⟩ := Fin.ext h1
      simp [h1, h2]
    · have h2 : i ≠ ⟨k, hk⟩ := fun h => h1 (congrArg Fin.val h)
      by_cases h3 : i.val = r
      · have h4 : i = ⟨r, hr⟩ := Fin.ext h3
        simp [h3, h4, hne.symm]
      · have h4 : i ≠ ⟨r, hr⟩ := fun h => h3 (congrArg Fin.val h)
        simp [h1, h2, h3, h4]
  rw [e, Matrix.det_permute, Equiv.Perm.sign_swap (by
    intro h
    exact hne (congrArg Fin.val h))]
  simp

theorem LowerZero_swapRowsF (n t : Nat) (g : Nat → Nat → F) (k r : Nat) (h : LowerZero n t g)
    (htk : t ≤ k) (hkr : k ≤ r) (hk : k < n) (hr : r < n) :
    LowerZero n t (swapRowsF g k r) := by
  intro i j hj hji hi
  simp only [swapRowsF]
  split_ifs with h1 h2
  · exact h r j hj (by omega) hr
  · exact h k j hj (by omega) hk
  · exact h i j hj hji hi

/-- Subtracting multiples of row `k` from the rows below it leaves the
determinant as it is. -/
theorem det_eliminate (n k : Nat) (hk : k < n) (g g1 : Nat → Nat → F) (h : LowerZero n k g)
    (hg1 : ∀ a b, g1 a b =
      if a < n ∧ b < n ∧ k < a ∧ k ≤ b then g a b - g a k / g k k * g k b else g a b) :
    Matrix.det (fnMat n g1) = Matrix.det (fnMat n g) := by
  apply Matrix.det_eq_of_forall_row_eq_smul_add_const
    (fun i : Fin n => if k < i.val then -(g i.val k / g k k) else 0) ⟨k, hk⟩
  · simp
  · intro i j
    simp only [fnMat, Matrix.of_apply, hg1]
    by_cases hki : k < i.val
    · by_cases hkj : k ≤ j.val
      · rw [if_pos ⟨i.isLt, j.isLt, hki, hkj⟩, if_pos hki]
        ring
      · rw [if_neg (by omega), if_pos hki, h k j.val (by omega) (by omega) hk]
        ring
    · rw [if_neg (by omega), if_neg hki]
      ring

theorem LowerZero_eliminate (n k : Nat) (g g1 : Nat → Nat → F) (h : LowerZero n k g)
    (hp : g k k ≠ 0)
    (hg1 : ∀ a b, g1 a b =
      if a < n ∧ b < n ∧ k < a ∧ k ≤ b then g a b - g a k / g k k * g k b else g a b) :
    LowerZero n (k + 1) g1 := by
  intro i j hj hji hi
  rw [hg1]
  by_cases e : j = k
  · subst e
    rw [if_pos ⟨hi, by omega, hji, le_refl _⟩]
    field_simp
  · rw [if_neg (by omega)]
    exact h i j (by omega) hji hi

/-- A matrix that is zero below the diagonal in its first `k` columns and zero
in column `k` from the diagonal on has determinant 0. -/
theorem det_zero_of_zero_pivot (n k : Nat) (hk : k < n) (g : Nat → Nat → F)
    (h : LowerZero n k g) (hcol : ∀ i, k ≤ i → i < n → g i k = 0) :
    Matrix.det (fnMat n g) = 0 := by
  have hb : Matrix.BlockTriangular (fnMat n g) (fun i : Fin n => min i.val (k + 1)) := by
    intro i j hij
    simp only [fnMat, Matrix.of_apply]
    have hij1 : min j.val (k + 1) < min i.val (k + 1) := hij
    by_cases hik : i.val ≤ k
    · exact h i.val j.val (by omega) (by omega) i.isLt
    · by_cases e : j.val = k
      · rw [e]
        exact hcol i.val (by omega) i.isLt
      · exact h i.val j.val (by omega) (by omega) i.isLt
  rw [hb.det]
  apply Finset.prod_eq_zero (i := k)
  · rw [Finset.mem_image]
    exact ⟨⟨k, hk⟩, Finset.mem_univ _, by simp⟩
  · apply Matrix.det_eq_zero_of_row_eq_zero
      (⟨⟨k, hk⟩, by simp⟩ : { a : Fin n // min a.val (k + 1) = k })
    intro j
    have hj : j.val.val = k := by
      have := j.property
      omega
    simp only [Matrix.toSquareBlock_def, Matrix.of_apply, fnMat, hj]
    exact hcol k (le_refl k) hk

/-- The determinant of a matrix that is zero below the diagonal is the product
of its diagonal. -/
theorem det_upper (n : Nat) (g : Nat → Nat → F) (h : LowerZero n (n - 1) g) :
    Matrix.det (fnMat n g) = ∏ i in Finset.range n, g i i := by
  have hb : Matrix.BlockTriangular (fnMat n g) id := by
    intro i j hij
    simp only [fnMat, Matrix.of_apply]
    have h1 : j.val < i.val := hij
    exact h i.val j.val (by omega) h1 i.isLt
  rw [Matrix.det_of_upperTriangular hb, ← Fin.prod_univ_eq_prod_range]
  rfl

end DeterminantAlgebra

/-! ## Determinant: the elimination computes the determinant -/

section DeterminantRun

open ViewerSpec

variable {F : Type} [LinearOrderedField F]

/-- With a non-zero pivot the loop over `i` stays on finite cells and
subtracts multiples of row `k` from the rows below it. -/
theorem eliminateColumn_fin (n k : Nat) (g : Nat → Nat → F) (hp : g k k ≠ 0) :
    eliminateColumn n n k (finGrid g) = finGrid (fun a b =>
      if a < n ∧ b < n ∧ k < a ∧ k ≤ b then g a b - g a k / g k k * g k b else g a b) := by
  rw [eliminateColumn_eq]
  funext a b
  simp only [finGrid]
  split_ifs
  · rw [Dbl.div_fin _ _ hp]
    rfl
  · rfl

/-- With a zero pivot, below which the column is zero as well, the quotient is
`0 / 0`: every cell the loop writes becomes NaN. -/
theorem eliminateColumn_zero_pivot (n k : Nat) (g : Nat → Nat → F)
    (hcol : ∀ i, k ≤ i → i < n → g i k = 0) :
    Poisoned n k (eliminateColumn n n k (finGrid g)) := by
  intro a b hka ha hkb hb
  rw [eliminateColumn_eq]
  simp only [finGrid]
  rw [if_pos ⟨ha, hb, hka, hkb⟩, hcol a (by omega) ha, hcol k (le_refl k) (by omega),
    Dbl.div_zero_zero, Dbl.mul_nan_left, Dbl.sub_nan_right]

theorem Poisoned_swapRows {E : Type} (n k0 k r : Nat) (g : Grid E) (h : Poisoned n k0 g) (hk0 : k0 < k)
    (hkr : k ≤ r) (hr : r = k ∨ r < n) (hk : k < n) : Poisoned n k0 (g.swapRows k r) := by
  intro a b hka ha hkb hb
  simp only [Grid.swapRows]
  split_ifs with h1 h2
  · exact h r b (by omega) (by omega) hkb hb
  · exact h k b (by omega) hk hkb hb
  · exact h a b hka ha hkb hb

theorem Poisoned_eliminateColumn (n k0 k : Nat) (g : Grid F) (h : Poisoned n k0 g) :
    Poisoned n k0 (eliminateColumn n n k g) := by
  intro a b hka ha hkb hb
  rw [eliminateColumn_eq]
  simp only
  split_ifs
  · rw [h a b hka ha hkb hb, Dbl.sub_nan_left]
  · exact h a b hka ha hkb hb

/-- The state of `Determinant` after `t` rounds of the loop over `k`: either
all cells are finite, `sign` times the determinant of the cells is the
determinant of the input and the first `t` columns are zero below the
diagonal; or a zero pivot was met, the determinant of the input is 0 and
the rows after it are NaN. -/
theorem eliminate_invariant (n : Nat) (A : Nat → Nat → F) :
    ∀ t, t < n →
      (∃ g, (eliminate n n t (finGrid A, 1)).1 = finGrid g ∧
        ((eliminate n n t (finGrid A, 1)).2 = 1 ∨ (eliminate n n t (finGrid A, 1)).2 = -1) ∧
        (eliminate n n t (finGrid A, 1)).2 * Matrix.det (fnMat n g) = Matrix.det (fnMat n A) ∧
        LowerZero n t g) ∨
      (Matrix.det (fnMat n A) = 0 ∧
        ∃ k0, k0 < t ∧ Poisoned n k0 (eliminate n n t (finGrid A, 1)).1) := by
  intro t
  induction t with
  | zero =>
    intro _
    refine Or.inl ⟨A, rfl, Or.inl rfl, ?_, ?_⟩
    · simp [eliminate]
    · intro i j hj
      omega
  | succ t ih =>
    intro ht1
    have ht : t < n := by omega
    have hstep : eliminate n n (t + 1) (finGrid A, 1) =
        (eliminateColumn n n t
          (RawRearrange n (eliminate n n t (finGrid A, 1)).1 t
            (eliminate n n t (finGrid A, 1)).2).1,
          (RawRearrange n (eliminate n n t (finGrid A, 1)).1 t
            (eliminate n n t (finGrid A, 1)).2).2) := by
      simp only [eliminate, List.range_succ, List.foldl_append, List.foldl_cons, List.foldl_nil]
    rw [hstep]
    generalize eliminate n n t (finGrid A, 1) = s at ih
    obtain ⟨G, sign⟩ := s
    rcases ih (by omega) with ⟨g, hG, hsign, hdet, hlow⟩ | ⟨hzero, k0, hk0, hpois⟩
    · simp only at hG hsign hdet ⊢
      subst hG
      obtain ⟨g1, sign1, hre, hpiv, hcase⟩ := RawRearrange_fin n g t sign
      rw [hre]
      simp only
      have hfacts : (sign1 = 1 ∨ sign1 = -1) ∧
          sign1 * Matrix.det (fnMat n g1) = Matrix.det (fnMat n A) ∧ LowerZero n t g1 := by
        rcases hcase with ⟨e1, e2⟩ | ⟨r, hr1, hr2, e1, e2⟩
        · subst e1 e2
          exact ⟨hsign, hdet, hlow⟩
        · subst e1 e2
          refine ⟨?_, ?_, LowerZero_swapRowsF n t g t r hlow (le_refl t) (by omega) ht hr2⟩
          · rcases hsign with h1 | h1
            · rw [h1]
              simp
            · rw [h1]
              norm_num
          · rw [det_swapRowsF n g t r ht hr2 (by omega), ← hdet]
            rcases hsign with h1 | h1
            · rw [h1]
              simp
            · rw [h1]
              norm_num
      obtain ⟨hs1, hd1, hl1⟩ := hfacts
      by_cases hp : g1 t t = 0
      · have hcol : ∀ i, t ≤ i → i < n → g1 i t = 0 := by
          intro i hi1 hi2
          have := hpiv i hi1 hi2
          rw [hp, abs_zero] at this
          exact abs_eq_zero.mp (le_antisymm this (abs_nonneg _))
        refine Or.inr ⟨?_, t, by omega, eliminateColumn_zero_pivot n t g1 hcol⟩
        rw [← hd1, det_zero_of_zero_pivot n t ht g1 hl1 hcol, mul_zero]
      · rw [eliminateColumn_fin n t g1 hp]
        refine Or.inl ⟨_, rfl, hs1, ?_, LowerZero_eliminate n t g1 _ hl1 hp (fun _ _ => rfl)⟩
        rw [det_eliminate n t ht g1 _ hl1 (fun _ _ => rfl)]
        exact hd1
    · simp only at hpois ⊢
      refine Or.inr ⟨hzero, k0, by omega, ?_⟩
      apply Poisoned_eliminateColumn n k0 t
      rcases RawRearrange_cases n G t sign with h1 | ⟨r, hr1, hr2, h1⟩
      · rw [h1]
        exact hpois
      · rw [h1]
        exact Poisoned_swapRows n k0 t r G hpois hk0 hr1 (by omega) ht

theorem prod_loop_fin (g : Nat → Nat → F) (n : Nat) :
    (List.range n).foldl (fun r i => Dbl.mul r (finGrid g i i)) (Dbl.fin 1) =
      Dbl.fin (∏ i in Finset.range n, g i i) := by
  induction n with
  | zero => simp
  | succ n ih =>
    rw [List.range_succ, List.foldl_append, ih, Finset.prod_range_succ]
    rfl

theorem prod_loop_nan (g : Grid F) (n : Nat) (h : g n n = Dbl.nan) :
    (List.range (n + 1)).foldl (fun r i => Dbl.mul r (g i i)) (Dbl.fin 1) = Dbl.nan := by
  rw [List.range_succ, List.foldl_append]
  simp only [List.foldl_cons, List.foldl_nil, h, Dbl.mul_nan_right]

/-- On a square matrix with at least one row `Determinant` returns the
mathematical determinant, replaced by 0 when its absolute value is below
`1e-6`. -/
theorem Determinant_eq (m : Matrix F) (hsq : m.cols_ = m.rows_) (hpos : 0 < m.rows_) :
    m.Determinant = Except.ok (Dbl.fin (snap (Matrix.det (toMat m.rows_ m)))) := by
  unfold Matrix.Determinant
  have h1 : ¬((m.rows_ : Int) ≤ 0 ∨ (m.cols_ : Int) ≤ 0) := by omega
  rw [if_neg (by simp [hsq])]
  simp only [Matrix.create, h1, if_false]
  rw [hsq]
  have hinv := eliminate_invariant m.rows_ m.get (m.rows_ - 1) (by omega)
  have h0 : (fun i j => Dbl.fin (m.get i j)) = finGrid m.get := rfl
  rw [h0]
  generalize eliminate m.rows_ m.rows_ (m.rows_ - 1) (finGrid m.get, 1) = s at hinv
  obtain ⟨G, sign⟩ := s
  rcases hinv with ⟨g, hG, hsign, hdet, hlow⟩ | ⟨hzero, k0, hk0, hpois⟩
  · simp only at hG hsign hdet ⊢
    subst hG
    rw [prod_loop_fin, ← det_upper m.rows_ g hlow]
    have hx : Matrix.det (fnMat m.rows_ g) * sign = Matrix.det (toMat m.rows_ m) := by
      rw [mul_comm]
      exact hdet
    simp only [Dbl.ne, ne_eq, not_true_eq_false, decide_False, Bool.false_eq_true, if_false,
      Dbl.mul, Dbl.fabs, Dbl.lt, Dbl.gt, hx, decide_eq_true_eq]
    unfold snap eps6
    split_ifs <;> rfl
  · simp only at hpois ⊢
    obtain ⟨n1, hn1⟩ : ∃ n1, m.rows_ = n1 + 1 := ⟨m.rows_ - 1, by omega⟩
    rw [hn1] at hpois hk0 ⊢
    have hnan : G n1 n1 = Dbl.nan := hpois n1 n1 (by omega) (by omega) (by omega) (by omega)
    rw [prod_loop_nan G n1 hnan]
    have hz : Matrix.det (toMat (n1 + 1) m) = 0 := by
      rw [← hn1]
      exact hzero
    rw [hz]
    simp [Dbl.ne, Dbl.fabs, Dbl.lt, Dbl.gt, snap, eps6]

end DeterminantRun

section DeterminantClaims

open ViewerSpec

variable {F : Type} [LinearOrderedField F]

theorem Determinant_not_square (m : Matrix F) (h : m.cols_ ≠ m.rows_) :
    m.Determinant = Except.error ⟨ErrorKind.rangeError, "ERROR"⟩ := by
  unfold Matrix.Determinant
  rw [if_pos h]

/-- A square matrix without rows, the state a moved-from `Matrix` is in:
the constructor of `TMP` throws. -/
theorem Determinant_empty (m : Matrix F) (hsq : m.cols_ = m.rows_) (h0 : m.rows_ = 0) :
    m.Determinant = Except.error ⟨ErrorKind.invalidArgument, "ERROR"⟩ := by
  unfold Matrix.Determinant
  have h1 : (m.rows_ : Int) ≤ 0 ∨ (m.cols_ : Int) ≤ 0 := by omega
  rw [if_neg (by simp [hsq])]
  simp only [Matrix.create, h1, if_true]

/-- Claim C22: on a matrix that is not square `Determinant` raises the range
error, and only then; on every `n x n` matrix with `n >= 1` it returns a
finite value, which is the mathematical determinant of the matrix when that
has absolute value at least `1e-6` and exactly 0 otherwise. The arithmetic is
exact, `0 / 0` is NaN, and a NaN product is replaced by 0 as in the source.
The function returns the value only: the receiver is not written. -/
theorem Matrix.Determinant_spec (m : Matrix F) :
    ((∃ msg, m.Determinant = Except.error ⟨ErrorKind.rangeError, msg⟩) ↔
        m.cols_ ≠ m.rows_) ∧
      (m.cols_ = m.rows_ → 0 < m.rows_ →
        ∃ d : F, m.Determinant = Except.ok (Dbl.fin d) ∧
          (1 / 1000000 ≤ |Matrix.det (toMat m.rows_ m)| →
            d = Matrix.det (toMat m.rows_ m)) ∧
          (|Matrix.det (toMat m.rows_ m)| < 1 / 1000000 → d = 0)) := by
  constructor
  · constructor
    · rintro ⟨msg, h⟩ hsq
      by_cases h0 : m.rows_ = 0
      · rw [Determinant_empty m hsq h0] at h
        cases h
      · rw [Determinant_eq m hsq (by omega)] at h
        cases h
    · intro h
      exact ⟨_, Determinant_not_square m h⟩
  · intro hsq hpos
    refine ⟨_, Determinant_eq m hsq hpos, ?_, ?_⟩
    · intro h
      unfold snap
      rw [if_neg (not_lt.mpr h)]
    · intro h
      unfold snap
      rw [if_pos h]

/-- Claim C23: for every square matrix of size `n >= 2` that has two identical
rows, `Determinant` returns exactly 0. -/
theorem Matrix.Determinant_identical_rows (m : Matrix F) (hsq : m.cols_ = m.rows_)
    (i j : Nat) (hi : i < m.rows_) (hj : j < m.rows_) (hij : i ≠ j)
    (hrows : ∀ c, c < m.cols_ → m.get i c = m.get j c) :
    m.Determinant = Except.ok (Dbl.fin 0) := by
  rw [Determinant_eq m hsq (by omega)]
  have hdet : Matrix.det (toMat m.rows_ m) = 0 := by
    apply Matrix.det_zero_of_row_eq (i := (⟨i, hi⟩ : Fin m.rows_)) (j := ⟨j, hj⟩)
    · intro h
      exact hij (congrArg Fin.val h)
    · funext c
      simp only [toMat, fnMat, Matrix.of_apply]
      exact hrows c.val (by rw [hsq]; exact c.isLt)
  rw [hdet]
  simp [snap]

end DeterminantClaims

section DeterminantWitness

open ViewerSpec

theorem Matrix.Determinant_spec_witness :
    Matrix.Determinant (⟨2, 2, [[0, 2], [3, 4]]⟩ : Matrix ℚ) = Except.ok (Dbl.fin (-6)) := by
  obtain ⟨d, h, hbig, -⟩ := (Matrix.Determinant_spec (⟨2, 2, [[0, 2], [3, 4]]⟩ : Matrix ℚ)).2
    rfl (by decide)
  have hdet : Matrix.det (toMat 2 (⟨2, 2, [[0, 2], [3, 4]]⟩ : Matrix ℚ)) = -6 := by
    rw [Matrix.det_fin_two]
    simp [toMat, fnMat, Matrix.get]
    norm_num
  rw [hdet] at hbig
  rw [h, hbig (by norm_num)]

theorem Matrix.Determinant_identical_rows_witness :
    Matrix.Determinant (⟨3, 3, [[1, 2, 3], [4, 5, 6], [1, 2, 3]]⟩ : Matrix ℚ) =
      Except.ok (Dbl.fin 0) :=
  Matrix.Determinant_identical_rows _ rfl 0 2 (by decide) (by decide) (by decide) (by
    intro c hc
    have hc3 : c < 3 := hc
    interval_cases c <;> rfl)

end DeterminantWitness

/-! ## Cofactors and inverse -/

section Cofactors

open ViewerSpec

variable {F : Type} [LinearOrderedField F]

/-- The body of the loops of `CalcComplements` for one cell of a square matrix
with at least two rows: the minor is constructed, its `Determinant` returns,
and the cell receives the signed value. -/
theorem cofactor_cell (m : Matrix F) (hsq : m.cols_ = m.rows_) (h2 : 2 ≤ m.rows_) (i j : Nat) :
    (do
      let minor ← m.CreateMinor i j
      let d ← minor.Determinant
      pure (Dbl.mul d (Dbl.fin ((-1) ^ (i + j)))).toField : Except Error F) =
      Except.ok (snap (Matrix.det (fnMat (m.rows_ - 1) (minorCells m.get i j))) *
        (-1) ^ (i + j)) := by
  unfold Matrix.CreateMinor
  have h1 : ¬((m.rows_ : Int) - 1 ≤ 0 ∨ (m.cols_ : Int) - 1 ≤ 0) := by omega
  simp only [Matrix.create, h1, if_false, bind, Except.bind]
  rw [Determinant_eq _ (by simp only; omega) (by simp only; omega)]
  simp only [pure, Except.pure, Dbl.mul, Dbl.toField]
  have hmat : toMat (m.rows_ - 1) (⟨m.rows_ - 1, m.cols_ - 1,
      (List.range (m.rows_ - 1)).map fun a =>
        (List.range (m.cols_ - 1)).map fun b =>
          if a < i ∧ b < j then m.get a b
          else if i ≤ a ∧ b < j then m.get (a + 1) b
          else if a < i ∧ j ≤ b then m.get a (b + 1)
          else if i ≤ a ∧ j ≤ b then m.get (a + 1) (b + 1)
          else 0⟩ : Matrix F) = fnMat (m.rows_ - 1) (minorCells m.get i j) := by
    ext a b
    simp only [toMat, fnMat, Matrix.of_apply, minorCells]
    rw [Matrix.get_grid _ _ _ _ _ a.isLt (by have := b.isLt; omega)]
    by_cases ha : a.val < i <;> by_cases hb : b.val < j
    · simp [ha, hb]
    · simp [ha, hb, not_lt.mp hb]
    · simp [ha, hb, not_lt.mp ha]
    · simp [ha, hb, not_lt.mp ha, not_lt.mp hb]
  rw [hmat]

/-- On a square matrix with at least two rows `CalcComplements` returns the
matrix of signed determinants of the minors, each as `Determinant` returns
it. -/
theorem CalcComplements_eq (m : Matrix F) (hsq : m.cols_ = m.rows_) (h2 : 2 ≤ m.rows_) :
    m.CalcComplements = Except.ok ⟨m.rows_, m.cols_,
      (List.range m.rows_).map fun i => (List.range m.cols_).map fun j =>
        snap (Matrix.det (fnMat (m.rows_ - 1) (minorCells m.get i j))) * (-1) ^ (i + j)⟩ := by
  unfold Matrix.CalcComplements
  have h1 : ¬((m.rows_ : Int) - 1 ≤ 0 ∨ (m.cols_ : Int) - 1 ≤ 0) := by omega
  have h3 : ¬((m.rows_ : Int) ≤ 0 ∨ (m.cols_ : Int) ≤ 0) := by omega
  rw [if_neg (by simp [hsq])]
  simp only [Matrix.create, h1, h3, if_false, bind, Except.bind]
  have hcells : ((List.range m.rows_).mapM fun i =>
      (List.range m.cols_).mapM fun j => (do
        let minor ← m.CreateMinor i j
        let d ← minor.Determinant
        pure (Dbl.mul d (Dbl.fin ((-1) ^ (i + j)))).toField : Except Error F)) =
      Except.ok ((List.range m.rows_).map fun i => (List.range m.cols_).map fun j =>
        snap (Matrix.det (fnMat (m.rows_ - 1) (minorCells m.get i j))) * (-1) ^ (i + j)) := by
    apply mapM_ok
    intro i _
    apply mapM_ok
    intro j _
    exact cofactor_cell m hsq h2 i j
  simp only [bind, Except.bind] at hcells
  rw [hcells]
  rfl

theorem CalcComplements_not_square (m : Matrix F) (h : m.cols_ ≠ m.rows_) :
    m.CalcComplements = Except.error ⟨ErrorKind.rangeError, "ERROR"⟩ := by
  unfold Matrix.CalcComplements
  rw [if_pos h]

/-- On a square matrix with at most one row the constructor of the local
minor `M(rows_ - 1, cols_ - 1)` throws. -/
theorem CalcComplements_small (m : Matrix F) (hsq : m.cols_ = m.rows_) (h1 : m.rows_ ≤ 1) :
    m.CalcComplements = Except.error ⟨ErrorKind.invalidArgument, "ERROR"⟩ := by
  unfold Matrix.CalcComplements
  have h2 : (m.rows_ : Int) - 1 ≤ 0 ∨ (m.cols_ : Int) - 1 ≤ 0 := by omega
  rw [if_neg (by simp [hsq])]
  simp only [Matrix.create, h2, if_true, bind, Except.bind]

end Cofactors

section CofactorClaims

open ViewerSpec

variable {F : Type} [LinearOrderedField F]

theorem det_fnMat_congr (n n1 : Nat) (h : n = n1) (g g1 : Nat → Nat → F)
    (hg : ∀ a b, a < n → b < n → g a b = g1 a b) :
    Matrix.det (fnMat n g) = Matrix.det (fnMat n1 g1) := by
  subst h
  congr 1
  ext a b
  simp only [fnMat, Matrix.of_apply]
  exact hg a.val b.val a.isLt b.isLt

/-- The minor `CreateMinor(i, j)` returns for a matrix with at least two rows
and two columns. -/
theorem CreateMinor_ok (m : Matrix F) (h2r : 2 ≤ m.rows_) (h2c : 2 ≤ m.cols_) (i j : Nat) :
    ∃ minor, m.CreateMinor i j = Except.ok minor ∧ minor.rows_ = m.rows_ - 1 ∧
      minor.cols_ = m.cols_ - 1 ∧
      ∀ a b, a < m.rows_ - 1 → b < m.cols_ - 1 → minor.get a b = minorCells m.get i j a b := by
  unfold Matrix.CreateMinor
  have h1 : ¬((m.rows_ : Int) - 1 ≤ 0 ∨ (m.cols_ : Int) - 1 ≤ 0) := by omega
  simp only [Matrix.create, h1, if_false]
  refine ⟨_, rfl, rfl, rfl, ?_⟩
  intro a b ha hb
  rw [Matrix.get_grid _ _ _ _ _ ha hb]
  simp only [minorCells]
  by_cases h3 : a < i <;> by_cases h4 : b < j
  · simp [h3, h4]
  · simp [h3, h4, not_lt.mp h4]
  · simp [h3, h4, not_lt.mp h3]
  · simp [h3, h4, not_lt.mp h3, not_lt.mp h4]

/-- Claim C24, amended: `CalcComplements` raises the range error if and only
if the matrix is not square; on a square matrix with one row (or none) it
raises invalid-argument, because the minor `M(rows_ - 1, cols_ - 1)` cannot
be constructed; on every square `n x n` matrix with `n >= 2` it returns the
`n x n` matrix whose entry `(i, j)` is `(-1)^(i+j)` times what `Determinant`
returns for the minor `CreateMinor(i, j)`, the matrix with row `i` and
column `j` deleted. -/
theorem Matrix.CalcComplements_spec (m : Matrix F) :
    ((∃ msg, m.CalcComplements = Except.error ⟨ErrorKind.rangeError, msg⟩) ↔
        m.cols_ ≠ m.rows_) ∧
      (m.cols_ = m.rows_ → m.rows_ ≤ 1 →
        m.CalcComplements = Except.error ⟨ErrorKind.invalidArgument, "ERROR"⟩) ∧
      (m.cols_ = m.rows_ → 2 ≤ m.rows_ →
        ∃ c, m.CalcComplements = Except.ok c ∧ c.rows_ = m.rows_ ∧ c.cols_ = m.cols_ ∧
          ∀ i j, i < m.rows_ → j < m.cols_ →
            ∃ minor d, m.CreateMinor i j = Except.ok minor ∧
              minor.rows_ = m.rows_ - 1 ∧ minor.cols_ = m.cols_ - 1 ∧
              (∀ a b, a < m.rows_ - 1 → b < m.cols_ - 1 →
                minor.get a b =
                  m.get (if a < i then a else a + 1) (if b < j then b else b + 1)) ∧
              minor.Determinant = Except.ok (Dbl.fin d) ∧
              c.get i j = (-1) ^ (i + j) * d) := by
  refine ⟨⟨?_, fun h => ⟨_, CalcComplements_not_square m h⟩⟩,
    fun hsq h1 => CalcComplements_small m hsq h1, ?_⟩
  · rintro ⟨msg, h⟩ hsq
    by_cases h1 : m.rows_ ≤ 1
    · rw [CalcComplements_small m hsq h1] at h
      cases h
    · rw [CalcComplements_eq m hsq (by omega)] at h
      cases h
  · intro hsq h2
    refine ⟨_, CalcComplements_eq m hsq h2, rfl, rfl, ?_⟩
    intro i j hi hj
    obtain ⟨minor, hm, hr, hc, hcells⟩ := CreateMinor_ok m h2 (by omega) i j
    refine ⟨minor, _, hm, hr, hc, hcells, Determinant_eq minor (by omega) (by omega), ?_⟩
    rw [Matrix.get_grid _ _ _ _ _ hi hj, mul_comm]
    congr 2
    exact det_fnMat_congr _ _ hr.symm _ _ (fun a b ha hb =>
      (hcells a b ha (by omega)).symm)

/-- Claim C24 as stated fails for a 1 x 1 matrix: it is square, and
`CalcComplements` raises invalid-argument. -/
theorem Matrix.CalcComplements_one_by_one_fails :
    Matrix.CalcComplements (⟨1, 1, [[5]]⟩ : Matrix ℚ) =
      Except.error ⟨ErrorKind.invalidArgument, "ERROR"⟩ :=
  CalcComplements_small _ rfl (le_refl 1)

end CofactorClaims

section Inverse

open ViewerSpec

variable {F : Type} [LinearOrderedField F]

theorem snap_ne_zero (x : F) (h : snap x ≠ 0) : snap x = x ∧ 1 / 1000000 ≤ |x| := by
  unfold snap at h ⊢
  by_cases hx : |x| < 1 / 1000000
  · rw [if_pos hx] at h
    exact absurd rfl h
  · rw [if_neg hx]
    exact ⟨rfl, not_lt.mp hx⟩

theorem Transpose_ok (c : Matrix F) (hr : 0 < c.rows_) (hc : 0 < c.cols_) :
    c.Transpose = Except.ok ⟨c.cols_, c.rows_,
      (List.range c.cols_).map fun i => (List.range c.rows_).map fun j => c.get j i⟩ := by
  unfold Matrix.Transpose
  have h1 : ¬((c.cols_ : Int) ≤ 0 ∨ (c.rows_ : Int) ≤ 0) := by omega
  simp only [Matrix.create, h1, if_false]

theorem MulNumber_get_grid (r c : Nat) (f : Nat → Nat → F) (x : F) (i j : Nat) (hi : i < r)
    (hj : j < c) :
    (Matrix.MulNumber ⟨r, c, (List.range r).map fun i => (List.range c).map fun j => f i j⟩
      x).get i j = f i j * x := by
  simp [Matrix.MulNumber, Matrix.get, List.getD_eq_getElem?_getD, hi, hj]

/-- Function `InverseMatrix` when `Determinant` returns 0. -/
theorem InverseMatrix_singular (m : Matrix F) (h : m.Determinant = Except.ok (Dbl.fin 0)) :
    m.InverseMatrix = Except.error ⟨ErrorKind.invalidArgument, "ERROR"⟩ := by
  unfold Matrix.InverseMatrix
  rw [h]
  simp [bind, Except.bind, Dbl.eq, Dbl.ne]

/-- Function `InverseMatrix` on a 1 x 1 matrix for which `Determinant` does
not return 0. -/
theorem InverseMatrix_one (m : Matrix F) (hr : m.rows_ = 1) (hc : m.cols_ = 1) (d : F)
    (hd : m.Determinant = Except.ok (Dbl.fin d)) (hd0 : d ≠ 0) :
    m.InverseMatrix = Except.ok ⟨1, 1, [[1 / m.get 0 0]]⟩ := by
  have hdet := Determinant_eq m (by omega) (by omega)
  rw [hd] at hdet
  have hd1 : d = snap (Matrix.det (toMat m.rows_ m)) := by
    have := Except.ok.inj hdet
    exact Dbl.fin.inj this
  have hval : Matrix.det (toMat m.rows_ m) = m.get 0 0 := by
    rw [toMat, det_fnMat_congr m.rows_ 1 hr m.get m.get (fun _ _ _ _ => rfl)]
    simp [fnMat]
  rw [hval] at hd1
  obtain ⟨-, hbig⟩ := snap_ne_zero (m.get 0 0) (by rw [← hd1]; exact hd0)
  have hge : |m.get 0 0| ≥ (eps7 : F) := by
    unfold eps7
    refine le_trans ?_ hbig
    norm_num
  unfold Matrix.InverseMatrix
  rw [hd]
  have h1 : ¬(((1 : Nat) : Int) ≤ 0 ∨ ((1 : Nat) : Int) ≤ 0) := by omega
  simp only [bind, Except.bind, Dbl.eq, Dbl.ne, hd0, ne_eq, not_false_eq_true, decide_True,
    Bool.not_true, Bool.false_eq_true, if_false, hr, hc, Matrix.create, h1, and_self, if_true,
    hge, pure, Except.pure]
  rfl

/-- Function `InverseMatrix` on a square matrix with at least two rows for
which `Determinant` does not return 0. -/
theorem InverseMatrix_large (m : Matrix F) (hsq : m.cols_ = m.rows_) (h2 : 2 ≤ m.rows_) (d : F)
    (hd : m.Determinant = Except.ok (Dbl.fin d)) (hd0 : d ≠ 0) :
    ∃ c t, m.CalcComplements = Except.ok c ∧ c.Transpose = Except.ok t ∧
      c.rows_ = m.rows_ ∧ c.cols_ = m.rows_ ∧ t.rows_ = m.rows_ ∧ t.cols_ = m.rows_ ∧
      (∀ i j, i < m.rows_ → j < m.rows_ → t.get i j = c.get j i) ∧
      m.InverseMatrix = Except.ok (t.MulNumber (1 / d)) ∧
      ∀ i j, i < m.rows_ → j < m.rows_ → (t.MulNumber (1 / d)).get i j = c.get j i * (1 / d) := by
  have hdet := Determinant_eq m hsq (by omega)
  rw [hd] at hdet
  have hd1 : d = snap (Matrix.det (toMat m.rows_ m)) := Dbl.fin.inj (Except.ok.inj hdet)
  obtain ⟨-, hbig⟩ := snap_ne_zero _ (by rw [← hd1]; exact hd0)
  have hd2 : (eps7 : F) ≤ |d| := by
    rw [hd1, (snap_ne_zero _ (by rw [← hd1]; exact hd0)).1]
    unfold eps7
    refine le_trans ?_ hbig
    norm_num
  have hc := CalcComplements_eq m hsq h2
  obtain ⟨c, hcdef⟩ : ∃ c : Matrix F, c = ⟨m.rows_, m.cols_,
      (List.range m.rows_).map fun i => (List.range m.cols_).map fun j =>
        snap (Matrix.det (fnMat (m.rows_ - 1) (minorCells m.get i j))) * (-1) ^ (i + j)⟩ :=
    ⟨_, rfl⟩
  rw [← hcdef] at hc
  have hcr : c.rows_ = m.rows_ := by rw [hcdef]
  have hcc : c.cols_ = m.rows_ := by rw [hcdef]; exact hsq
  have ht := Transpose_ok c (by omega) (by omega)
  refine ⟨c, _, hc, ht, hcr, hcc, hcc, hcr, ?_, ?_, ?_⟩
  · intro i j hi hj
    exact Matrix.get_grid _ _ _ _ _ (by omega) (by omega)
  · unfold Matrix.InverseMatrix
    rw [hd]
    have h1 : ¬((m.rows_ : Int) ≤ 0 ∨ (m.rows_ : Int) ≤ 0) := by omega
    have h3 : ¬(m.rows_ = 1) := by omega
    simp only [bind, Except.bind, Dbl.eq, Dbl.ne, hd0, ne_eq, not_false_eq_true, decide_True,
      Bool.not_true, Bool.false_eq_true, if_false, Matrix.create, h1, h3, Dbl.ge, Dbl.fabs,
      hd2, hsq, and_self, and_false, if_true, hc, ht, pure, Except.pure, Dbl.div, Dbl.toField]
  · intro i j hi hj
    rw [MulNumber_get_grid _ _ _ _ _ _ (by omega) (by omega)]

/-- Claim C26: for every square matrix with at least one row, `InverseMatrix`
raises invalid-argument if and only if `Determinant` returns 0, which it does
for every singular matrix; otherwise for a 1 x 1 matrix `[a]` it returns
`[1 / a]`, and for `n >= 2` it returns the transpose of what
`CalcComplements` returns with every entry multiplied by 1 over what
`Determinant` returns. The function returns a new matrix: the receiver is
not written. -/
theorem Matrix.InverseMatrix_spec (m : Matrix F) (hsq : m.cols_ = m.rows_)
    (hpos : 0 < m.rows_) :
    ∃ d, m.Determinant = Except.ok (Dbl.fin d) ∧
      ((∃ msg, m.InverseMatrix = Except.error ⟨ErrorKind.invalidArgument, msg⟩) ↔ d = 0) ∧
      (Matrix.det (toMat m.rows_ m) = 0 → d = 0) ∧
      (d ≠ 0 → m.rows_ = 1 → m.InverseMatrix = Except.ok ⟨1, 1, [[1 / m.get 0 0]]⟩) ∧
      (d ≠ 0 → 2 ≤ m.rows_ →
        ∃ c t, m.CalcComplements = Except.ok c ∧ c.Transpose = Except.ok t ∧
          (∀ i j, i < m.rows_ → j < m.rows_ → t.get i j = c.get j i) ∧
          m.InverseMatrix = Except.ok (t.MulNumber (1 / d)) ∧
          ∀ i j, i < m.rows_ → j < m.rows_ →
            (t.MulNumber (1 / d)).get i j = c.get j i * (1 / d)) := by
  have hd := Determinant_eq m hsq hpos
  refine ⟨_, hd, ⟨?_, ?_⟩, ?_, ?_, ?_⟩
  · rintro ⟨msg, h⟩
    by_contra hd0
    by_cases h1 : m.rows_ = 1
    · rw [InverseMatrix_one m h1 (by omega) _ hd hd0] at h
      cases h
    · obtain ⟨c, t, -, -, -, -, -, -, -, hinv, -⟩ :=
        InverseMatrix_large m hsq (by omega) _ hd hd0
      rw [hinv] at h
      cases h
  · intro hd0
    rw [hd0] at hd
    exact ⟨_, InverseMatrix_singular m hd⟩
  · intro hz
    rw [hz]
    simp [snap]
  · intro hd0 h1
    exact InverseMatrix_one m h1 (by omega) _ hd hd0
  · intro hd0 h2
    obtain ⟨c, t, hc, ht, -, -, -, -, hget, hinv, hcells⟩ :=
      InverseMatrix_large m hsq h2 _ hd hd0
    exact ⟨c, t, hc, ht, hget, hinv, hcells⟩

end Inverse

section InverseWitness

open ViewerSpec

theorem det_fnMat_one {F : Type} [LinearOrderedField F] (g : Nat → Nat → F) :
    Matrix.det (fnMat 1 g) = g 0 0 := by
  simp [fnMat, Matrix.det_unique]

theorem snap_small {F : Type} [LinearOrderedField F] (x : F) (h : |x| < 1 / 1000000) :
    snap x = 0 := by
  unfold snap
  rw [if_pos h]

theorem snap_big {F : Type} [LinearOrderedField F] (x : F) (h : 1 / 1000000 ≤ |x|) :
    snap x = x := by
  unfold snap
  rw [if_neg (not_lt.mpr h)]

theorem Matrix.InverseMatrix_spec_witness :
    Matrix.InverseMatrix (⟨1, 1, [[4]]⟩ : Matrix ℚ) = Except.ok ⟨1, 1, [[1 / 4]]⟩ := by
  obtain ⟨d, hd, -, -, h1, -⟩ := Matrix.InverseMatrix_spec (⟨1, 1, [[4]]⟩ : Matrix ℚ) rfl
    (by decide)
  have hdet := Determinant_eq (⟨1, 1, [[4]]⟩ : Matrix ℚ) rfl (by decide)
  have hval : Matrix.det (toMat 1 (⟨1, 1, [[4]]⟩ : Matrix ℚ)) = 4 := by
    rw [toMat, det_fnMat_one]
    rfl
  have hd4 : d = 4 := by
    rw [hd] at hdet
    have h2 : d = snap (Matrix.det (toMat 1 (⟨1, 1, [[4]]⟩ : Matrix ℚ))) :=
      Dbl.fin.inj (Except.ok.inj hdet)
    rw [h2, hval]
    exact snap_big 4 (by rw [abs_of_pos (by norm_num)]; norm_num)
  have h3 := h1 (by rw [hd4]; norm_num) rfl
  rw [h3]
  rfl

theorem smallMinor_determinant : smallMinor.Determinant = Except.ok (Dbl.fin 1) := by
  have hdet := Determinant_eq smallMinor rfl (by decide)
  have hval : Matrix.det (toMat 2 smallMinor) = 1 := by
    rw [Matrix.det_fin_two]
    simp [toMat, fnMat, Matrix.get, smallMinor]
  rw [hdet]
  have h2 : snap (Matrix.det (toMat 2 smallMinor)) = 1 := by
    rw [hval]
    exact snap_big 1 (by rw [abs_of_pos (by norm_num)]; norm_num)
  exact congrArg (fun x => Except.ok (Dbl.fin x)) h2

theorem smallMinor_complements :
    smallMinor.CalcComplements = Except.ok ⟨2, 2, [[0, 0], [0, 2000000]]⟩ := by
  rw [CalcComplements_eq smallMinor rfl (by decide)]
  have e00 : snap (Matrix.det (fnMat 1 (minorCells smallMinor.get 0 0))) = 0 := by
    rw [det_fnMat_one]
    apply snap_small
    simp only [minorCells, smallMinor, Matrix.get]
    norm_num [abs_of_pos]
  have e01 : snap (Matrix.det (fnMat 1 (minorCells smallMinor.get 0 1))) = 0 := by
    rw [det_fnMat_one]
    apply snap_small
    simp only [minorCells, smallMinor, Matrix.get]
    norm_num
  have e10 : snap (Matrix.det (fnMat 1 (minorCells smallMinor.get 1 0))) = 0 := by
    rw [det_fnMat_one]
    apply snap_small
    simp only [minorCells, smallMinor, Matrix.get]
    norm_num
  have e11 : snap (Matrix.det (fnMat 1 (minorCells smallMinor.get 1 1))) = 2000000 := by
    rw [det_fnMat_one]
    have : minorCells smallMinor.get 1 1 0 0 = 2000000 := by
      simp [minorCells, smallMinor, Matrix.get]
    rw [this]
    exact snap_big _ (by rw [abs_of_pos (by norm_num)]; norm_num)
  have hr : smallMinor.rows_ = 2 := rfl
  have hc : smallMinor.cols_ = 2 := rfl
  simp only [hr, hc, show (2 : Nat) - 1 = 1 from rfl, List.range_succ, List.range_zero,
    List.nil_append, List.cons_append, List.map_cons, List.map_nil, e00, e01, e10, e11]
  norm_num
  exact ⟨⟨e00, e01⟩, e10, e11⟩

/-- Claim C25 as stated fails at a concrete matrix. The matrix
`[[2000000, 0], [0, 1/2000000]]` has determinant 1, so `InverseMatrix` does
not fail. The cofactor of the entry `(0, 0)` is the `Determinant` of the minor
`[1/2000000]`, which `Determinant` replaces by 0 because it is below `1e-6`:
`InverseMatrix` returns `[[0, 0], [0, 2000000]]`, whose product with the
matrix is `[[0, 0], [0, 1]]`, and `EqMatrix` finds it different from the
identity. The inverse `[[1/2000000, 0], [0, 2000000]]` gives the identity. -/
theorem Matrix.InverseMatrix_small_minor :
    smallMinor.Determinant = Except.ok (Dbl.fin 1) ∧
      smallMinor.InverseMatrix = Except.ok ⟨2, 2, [[0, 0], [0, 2000000]]⟩ ∧
      Matrix.MulMatrix ⟨2, 2, [[0, 0], [0, 2000000]]⟩ smallMinor =
        Except.ok ⟨2, 2, [[0, 0], [0, 1]]⟩ ∧
      Matrix.EqMatrix ⟨2, 2, [[0, 0], [0, 1]]⟩ (⟨2, 2, [[1, 0], [0, 1]]⟩ : Matrix ℚ) = false ∧
      Matrix.MulMatrix ⟨2, 2, [[1 / 2000000, 0], [0, 2000000]]⟩ smallMinor =
        Except.ok ⟨2, 2, [[1, 0], [0, 1]]⟩ := by
  refine ⟨smallMinor_determinant, ?_, ?_, ?_, ?_⟩
  · obtain ⟨c, t, hc, ht, -, -, -, -, -, hinv, -⟩ :=
      InverseMatrix_large smallMinor rfl (by decide) 1 smallMinor_determinant one_ne_zero
    rw [smallMinor_complements] at hc
    have hc1 := Except.ok.inj hc
    subst hc1
    have ht1 : Matrix.Transpose (⟨2, 2, [[0, 0], [0, 2000000]]⟩ : Matrix ℚ) =
        Except.ok ⟨2, 2, [[0, 0], [0, 2000000]]⟩ := rfl
    rw [ht1] at ht
    have ht2 := Except.ok.inj ht
    subst ht2
    rw [hinv]
    simp [Matrix.MulNumber]
  · rw [MulMatrix_ok _ _ rfl (by decide) (by decide)]
    simp [smallMinor, Matrix.get, List.range_succ]
  · simp only [Matrix.EqMatrix, and_self, if_true, List.range_succ, List.range_zero,
      List.nil_append, List.cons_append, List.foldl_cons, List.foldl_nil, Matrix.get, eps7,
      List.getD_cons_zero]
    norm_num
  · rw [MulMatrix_ok _ _ rfl (by decide) (by decide)]
    simp [smallMinor, Matrix.get, List.range_succ]

end InverseWitness

section InverseProduct

open ViewerSpec

variable {F : Type} [LinearOrderedField F]

theorem succAbove_val (n : Nat) (p : Fin (n + 1)) (a : Fin n) :
    (p.succAbove a).val = if a.val < p.val then a.val else a.val + 1 := by
  unfold Fin.succAbove
  have hiff : a.castSucc < p ↔ a.val < p.val := Fin.lt_def
  by_cases h : a.val < p.val
  · rw [if_pos (hiff.mpr h), if_pos h]
    rfl
  · rw [if_neg (fun h1 => h (hiff.mp h1)), if_neg h]
    rfl

/-- The adjugate of a matrix in terms of the minors `CreateMinor` builds. -/
theorem adjugate_fnMat (n : Nat) (g : Nat → Nat → F) (i j : Fin (n + 1)) :
    Matrix.adjugate (fnMat (n + 1) g) i j =
      (-1) ^ (j.val + i.val) * Matrix.det (fnMat n (minorCells g j.val i.val)) := by
  rw [Matrix.adjugate_fin_succ_eq_det_submatrix]
  congr 2
  ext a b
  simp only [fnMat, Matrix.submatrix_apply, Matrix.of_apply, minorCells, succAbove_val]

end InverseProduct

section InverseProductMain

open ViewerSpec

variable {F : Type} [LinearOrderedField F]

/-- The rows of the adjugate, written with the minors, times the columns of
the matrix: the determinant on the diagonal and 0 elsewhere. -/
theorem cofactor_sum (n : Nat) (g : Nat → Nat → F) (i j : Nat) (hi : i < n + 1)
    (hj : j < n + 1) :
    ∑ k in Finset.range (n + 1),
        Matrix.det (fnMat n (minorCells g k i)) * (-1) ^ (k + i) * g k j =
      if i = j then Matrix.det (fnMat (n + 1) g) else 0 := by
  have h := congrFun (congrFun (Matrix.adjugate_mul (fnMat (n + 1) g)) ⟨i, hi⟩) ⟨j, hj⟩
  rw [Matrix.mul_apply] at h
  simp only [adjugate_fnMat, Matrix.smul_apply, Matrix.one_apply, Fin.mk.injEq, smul_eq_mul,
    mul_ite, mul_one, mul_zero] at h
  rw [← h, ← Fin.sum_univ_eq_sum_range
    (fun k => Matrix.det (fnMat n (minorCells g k i)) * (-1) ^ (k + i) * g k j) (n + 1)]
  apply Finset.sum_congr rfl
  intro k _
  simp only [fnMat, Matrix.of_apply]
  ring

theorem det_toMat_one (m : Matrix F) (hr : m.rows_ = 1) :
    Matrix.det (toMat m.rows_ m) = m.get 0 0 := by
  rw [toMat, det_fnMat_congr m.rows_ 1 hr m.get m.get (fun _ _ _ _ => rfl), det_fnMat_one]

theorem identityMatrix_get (n i j : Nat) (hi : i < n) (hj : j < n) :
    (identityMatrix n : Matrix F).get i j = if i = j then 1 else 0 :=
  Matrix.get_grid _ _ _ _ _ hi hj

end InverseProductMain

section InverseTimesSelf

open ViewerSpec

variable {F : Type} [LinearOrderedField F]

/-- Claim C25, amended: in exact arithmetic, for every square matrix `A` for
which `InverseMatrix` does not fail (`Determinant` does not return 0) and in
which no minor has a non-zero determinant of absolute value below `1e-6`
(the values `Determinant` replaces by 0), `InverseMatrix(A) * A` is exactly
the identity matrix of the same size, so `EqMatrix` finds them equal. -/
theorem Matrix.InverseMatrix_mul_self (m : Matrix F) (hsq : m.cols_ = m.rows_)
    (hpos : 0 < m.rows_) (hok : m.Determinant ≠ Except.ok (Dbl.fin 0))
    (hminors : ∀ i j, i < m.rows_ → j < m.rows_ →
      |Matrix.det (fnMat (m.rows_ - 1) (minorCells m.get i j))| < 1 / 1000000 →
        Matrix.det (fnMat (m.rows_ - 1) (minorCells m.get i j)) = 0) :
    ∃ inv p, m.InverseMatrix = Except.ok inv ∧ inv.MulMatrix m = Except.ok p ∧
      p.rows_ = m.rows_ ∧ p.cols_ = m.rows_ ∧
      (∀ i j, i < m.rows_ → j < m.rows_ → p.get i j = if i = j then 1 else 0) ∧
      p.EqMatrix (identityMatrix m.rows_) = true := by
  have hd := Determinant_eq m hsq hpos
  have hd0 : snap (Matrix.det (toMat m.rows_ m)) ≠ 0 := by
    intro h
    rw [h] at hd
    exact hok hd
  obtain ⟨hsnap, hbig⟩ := snap_ne_zero _ hd0
  have hdet0 : Matrix.det (toMat m.rows_ m) ≠ 0 := by
    rw [← hsnap]
    exact hd0
  have hfinish : ∀ inv p : Matrix F, m.InverseMatrix = Except.ok inv →
      inv.MulMatrix m = Except.ok p → p.rows_ = m.rows_ → p.cols_ = m.rows_ →
      (∀ i j, i < m.rows_ → j < m.rows_ → p.get i j = if i = j then 1 else 0) →
      ∃ inv p, m.InverseMatrix = Except.ok inv ∧ inv.MulMatrix m = Except.ok p ∧
        p.rows_ = m.rows_ ∧ p.cols_ = m.rows_ ∧
        (∀ i j, i < m.rows_ → j < m.rows_ → p.get i j = if i = j then 1 else 0) ∧
        p.EqMatrix (identityMatrix m.rows_) = true := by
    intro inv p h1 h2 h3 h4 h5
    refine ⟨inv, p, h1, h2, h3, h4, h5, ?_⟩
    rw [EqMatrix_true_iff]
    refine ⟨h3, h4, ?_⟩
    intro i hi j hj
    rw [h3] at hi
    rw [h4] at hj
    rw [h5 i j hi hj, identityMatrix_get m.rows_ i j hi hj, sub_self, abs_zero]
    norm_num
  by_cases h1 : m.rows_ = 1
  · have hinv := InverseMatrix_one m h1 (by omega) _ hd hd0
    have hmul := MulMatrix_ok (⟨1, 1, [[1 / m.get 0 0]]⟩ : Matrix F) m (by simp only; omega)
      (by simp only; omega) (by omega)
    obtain ⟨hr, hc, -, -, hcells⟩ := MulMatrix_product _ m _ hmul
    refine hfinish _ _ hinv hmul (by rw [hr]; exact h1.symm) (by rw [hc]; exact hsq) ?_
    intro i j hi hj
    have hi0 : i = 0 := by omega
    have hj0 : j = 0 := by omega
    subst hi0 hj0
    rw [hcells 0 (by simp only; omega) 0 (by omega)]
    have ha : m.get 0 0 ≠ 0 := by
      rw [← det_toMat_one m h1]
      exact hdet0
    simp only [Finset.sum_range_one, Matrix.get, List.getD_cons_zero, if_true]
    exact div_mul_cancel₀ 1 ha
  · have h2 : 2 ≤ m.rows_ := by omega
    obtain ⟨n, hn⟩ : ∃ n, m.rows_ = n + 1 := ⟨m.rows_ - 1, by omega⟩
    obtain ⟨c, t, hc, ht, hcr, hcc, htr, htc, hget, hinv, hcells⟩ :=
      InverseMatrix_large m hsq h2 _ hd hd0
    have hceq := CalcComplements_eq m hsq h2
    rw [hc] at hceq
    have hcval : ∀ k i, k < m.rows_ → i < m.rows_ →
        c.get k i = Matrix.det (fnMat n (minorCells m.get k i)) * (-1) ^ (k + i) := by
      intro k i hk hi
      rw [Except.ok.inj hceq, Matrix.get_grid _ _ _ _ _ hk (by omega)]
      have hs : snap (Matrix.det (fnMat (m.rows_ - 1) (minorCells m.get k i))) =
          Matrix.det (fnMat (m.rows_ - 1) (minorCells m.get k i)) := by
        by_cases hlt : |Matrix.det (fnMat (m.rows_ - 1) (minorCells m.get k i))| < 1 / 1000000
        · rw [hminors k i hk hi hlt]
          simp [snap]
        · exact snap_big _ (not_lt.mp hlt)
      rw [hs, det_fnMat_congr (m.rows_ - 1) n (by omega) _ _ (fun _ _ _ _ => rfl)]
    have hmr : (t.MulNumber (1 / snap (Matrix.det (toMat m.rows_ m)))).rows_ = m.rows_ := htr
    have hmc : (t.MulNumber (1 / snap (Matrix.det (toMat m.rows_ m)))).cols_ = m.rows_ := htc
    have hmul := MulMatrix_ok (t.MulNumber (1 / snap (Matrix.det (toMat m.rows_ m)))) m
      (by rw [hmc]) (by rw [hmr]; exact hpos) (by omega)
    obtain ⟨hr, hc1, -, -, hprod⟩ := MulMatrix_product _ m _ hmul
    refine hfinish _ _ hinv hmul (by rw [hr, hmr]) (by rw [hc1]; exact hsq) ?_
    intro i j hi hj
    rw [hprod i (by rw [hmr]; exact hi) j (by omega), hmc]
    have hterm : ∀ k ∈ Finset.range m.rows_,
        (t.MulNumber (1 / snap (Matrix.det (toMat m.rows_ m)))).get i k * m.get k j =
          1 / Matrix.det (toMat m.rows_ m) *
            (Matrix.det (fnMat n (minorCells m.get k i)) * (-1) ^ (k + i) * m.get k j) := by
      intro k hk
      have hk1 := Finset.mem_range.mp hk
      rw [hcells i k hi hk1, hcval k i hk1 hi, hsnap]
      ring
    rw [Finset.sum_congr rfl hterm, ← Finset.mul_sum, hn, cofactor_sum n m.get i j (by omega)
      (by omega)]
    have hdn : Matrix.det (toMat m.rows_ m) = Matrix.det (fnMat (n + 1) m.get) :=
      det_fnMat_congr m.rows_ (n + 1) hn _ _ (fun _ _ _ _ => rfl)
    rw [hdn] at hdet0
    by_cases hij : i = j
    · rw [if_pos hij, if_pos hij]
      exact div_mul_cancel₀ 1 hdet0
    · rw [if_neg hij, if_neg hij, mul_zero]

end InverseTimesSelf

section InverseTimesSelfWitness

open ViewerSpec

theorem diagTwoFour_determinant : diagTwoFour.Determinant = Except.ok (Dbl.fin 8) := by
  have hdet := Determinant_eq diagTwoFour rfl (by decide)
  have hval : Matrix.det (toMat 2 diagTwoFour) = 8 := by
    rw [Matrix.det_fin_two]
    simp [toMat, fnMat, Matrix.get, diagTwoFour]
    norm_num
  have h2 : snap (Matrix.det (toMat 2 diagTwoFour)) = 8 := by
    rw [hval]
    exact snap_big 8 (by rw [abs_of_pos (by norm_num)]; norm_num)
  rw [hdet]
  exact congrArg (fun x => Except.ok (Dbl.fin x)) h2

theorem Matrix.InverseMatrix_mul_self_witness :
    ∃ inv p, diagTwoFour.InverseMatrix = Except.ok inv ∧
      inv.MulMatrix diagTwoFour = Except.ok p ∧ p.EqMatrix (identityMatrix 2) = true := by
  have e : ∀ g : ℕ → ℕ → ℚ, Matrix.det (fnMat (diagTwoFour.rows_ - 1) g) = g 0 0 :=
    fun g => det_fnMat_one g
  obtain ⟨inv, p, h1, h2, -, -, -, h3⟩ := Matrix.InverseMatrix_mul_self diagTwoFour rfl
    (by decide)
    (by
      rw [diagTwoFour_determinant]
      intro h
      have h8 := Dbl.fin.inj (Except.ok.inj h)
      norm_num at h8)
    (by
      intro i j hi hj
      have hi2 : i < 2 := hi
      have hj2 : j < 2 := hj
      rw [e]
      interval_cases i <;> interval_cases j <;>
        simp [minorCells, Matrix.get, diagTwoFour] <;> norm_num)
  exact ⟨inv, p, h1, h2, h3⟩

end InverseTimesSelfWitness

/-! ## Equality of matrices as a relation -/

section EqMatrixRelation

variable {F : Type} [LinearOrderedField F]

/-- Claim C39: `EqMatrix`, and with it `operator==`, is reflexive and
symmetric on matrices with entries in an ordered field, and it is not
transitive: the 1 x 1 matrices `[0]`, `[6e-8]` and `[1.2e-7]` are equal to
their neighbour and the first is not equal to the last. -/
theorem Matrix.EqMatrix_not_transitive :
    (∀ a : Matrix F, a.EqMatrix a = true ∧ a.operatorEq a = true) ∧
    (∀ a b : Matrix F, (a.EqMatrix b = true ↔ b.EqMatrix a = true) ∧
      (a.operatorEq b = true ↔ b.operatorEq a = true)) ∧
    Matrix.EqMatrix (⟨1, 1, [[0]]⟩ : Matrix F) ⟨1, 1, [[6 / 100000000]]⟩ = true ∧
    Matrix.EqMatrix (⟨1, 1, [[6 / 100000000]]⟩ : Matrix F) ⟨1, 1, [[12 / 100000000]]⟩ = true ∧
    Matrix.EqMatrix (⟨1, 1, [[0]]⟩ : Matrix F) ⟨1, 1, [[12 / 100000000]]⟩ = false ∧
    Matrix.operatorEq (⟨1, 1, [[0]]⟩ : Matrix F) ⟨1, 1, [[6 / 100000000]]⟩ = true ∧
    Matrix.operatorEq (⟨1, 1, [[6 / 100000000]]⟩ : Matrix F) ⟨1, 1, [[12 / 100000000]]⟩ = true ∧
    Matrix.operatorEq (⟨1, 1, [[0]]⟩ : Matrix F) ⟨1, 1, [[12 / 100000000]]⟩ = false := by
  have hrefl : ∀ a : Matrix F, a.EqMatrix a = true := by
    intro a
    rw [EqMatrix_true_iff]
    refine ⟨rfl, rfl, fun i _ j _ => ?_⟩
    rw [sub_self, abs_zero]
    norm_num
  have hsymm : ∀ a b : Matrix F, a.EqMatrix b = true → b.EqMatrix a = true := by
    intro a b h
    rw [EqMatrix_true_iff] at h ⊢
    obtain ⟨hr, hc, hcells⟩ := h
    refine ⟨hr.symm, hc.symm, fun i hi j hj => ?_⟩
    rw [abs_sub_comm]
    exact hcells i (by rw [hr]; exact hi) j (by rw [hc]; exact hj)
  have h1 : Matrix.EqMatrix (⟨1, 1, [[0]]⟩ : Matrix F) ⟨1, 1, [[6 / 100000000]]⟩ = true := by
    rw [EqMatrix_true_iff]
    refine ⟨rfl, rfl, fun i hi j hj => ?_⟩
    have hi0 : i = 0 := by
      have : i < 1 := hi
      omega
    have hj0 : j = 0 := by
      have : j < 1 := hj
      omega
    subst hi0 hj0
    simp only [Matrix.get, List.getD_cons_zero]
    rw [zero_sub, abs_neg, abs_of_pos (by norm_num)]
    norm_num
  have h2 : Matrix.EqMatrix (⟨1, 1, [[6 / 100000000]]⟩ : Matrix F)
      ⟨1, 1, [[12 / 100000000]]⟩ = true := by
    rw [EqMatrix_true_iff]
    refine ⟨rfl, rfl, fun i hi j hj => ?_⟩
    have hi0 : i = 0 := by
      have : i < 1 := hi
      omega
    have hj0 : j = 0 := by
      have : j < 1 := hj
      omega
    subst hi0 hj0
    simp only [Matrix.get, List.getD_cons_zero]
    rw [abs_sub_comm, abs_of_pos (by norm_num)]
    norm_num
  have h3 : Matrix.EqMatrix (⟨1, 1, [[0]]⟩ : Matrix F) ⟨1, 1, [[12 / 100000000]]⟩ = false := by
    rw [← Bool.not_eq_true, EqMatrix_true_iff]
    rintro ⟨-, -, hcells⟩
    have h := hcells 0 Nat.one_pos 0 Nat.one_pos
    simp only [Matrix.get, List.getD_cons_zero] at h
    rw [zero_sub, abs_neg, abs_of_pos (by norm_num)] at h
    norm_num at h
  exact ⟨fun a => ⟨hrefl a, hrefl a⟩,
    fun a b => ⟨⟨hsymm a b, hsymm b a⟩, ⟨hsymm a b, hsymm b a⟩⟩, h1, h2, h3, h1, h2, h3⟩

end EqMatrixRelation

/-! ## The last column of the General matrix and the guards of the inverse -/

section LastColumn

open ViewerSpec

variable {F : Type} [Field F] [DecidableEq F]

/-- The General matrix built on a fresh instance is a homogeneous matrix
whose translation row is `delta.move`, whatever `cos` and `sin` are. -/
theorem General_fresh_move (T : Trig F) (delta : TransformParametrs F) :
    ∃ L : Mat3 F, GeneralTransformMatrix.SetTransformMatrix T TransformMatrix.fresh delta =
      Except.ok (homogeneous L delta.move) := by
  unfold GeneralTransformMatrix.SetTransformMatrix
  simp only [Scale_fresh, Move_fresh, Rotation_fresh]
  rw [fresh_homogeneous]
  by_cases hm : IsDelta delta.move = true
  · by_cases hs : IsDelta delta.scale = true <;> by_cases hr : IsDelta delta.rotation = true
    all_goals
      simp only [hs, hr, hm, if_true, if_false, Bool.false_eq_true, bind, Except.bind, pure,
        Except.pure, MulMatrix_homogeneous_zero]
      exact ⟨_, rfl⟩
  · have h0 : delta.move = ⟨0, 0, 0⟩ :=
      Delta.eq_zero_of_IsDelta_false (Bool.eq_false_iff.mpr hm)
    rw [h0] at hm ⊢
    by_cases hs : IsDelta delta.scale = true <;> by_cases hr : IsDelta delta.rotation = true
    all_goals
      simp only [hs, hr, hm, if_true, if_false, Bool.false_eq_true, bind, Except.bind, pure,
        Except.pure, MulMatrix_homogeneous_zero]
      exact ⟨_, rfl⟩

/-- Claim C37: for every `delta` the General matrix `M` built on a fresh
instance is 4 x 4 with last column `(0, 0, 0, 1)` and row 3 equal to
`(delta.move, 1)`; for every point `(x, y, z)` the product `[x y z 1] * M`
computed by `MulMatrix` has fourth entry exactly 1, and the triple
`PrivateTransformVertices` stores for the vertex is its first three entries. -/
theorem General_last_column (T : Trig F) (delta : TransformParametrs F) :
    ∃ M : Matrix F,
      GeneralTransformMatrix.SetTransformMatrix T TransformMatrix.fresh delta = Except.ok M ∧
      M.Is4x4 ∧ M.get 0 3 = 0 ∧ M.get 1 3 = 0 ∧ M.get 2 3 = 0 ∧ M.get 3 3 = 1 ∧
      M.get 3 0 = delta.move.x ∧ M.get 3 1 = delta.move.y ∧ M.get 3 2 = delta.move.z ∧
      ∀ x y z : F, ∃ r : Matrix F,
        Matrix.MulMatrix ⟨1, 4, [[x, y, z, 1]]⟩ M = Except.ok r ∧ r.rows_ = 1 ∧ r.cols_ = 4 ∧
        r.get 0 3 = 1 ∧ transformVertex M x y z = Except.ok (r.get 0 0, r.get 0 1, r.get 0 2) := by
  obtain ⟨L, hL⟩ := General_fresh_move T delta
  refine ⟨_, hL, homogeneous_is4x4 _ _, rfl, rfl, rfl, rfl, rfl, rfl, rfl, ?_⟩
  intro x y z
  refine ⟨⟨1, 4, [[0 + x * L 0 0 + y * L 1 0 + z * L 2 0 + 1 * delta.move.x,
    0 + x * L 0 1 + y * L 1 1 + z * L 2 1 + 1 * delta.move.y,
    0 + x * L 0 2 + y * L 1 2 + z * L 2 2 + 1 * delta.move.z,
    0 + x * 0 + y * 0 + z * 0 + 1 * 1]]⟩, rfl, rfl, rfl, ?_, rfl⟩
  simp [Matrix.get]

end LastColumn

section InverseGuards

open ViewerSpec

variable {F : Type} [LinearOrderedField F]

/-- Claim C36: for every square matrix with at least one row `Determinant`
returns a finite value `d` that is exactly 0 or of absolute value at least
`1e-6`; whenever `InverseMatrix` returns, the guard `|det| >= 1e-7` holds,
for a 1 x 1 matrix `[a]` the guard `|a| >= 1e-7` holds and the result is the
assigned `[1 / a]`, and for `n >= 2` the result is the assigned transpose of
the cofactor matrix times `1 / d`: the branch that leaves the zero-filled
`result` unassigned is never taken. -/
theorem Matrix.InverseMatrix_guards (m : Matrix F) (hsq : m.cols_ = m.rows_)
    (hpos : 0 < m.rows_) :
    ∃ d, m.Determinant = Except.ok (Dbl.fin d) ∧ (d = 0 ∨ 1 / 1000000 ≤ |d|) ∧
      ∀ inv, m.InverseMatrix = Except.ok inv →
        1 / 10000000 ≤ |d| ∧
        (m.rows_ = 1 →
          1 / 10000000 ≤ |m.get 0 0| ∧ inv = ⟨1, 1, [[1 / m.get 0 0]]⟩) ∧
        (2 ≤ m.rows_ → ∃ c t, m.CalcComplements = Except.ok c ∧
          c.Transpose = Except.ok t ∧ inv = t.MulNumber (1 / d)) := by
  have hd := Determinant_eq m hsq hpos
  have hcases : snap (Matrix.det (toMat m.rows_ m)) = 0 ∨
      1 / 1000000 ≤ |snap (Matrix.det (toMat m.rows_ m))| := by
    by_cases h0 : snap (Matrix.det (toMat m.rows_ m)) = 0
    · exact Or.inl h0
    · obtain ⟨e, hbig⟩ := snap_ne_zero _ h0
      rw [e]
      exact Or.inr hbig
  refine ⟨_, hd, hcases, ?_⟩
  intro inv hinv
  have hd0 : snap (Matrix.det (toMat m.rows_ m)) ≠ 0 := by
    intro h0
    rw [h0] at hd
    rw [InverseMatrix_singular m hd] at hinv
    cases hinv
  obtain ⟨e, hbig⟩ := snap_ne_zero _ hd0
  have hsmall : (1 / 10000000 : F) ≤ 1 / 1000000 := by norm_num
  refine ⟨?_, ?_, ?_⟩
  · rw [e]
    exact le_trans hsmall hbig
  · intro h1
    refine ⟨?_, ?_⟩
    · rw [← det_toMat_one m h1]
      exact le_trans hsmall hbig
    · rw [InverseMatrix_one m h1 (by rw [hsq, h1]) _ hd hd0] at hinv
      exact (Except.ok.inj hinv).symm
  · intro h2
    obtain ⟨c, t, hc, ht, -, -, -, -, -, hres, -⟩ := InverseMatrix_large m hsq h2 _ hd hd0
    rw [hres] at hinv
    exact ⟨c, t, hc, ht, (Except.ok.inj hinv).symm⟩

theorem Matrix.InverseMatrix_guards_witness :
    ∃ d, Matrix.Determinant (⟨1, 1, [[4]]⟩ : Matrix ℚ) = Except.ok (Dbl.fin d) ∧
      (d = 0 ∨ 1 / 1000000 ≤ |d|) ∧
      ∀ inv, Matrix.InverseMatrix (⟨1, 1, [[4]]⟩ : Matrix ℚ) = Except.ok inv →
        inv = ⟨1, 1, [[1 / 4]]⟩ := by
  obtain ⟨d, hd, hcases, h⟩ := Matrix.InverseMatrix_guards (⟨1, 1, [[4]]⟩ : Matrix ℚ) rfl
    (by decide)
  refine ⟨d, hd, hcases, fun inv hinv => ?_⟩
  exact ((h inv hinv).2.1 rfl).2

end InverseGuards

/-! ## The exception that leaves the parser -/

section SlicedException

theorem faultyFiles_bad_index :
    ((Parser.cleared : Parser ℚ).ReadData faultyFiles "bad_index.obj") =
      (⟨⟨[0, 0, 0], [1, 1]⟩⟩, none) := by
  simp [Parser.cleared, Parser.ReadData, faultyFiles, fileLines, readLines, getline, newline,
    skipWs, isSpace, ReserveSpace, Parser.readLine, Parser.ParseVertex, Parser.ParseFaces,
    ParseVertexLoop, ParseFacesLoop, IStream.readFloat, exceedsFloat, floatOverflow, IStream.readInt, IStream.readChar,
    IStream.ofLine, IStream.ignore256, isDigit, digitsVal, digitVal, resolveFace, toUInt32,
    toInt32, INT_MAX, INT_MIN]

/-- Claim C34, at inputs where the code departs from it. For a path that
cannot be opened `ReadData` throws the logic error "Can't open file", and for
the file `v 0 0 0` / `f 2` `ValidationData` throws the logic error "Index
more then vertices size"; in both cases the handler of `Parser::LoadFile`
executes `throw exception;` on a `const std::exception&`, so the object that
reaches the caller is a plain `std::exception` whose `what()` is
"std::exception", and that is the message `Model::LoadFile` returns. Every
error that leaves `Parser::LoadFile` is this one. -/
theorem Parser.LoadFile_error_sliced :
    ((Parser.cleared : Parser ℚ).ReadData noFiles "missing.obj").2 =
        some ⟨ErrorKind.logicError, "Can't open file"⟩ ∧
      (threeVertexParser.LoadFile noFiles "missing.obj").2 =
        some ⟨ErrorKind.exception, "std::exception"⟩ ∧
      pointModel.LoadFile noFiles "missing.obj" =
        Except.ok (pointModel, false, "std::exception") ∧
      ((Parser.cleared : Parser ℚ).ReadData faultyFiles "bad_index.obj").1.ValidationData =
        some ⟨ErrorKind.logicError, "Index more then vertices size"⟩ ∧
      (threeVertexParser.LoadFile faultyFiles "bad_index.obj").2 =
        some ⟨ErrorKind.exception, "std::exception"⟩ ∧
      pointModel.LoadFile faultyFiles "bad_index.obj" =
        Except.ok (pointModel, false, "std::exception") ∧
      ∀ (p : Parser ℚ) (fs : FileSystem) (path : String) (e : Error),
        (p.LoadFile fs path).2 = some e → e = ⟨ErrorKind.exception, "std::exception"⟩ := by
  have hv : ((Parser.cleared : Parser ℚ).ReadData faultyFiles "bad_index.obj").1.ValidationData =
      some ⟨ErrorKind.logicError, "Index more then vertices size"⟩ := by
    rw [faultyFiles_bad_index]
    simp [Parser.ValidationData]
  have hgen : ∀ (p : Parser ℚ) (fs : FileSystem) (path : String) (e : Error),
      (p.LoadFile fs path).2 = some e → e = ⟨ErrorKind.exception, "std::exception"⟩ := by
    intro p fs path e h
    rw [Parser.LoadFile_eq] at h
    split_ifs at h
    exact (Option.some.inj h).symm
  have h1 : (threeVertexParser.LoadFile noFiles "missing.obj").2 =
      some ⟨ErrorKind.exception, "std::exception"⟩ := by
    rw [Parser.LoadFile_eq, if_pos (Or.inl (by rfl))]
  have h2 : (threeVertexParser.LoadFile faultyFiles "bad_index.obj").2 =
      some ⟨ErrorKind.exception, "std::exception"⟩ := by
    rw [Parser.LoadFile_eq, if_pos (Or.inr (by rw [hv]; rfl))]
  have h3 : ∀ fs path, (threeVertexParser.LoadFile fs path).2 =
      some ⟨ErrorKind.exception, "std::exception"⟩ →
      (pointModel.parser_.LoadFile fs path).2.isSome = true := by
    intro fs path h
    rw [Parser.LoadFile_eq] at h ⊢
    split_ifs at h ⊢ with hc
    rfl
  exact ⟨rfl, h1, Model.LoadFile_parser_failure _ _ _ (h3 _ _ h1), hv, h2,
    Model.LoadFile_parser_failure _ _ _ (h3 _ _ h2), hgen⟩

end SlicedException

/-! ## A move followed by a reset -/

section MoveReset

open ViewerSpec

variable {F : Type} [LinearOrderedField F]

/-- A pure translation moves every vertex by `mv`, whatever the accumulated
translation is. -/
theorem pivotTransform_move (T : Trig F) (hcos : T.cos 0 = 1) (hsin : T.sin 0 = 0)
    (t mv : Delta F) (x y z : F) :
    pivotTransform T t ⟨⟨0, 0, 0⟩, mv, ⟨0, 0, 0⟩⟩ x y z = (x + mv.x, y + mv.y, z + mv.z) := by
  unfold pivotTransform
  rw [linearPart_move_only T hcos hsin]
  simp only [Matrix.vecMul_one, Matrix.cons_val_zero, Matrix.cons_val_one, Matrix.head_cons,
    Matrix.cons_val_two, Matrix.tail_cons]
  refine Prod.ext ?_ (Prod.ext ?_ ?_) <;> simp only <;> ring

/-- What `ResetTransform` leaves behind on a non-empty buffer of whole
vertices with finite floats: the same `AffineTransform`, a buffer of the same
length whose floats lie between -1/2 and 1/2, and a bounding box centred on
the origin whose largest extent is 1, or 0 when all vertices coincide. -/
theorem ResetTransform_normal (m : Model F) (hne : m.object_data_.vertices ≠ [])
    (hlen : m.object_data_.vertices.length % 3 = 0)
    (hfin : ∀ x ∈ m.object_data_.vertices, |x| ≤ fltMax) :
    ∃ m1 b1, m.ResetTransform = Except.ok m1 ∧
      m1.affine_transform_ = m.affine_transform_ ∧
      m1.object_data_.vertices.length = m.object_data_.vertices.length ∧
      m1.CalculateBoundingBox = Except.ok b1 ∧
      b1.min_x = -b1.max_x ∧ b1.min_y = -b1.max_y ∧ b1.min_z = -b1.max_z ∧
      (max (max (b1.max_x - b1.min_x) (b1.max_y - b1.min_y)) (b1.max_z - b1.min_z) = 1 ∨
        max (max (b1.max_x - b1.min_x) (b1.max_y - b1.min_y)) (b1.max_z - b1.min_z) = 0) ∧
      ∀ x ∈ m1.object_data_.vertices, |x| ≤ 1 / 2 := by
  obtain ⟨n, hn⟩ := length_eq_three_mul_succ _ hne hlen
  obtain ⟨b, hb, hbound, ⟨vx0, hvx0, ex0⟩, -⟩ := CalculateBoundingBox_bounds m hne hlen hfin
  obtain ⟨s, hs⟩ : ∃ s : F, s =
      if max (max (b.max_x - b.min_x) (b.max_y - b.min_y)) (b.max_z - b.min_z) = 0 then 1
      else max (max (b.max_x - b.min_x) (b.max_y - b.min_y)) (b.max_z - b.min_z) := ⟨_, rfl⟩
  have hsx : b.max_x - b.min_x ≤
      max (max (b.max_x - b.min_x) (b.max_y - b.min_y)) (b.max_z - b.min_z) :=
    le_trans (le_max_left _ _) (le_max_left _ _)
  have hsy : b.max_y - b.min_y ≤
      max (max (b.max_x - b.min_x) (b.max_y - b.min_y)) (b.max_z - b.min_z) :=
    le_trans (le_max_right _ _) (le_max_left _ _)
  have hsz : b.max_z - b.min_z ≤
      max (max (b.max_x - b.min_x) (b.max_y - b.min_y)) (b.max_z - b.min_z) :=
    le_max_right _ _
  have hx0 : 0 ≤ b.max_x - b.min_x := by
    have := hbound vx0 hvx0
    linarith [this.1, this.2.1]
  have hS0 : 0 ≤ max (max (b.max_x - b.min_x) (b.max_y - b.min_y)) (b.max_z - b.min_z) :=
    le_trans hx0 hsx
  have hspos : 0 < s := by
    rw [hs]
    split_ifs with h0
    · exact one_pos
    · exact lt_of_le_of_ne hS0 (Ne.symm h0)
  have hmono : ∀ c : F, ∀ x y : F, x ≤ y → (x - c) / s ≤ (y - c) / s := by
    intro c x y hxy
    exact div_le_div_of_nonneg_right (by linarith) (le_of_lt hspos)
  have hm1 := ResetTransform_eq m n hn b hb s hs
  obtain ⟨m1, hm1def⟩ : ∃ m1 : Model F, m1 = { m with
      object_data_ := { m.object_data_ with
        vertices := mapVertices (fun x y z =>
          ((x - (b.min_x + (b.max_x - b.min_x) / 2)) / s,
            (y - (b.min_y + (b.max_y - b.min_y) / 2)) / s,
            (z - (b.min_z + (b.max_z - b.min_z) / 2)) / s)) m.object_data_.vertices }
      current_state_ := ⟨⟨1, 1, 1⟩, ⟨0, 0, 0⟩, ⟨0, 0, 0⟩⟩ } := ⟨_, rfl⟩
  rw [← hm1def] at hm1
  have hv1 : m1.object_data_.vertices = mapVertices (fun x y z =>
      ((x - (b.min_x + (b.max_x - b.min_x) / 2)) / s,
        (y - (b.min_y + (b.max_y - b.min_y) / 2)) / s,
        (z - (b.min_z + (b.max_z - b.min_z) / 2)) / s)) m.object_data_.vertices := by
    rw [hm1def]
  have hbx : ∀ v ∈ vertexList m.object_data_.vertices,
      |(v.1 - (b.min_x + (b.max_x - b.min_x) / 2)) / s| ≤ 1 / 2 := by
    intro v hv
    have h := normalized_bound b.min_x b.max_x v.1 _ (hbound v hv).1 (hbound v hv).2.1 hsx
    rw [← hs] at h
    exact h
  have hby : ∀ v ∈ vertexList m.object_data_.vertices,
      |(v.2.1 - (b.min_y + (b.max_y - b.min_y) / 2)) / s| ≤ 1 / 2 := by
    intro v hv
    have h := normalized_bound b.min_y b.max_y v.2.1 _ (hbound v hv).2.2.1
      (hbound v hv).2.2.2.1 hsy
    rw [← hs] at h
    exact h
  have hbz : ∀ v ∈ vertexList m.object_data_.vertices,
      |(v.2.2 - (b.min_z + (b.max_z - b.min_z) / 2)) / s| ≤ 1 / 2 := by
    intro v hv
    have h := normalized_bound b.min_z b.max_z v.2.2 _ (hbound v hv).2.2.2.2.1
      (hbound v hv).2.2.2.2.2 hsz
    rw [← hs] at h
    exact h
  have hb1 := CalculateBoundingBox_map m m1 n hn hfin
    (fun x => (x - (b.min_x + (b.max_x - b.min_x) / 2)) / s)
    (fun y => (y - (b.min_y + (b.max_y - b.min_y) / 2)) / s)
    (fun z => (z - (b.min_z + (b.max_z - b.min_z) / 2)) / s)
    (hmono _) (hmono _) (hmono _)
    (fun v hv => le_trans (hbx v hv) half_le_fltMax)
    (fun v hv => le_trans (hby v hv) half_le_fltMax)
    (fun v hv => le_trans (hbz v hv) half_le_fltMax)
    hv1 b hb
  refine ⟨m1, _, hm1, by rw [hm1def], ?_, hb1, ?_, ?_, ?_, ?_, ?_⟩
  · rw [hv1, mapVertices_length _ (n + 1) _ hn, hn]
  · simp only
    ring
  · simp only
    ring
  · simp only
    ring
  · simp only
    have e1 : ∀ lo hi : F, (hi - (lo + (hi - lo) / 2)) / s - (lo - (lo + (hi - lo) / 2)) / s =
        (hi - lo) / s := by
      intro lo hi
      ring
    rw [e1, e1, e1, max_div_div_right (le_of_lt hspos), max_div_div_right (le_of_lt hspos)]
    by_cases h0 : max (max (b.max_x - b.min_x) (b.max_y - b.min_y)) (b.max_z - b.min_z) = 0
    · right
      rw [h0, zero_div]
    · left
      have hs1 : s = max (max (b.max_x - b.min_x) (b.max_y - b.min_y)) (b.max_z - b.min_z) := by
        rw [hs, if_neg h0]
      rw [← hs1, div_self (ne_of_gt hspos)]
  · intro x hx
    rw [hv1] at hx
    have hlen1 := mapVertices_length (fun x y z : F =>
      ((x - (b.min_x + (b.max_x - b.min_x) / 2)) / s,
        (y - (b.min_y + (b.max_y - b.min_y) / 2)) / s,
        (z - (b.min_z + (b.max_z - b.min_z) / 2)) / s)) (n + 1) _ hn
    obtain ⟨v1, hv1m, hx1⟩ := mem_vertexList_of_mem (n + 1) _ hlen1 x hx
    rw [vertexList_mapVertices _ (n + 1) _ hn] at hv1m
    obtain ⟨v, hv, rfl⟩ := List.mem_map.mp hv1m
    rcases hx1 with h | h | h <;> rw [h]
    · exact hbx v hv
    · exact hby v hv
    · exact hbz v hv

end MoveReset

section MoveResetClaim

open ViewerSpec

variable {F : Type} [LinearOrderedField F]

/-- On a bound model whose box is centred on the origin with largest extent 1
or 0 and whose floats lie between -1/2 and 1/2, a pure translation followed
by `ResetTransform` gives the vertex buffer back. -/
theorem Transform_move_reset (T : Trig F) (hcos : T.cos 0 = 1) (hsin : T.sin 0 = 0)
    (m : Model F) (b : BoundingBox F) (hbound : m.affine_transform_.vertices_ ≠ none)
    (h4 : m.affine_transform_.transform_matrix_.Is4x4)
    (hne : m.object_data_.vertices ≠ []) (hlen : m.object_data_.vertices.length % 3 = 0)
    (hb : m.CalculateBoundingBox = Except.ok b)
    (hcx : b.min_x = -b.max_x) (hcy : b.min_y = -b.max_y) (hcz : b.min_z = -b.max_z)
    (hext : max (max (b.max_x - b.min_x) (b.max_y - b.min_y)) (b.max_z - b.min_z) = 1 ∨
      max (max (b.max_x - b.min_x) (b.max_y - b.min_y)) (b.max_z - b.min_z) = 0)
    (hhalf : ∀ x ∈ m.object_data_.vertices, |x| ≤ 1 / 2) (mv : Delta F)
    (hmx : |mv.x| ≤ fltMax - 1 / 2) (hmy : |mv.y| ≤ fltMax - 1 / 2)
    (hmz : |mv.z| ≤ fltMax - 1 / 2) :
    ∃ m1 m2, m.Transform T ⟨⟨0, 0, 0⟩, mv, ⟨0, 0, 0⟩⟩ = Except.ok m1 ∧
      m1.object_data_.vertices =
        mapVertices (fun x y z => (x + mv.x, y + mv.y, z + mv.z)) m.object_data_.vertices ∧
      m1.ResetTransform = Except.ok m2 ∧
      m2.object_data_.vertices = m.object_data_.vertices := by
  obtain ⟨n, hn⟩ := length_eq_three_mul_succ _ hne hlen
  obtain ⟨tm, -, htr⟩ := Model.Transform_eq T hcos hsin m hbound h4 n hn
    ⟨⟨0, 0, 0⟩, mv, ⟨0, 0, 0⟩⟩
  obtain ⟨m1, hm1def⟩ : ∃ m1 : Model F, m1 = { m with
      affine_transform_ := ⟨tm, m.affine_transform_.vertices_,
        ⟨m.affine_transform_.translation_.x + mv.x, m.affine_transform_.translation_.y + mv.y,
          m.affine_transform_.translation_.z + mv.z⟩⟩
      object_data_ := { m.object_data_ with
        vertices := mapVertices
          (pivotTransform T m.affine_transform_.translation_ ⟨⟨0, 0, 0⟩, mv, ⟨0, 0, 0⟩⟩)
          m.object_data_.vertices } } := ⟨_, rfl⟩
  rw [← hm1def] at htr
  have hv1 : m1.object_data_.vertices =
      mapVertices (fun x y z => (x + mv.x, y + mv.y, z + mv.z)) m.object_data_.vertices := by
    rw [hm1def]
    exact mapVertices_congr _ _ (fun x y z => pivotTransform_move T hcos hsin _ mv x y z) _
  have hlen1 : m1.object_data_.vertices.length = 3 * (n + 1) := by
    rw [hv1]
    exact mapVertices_length _ (n + 1) _ hn
  have hfin : ∀ x ∈ m.object_data_.vertices, |x| ≤ fltMax :=
    fun x hx => le_trans (hhalf x hx) half_le_fltMax
  have hmem := mem_of_mem_vertexList _ m.object_data_.vertices (le_refl _)
  have hadd : ∀ x c : F, |x| ≤ 1 / 2 → |c| ≤ fltMax - 1 / 2 → |x + c| ≤ fltMax := by
    intro x c h1 h2
    have := abs_add x c
    linarith
  have hb1 := CalculateBoundingBox_map m m1 n hn hfin (fun x => x + mv.x) (fun y => y + mv.y)
    (fun z => z + mv.z) (fun x y h => add_le_add_right h _) (fun x y h => add_le_add_right h _)
    (fun x y h => add_le_add_right h _)
    (fun v hv => hadd _ _ (hhalf _ (hmem v hv).1) hmx)
    (fun v hv => hadd _ _ (hhalf _ (hmem v hv).2.1) hmy)
    (fun v hv => hadd _ _ (hhalf _ (hmem v hv).2.2) hmz) hv1 b hb
  have hs : (1 : F) =
      if max (max (b.max_x + mv.x - (b.min_x + mv.x)) (b.max_y + mv.y - (b.min_y + mv.y)))
          (b.max_z + mv.z - (b.min_z + mv.z)) = 0 then 1
      else max (max (b.max_x + mv.x - (b.min_x + mv.x)) (b.max_y + mv.y - (b.min_y + mv.y)))
          (b.max_z + mv.z - (b.min_z + mv.z)) := by
    have e : ∀ lo hi c : F, hi + c - (lo + c) = hi - lo := by
      intro lo hi c
      ring
    rw [e, e, e]
    rcases hext with h | h
    · rw [h, if_neg one_ne_zero]
    · rw [h, if_pos rfl]
  have hreset := ResetTransform_eq m1 n hlen1 _ hb1 1 hs
  refine ⟨m1, _, htr, hv1, hreset, ?_⟩
  simp only
  rw [hv1, mapVertices_comp _ _ (n + 1) _ hn]
  apply mapVertices_id _ _ (n + 1) _ hn
  intro x y z
  refine Prod.ext ?_ (Prod.ext ?_ ?_)
  · simp only [hcx]
    ring
  · simp only [hcy]
    ring
  · simp only [hcz]
    ring

/-- A successful `LoadFile` is a `ResetTransform` of the model that holds the
parsed geometry and is bound to its vertex buffer. -/
theorem Model.LoadFile_success (m0 m : Model F) (fs : FileSystem) (path : String)
    (msg : String) (hload : m0.LoadFile fs path = Except.ok (m, true, msg)) :
    ∃ mpre : Model F, mpre.ResetTransform = Except.ok m ∧
      mpre.object_data_.vertices = (m0.parser_.LoadFile fs path).1.data_.vertices ∧
      mpre.object_data_.vertices ≠ [] ∧ mpre.object_data_.vertices.length % 3 = 0 ∧
      mpre.affine_transform_.vertices_ ≠ none ∧
      mpre.affine_transform_.transform_matrix_ = m0.affine_transform_.transform_matrix_ := by
  unfold Model.LoadFile at hload
  rcases hp : m0.parser_.LoadFile fs path with ⟨p1, _ | e⟩
  · rw [hp] at hload
    simp only at hload
    rcases ha : AffineTransform.AddVertices m0.affine_transform_ (some Model.verticesAddr)
      (Parser.GetData p1).vertices with e | a
    · rw [ha] at hload
      simp only [Model.catchException] at hload
      split_ifs at hload
      cases hload
    · rw [ha] at hload
      simp only at hload
      have hav : (Parser.GetData p1).vertices ≠ [] ∧ (Parser.GetData p1).vertices.length % 3 = 0 ∧
          a.vertices_ ≠ none ∧ a.transform_matrix_ = m0.affine_transform_.transform_matrix_ := by
        unfold AffineTransform.AddVertices at ha
        by_cases h1 : (some Model.verticesAddr : Option Nat) = none ∨
            (Parser.GetData p1).vertices.isEmpty = true ∨
            (Parser.GetData p1).vertices.length % 3 ≠ 0
        · rw [if_pos h1] at ha
          cases ha
        · rw [if_neg h1] at ha
          have hne : (Parser.GetData p1).vertices ≠ [] :=
            fun h => h1 (Or.inr (Or.inl (by rw [h]; rfl)))
          have hl : (Parser.GetData p1).vertices.length % 3 = 0 :=
            by_contra fun h => h1 (Or.inr (Or.inr h))
          by_cases h2 : m0.affine_transform_.vertices_ = none
          · rw [if_pos h2] at ha
            cases ha
            exact ⟨hne, hl, by simp, rfl⟩
          · rw [if_neg h2] at ha
            cases ha
            exact ⟨hne, hl, h2, rfl⟩
      rcases hr : Model.ResetTransform
        { m0 with parser_ := p1, object_data_ := p1.GetData, affine_transform_ := a } with e | m3
      · rw [hr] at hload
        simp only [Model.catchException] at hload
        split_ifs at hload
        cases hload
      · rw [hr] at hload
        cases hload
        exact ⟨_, hr, rfl, hav.1, hav.2.1, hav.2.2.1, hav.2.2.2⟩
  · rw [hp] at hload
    simp only [Model.catchException] at hload
    split_ifs at hload
    cases hload

/-- Claim C31: in exact arithmetic, for a model `m` left by a successful
`LoadFile` (so normalised by `ResetTransform`) and every pure-translation
`delta` (scale and rotation all-zero), `Transform(delta)` followed by
`ResetTransform` returns and restores every float of the vertex buffer to
its value before the `Transform`. The floats of the file and the moved
floats are taken to be finite: `|x| <= FLT_MAX` for the file, and
`|move| <= FLT_MAX - 1/2` on each axis. -/
theorem Model.Transform_then_ResetTransform (T : Trig F) (hcos : T.cos 0 = 1)
    (hsin : T.sin 0 = 0) (m0 m : Model F) (fs : FileSystem) (path : String) (msg : String)
    (h4 : m0.affine_transform_.transform_matrix_.Is4x4)
    (hload : m0.LoadFile fs path = Except.ok (m, true, msg))
    (hfin : ∀ x ∈ (m0.parser_.LoadFile fs path).1.data_.vertices, |x| ≤ fltMax)
    (mv : Delta F) (hmx : |mv.x| ≤ fltMax - 1 / 2) (hmy : |mv.y| ≤ fltMax - 1 / 2)
    (hmz : |mv.z| ≤ fltMax - 1 / 2) :
    ∃ m1 m2, m.Transform T ⟨⟨0, 0, 0⟩, mv, ⟨0, 0, 0⟩⟩ = Except.ok m1 ∧
      m1.object_data_.vertices =
        mapVertices (fun x y z => (x + mv.x, y + mv.y, z + mv.z)) m.object_data_.vertices ∧
      m1.ResetTransform = Except.ok m2 ∧
      m2.object_data_.vertices = m.object_data_.vertices := by
  obtain ⟨mpre, hreset, hv, hne, hlen, hb, htm⟩ := Model.LoadFile_success m0 m fs path msg hload
  obtain ⟨m1, b1, h1, haff, hl1, hbox, hcx, hcy, hcz, hext, hhalf⟩ :=
    ResetTransform_normal mpre hne hlen (by rw [hv]; exact hfin)
  have e : m1 = m := Except.ok.inj (h1.symm.trans hreset)
  subst e
  exact Transform_move_reset T hcos hsin m1 b1 (by rw [haff]; exact hb)
    (by rw [haff, htm]; exact h4)
    (by
      intro h
      rw [h] at hl1
      exact hne (List.length_eq_zero.mp hl1.symm))
    (by rw [hl1]; exact hlen) hbox hcx hcy hcz hext hhalf mv hmx hmy hmz

end MoveResetClaim

section MoveResetWitness

theorem Model.Transform_then_ResetTransform_witness :
    ∃ m m1 m2, pointModel.LoadFile demoFiles "triangle.obj" = Except.ok (m, true, "") ∧
      m.Transform noRotation ⟨⟨0, 0, 0⟩, ⟨1 / 2, 1 / 2, 1 / 2⟩, ⟨0, 0, 0⟩⟩ = Except.ok m1 ∧
      m1.object_data_.vertices = [1 / 4, 0, 1 / 2, 3 / 4, 0, 1 / 2, 1 / 4, 1, 1 / 2] ∧
      m1.ResetTransform = Except.ok m2 ∧
      m2.object_data_.vertices = [-1 / 4, -1 / 2, 0, 1 / 4, -1 / 2, 0, -1 / 4, 1 / 2, 0] := by
  have hfm : (1 / 2 : ℚ) ≤ fltMax - 1 / 2 := by
    unfold fltMax
    norm_num
  obtain ⟨m1, m2, h1, hv1, h2, hv2⟩ := Model.Transform_then_ResetTransform noRotation
    noRotation_cos noRotation_sin pointModel _ demoFiles "triangle.obj" ""
    fresh_is4x4 (Model.LoadFile_triangle pointModel)
    (by
      simp [Parser.LoadFile, Parser.ValidationData, pointModel,
        Parser.ReadData, demoFiles, fileLines, readLines, getline, newline, skipWs, isSpace,
        ReserveSpace, Parser.readLine, Parser.ParseVertex, Parser.ParseFaces, ParseVertexLoop,
        ParseFacesLoop, IStream.readFloat, exceedsFloat, floatOverflow, IStream.readInt, IStream.readChar, IStream.ofLine,
        IStream.ignore256, isDigit, digitsVal, digitVal, resolveFace, toUInt32, toInt32,
        INT_MAX, INT_MIN, fltMax]
      norm_num [abs_le])
    ⟨1 / 2, 1 / 2, 1 / 2⟩ (by rw [abs_of_pos (by norm_num)]; exact hfm)
    (by rw [abs_of_pos (by norm_num)]; exact hfm) (by rw [abs_of_pos (by norm_num)]; exact hfm)
  refine ⟨_, m1, m2, Model.LoadFile_triangle pointModel, h1, ?_, h2, hv2⟩
  rw [hv1]
  simp only [mapVertices]
  norm_num

end MoveResetWitness

/-! ## The pivot after a reset -/

section StalePivot

open ViewerSpec

variable {F : Type} [LinearOrderedField F]

/-- Claim C35: `ResetTransform` rewrites the vertices and leaves the
`AffineTransform` as it is. On a bound model with no accumulated translation,
after `Transform(d1)` (move `m = d1.move`) and `ResetTransform` the
accumulated translation is still `m`, and a following `Transform(d2)` with
an all-zero move (rotation-only, scale-only or both) replaces every vertex
`v` of the re-centred buffer by `(v - m) * L + m`, which differs from `v * L`
by `m - m * L`. -/
theorem Model.ResetTransform_stale_pivot (T : Trig F) (hcos : T.cos 0 = 1)
    (hsin : T.sin 0 = 0) (m : Model F) (hbound : m.affine_transform_.vertices_ ≠ none)
    (h4 : m.affine_transform_.transform_matrix_.Is4x4)
    (ht : m.affine_transform_.translation_ = ⟨0, 0, 0⟩)
    (hne : m.object_data_.vertices ≠ []) (hlen : m.object_data_.vertices.length % 3 = 0)
    (d1 d2 : TransformParametrs F) (hmove : d2.move = ⟨0, 0, 0⟩) :
    ∃ m1 m2 m3, m.Transform T d1 = Except.ok m1 ∧ m1.ResetTransform = Except.ok m2 ∧
      m2.affine_transform_.translation_ = d1.move ∧ m2.Transform T d2 = Except.ok m3 ∧
      m3.object_data_.vertices = mapVertices (fun x y z =>
        (Matrix.vecMul ![x - d1.move.x, y - d1.move.y, z - d1.move.z] (linearPart T d2) 0 +
            d1.move.x,
          Matrix.vecMul ![x - d1.move.x, y - d1.move.y, z - d1.move.z] (linearPart T d2) 1 +
            d1.move.y,
          Matrix.vecMul ![x - d1.move.x, y - d1.move.y, z - d1.move.z] (linearPart T d2) 2 +
            d1.move.z)) m2.object_data_.vertices ∧
      ∀ (x y z : F) (i : Fin 3),
        Matrix.vecMul ![x - d1.move.x, y - d1.move.y, z - d1.move.z] (linearPart T d2) i +
            ![d1.move.x, d1.move.y, d1.move.z] i - Matrix.vecMul ![x, y, z] (linearPart T d2) i =
          ![d1.move.x, d1.move.y, d1.move.z] i -
            Matrix.vecMul ![d1.move.x, d1.move.y, d1.move.z] (linearPart T d2) i := by
  obtain ⟨n, hn⟩ := length_eq_three_mul_succ _ hne hlen
  obtain ⟨tm, htm, htr⟩ := Model.Transform_eq T hcos hsin m hbound h4 n hn d1
  obtain ⟨m1, hm1def⟩ : ∃ m1 : Model F, m1 = { m with
      affine_transform_ := ⟨tm, m.affine_transform_.vertices_,
        ⟨m.affine_transform_.translation_.x + d1.move.x,
          m.affine_transform_.translation_.y + d1.move.y,
          m.affine_transform_.translation_.z + d1.move.z⟩⟩
      object_data_ := { m.object_data_ with
        vertices := mapVertices (pivotTransform T m.affine_transform_.translation_ d1)
          m.object_data_.vertices } } := ⟨_, rfl⟩
  rw [← hm1def] at htr
  have hlen1 : m1.object_data_.vertices.length = 3 * (n + 1) := by
    rw [hm1def]
    exact mapVertices_length _ (n + 1) _ hn
  have haff1 : m1.affine_transform_ = ⟨tm, m.affine_transform_.vertices_, d1.move⟩ := by
    rw [hm1def, ht]
    simp only [zero_add]
  have hb1 := CalculateBoundingBox_eq m1 n hlen1
  have hreset := ResetTransform_eq m1 n hlen1 _ hb1 _ rfl
  obtain ⟨m2, hm2def⟩ : ∃ m2 : Model F, Except.ok m2 = m1.ResetTransform := ⟨_, hreset.symm⟩
  have haff2 : m2.affine_transform_ = ⟨tm, m.affine_transform_.vertices_, d1.move⟩ := by
    rw [hreset] at hm2def
    rw [Except.ok.inj hm2def]
    exact haff1
  have hlen2 : m2.object_data_.vertices.length = 3 * (n + 1) := by
    rw [hreset] at hm2def
    rw [Except.ok.inj hm2def]
    exact mapVertices_length _ (n + 1) _ hlen1
  obtain ⟨tm3, -, htr3⟩ := Model.Transform_eq T hcos hsin m2 (by rw [haff2]; exact hbound)
    (by rw [haff2]; exact htm) n hlen2 d2
  refine ⟨m1, m2, _, htr, hm2def.symm, by rw [haff2], htr3, ?_, ?_⟩
  · simp only
    apply mapVertices_congr
    intro x y z
    simp only [pivotTransform, haff2, hmove, add_zero]
  · intro x y z i
    fin_cases i <;>
      simp [Matrix.vecMul, Matrix.dotProduct, Fin.sum_univ_three] <;> ring

end StalePivot

section StalePivotWitness

open ViewerSpec

theorem triangleModel_box :
    triangleModel.CalculateBoundingBox = Except.ok ⟨-1 / 4, -1 / 2, 0, 1 / 4, 1 / 2, 0⟩ := by
  simp only [Model.CalculateBoundingBox, triangleModel, List.isEmpty_cons,
    Bool.false_eq_true, if_false, boundingBoxLoop, pure, Except.pure, fltMax]
  norm_num

theorem Model.ResetTransform_stale_pivot_witness :
    ∃ m1 m2 m3,
      triangleModel.Transform noRotation ⟨⟨0, 0, 0⟩, ⟨10, 0, 0⟩, ⟨0, 0, 0⟩⟩ = Except.ok m1 ∧
      m1.ResetTransform = Except.ok m2 ∧
      m2.object_data_.vertices = [-1 / 4, -1 / 2, 0, 1 / 4, -1 / 2, 0, -1 / 4, 1 / 2, 0] ∧
      m2.affine_transform_.translation_ = ⟨10, 0, 0⟩ ∧
      m2.Transform noRotation ⟨⟨2, 2, 2⟩, ⟨0, 0, 0⟩, ⟨0, 0, 0⟩⟩ = Except.ok m3 ∧
      m3.object_data_.vertices = [-21 / 2, -1, 0, -19 / 2, -1, 0, -21 / 2, 1, 0] := by
  obtain ⟨m1, m2, m3, h1, h2, ht, h3, hv3, -⟩ := Model.ResetTransform_stale_pivot noRotation
    noRotation_cos noRotation_sin triangleModel (by simp [triangleModel]) fresh_is4x4 rfl
    (by simp [triangleModel]) (by rfl) ⟨⟨0, 0, 0⟩, ⟨10, 0, 0⟩, ⟨0, 0, 0⟩⟩
    ⟨⟨2, 2, 2⟩, ⟨0, 0, 0⟩, ⟨0, 0, 0⟩⟩ rfl
  have hfm : (10 : ℚ) ≤ fltMax - 1 / 2 := by
    unfold fltMax
    norm_num
  obtain ⟨k1, k2, e1, -, e2, ev⟩ := Transform_move_reset noRotation noRotation_cos
    noRotation_sin triangleModel _ (by simp [triangleModel]) fresh_is4x4
    (by simp [triangleModel]) (by rfl) triangleModel_box (by norm_num) (by norm_num)
    (by norm_num) (Or.inl (by norm_num))
    (by
      simp only [triangleModel, List.forall_mem_cons]
      norm_num [abs_le])
    ⟨10, 0, 0⟩ (by rw [abs_of_pos (by norm_num)]; exact hfm)
    (by rw [abs_zero]; unfold fltMax; norm_num) (by rw [abs_zero]; unfold fltMax; norm_num)
  have em1 : k1 = m1 := Except.ok.inj (e1.symm.trans h1)
  subst em1
  have em2 : k2 = m2 := Except.ok.inj (e2.symm.trans h2)
  subst em2
  have hv2 : k2.object_data_.vertices =
      [-1 / 4, -1 / 2, 0, 1 / 4, -1 / 2, 0, -1 / 4, 1 / 2, 0] := ev
  refine ⟨k1, k2, m3, h1, h2, hv2, ht, h3, ?_⟩
  rw [hv3, hv2]
  simp [mapVertices, linearPart, scaleMat, rotMat, rotX, rotY, rotZ, Matrix.vecMul,
    Matrix.dotProduct, Fin.sum_univ_three, Matrix.mul_apply, Matrix.diagonal_apply, noRotation,
    Matrix.vecHead, Matrix.vecTail]
  norm_num

end StalePivotWitness

/-! ## Rotations are orthogonal -/

section Orthogonal

open ViewerSpec

variable {F : Type} [Field F]

theorem rotX_orthogonal (T : Trig F) (hT : ∀ a, T.cos a * T.cos a + T.sin a * T.sin a = 1)
    (a : F) : rotX T a * Matrix.transpose (rotX T a) = 1 ∧ Matrix.det (rotX T a) = 1 := by
  have h := hT a
  constructor
  · ext i j
    fin_cases i <;> fin_cases j <;>
      simp [rotX, Matrix.mul_apply, Fin.sum_univ_three, Matrix.vecHead, Matrix.vecTail,
        Matrix.one_apply] <;>
      first | ring1 | linear_combination h
  · rw [Matrix.det_fin_three]
    simp [rotX, Matrix.vecHead, Matrix.vecTail]
    linear_combination h

theorem rotY_orthogonal (T : Trig F) (hT : ∀ a, T.cos a * T.cos a + T.sin a * T.sin a = 1)
    (a : F) : rotY T a * Matrix.transpose (rotY T a) = 1 ∧ Matrix.det (rotY T a) = 1 := by
  have h := hT a
  constructor
  · ext i j
    fin_cases i <;> fin_cases j <;>
      simp [rotY, Matrix.mul_apply, Fin.sum_univ_three, Matrix.vecHead, Matrix.vecTail,
        Matrix.one_apply] <;>
      first | ring1 | linear_combination h
  · rw [Matrix.det_fin_three]
    simp [rotY, Matrix.vecHead, Matrix.vecTail]
    linear_combination h

theorem rotZ_orthogonal (T : Trig F) (hT : ∀ a, T.cos a * T.cos a + T.sin a * T.sin a = 1)
    (a : F) : rotZ T a * Matrix.transpose (rotZ T a) = 1 ∧ Matrix.det (rotZ T a) = 1 := by
  have h := hT a
  constructor
  · ext i j
    fin_cases i <;> fin_cases j <;>
      simp [rotZ, Matrix.mul_apply, Fin.sum_univ_three, Matrix.vecHead, Matrix.vecTail,
        Matrix.one_apply] <;>
      first | ring1 | linear_combination h
  · rw [Matrix.det_fin_three]
    simp [rotZ, Matrix.vecHead, Matrix.vecTail]
    linear_combination h

/-- The product `RotateX * RotateY * RotateZ` is orthogonal with determinant 1
whenever `cos^2 + sin^2 = 1`. -/
theorem rotMat_orthogonal (T : Trig F) (hT : ∀ a, T.cos a * T.cos a + T.sin a * T.sin a = 1)
    (r : Delta F) :
    rotMat T r * Matrix.transpose (rotMat T r) = 1 ∧ Matrix.det (rotMat T r) = 1 := by
  obtain ⟨hx, dx⟩ := rotX_orthogonal T hT r.x
  obtain ⟨hy, dy⟩ := rotY_orthogonal T hT r.y
  obtain ⟨hz, dz⟩ := rotZ_orthogonal T hT r.z
  constructor
  · unfold rotMat
    rw [Matrix.transpose_mul, Matrix.transpose_mul]
    calc rotX T r.x * rotY T r.y * rotZ T r.z *
          (Matrix.transpose (rotZ T r.z) *
            (Matrix.transpose (rotY T r.y) * Matrix.transpose (rotX T r.x)))
        = rotX T r.x * (rotY T r.y * (rotZ T r.z * Matrix.transpose (rotZ T r.z)) *
            Matrix.transpose (rotY T r.y)) * Matrix.transpose (rotX T r.x) := by
          simp only [Matrix.mul_assoc]
      _ = 1 := by rw [hz, Matrix.mul_one, hy, Matrix.mul_one, hx]
  · unfold rotMat
    rw [Matrix.det_mul, Matrix.det_mul, dx, dy, dz]
    norm_num

/-- A row vector keeps its sum of squares under an orthogonal matrix. -/
theorem vecMul_sum_squares (L : Mat3 F) (hL : L * Matrix.transpose L = 1) (v : Vec3 F) :
    Matrix.vecMul v L 0 * Matrix.vecMul v L 0 + Matrix.vecMul v L 1 * Matrix.vecMul v L 1 +
        Matrix.vecMul v L 2 * Matrix.vecMul v L 2 =
      v 0 * v 0 + v 1 * v 1 + v 2 * v 2 := by
  have h : Matrix.dotProduct (Matrix.vecMul v L) (Matrix.vecMul v L) = Matrix.dotProduct v v := by
    rw [← Matrix.dotProduct_mulVec, ← Matrix.mulVec_transpose, Matrix.mulVec_mulVec, hL,
      Matrix.one_mulVec]
  simpa [Matrix.dotProduct, Fin.sum_univ_three] using h

/-- The determinant of a homogeneous matrix is that of its linear block. -/
theorem det_homogeneous (L : Mat3 F) (m : Delta F) :
    Matrix.det (toMat4 (homogeneous L m)) = Matrix.det L := by
  unfold homogeneous
  rw [toMat4_entries, Matrix.det_succ_row_zero, Matrix.det_fin_three L]
  simp [Fin.sum_univ_succ, Matrix.det_fin_three, Matrix.submatrix, Fin.succAbove,
    Matrix.vecHead, Matrix.vecTail]
  ring

/-- What `Transpose` returns on a homogeneous matrix without translation. -/
theorem Transpose_homogeneous (L : Mat3 F) :
    (homogeneous L ⟨0, 0, 0⟩).Transpose = Except.ok (homogeneous (Matrix.transpose L) ⟨0, 0, 0⟩) := by
  simp [Matrix.Transpose, Matrix.create, homogeneous, Matrix.get, List.range_succ]

end Orthogonal

section OrthogonalClaim

open ViewerSpec

/-- Claim C38: over the reals, for every rotation triple the composite Rotate
matrix `R` built on a fresh instance is orthogonal with determinant 1: the
product of `R` with its `Transpose`, computed by `MulMatrix`, is the
identity, the mathematical determinant of `R` is 1, and `Determinant`
returns 1. A rotation-only `TransformVertices` on a bound buffer with zero
accumulated translation applies one map `g` to every vertex, and `g` keeps
the Euclidean norm of every point and the distance of every pair of points. -/
theorem Rotation_orthogonal (r : Delta ℝ) :
    ∃ R Rt : Matrix ℝ,
      RotationTransformMatrix.SetTransformMatrix ⟨Real.cos, Real.sin⟩ TransformMatrix.fresh
        ⟨⟨0, 0, 0⟩, ⟨0, 0, 0⟩, r⟩ = Except.ok R ∧
      R.Transpose = Except.ok Rt ∧
      R.MulMatrix Rt =
        Except.ok ⟨4, 4, [[1, 0, 0, 0], [0, 1, 0, 0], [0, 0, 1, 0], [0, 0, 0, 1]]⟩ ∧
      Matrix.det (toMat4 R) = 1 ∧ R.Determinant = Except.ok (Dbl.fin 1) ∧
      ∀ (a : AffineTransform ℝ) (buf : List ℝ), a.vertices_ ≠ none →
        a.transform_matrix_.Is4x4 → a.translation_ = ⟨0, 0, 0⟩ → buf ≠ [] →
        buf.length % 3 = 0 →
        ∃ (a1 : AffineTransform ℝ) (g : ℝ → ℝ → ℝ → ℝ × ℝ × ℝ),
          a.TransformVertices ⟨Real.cos, Real.sin⟩ buf ⟨⟨0, 0, 0⟩, ⟨0, 0, 0⟩, r⟩ =
            Except.ok (a1, mapVertices g buf) ∧
          (∀ x y z : ℝ,
            Real.sqrt ((g x y z).1 ^ 2 + (g x y z).2.1 ^ 2 + (g x y z).2.2 ^ 2) =
              Real.sqrt (x ^ 2 + y ^ 2 + z ^ 2)) ∧
          ∀ x y z u v w : ℝ,
            Real.sqrt (((g x y z).1 - (g u v w).1) ^ 2 + ((g x y z).2.1 - (g u v w).2.1) ^ 2 +
                ((g x y z).2.2 - (g u v w).2.2) ^ 2) =
              Real.sqrt ((x - u) ^ 2 + (y - v) ^ 2 + (z - w) ^ 2) := by
  have hT : ∀ a : ℝ, (⟨Real.cos, Real.sin⟩ : Trig ℝ).cos a * (⟨Real.cos, Real.sin⟩ : Trig ℝ).cos a +
      (⟨Real.cos, Real.sin⟩ : Trig ℝ).sin a * (⟨Real.cos, Real.sin⟩ : Trig ℝ).sin a = 1 := by
    intro a
    have := Real.cos_sq_add_sin_sq a
    simp only
    nlinarith [this]
  obtain ⟨horth, hdet⟩ := rotMat_orthogonal (⟨Real.cos, Real.sin⟩ : Trig ℝ) hT r
  have hdet4 : Matrix.det (toMat4 (homogeneous (rotMat (⟨Real.cos, Real.sin⟩ : Trig ℝ) r)
      ⟨0, 0, 0⟩)) = 1 := by
    rw [det_homogeneous, hdet]
  refine ⟨_, _, Rotation_fresh _ _, Transpose_homogeneous _, ?_, hdet4, ?_, ?_⟩
  · rw [MulMatrix_homogeneous_zero, horth, ← fresh_homogeneous, TransformMatrix.fresh_eq]
  · rw [Determinant_eq _ rfl (Nat.succ_pos 3)]
    have e : Matrix.det (toMat (homogeneous (rotMat (⟨Real.cos, Real.sin⟩ : Trig ℝ) r)
        ⟨0, 0, 0⟩).rows_ (homogeneous (rotMat (⟨Real.cos, Real.sin⟩ : Trig ℝ) r) ⟨0, 0, 0⟩)) =
        1 := hdet4
    rw [e, snap_big 1 (by rw [abs_one]; norm_num)]
  · intro a buf hbound h4 ht hne hlen
    obtain ⟨n, hn⟩ := length_eq_three_mul_succ _ hne hlen
    obtain ⟨tm, -, htr⟩ := TransformVertices_eq (⟨Real.cos, Real.sin⟩ : Trig ℝ) Real.cos_zero
      Real.sin_zero a hbound h4 n buf hn ⟨⟨0, 0, 0⟩, ⟨0, 0, 0⟩, r⟩
    have hg : ∀ x y z : ℝ, pivotTransform (⟨Real.cos, Real.sin⟩ : Trig ℝ) a.translation_
        ⟨⟨0, 0, 0⟩, ⟨0, 0, 0⟩, r⟩ x y z =
        (Matrix.vecMul ![x, y, z] (rotMat (⟨Real.cos, Real.sin⟩ : Trig ℝ) r) 0,
          Matrix.vecMul ![x, y, z] (rotMat (⟨Real.cos, Real.sin⟩ : Trig ℝ) r) 1,
          Matrix.vecMul ![x, y, z] (rotMat (⟨Real.cos, Real.sin⟩ : Trig ℝ) r) 2) := by
      intro x y z
      simp only [pivotTransform, ht, linearPart_rotation_only, sub_zero, add_zero]
    refine ⟨_, _, htr, ?_, ?_⟩
    · intro x y z
      rw [hg]
      have h := vecMul_sum_squares _ horth ![x, y, z]
      simp only [Matrix.cons_val_zero, Matrix.cons_val_one, Matrix.head_cons,
        Matrix.cons_val_two, Matrix.tail_cons] at h
      simp only [pow_two]
      rw [h]
    · intro x y z u v w
      rw [hg, hg]
      have h := vecMul_sum_squares _ horth (![x, y, z] - ![u, v, w])
      simp only [Matrix.sub_vecMul, Pi.sub_apply, Matrix.cons_val_zero, Matrix.cons_val_one,
        Matrix.head_cons, Matrix.cons_val_two, Matrix.tail_cons] at h
      simp only [pow_two]
      rw [h]

end OrthogonalClaim

/-! ## Face lines that cannot be valid -/

section BadFaceLine

variable {F : Type} [Field F]

theorem ParseVertexLoop_prefix :
    ∀ (fuel : Nat) (s : IStream) (vertices : List F),
      ∃ more, ParseVertexLoop fuel s vertices = vertices ++ more := by
  intro fuel
  induction fuel with
  | zero => intro s vertices; exact ⟨[], by simp [ParseVertexLoop]⟩
  | succ fuel ih =>
    intro s vertices
    unfold ParseVertexLoop
    rcases h : (s.readFloat : IStream × Option F) with ⟨s1, _ | v⟩
    · exact ⟨[], by simp⟩
    · obtain ⟨more, hm⟩ := ih s1 (vertices ++ [v])
      exact ⟨v :: more, by simp [hm]⟩

theorem Parser.readLine_vertices_prefix (p : Parser F) (line : List Char) :
    ∃ more, (p.readLine line).data_.vertices = p.data_.vertices ++ more := by
  unfold Parser.readLine
  split_ifs
  · exact ⟨[], by simp⟩
  · exact ParseVertexLoop_prefix _ _ _
  · exact ParseVertexLoop_prefix _ _ _
  · exact ⟨[], by simp [Parser.ParseFaces]⟩
  · exact ⟨[], by simp⟩

theorem Parser.foldl_readLine_vertices_prefix (lines : List (List Char)) :
    ∀ p : Parser F, ∃ more,
      (lines.foldl Parser.readLine p).data_.vertices = p.data_.vertices ++ more := by
  induction lines with
  | nil => intro p; exact ⟨[], by simp⟩
  | cons l ls ih =>
    intro p
    obtain ⟨m1, h1⟩ := Parser.readLine_vertices_prefix p l
    obtain ⟨m2, h2⟩ := ih (p.readLine l)
    exact ⟨m1 ++ m2, by rw [List.foldl_cons, h2, h1, List.append_assoc]⟩

/-- The 0-based index of the index 0, and of a negative index that reaches
in front of the first vertex, wraps around to at least `2^31`. -/
theorem zeroBased_wraps (n : Nat) (i : Int) (hn : n < 2147483648) (hmin : INT_MIN ≤ i)
    (h : i = 0 ∨ (i < 0 ∧ (n : Int) < -i)) : 2147483648 ≤ zeroBased n i := by
  unfold zeroBased toUInt32
  unfold INT_MIN at hmin
  rcases h with h | ⟨h1, h2⟩
  · subst h
    rw [if_neg (lt_irrefl 0)]
    omega
  · rw [if_pos h1]
    omega

/-- On text that does not start with an integer `stream >> first_face` fails
and leaves 0 in `first_face`. -/
theorem IStream.readInt_no_integer (s : List Char) (h : startsWithInteger s = false) :
    ∃ b, IStream.readInt ⟨s, false⟩ 0 = (⟨b, true⟩, 0, false) := by
  unfold startsWithInteger at h
  unfold IStream.readInt
  simp only [Bool.false_eq_true, if_false]
  rcases hs : skipWs s with _ | ⟨c, rest⟩
  · exact ⟨[], rfl⟩
  · rw [hs] at h
    simp only at h
    have hnd : ((if c == '-' || c == '+' then rest else c :: rest).takeWhile isDigit) = [] := by
      rcases hb : (if c == '-' || c == '+' then rest else c :: rest) with _ | ⟨d, ds⟩
      · rfl
      · rw [hb] at h
        simp only [List.head?_cons, Option.any_some] at h
        simp [List.takeWhile, h]
    simp only [hnd, if_true]
    exact ⟨_, rfl⟩

/-- A line with the tag `f` whose text after the tag does not start with an
integer appends the wrapped index `4294967295` twice. -/
theorem Parser.ParseFaces_no_integer {G : Type} (p : Parser G) (rest : List Char)
    (h : startsWithInteger rest = false) :
    (p.ParseFaces ('f' :: rest)).data_.faces = p.data_.faces ++ [4294967295, 4294967295] := by
  obtain ⟨b, hb⟩ := IStream.readInt_no_integer rest h
  have hrc : (IStream.ofLine ('f' :: rest)).readChar = ⟨rest, false⟩ := by
    simp [IStream.ofLine, IStream.readChar, skipWs, List.dropWhile, isSpace]
  unfold Parser.ParseFaces
  simp only [hrc, hb]
  have hloop : ∀ fuel faces, ParseFacesLoop (p.data_.vertices.length / 3) fuel
      (IStream.ignore256 ⟨b, true⟩) 0 faces = faces := by
    intro fuel faces
    cases fuel with
    | zero => rfl
    | succ fuel => simp [ParseFacesLoop, IStream.ignore256, IStream.readInt]
  rw [hloop]
  simp [resolveFace, toUInt32]

end BadFaceLine

section ReachedIndex

/-- What follows the integer of a well-formed token that is not the last one
does not start with a digit. -/
theorem suffix_faceTail_cons_head (t : FaceToken) (ht : t.WF) (after : List Char)
    (t2 : FaceToken) (more : List FaceToken) :
    ∀ c ∈ (t.suffix ++ faceTail after (t2 :: more)).head?, isDigit c = false := by
  obtain ⟨-, -, -, hsuf, -, -, -, -⟩ := ht
  rcases hs : t.suffix with _ | ⟨s, suf⟩
  · intro c hc
    simp [faceTail, List.replicate_succ] at hc
    rw [← hc]
    decide
  · rw [hs] at hsuf
    intro c hc
    simp at hsuf hc
    rw [← hc]
    exact hsuf

/-- What follows the integer of a well-formed token in front of text that does
not start with a digit does not start with a digit. -/
theorem suffix_after_head (t : FaceToken) (ht : t.WF) (after : List Char)
    (hafter : ∀ c ∈ after.head?, isDigit c = false) :
    ∀ c ∈ (t.suffix ++ after).head?, isDigit c = false := by
  obtain ⟨-, -, -, hsuf, -, -, -, -⟩ := ht
  rcases hs : t.suffix with _ | ⟨s, suf⟩
  · simpa using hafter
  · rw [hs] at hsuf
    intro c hc
    simp at hsuf hc
    rw [← hc]
    exact hsuf

/-- After the integer of a token that is not the last one has been read,
`ignore(256, ' ')` discards the rest of the token and the space behind it,
whatever ends the line. -/
theorem IStream.ignore256_token_cons (t : FaceToken) (ht : t.WF) (after : List Char)
    (t2 : FaceToken) (more : List FaceToken) :
    IStream.ignore256 ⟨t.suffix ++ faceTail after (t2 :: more), false⟩ =
      ⟨List.replicate t2.gap ' ' ++ pendingTokens after (t2 :: more), false⟩ := by
  obtain ⟨-, -, -, -, hno, hlen, -, -⟩ := ht
  rw [IStream.ignore256_suffix _ _ hno hlen]
  have h0 : faceTail after (t2 :: more) =
      ' ' :: (List.replicate t2.gap ' ' ++ pendingTokens after (t2 :: more)) := by
    simp [faceTail, pendingTokens, List.replicate_succ]
  rw [h0]
  have h1 : ((List.take (256 - t.suffix.length)
      (' ' :: (List.replicate t2.gap ' ' ++ pendingTokens after (t2 :: more)))).takeWhile
        (fun c => c != ' ')).length = 0 := by
    rcases hk : 256 - t.suffix.length with _ | k
    · simp
    · simp [List.take, List.takeWhile]
  rw [h1]
  simp

theorem length_lt_pendingTokens_append (after : List Char) (ts : List FaceToken)
    (t : FaceToken) (hts : ∀ u ∈ ts, u.WF) (ht : t.WF) :
    ts.length < (pendingTokens after (ts ++ [t])).length := by
  have key : ∀ us : List FaceToken, (∀ u ∈ us, u.WF) →
      us.length ≤ (faceTail after us).length := by
    intro us
    induction us with
    | nil => intro _; simp
    | cons u us ih =>
      intro h
      have := ih (fun v hv => h v (List.mem_cons_of_mem _ hv))
      simp only [faceTail, List.length_append, List.length_cons, List.length_replicate]
      omega
  have hall : ∀ u ∈ ts ++ [t], u.WF := by
    intro u hu
    rcases List.mem_append.mp hu with h | h
    · exact hts u h
    · rw [List.mem_singleton.mp h]
      exact ht
  rcases hq : ts ++ [t] with _ | ⟨u, us⟩
  · simp at hq
  · rw [hq] at hall
    have h1 := key us (fun v hv => hall v (List.mem_cons_of_mem _ hv))
    obtain ⟨-, hne, -⟩ := hall u (List.mem_cons_self _ _)
    have h2 : 0 < u.digits.length := List.length_pos.mpr hne
    have h3 : (ts ++ [t]).length = us.length + 1 := by rw [hq]; rfl
    simp only [List.length_append, List.length_cons, List.length_nil] at h3
    simp only [pendingTokens, FaceToken.text, List.length_append, List.length_cons]
    omega

/-- The loop of `ParseFaces` reaches a token that stands behind well-formed
tokens, and pushes its 0-based index, whatever follows the token. -/
theorem ParseFacesLoop_reaches (n : Nat) (after : List Char) (t : FaceToken) (ht : t.WF)
    (hafter : ∀ c ∈ after.head?, isDigit c = false) :
    ∀ (ts : List FaceToken), (∀ u ∈ ts, u.WF) →
      ∀ (fuel : Nat) (ws : List Char) (old : Int) (faces : List Nat),
        ts.length < fuel → (∀ c ∈ ws, isSpace c = true) →
        zeroBased n t.value ∈
          ParseFacesLoop n fuel ⟨ws ++ pendingTokens after (ts ++ [t]), false⟩ old faces := by
  intro ts
  induction ts with
  | nil =>
    intro _ fuel ws old faces hfuel hws
    obtain ⟨f, rfl⟩ : ∃ f, fuel = f + 1 := ⟨fuel - 1, by omega⟩
    have hread := IStream.readInt_token t ht ws (t.suffix ++ after) old hws
      (suffix_after_head t ht after hafter)
    have hbuf : ws ++ pendingTokens after ([] ++ [t]) =
        ws ++ (t.sign ++ t.digits ++ (t.suffix ++ after)) := by
      simp [pendingTokens, FaceToken.text, faceTail]
    rw [hbuf]
    simp only [ParseFacesLoop, hread]
    obtain ⟨more, hmore⟩ := ParseFacesLoop_prefix n f
      (IStream.ignore256 ⟨t.suffix ++ after, false⟩) (resolveFace n t.value)
      (faces ++ [toUInt32 (resolveFace n t.value - 1), toUInt32 (resolveFace n t.value - 1)])
    rw [hmore, toUInt32_resolveFace]
    simp
  | cons t1 ts ih =>
    intro hts fuel ws old faces hfuel hws
    obtain ⟨f, rfl⟩ : ∃ f, fuel = f + 1 := ⟨fuel - 1, by omega⟩
    have ht1 : t1.WF := hts t1 (List.mem_cons_self _ _)
    have hts2 : ∀ u ∈ ts, u.WF := fun u hu => hts u (List.mem_cons_of_mem _ hu)
    obtain ⟨t2, more, hq⟩ : ∃ t2 more, ts ++ [t] = t2 :: more := by
      rcases hq : ts ++ [t] with _ | ⟨t2, more⟩
      · simp at hq
      · exact ⟨t2, more, rfl⟩
    have hread := IStream.readInt_token t1 ht1 ws (t1.suffix ++ faceTail after (t2 :: more)) old
      hws (suffix_faceTail_cons_head t1 ht1 after t2 more)
    have hign := IStream.ignore256_token_cons t1 ht1 after t2 more
    have hbuf : ws ++ pendingTokens after (t1 :: ts ++ [t]) =
        ws ++ (t1.sign ++ t1.digits ++ (t1.suffix ++ faceTail after (t2 :: more))) := by
      rw [List.cons_append, ← hq]
      simp [pendingTokens, FaceToken.text]
    have hws2 : ∀ c ∈ List.replicate t2.gap ' ', isSpace c = true := by
      intro c hc
      rw [List.eq_of_mem_replicate hc]
      exact isSpace_space
    rw [hbuf]
    simp only [ParseFacesLoop, hread, hign]
    rw [← hq]
    exact ih hts2 f _ _ _ (by simpa using hfuel) hws2

/-- A face line on which the reading reaches a token: the 0-based index of the
token is among the entries the line appends. -/
theorem Parser.ParseFaces_reaches {G : Type} (p : Parser G) (ts : List FaceToken)
    (t : FaceToken) (after : List Char) (hts : ∀ u ∈ ts, u.WF) (ht : t.WF)
    (hafter : ∀ c ∈ after.head?, isDigit c = false) :
    zeroBased (p.data_.vertices.length / 3) t.value ∈
      (p.ParseFaces (faceLine (ts ++ [t]) after)).data_.faces := by
  have hsk : ∀ X : List Char, (IStream.ofLine ('f' :: X)).readChar = ⟨X, false⟩ := by
    intro X
    simp [IStream.ofLine, IStream.readChar, skipWs, List.dropWhile, isSpace]
  rcases ts with _ | ⟨t1, ts⟩
  · have hws : ∀ c ∈ List.replicate (t.gap + 1) ' ', isSpace c = true := by
      intro c hc
      rw [List.eq_of_mem_replicate hc]
      exact isSpace_space
    have hread := IStream.readInt_token t ht (List.replicate (t.gap + 1) ' ')
      (t.suffix ++ after) 0 hws (suffix_after_head t ht after hafter)
    have hline : faceLine ([] ++ [t]) after = 'f' :: (List.replicate (t.gap + 1) ' ' ++
        (t.sign ++ t.digits ++ (t.suffix ++ after))) := by
      simp [faceLine, faceTail, FaceToken.text]
    rw [hline]
    unfold Parser.ParseFaces
    simp only [hsk, hread]
    obtain ⟨more, hmore⟩ := ParseFacesLoop_prefix (p.data_.vertices.length / 3)
      ((IStream.ignore256 ⟨t.suffix ++ after, false⟩).buf.length + 1)
      (IStream.ignore256 ⟨t.suffix ++ after, false⟩) 0
      (p.data_.faces ++ [toUInt32 (resolveFace (p.data_.vertices.length / 3) t.value - 1)])
    rw [hmore, toUInt32_resolveFace]
    simp
  · have ht1 : t1.WF := hts t1 (List.mem_cons_self _ _)
    have hts2 : ∀ u ∈ ts, u.WF := fun u hu => hts u (List.mem_cons_of_mem _ hu)
    obtain ⟨t2, more, hq⟩ : ∃ t2 more, ts ++ [t] = t2 :: more := by
      rcases hq : ts ++ [t] with _ | ⟨t2, more⟩
      · simp at hq
      · exact ⟨t2, more, rfl⟩
    have hws : ∀ c ∈ List.replicate (t1.gap + 1) ' ', isSpace c = true := by
      intro c hc
      rw [List.eq_of_mem_replicate hc]
      exact isSpace_space
    have hws2 : ∀ c ∈ List.replicate t2.gap ' ', isSpace c = true := by
      intro c hc
      rw [List.eq_of_mem_replicate hc]
      exact isSpace_space
    have hread := IStream.readInt_token t1 ht1 (List.replicate (t1.gap + 1) ' ')
      (t1.suffix ++ faceTail after (t2 :: more)) 0 hws
      (suffix_faceTail_cons_head t1 ht1 after t2 more)
    have hign := IStream.ignore256_token_cons t1 ht1 after t2 more
    have hline : faceLine (t1 :: ts ++ [t]) after = 'f' :: (List.replicate (t1.gap + 1) ' ' ++
        (t1.sign ++ t1.digits ++ (t1.suffix ++ faceTail after (t2 :: more)))) := by
      rw [List.cons_append, ← hq]
      simp [faceLine, faceTail, FaceToken.text]
    have hfuel : ts.length <
        (List.replicate t2.gap ' ' ++ pendingTokens after (t2 :: more)).length + 1 := by
      have := length_lt_pendingTokens_append after ts t hts2 ht
      rw [hq] at this
      simp only [List.length_append]
      omega
    have hmem := ParseFacesLoop_reaches (p.data_.vertices.length / 3) after t ht hafter ts hts2
      ((List.replicate t2.gap ' ' ++ pendingTokens after (t2 :: more)).length + 1)
      (List.replicate t2.gap ' ') 0
      (p.data_.faces ++ [toUInt32 (resolveFace (p.data_.vertices.length / 3) t1.value - 1)])
      hfuel hws2
    rw [hq] at hmem
    rw [hline]
    unfold Parser.ParseFaces
    simp only [hsk, hread, hign]
    exact List.mem_append_left _ hmem

end ReachedIndex

section BadFaceLineClaim

variable {F : Type} [Field F]

theorem Parser.readLine_tag_f (p : Parser F) (rest : List Char) :
    p.readLine ('f' :: rest) = p.ParseFaces ('f' :: rest) := by
  simp [Parser.readLine]

/-- What `ReadData` returns when the pre-scan does not throw. -/
theorem Parser.ReadData_ok (p : Parser F) (fs : FileSystem) (path : String)
    (content : List Char) (hopen : fs path = some content) (hv : ['v'] ∉ fileLines content) :
    p.ReadData fs path = ((fileLines content).foldl Parser.readLine p, none) := by
  unfold Parser.ReadData
  rw [hopen]
  rcases hr : ReserveSpace (fileLines content) (0, 0) with e | c
  · exact absurd ((ReserveSpace_error_iff _ _).mp ⟨e, hr⟩) hv
  · simp only [hr]

/-- Claim C40, amended: for every file with fewer than `2^31` vertices in
which some face line holds the index 0 or a negative index `k` with `|k|`
greater than the vertex count at that line in a position the reading reaches
(the tokens in front of it are well formed: each starts with an `int` and is
followed by a space; the token itself is an `int`, and whatever follows it is
free), or in which some line with the tag `f` has no integer at the start of
the text after the tag (a bare `f` included), the face buffer `ReadData`
leaves holds an entry of at least `2^31`, which is at least the vertex count,
whenever the pre-scan lets the parse run; in every case `Parser::LoadFile`
fails and the parser is as it was before the call. -/
theorem Parser.LoadFile_bad_face_line (p : Parser F) (fs : FileSystem) (path : String)
    (content : List Char) (pre post : List (List Char)) (line : List Char)
    (hopen : fs path = some content) (hlines : fileLines content = pre ++ line :: post)
    (hcount : ((fileLines content).foldl Parser.readLine
      (Parser.cleared : Parser F)).data_.vertices.length / 3 < 2147483648)
    (hbad : (∃ (ts : List FaceToken) (t : FaceToken) (after : List Char),
        line = faceLine (ts ++ [t]) after ∧ (∀ u ∈ ts, u.WF) ∧ t.WF ∧
        (∀ c ∈ after.head?, isDigit c = false) ∧
        (t.value = 0 ∨ (t.value < 0 ∧
          (((pre.foldl Parser.readLine (Parser.cleared : Parser F)).data_.vertices.length / 3 :
            Nat) : Int) < -t.value))) ∨
      (line.head? = some 'f' ∧ startsWithInteger (line.drop 1) = false)) :
    (['v'] ∉ fileLines content →
      ((Parser.cleared : Parser F).ReadData fs path).2 = none ∧
      ∃ i ∈ ((Parser.cleared : Parser F).ReadData fs path).1.data_.faces,
        2147483648 ≤ i ∧
          ((Parser.cleared : Parser F).ReadData fs path).1.data_.vertices.length / 3 ≤ i) ∧
    (p.LoadFile fs path).2.isSome = true ∧ (p.LoadFile fs path).1 = p := by
  have hfold : (fileLines content).foldl Parser.readLine (Parser.cleared : Parser F) =
      post.foldl Parser.readLine
        ((pre.foldl Parser.readLine (Parser.cleared : Parser F)).readLine line) := by
    rw [hlines, List.foldl_append, List.foldl_cons]
  have hn : (pre.foldl Parser.readLine (Parser.cleared : Parser F)).data_.vertices.length / 3 <
      2147483648 := by
    obtain ⟨m1, h1⟩ := Parser.readLine_vertices_prefix
      (pre.foldl Parser.readLine (Parser.cleared : Parser F)) line
    obtain ⟨m2, h2⟩ := Parser.foldl_readLine_vertices_prefix post
      ((pre.foldl Parser.readLine (Parser.cleared : Parser F)).readLine line)
    rw [hfold, h2, h1, List.length_append, List.length_append] at hcount
    omega
  have hentry : ∃ e ∈ ((pre.foldl Parser.readLine (Parser.cleared : Parser F)).readLine
      line).data_.faces, 2147483648 ≤ e := by
    rcases hbad with ⟨ts, t, after, hl, hwf, ht, hafter, hval⟩ | ⟨hhead, hno⟩
    · rw [hl, Parser.readLine_faceLine]
      exact ⟨zeroBased _ t.value, Parser.ParseFaces_reaches _ ts t after hwf ht hafter,
        zeroBased_wraps _ _ hn ht.2.2.2.2.2.2.1 hval⟩
    · obtain ⟨rest, hl⟩ : ∃ rest, line = 'f' :: rest := by
        rcases line with _ | ⟨c, rest⟩
        · cases hhead
        · simp only [List.head?_cons, Option.some.injEq] at hhead
          exact ⟨rest, by rw [hhead]⟩
      subst hl
      rw [Parser.readLine_tag_f, Parser.ParseFaces_no_integer _ rest hno]
      exact ⟨4294967295, by simp, by decide⟩
  have hfinal : ∃ e ∈ ((fileLines content).foldl Parser.readLine
      (Parser.cleared : Parser F)).data_.faces, 2147483648 ≤ e := by
    obtain ⟨e, he, hbig⟩ := hentry
    obtain ⟨more, hm⟩ := Parser.foldl_readLine_faces_prefix post
      ((pre.foldl Parser.readLine (Parser.cleared : Parser F)).readLine line)
    exact ⟨e, by rw [hfold, hm]; exact List.mem_append_left _ he, hbig⟩
  have hparse : ['v'] ∉ fileLines content →
      ((Parser.cleared : Parser F).ReadData fs path).2 = none ∧
      ∃ i ∈ ((Parser.cleared : Parser F).ReadData fs path).1.data_.faces,
        2147483648 ≤ i ∧
          ((Parser.cleared : Parser F).ReadData fs path).1.data_.vertices.length / 3 ≤ i := by
    intro hv
    rw [Parser.ReadData_ok _ fs path content hopen hv]
    obtain ⟨e, he, hbig⟩ := hfinal
    exact ⟨rfl, e, he, hbig, le_trans (le_of_lt hcount) hbig⟩
  have hfail : ((Parser.cleared : Parser F).ReadData fs path).2.isSome = true ∨
      (((Parser.cleared : Parser F).ReadData fs path).1.ValidationData).isSome = true := by
    by_cases hv : ['v'] ∈ fileLines content
    · exact Or.inl ((Parser.ReadData_error_iff _ fs path content hopen).mpr hv)
    · obtain ⟨-, e, he, -, hle⟩ := hparse hv
      exact Or.inr ((Parser.ValidationData_isSome_iff _).mpr ⟨e, he, hle⟩)
  refine ⟨hparse, ?_, ?_⟩
  · rw [Parser.LoadFile_eq, if_pos hfail]
    rfl
  · rw [Parser.LoadFile_eq, if_pos hfail]

end BadFaceLineClaim

section BadFaceLineWitness

/-- The file `v 0 0 0` / `f 1 0 x`: the index 0 stands behind a well-formed
token and in front of a token that is not an integer; the load fails and the
parser keeps its three vertices. -/
theorem Parser.LoadFile_bad_face_line_witness :
    (threeVertexParser.LoadFile unreadFiles "reached_zero.obj").2.isSome = true ∧
      (threeVertexParser.LoadFile unreadFiles "reached_zero.obj").1 = threeVertexParser ∧
      ∃ i ∈ ((Parser.cleared : Parser ℚ).ReadData unreadFiles "reached_zero.obj").1.data_.faces,
        2147483648 ≤ i := by
  have h := Parser.LoadFile_bad_face_line threeVertexParser unreadFiles "reached_zero.obj"
    "v 0 0 0\nf 1 0 x\n".toList ["v 0 0 0".toList] [] "f 1 0 x".toList rfl (by decide)
    (by decide)
    (Or.inl ⟨[digitToken '1'], digitToken '0', " x".toList, by decide, by decide, by decide,
      by decide, Or.inl (by decide)⟩)
  obtain ⟨-, i, hi, hbig, -⟩ := h.1 (by decide)
  exact ⟨h.2.1, h.2.2, i, hi, hbig⟩

/-- Claim C40 as stated fails on the files `v 0 0 0` / `f 1 x 0` and
`v 0 0 0` / `f 1<TAB>0`: the face line holds the index 0 (its last token is
the well-formed token `0`), but the reading of the line ends at `x`, and
`ignore(256, ' ')` skips what stands behind the tab, so the index is never
read: the faces are `0, 0`, no entry reaches the vertex count 1, and
`Parser::LoadFile` accepts the file. -/
theorem Parser.LoadFile_unread_index :
    (digitToken '0').WF ∧ (digitToken '0').value = 0 ∧
      fileLines "v 0 0 0\nf 1 x 0\n".toList = ["v 0 0 0".toList, "f 1 x 0".toList] ∧
      "f 1 x 0".toList = "f 1 x".toList ++ (' ' :: (digitToken '0').text) ∧
      ((Parser.cleared : Parser ℚ).LoadFile unreadFiles "skipped_zero.obj").2 = none ∧
      ((Parser.cleared : Parser ℚ).LoadFile unreadFiles "skipped_zero.obj").1.data_.faces =
        [0, 0] ∧
      ((Parser.cleared : Parser ℚ).LoadFile unreadFiles
        "skipped_zero.obj").1.data_.vertices.length / 3 = 1 ∧
      fileLines "v 0 0 0\nf 1\t0\n".toList = ["v 0 0 0".toList, "f 1\t0".toList] ∧
      "f 1\t0".toList = "f 1".toList ++ ('\t' :: (digitToken '0').text) ∧
      ((Parser.cleared : Parser ℚ).LoadFile unreadFiles "tab_zero.obj").2 = none ∧
      ((Parser.cleared : Parser ℚ).LoadFile unreadFiles "tab_zero.obj").1.data_.faces =
        [0, 0] ∧
      ((Parser.cleared : Parser ℚ).LoadFile unreadFiles
        "tab_zero.obj").1.data_.vertices.length / 3 = 1 := by
  refine ⟨by decide, by decide, by decide, by decide, by decide, by decide, by decide,
    by decide, by decide, by decide, by decide, by decide⟩

end BadFaceLineWitness

/-! ## Blank lines, comment lines and runs of spaces -/

section SpaceRunsBasics

theorem SpaceRuns.refl : ∀ s : List Char, SpaceRuns s s
  | [] => SpaceRuns.nil
  | c :: s => SpaceRuns.cons c (SpaceRuns.refl s)

theorem SpaceRuns.nil_left {x : List Char} (h : SpaceRuns [] x) : x = [] := by
  cases h
  rfl

theorem SpaceRuns.cons_left {c : Char} {s x : List Char} (h : SpaceRuns (c :: s) x) :
    ∃ s1, x = c :: s1 ∧ (SpaceRuns s s1 ∨ (c = ' ' ∧ SpaceRuns (' ' :: s) s1)) := by
  cases h with
  | cons _ h => exact ⟨_, rfl, Or.inl h⟩
  | extra h => exact ⟨_, rfl, Or.inr ⟨rfl, h⟩⟩

theorem SpaceRuns.tail_of_ne {c : Char} {s x : List Char} (hc : c ≠ ' ')
    (h : SpaceRuns (c :: s) x) : ∃ s1, x = c :: s1 ∧ SpaceRuns s s1 := by
  obtain ⟨s1, e, h1 | ⟨h2, -⟩⟩ := h.cons_left
  · exact ⟨s1, e, h1⟩
  · exact absurd h2 hc

theorem SpaceRuns.head_eq {s s1 : List Char} (h : SpaceRuns s s1) : s.head? = s1.head? := by
  cases h <;> rfl

theorem SpaceRuns.isEmpty_eq {s s1 : List Char} (h : SpaceRuns s s1) :
    s.isEmpty = s1.isEmpty := by
  cases h <;> rfl

/-- Dropping a first character that is not a space. -/
theorem SpaceRuns.drop_one {s s1 : List Char} (h : SpaceRuns s s1)
    (hc : s.head? ≠ some ' ') : SpaceRuns (s.drop 1) (s1.drop 1) := by
  cases h with
  | nil => exact SpaceRuns.nil
  | cons _ h => exact h
  | extra h => exact absurd rfl hc

theorem SpaceRuns.skipWs {s s1 : List Char} (h : SpaceRuns s s1) :
    SpaceRuns (skipWs s) (skipWs s1) := by
  induction h with
  | nil => exact SpaceRuns.nil
  | cons c h ih =>
    by_cases hc : isSpace c = true
    · simpa [s21.skipWs, List.dropWhile, hc] using ih
    · simpa [s21.skipWs, List.dropWhile, hc] using SpaceRuns.cons c h
  | extra h ih =>
    have e : ∀ t : List Char, s21.skipWs (' ' :: t) = s21.skipWs t := by
      intro t
      simp [s21.skipWs, List.dropWhile, isSpace_space]
    rw [e] at ih ⊢
    rw [e]
    exact ih

/-- The first character left by `skipWs` is not white space. -/
theorem skipWs_head (s : List Char) (c : Char) (rest : List Char)
    (h : skipWs s = c :: rest) : isSpace c = false := by
  induction s with
  | nil => simp [skipWs] at h
  | cons d s ih =>
    by_cases hd : isSpace d = true
    · apply ih
      simpa [skipWs, List.dropWhile, hd] using h
    · simp only [skipWs, List.dropWhile, hd] at h
      cases h
      simpa using hd

theorem ne_space_of_not_isSpace {c : Char} (h : isSpace c = false) : c ≠ ' ' := by
  rintro rfl
  exact absurd h (by decide)

/-- A test that stops at a space reads the same prefix from both texts. -/
theorem SpaceRuns.takeWhile_eq (q : Char → Bool) (hq : q ' ' = false) {s s1 : List Char}
    (h : SpaceRuns s s1) :
    s.takeWhile q = s1.takeWhile q ∧ SpaceRuns (s.dropWhile q) (s1.dropWhile q) := by
  induction h with
  | nil => exact ⟨rfl, SpaceRuns.nil⟩
  | cons c h ih =>
    by_cases hc : q c = true
    · simp only [List.takeWhile, List.dropWhile, hc]
      exact ⟨by rw [ih.1], ih.2⟩
    · simp only [List.takeWhile, List.dropWhile, hc]
      exact ⟨trivial, SpaceRuns.cons c h⟩
  | extra h _ =>
    simp only [List.takeWhile, List.dropWhile, hq]
    exact ⟨trivial, SpaceRuns.extra h⟩

/-- A test that passes a space reads related prefixes and leaves related
texts. -/
theorem SpaceRuns.takeWhile_rel (q : Char → Bool) (hq : q ' ' = true) {s s1 : List Char}
    (h : SpaceRuns s s1) :
    SpaceRuns (s.takeWhile q) (s1.takeWhile q) ∧ SpaceRuns (s.dropWhile q) (s1.dropWhile q) := by
  induction h with
  | nil => exact ⟨SpaceRuns.nil, SpaceRuns.nil⟩
  | cons c h ih =>
    by_cases hc : q c = true
    · simp only [List.takeWhile, List.dropWhile, hc]
      exact ⟨SpaceRuns.cons c ih.1, ih.2⟩
    · simp only [List.takeWhile, List.dropWhile, hc]
      exact ⟨SpaceRuns.nil, SpaceRuns.cons c h⟩
  | extra h ih =>
    simp only [List.takeWhile, List.dropWhile, hq] at ih ⊢
    exact ⟨SpaceRuns.extra ih.1, ih.2⟩

/-- The characters `ignore(256, ' ')` passes over before the first space. -/
theorem SpaceRuns.take_takeWhile (q : Char → Bool) (hq : q ' ' = false) {s s1 : List Char}
    (h : SpaceRuns s s1) :
    ∀ n : Nat, (s.take n).takeWhile q = (s1.take n).takeWhile q ∧
      SpaceRuns (s.drop ((s.take n).takeWhile q).length)
        (s1.drop ((s.take n).takeWhile q).length) := by
  induction h with
  | nil => intro n; simp [SpaceRuns.nil]
  | cons c h ih =>
    intro n
    cases n with
    | zero => exact ⟨rfl, SpaceRuns.cons c h⟩
    | succ n =>
      by_cases hc : q c = true
      · simp only [List.take_succ_cons, List.takeWhile, hc, List.length_cons, List.drop_succ_cons]
        exact ⟨by rw [(ih n).1], (ih n).2⟩
      · simp only [List.take_succ_cons, List.takeWhile, hc, List.length_nil, List.drop_zero]
        exact ⟨trivial, SpaceRuns.cons c h⟩
  | extra h _ =>
    intro n
    cases n with
    | zero => exact ⟨rfl, SpaceRuns.extra h⟩
    | succ n =>
      simp only [List.take_succ_cons, List.takeWhile, hq, List.length_nil, List.drop_zero]
      exact ⟨trivial, SpaceRuns.extra h⟩

/-- Further spaces behind a space. -/
theorem SpaceRuns.replicate (k : Nat) (post : List Char) :
    SpaceRuns (' ' :: post) (' ' :: (List.replicate k ' ' ++ post)) := by
  induction k with
  | zero => exact SpaceRuns.refl _
  | succ k ih => exact SpaceRuns.extra ih

theorem SpaceRuns.append_left (pre : List Char) {s s1 : List Char} (h : SpaceRuns s s1) :
    SpaceRuns (pre ++ s) (pre ++ s1) := by
  induction pre with
  | nil => exact h
  | cons c pre ih => exact SpaceRuns.cons c ih

end SpaceRunsBasics

section SpaceRunsStreams

theorem isDigit_space : isDigit ' ' = false := by decide

/-- The extraction `stream >> face` does not see how long the runs of spaces
are: it sets the same value and the same state on both texts, and after a
success the unread texts are related. -/
theorem IStream.readInt_congr (b b1 : List Char) (f : Bool) (old : Int)
    (h : SpaceRuns (skipWs b) (skipWs b1)) :
    (IStream.readInt ⟨b, f⟩ old).2 = (IStream.readInt ⟨b1, f⟩ old).2 ∧
      (IStream.readInt ⟨b, f⟩ old).1.fail = (IStream.readInt ⟨b1, f⟩ old).1.fail ∧
      ((IStream.readInt ⟨b, f⟩ old).2.2 = true →
        SpaceRuns (IStream.readInt ⟨b, f⟩ old).1.buf (IStream.readInt ⟨b1, f⟩ old).1.buf) := by
  cases f with
  | true => simp [IStream.readInt]
  | false =>
    unfold IStream.readInt
    simp only [Bool.false_eq_true, if_false]
    rcases hs : skipWs b with _ | ⟨c, rest⟩
    · rw [hs] at h
      rw [h.nil_left]
      simp
    · rw [hs] at h
      obtain ⟨rest1, hs1, hr⟩ := h.tail_of_ne (ne_space_of_not_isSpace (skipWs_head b c rest hs))
      rw [hs1]
      simp only
      have hbody : SpaceRuns (if (c == '-' || c == '+') = true then rest else c :: rest)
          (if (c == '-' || c == '+') = true then rest1 else c :: rest1) := by
        split_ifs
        · exact hr
        · exact SpaceRuns.cons c hr
      generalize (if (c == '-' || c == '+') = true then rest else c :: rest) = body at hbody ⊢
      generalize (if (c == '-' || c == '+') = true then rest1 else c :: rest1) = body1
        at hbody ⊢
      obtain ⟨htw, hdw⟩ := hbody.takeWhile_eq isDigit isDigit_space
      rw [← htw]
      refine ⟨?_, ?_, ?_⟩ <;> split_ifs <;> simp [hdw]

/-- The call `ignore(256, ' ')` on related texts leaves texts that are
related once the white space in front is set aside. -/
theorem IStream.ignore256_congr (b b1 : List Char) (f : Bool) (h : SpaceRuns b b1) :
    (IStream.ignore256 ⟨b, f⟩).fail = f ∧ (IStream.ignore256 ⟨b1, f⟩).fail = f ∧
      SpaceRuns (skipWs (IStream.ignore256 ⟨b, f⟩).buf)
        (skipWs (IStream.ignore256 ⟨b1, f⟩).buf) := by
  cases f with
  | true => exact ⟨rfl, rfl, h.skipWs⟩
  | false =>
    unfold IStream.ignore256
    simp only [Bool.false_eq_true, if_false]
    obtain ⟨hk, hd⟩ := h.take_takeWhile (fun c => c != ' ') (by decide) 256
    rw [← hk]
    rcases hdr : b.drop ((b.take 256).takeWhile fun c => c != ' ').length with _ | ⟨c, rest⟩
    · rw [hdr] at hd
      rw [hd.nil_left]
      exact ⟨rfl, rfl, SpaceRuns.nil⟩
    · rw [hdr] at hd
      obtain ⟨rest1, e1, hrel⟩ := hd.cons_left
      rw [e1]
      by_cases hc : c = ' '
      · subst hc
        simp only [beq_self_eq_true, if_true]
        refine ⟨trivial, trivial, ?_⟩
        rcases hrel with h1 | ⟨-, h2⟩
        · exact h1.skipWs
        · have := h2.skipWs
          simpa [skipWs, List.dropWhile, isSpace_space] using this
      · have hcb : (c == ' ') = false := by simpa using hc
        simp only [hcb, Bool.false_eq_true, if_false]
        refine ⟨trivial, trivial, ?_⟩
        rw [← e1]
        exact hd.skipWs

/-- The loop of `ParseFaces` gives the same indices on related texts. -/
theorem ParseFacesLoop_congr (n : Nat) :
    ∀ (fuel : Nat) (b b1 : List Char) (f : Bool) (old : Int) (faces : List Nat),
      SpaceRuns (skipWs b) (skipWs b1) → b.length < fuel → b1.length < fuel →
      ParseFacesLoop n fuel ⟨b, f⟩ old faces = ParseFacesLoop n fuel ⟨b1, f⟩ old faces := by
  intro fuel
  induction fuel with
  | zero => intro b b1 f old faces _ h1; exact absurd h1 (Nat.not_lt_zero _)
  | succ fuel ih =>
    intro b b1 f old faces h hl hl1
    obtain ⟨hv, hf, hb⟩ := IStream.readInt_congr b b1 f old h
    rcases hr : IStream.readInt ⟨b, f⟩ old with ⟨s, face, ok⟩
    rcases hr1 : IStream.readInt ⟨b1, f⟩ old with ⟨s1, face1, ok1⟩
    rw [hr, hr1] at hv hf hb
    simp only [Prod.mk.injEq] at hv
    obtain ⟨hface, hok⟩ := hv
    subst hface hok
    cases ok with
    | false => simp only [ParseFacesLoop, hr, hr1]
    | true =>
      have hlt := IStream.readInt_length_lt _ _ _ _ hr
      have hlt1 := IStream.readInt_length_lt _ _ _ _ hr1
      have hle := IStream.ignore256_length_le s
      have hle1 := IStream.ignore256_length_le s1
      obtain ⟨sb, sf⟩ := s
      obtain ⟨sb1, sf1⟩ := s1
      simp only at hf hb hlt hlt1 hle hle1
      subst hf
      obtain ⟨g1, g2, g3⟩ := IStream.ignore256_congr sb sb1 sf (hb trivial)
      simp only [ParseFacesLoop, hr, hr1]
      rcases hi : IStream.ignore256 ⟨sb, sf⟩ with ⟨ib, fi⟩
      rcases hi1 : IStream.ignore256 ⟨sb1, sf⟩ with ⟨ib1, fi1⟩
      rw [hi] at g1 g3 hle
      rw [hi1] at g2 g3 hle1
      simp only at g1 g2 g3 hle hle1
      subst g1
      subst g2
      exact ih ib ib1 _ _ _ g3 (by omega) (by omega)

/-- The function `ParseFaces` gives the same result on related lines. -/
theorem Parser.ParseFaces_congr {G : Type} (p : Parser G) (line line1 : List Char)
    (h : SpaceRuns line line1) : p.ParseFaces line = p.ParseFaces line1 := by
  have hsk := h.skipWs
  have hrc : ((IStream.ofLine line).readChar).fail = ((IStream.ofLine line1).readChar).fail ∧
      SpaceRuns ((IStream.ofLine line).readChar).buf ((IStream.ofLine line1).readChar).buf := by
    unfold IStream.ofLine IStream.readChar
    simp only [Bool.false_eq_true, if_false]
    rcases hs : skipWs line with _ | ⟨c, rest⟩
    · rw [hs] at hsk
      rw [hsk.nil_left]
      exact ⟨rfl, SpaceRuns.nil⟩
    · rw [hs] at hsk
      obtain ⟨rest1, hs1, hr⟩ :=
        hsk.tail_of_ne (ne_space_of_not_isSpace (skipWs_head line c rest hs))
      rw [hs1]
      exact ⟨rfl, hr⟩
  rcases hc : (IStream.ofLine line).readChar with ⟨cb, cf⟩
  rcases hc1 : (IStream.ofLine line1).readChar with ⟨cb1, cf1⟩
  rw [hc, hc1] at hrc
  obtain ⟨hcf, hcb⟩ := hrc
  simp only at hcf hcb
  subst hcf
  obtain ⟨hv, hf, hb⟩ := IStream.readInt_congr cb cb1 cf 0 hcb.skipWs
  rcases hr : IStream.readInt ⟨cb, cf⟩ 0 with ⟨s, face, ok⟩
  rcases hr1 : IStream.readInt ⟨cb1, cf⟩ 0 with ⟨s1, face1, ok1⟩
  rw [hr, hr1] at hv hf hb
  simp only [Prod.mk.injEq] at hv
  obtain ⟨hface, hok⟩ := hv
  subst hface hok
  obtain ⟨sb, sf⟩ := s
  obtain ⟨sb1, sf1⟩ := s1
  simp only at hf hb
  subst hf
  have hloop : ∀ faces : List Nat,
      ParseFacesLoop (p.data_.vertices.length / 3)
          ((IStream.ignore256 ⟨sb, sf⟩).buf.length + 1) (IStream.ignore256 ⟨sb, sf⟩) 0 faces =
        ParseFacesLoop (p.data_.vertices.length / 3)
          ((IStream.ignore256 ⟨sb1, sf⟩).buf.length + 1) (IStream.ignore256 ⟨sb1, sf⟩) 0
          faces := by
    intro faces
    cases ok with
    | false =>
      have hsf : sf = true := by
        unfold IStream.readInt at hr
        split_ifs at hr with h0
        · simp only [Prod.mk.injEq, IStream.mk.injEq] at hr
          rw [← hr.1.2]
          exact h0
        · split at hr
          · simp only [Prod.mk.injEq, IStream.mk.injEq] at hr
            exact hr.1.2.symm
          · simp only at hr
            split_ifs at hr <;> simp only [Prod.mk.injEq, IStream.mk.injEq] at hr <;>
              first | exact hr.1.2.symm | exact absurd hr.2.2 (by decide)
      subst hsf
      simp [ParseFacesLoop, IStream.ignore256, IStream.readInt]
    | true =>
      obtain ⟨g1, g2, g3⟩ := IStream.ignore256_congr sb sb1 sf (hb rfl)
      rcases hi : IStream.ignore256 ⟨sb, sf⟩ with ⟨ib, fi⟩
      rcases hi1 : IStream.ignore256 ⟨sb1, sf⟩ with ⟨ib1, fi1⟩
      rw [hi] at g1 g3
      rw [hi1] at g2 g3
      simp only at g1 g2 g3
      subst g1
      subst g2
      simp only
      rw [ParseFacesLoop_fuel _ (ib.length + 1) (ib.length + ib1.length + 1) _ _ _
          (by simp) (by simp; omega),
        ParseFacesLoop_fuel _ (ib1.length + 1) (ib.length + ib1.length + 1) _ _ _
          (by simp) (by simp; omega)]
      exact ParseFacesLoop_congr _ _ ib ib1 _ _ _ g3 (by omega) (by omega)
  unfold Parser.ParseFaces
  simp only [hc, hc1, hr, hr1, hloop]

end SpaceRunsStreams

section SpaceRunsFloats

variable {F : Type} [Field F]

theorem head_ne_space_of_beq {l : List Char} {c : Char} (hc : c ≠ ' ')
    (h : (l.head? == some c) = true) : l.head? ≠ some ' ' := by
  intro h1
  rw [h1] at h
  simp only [beq_iff_eq, Option.some.injEq] at h
  exact hc h.symm

/-- The extraction `stream >> vertex` does not see how long the runs of
spaces are. -/
theorem IStream.readFloat_congr (b b1 : List Char) (f : Bool)
    (h : SpaceRuns (skipWs b) (skipWs b1)) :
    (IStream.readFloat ⟨b, f⟩ : IStream × Option F).2 =
        (IStream.readFloat ⟨b1, f⟩ : IStream × Option F).2 ∧
      (IStream.readFloat ⟨b, f⟩ : IStream × Option F).1.fail =
        (IStream.readFloat ⟨b1, f⟩ : IStream × Option F).1.fail ∧
      SpaceRuns (skipWs (IStream.readFloat ⟨b, f⟩ : IStream × Option F).1.buf)
        (skipWs (IStream.readFloat ⟨b1, f⟩ : IStream × Option F).1.buf) := by
  cases f with
  | true => exact ⟨rfl, rfl, h⟩
  | false =>
    unfold IStream.readFloat
    simp only [Bool.false_eq_true, if_false]
    rcases hs : skipWs b with _ | ⟨c, rest⟩
    · rw [hs] at h
      rw [h.nil_left]
      exact ⟨rfl, rfl, SpaceRuns.nil⟩
    · rw [hs] at h
      obtain ⟨rest1, hs1, hr⟩ := h.tail_of_ne (ne_space_of_not_isSpace (skipWs_head b c rest hs))
      rw [hs1]
      simp only
      have hb0 : SpaceRuns (if (c == '-' || c == '+') = true then rest else c :: rest)
          (if (c == '-' || c == '+') = true then rest1 else c :: rest1) := by
        split_ifs
        · exact hr
        · exact SpaceRuns.cons c hr
      generalize (if (c == '-' || c == '+') = true then rest else c :: rest) = b0 at hb0 ⊢
      generalize (if (c == '-' || c == '+') = true then rest1 else c :: rest1) = b0' at hb0 ⊢
      obtain ⟨htw, hd⟩ := hb0.takeWhile_eq isDigit isDigit_space
      rw [← htw]
      generalize b0.takeWhile isDigit = ip
      generalize b0.dropWhile isDigit = d at hd ⊢
      generalize b0'.dropWhile isDigit = d' at hd ⊢
      rw [← hd.head_eq]
      have he : (if (d.head? == some '.') = true then (d.drop 1).takeWhile isDigit else []) =
          (if (d.head? == some '.') = true then (d'.drop 1).takeWhile isDigit else []) ∧
          SpaceRuns (if (d.head? == some '.') = true then (d.drop 1).dropWhile isDigit else d)
            (if (d.head? == some '.') = true then (d'.drop 1).dropWhile isDigit else d') := by
        by_cases hdot : (d.head? == some '.') = true
        · rw [if_pos hdot, if_pos hdot, if_pos hdot, if_pos hdot]
          exact (hd.drop_one (head_ne_space_of_beq (by decide) hdot)).takeWhile_eq isDigit
            isDigit_space
        · rw [if_neg hdot, if_neg hdot, if_neg hdot, if_neg hdot]
          exact ⟨rfl, hd⟩
      obtain ⟨he1, he2⟩ := he
      rw [← he1]
      generalize (if (d.head? == some '.') = true then (d.drop 1).takeWhile isDigit else []) = fp
      generalize (if (d.head? == some '.') = true then (d.drop 1).dropWhile isDigit else d) = e
        at he2 ⊢
      generalize (if (d.head? == some '.') = true then (d'.drop 1).dropWhile isDigit else d') = e'
        at he2 ⊢
      by_cases hem : ip = [] ∧ fp = []
      · rw [if_pos hem, if_pos hem]
        exact ⟨rfl, rfl, he2.skipWs⟩
      · rw [if_neg hem, if_neg hem, ← he2.head_eq]
        by_cases hexp : (e.head? == some 'e' || e.head? == some 'E') = true
        · rw [if_pos hexp, if_pos hexp]
          have hne : e.head? ≠ some ' ' := by
            rcases Bool.or_eq_true_iff.mp hexp with h1 | h1
            · exact head_ne_space_of_beq (by decide) h1
            · exact head_ne_space_of_beq (by decide) h1
          have hx := he2.drop_one hne
          generalize e.drop 1 = x at hx ⊢
          generalize e'.drop 1 = x' at hx ⊢
          rw [← hx.head_eq]
          have hy : SpaceRuns
              (if (x.head? == some '-' || x.head? == some '+') = true then x.drop 1 else x)
              (if (x.head? == some '-' || x.head? == some '+') = true then x'.drop 1 else x') := by
            by_cases hsg : (x.head? == some '-' || x.head? == some '+') = true
            · rw [if_pos hsg, if_pos hsg]
              apply hx.drop_one
              rcases Bool.or_eq_true_iff.mp hsg with h1 | h1
              · exact head_ne_space_of_beq (by decide) h1
              · exact head_ne_space_of_beq (by decide) h1
            · rw [if_neg hsg, if_neg hsg]
              exact hx
          generalize (if (x.head? == some '-' || x.head? == some '+') = true then x.drop 1
            else x) = y at hy ⊢
          generalize (if (x.head? == some '-' || x.head? == some '+') = true then x'.drop 1
            else x') = y' at hy ⊢
          obtain ⟨hed, hrest⟩ := hy.takeWhile_eq isDigit isDigit_space
          rw [← hed]
          refine ⟨?_, ?_, ?_⟩ <;> split_ifs <;> first | rfl | exact hrest.skipWs
        · rw [if_neg hexp, if_neg hexp]
          refine ⟨?_, ?_, ?_⟩ <;> split_ifs <;> first | rfl | exact he2.skipWs

/-- The loop of `ParseVertex` appends the same floats on related texts. -/
theorem ParseVertexLoop_congr :
    ∀ (fuel : Nat) (b b1 : List Char) (f : Bool) (vertices : List F),
      SpaceRuns (skipWs b) (skipWs b1) → b.length < fuel → b1.length < fuel →
      ParseVertexLoop fuel ⟨b, f⟩ vertices = ParseVertexLoop fuel ⟨b1, f⟩ vertices := by
  intro fuel
  induction fuel with
  | zero => intro b b1 f vertices _ h1; exact absurd h1 (Nat.not_lt_zero _)
  | succ fuel ih =>
    intro b b1 f vertices h hl hl1
    obtain ⟨hv, hf, hb⟩ := IStream.readFloat_congr (F := F) b b1 f h
    rcases hr : (IStream.readFloat ⟨b, f⟩ : IStream × Option F) with ⟨s, v⟩
    rcases hr1 : (IStream.readFloat ⟨b1, f⟩ : IStream × Option F) with ⟨s1, v1⟩
    rw [hr, hr1] at hv hf hb
    simp only at hv hf hb
    subst hv
    cases v with
    | none => simp only [ParseVertexLoop, hr, hr1]
    | some x =>
      have hlt := IStream.readFloat_length_lt _ _ _ hr
      have hlt1 := IStream.readFloat_length_lt _ _ _ hr1
      obtain ⟨sb, sf⟩ := s
      obtain ⟨sb1, sf1⟩ := s1
      simp only at hf hb hlt hlt1
      subst hf
      simp only [ParseVertexLoop, hr, hr1]
      exact ih sb sb1 _ _ hb (by omega) (by omega)

/-- The function `ParseVertex` gives the same result on related lines. -/
theorem Parser.ParseVertex_congr (p : Parser F) (line line1 : List Char)
    (h : SpaceRuns line line1) : p.ParseVertex line = p.ParseVertex line1 := by
  have hsk := h.skipWs
  have hrc : ((IStream.ofLine line).readChar).fail = ((IStream.ofLine line1).readChar).fail ∧
      SpaceRuns ((IStream.ofLine line).readChar).buf ((IStream.ofLine line1).readChar).buf := by
    unfold IStream.ofLine IStream.readChar
    simp only [Bool.false_eq_true, if_false]
    rcases hs : skipWs line with _ | ⟨c, rest⟩
    · rw [hs] at hsk
      rw [hsk.nil_left]
      exact ⟨rfl, SpaceRuns.nil⟩
    · rw [hs] at hsk
      obtain ⟨rest1, hs1, hr⟩ :=
        hsk.tail_of_ne (ne_space_of_not_isSpace (skipWs_head line c rest hs))
      rw [hs1]
      exact ⟨rfl, hr⟩
  rcases hc : (IStream.ofLine line).readChar with ⟨cb, cf⟩
  rcases hc1 : (IStream.ofLine line1).readChar with ⟨cb1, cf1⟩
  rw [hc, hc1] at hrc
  obtain ⟨hcf, hcb⟩ := hrc
  simp only at hcf hcb
  subst hcf
  unfold Parser.ParseVertex
  simp only [hc, hc1]
  rw [ParseVertexLoop_fuel (cb.length + 1) (cb.length + cb1.length + 1) _ _ (by simp)
      (by simp; omega),
    ParseVertexLoop_fuel (cb1.length + 1) (cb.length + cb1.length + 1) _ _ (by simp)
      (by simp; omega),
    ParseVertexLoop_congr _ cb cb1 _ _ hcb.skipWs (by omega) (by omega)]

end SpaceRunsFloats

section SpaceRunsLines

variable {F : Type} [Field F]

theorem newline_test_space : (fun d : Char => d != newline) ' ' = true := by decide

theorem head_dropWhile_newline (l : List Char) :
    (l.dropWhile fun d => d != newline).head? ≠ some ' ' := by
  induction l with
  | nil => simp
  | cons c l ih =>
    by_cases hc : (c != newline) = true
    · simpa [List.dropWhile, hc] using ih
    · simp only [List.dropWhile, hc, List.head?_cons, ne_eq, Option.some.injEq]
      rintro rfl
      exact hc (by decide)

/-- One evaluation of `getline` on related texts: both fail, or the lines read
are related and so are the texts left. -/
theorem getline_congr (src src1 : List Char) (h : SpaceRuns src src1) :
    (getline src = none ∧ getline src1 = none) ∨
      ∃ line rest line1 rest1, getline src = some (line, rest) ∧
        getline src1 = some (line1, rest1) ∧ SpaceRuns line line1 ∧ SpaceRuns rest rest1 := by
  have hsk := h.skipWs
  unfold getline
  rcases hs : skipWs src with _ | ⟨c, cs⟩
  · rw [hs] at hsk
    rw [hsk.nil_left]
    exact Or.inl ⟨rfl, rfl⟩
  · rw [hs] at hsk
    obtain ⟨cs1, hs1, -⟩ := hsk.cons_left
    rw [hs1] at hsk ⊢
    obtain ⟨h1, h2⟩ := hsk.takeWhile_rel (fun d => d != newline) newline_test_space
    exact Or.inr ⟨_, _, _, _, rfl, rfl, h1, h2.drop_one (head_dropWhile_newline _)⟩

theorem readLines_congr :
    ∀ (fuel : Nat) (src src1 : List Char), SpaceRuns src src1 → src.length < fuel →
      src1.length < fuel → List.Forall₂ SpaceRuns (readLines fuel src) (readLines fuel src1) := by
  intro fuel
  induction fuel with
  | zero => intro src src1 _ h1; exact absurd h1 (Nat.not_lt_zero _)
  | succ fuel ih =>
    intro src src1 h hl hl1
    rcases getline_congr src src1 h with ⟨h1, h2⟩ | ⟨line, rest, line1, rest1, h1, h2, h3, h4⟩
    · simp only [readLines, h1, h2]
      exact List.Forall₂.nil
    · have hlt := getline_length_lt _ _ _ h1
      have hlt1 := getline_length_lt _ _ _ h2
      simp only [readLines, h1, h2]
      exact List.Forall₂.cons h3 (ih rest rest1 h4 (by omega) (by omega))

/-- The lines of related files are related, line by line. -/
theorem fileLines_congr (content content1 : List Char) (h : SpaceRuns content content1) :
    List.Forall₂ SpaceRuns (fileLines content) (fileLines content1) := by
  unfold fileLines
  rw [readLines_fuel (content.length + 1) (content.length + content1.length + 1) content
      (by omega) (by omega),
    readLines_fuel (content1.length + 1) (content.length + content1.length + 1) content1
      (by omega) (by omega)]
  exact readLines_congr _ _ _ h (by omega) (by omega)

theorem ReserveSpace_congr (lines lines1 : List (List Char))
    (h : List.Forall₂ SpaceRuns lines lines1) :
    ∀ counts, ReserveSpace lines counts = ReserveSpace lines1 counts := by
  induction h with
  | nil => intro counts; rfl
  | @cons line line1 more more1 hl _ ih =>
    intro counts
    obtain ⟨vertex_count, face_count⟩ := counts
    have hdrop : line.head? = some 'v' →
        (line.drop 1 = [] ∧ line1.drop 1 = []) ∨
          ∃ c t t1, line.drop 1 = c :: t ∧ line1.drop 1 = c :: t1 := by
      intro hv
      have hd := hl.drop_one (by rw [hv]; decide)
      rcases hq : line.drop 1 with _ | ⟨c, t⟩
      · rw [hq] at hd
        exact Or.inl ⟨rfl, hd.nil_left⟩
      · rw [hq] at hd
        obtain ⟨t1, e, -⟩ := hd.cons_left
        exact Or.inr ⟨c, t, t1, rfl, e⟩
    simp only [ReserveSpace]
    rw [← hl.isEmpty_eq, ← hl.head_eq]
    by_cases h1 : (line.isEmpty || line.head? == some '#') = true
    · simp only [h1, if_true, ih]
    · simp only [h1, Bool.false_eq_true, if_false]
      by_cases h2 : (line.head? == some 'v') = true
      · simp only [h2, if_true]
        rcases hdrop (by simpa using h2) with ⟨e, e1⟩ | ⟨c, t, t1, e, e1⟩
        · rw [e, e1]
        · rw [e, e1]
          simp only [ih]
      · simp only [h2, Bool.false_eq_true, if_false, ih]

theorem Parser.readLine_congr (p : Parser F) (line line1 : List Char)
    (h : SpaceRuns line line1) : p.readLine line = p.readLine line1 := by
  unfold Parser.readLine
  rw [← h.isEmpty_eq, ← h.head_eq, Parser.ParseVertex_congr p line line1 h]
  by_cases h1 : (line.isEmpty || line.head? == some '#') = true
  · simp only [h1, if_true]
  · simp only [h1, Bool.false_eq_true, if_false]
    by_cases h2 : (line.head? == some 'f') = true
    · simp only [h2, if_true]
      exact Parser.ParseFaces_congr _ _ _ h
    · simp only [h2, Bool.false_eq_true, if_false]

theorem Parser.foldl_readLine_congr (lines lines1 : List (List Char))
    (h : List.Forall₂ SpaceRuns lines lines1) :
    ∀ p : Parser F, lines.foldl Parser.readLine p = lines1.foldl Parser.readLine p := by
  induction h with
  | nil => intro p; rfl
  | @cons line line1 more more1 hl _ ih =>
    intro p
    rw [List.foldl_cons, List.foldl_cons, Parser.readLine_congr p _ _ hl, ih]

/-- `ReadData` depends on the file through the lines it reads and what the
pre-scan and the line loop make of them. -/
theorem Parser.ReadData_of_lines (p : Parser F) (fs fs1 : FileSystem) (path : String)
    (content content1 : List Char) (hopen : fs path = some content)
    (hopen1 : fs1 path = some content1)
    (hres : ReserveSpace (fileLines content1) (0, 0) = ReserveSpace (fileLines content) (0, 0))
    (hfold : (fileLines content1).foldl Parser.readLine p =
      (fileLines content).foldl Parser.readLine p) :
    p.ReadData fs1 path = p.ReadData fs path := by
  unfold Parser.ReadData
  rw [hopen, hopen1]
  simp only [hres, hfold]

theorem Parser.LoadFile_of_ReadData (p : Parser F) (fs fs1 : FileSystem) (path : String)
    (h : (Parser.cleared : Parser F).ReadData fs1 path =
      (Parser.cleared : Parser F).ReadData fs path) :
    p.LoadFile fs1 path = p.LoadFile fs path := by
  rw [Parser.LoadFile_eq, Parser.LoadFile_eq, h]

end SpaceRunsLines

section InsertedLines

variable {F : Type} [Field F]

theorem fileLines_none (src : List Char) (h : getline src = none) : fileLines src = [] := by
  simp only [fileLines, readLines, h]

theorem fileLines_some (src line rest : List Char) (h : getline src = some (line, rest)) :
    fileLines src = line :: fileLines rest := by
  have hlt := getline_length_lt _ _ _ h
  have e : readLines (src.length + 1) src = line :: readLines src.length rest := by
    simp only [readLines, h]
  unfold fileLines
  rw [e, readLines_fuel src.length (rest.length + 1) rest hlt (by omega)]

theorem fileLines_of_skipWs (a b : List Char) (h : skipWs a = skipWs b) :
    fileLines a = fileLines b := by
  have hg : getline a = getline b := by
    unfold getline
    rw [h]
  rcases hb : getline b with _ | ⟨line, rest⟩
  · rw [fileLines_none a (hg.trans hb), fileLines_none b hb]
  · rw [fileLines_some a line rest (hg.trans hb), fileLines_some b line rest hb]

theorem skipWs_append_of_cons (pre X : List Char) (c : Char) (cs : List Char)
    (h : skipWs pre = c :: cs) : skipWs (pre ++ X) = c :: cs ++ X := by
  induction pre with
  | nil => simp [skipWs] at h
  | cons d pre ih =>
    by_cases hd : isSpace d = true
    · have h1 : skipWs pre = c :: cs := by simpa [skipWs, List.dropWhile, hd] using h
      simpa [skipWs, List.dropWhile, hd] using ih h1
    · simp only [skipWs, List.dropWhile, hd] at h
      cases h
      simp [skipWs, List.dropWhile, hd]

theorem skipWs_append_of_nil (pre X : List Char) (h : skipWs pre = []) :
    skipWs (pre ++ newline :: X) = skipWs X := by
  induction pre with
  | nil => simp [skipWs, List.dropWhile, newline, isSpace]
  | cons d pre ih =>
    by_cases hd : isSpace d = true
    · have h1 : skipWs pre = [] := by simpa [skipWs, List.dropWhile, hd] using h
      simpa [skipWs, List.dropWhile, hd] using ih h1
    · simp [skipWs, List.dropWhile, hd] at h

/-- Where a line ends when a line feed and more text follow it. -/
theorem split_at_newline (a X : List Char) :
    (a ++ newline :: X).takeWhile (fun d => d != newline) =
        a.takeWhile (fun d => d != newline) ∧
      ((a ++ newline :: X).dropWhile fun d => d != newline).drop 1 =
        if a.dropWhile (fun d => d != newline) = [] then X
        else (a.dropWhile fun d => d != newline).drop 1 ++ newline :: X := by
  induction a with
  | nil => simp [List.takeWhile, List.dropWhile]
  | cons c a ih =>
    by_cases hc : (c != newline) = true
    · simp only [List.cons_append, List.takeWhile_cons, List.dropWhile_cons, hc, if_true]
      exact ⟨by rw [ih.1], ih.2⟩
    · simp [List.takeWhile_cons, List.dropWhile_cons, hc]

/-- The lines of a text followed by a line feed and more text are the lines
of the text followed by the lines of the rest. -/
theorem fileLines_append_newline :
    ∀ (n : Nat) (pre rest : List Char), pre.length ≤ n →
      fileLines (pre ++ newline :: rest) = fileLines pre ++ fileLines rest := by
  intro n
  induction n with
  | zero =>
    intro pre rest h
    have : pre = [] := List.length_eq_zero.mp (by omega)
    subst this
    rw [List.nil_append, fileLines_of_skipWs (newline :: rest) rest
      (by simp [skipWs, List.dropWhile, newline, isSpace]), fileLines_none [] rfl]
    rfl
  | succ n ih =>
    intro pre rest h
    rcases hs : skipWs pre with _ | ⟨c, cs⟩
    · rw [fileLines_of_skipWs _ rest (skipWs_append_of_nil pre rest hs),
        fileLines_none pre (by simp only [getline, hs])]
      rfl
    · have hsx := skipWs_append_of_cons pre (newline :: rest) c cs hs
      obtain ⟨h1, h2⟩ := split_at_newline (c :: cs) rest
      have hg : getline pre = some ((c :: cs).takeWhile (fun d => d != newline),
          ((c :: cs).dropWhile fun d => d != newline).drop 1) := by
        simp only [getline, hs]
      have hgx : getline (pre ++ newline :: rest) =
          some ((c :: cs).takeWhile (fun d => d != newline),
            if (c :: cs).dropWhile (fun d => d != newline) = [] then rest
            else ((c :: cs).dropWhile fun d => d != newline).drop 1 ++ newline :: rest) := by
        simp only [List.cons_append] at h1 h2 hsx
        simp only [getline, hsx]
        rw [h1, h2]
      rw [fileLines_some _ _ _ hg, fileLines_some _ _ _ hgx]
      by_cases hd : (c :: cs).dropWhile (fun d => d != newline) = []
      · rw [if_pos hd, hd]
        simp only [List.drop_nil, List.cons_append]
        rw [fileLines_none [] rfl]
        rfl
      · rw [if_neg hd]
        have hlt := getline_length_lt _ _ _ hg
        rw [ih _ rest (by omega)]
        rfl

/-- An inserted blank line yields no line, and an inserted comment line
yields one line, which starts with `#`. -/
theorem fileLines_blank_or_comment (ins : List Char) (h : isBlankOrComment ins = true) :
    ∀ l ∈ fileLines ins, l.head? = some '#' := by
  unfold isBlankOrComment at h
  simp only [Bool.and_eq_true, Bool.not_eq_true', Bool.or_eq_true, List.isEmpty_iff,
    beq_iff_eq] at h
  obtain ⟨hnl, hc⟩ := h
  rcases hs : skipWs ins with _ | ⟨c, cs⟩
  · intro l hl
    rw [fileLines_none ins (by simp only [getline, hs])] at hl
    cases hl
  · rw [hs] at hc
    have hc1 : c = '#' := by
      rcases hc with hc | hc
      · cases hc
      · simpa using hc
    subst hc1
    have hall : ∀ d ∈ '#' :: cs, (d != newline) = true := by
      intro d hd
      have hmem : d ∈ ins := by
        have hsub : List.Sublist (skipWs ins) ins := List.dropWhile_sublist isSpace
        rw [hs] at hsub
        exact hsub.subset hd
      simp only [bne_iff_ne, ne_eq]
      rintro rfl
      simp only [List.contains_eq_any_beq, List.any_eq_false, beq_iff_eq] at hnl
      exact hnl _ hmem rfl
    have hdw : ('#' :: cs).dropWhile (fun d => d != newline) = [] :=
      List.dropWhile_eq_nil_iff.mpr hall
    have hg : getline ins = some (('#' :: cs).takeWhile (fun d => d != newline), []) := by
      simp only [getline, hs, hdw, List.drop_nil]
    rw [fileLines_some _ _ _ hg, fileLines_none [] rfl]
    intro l hl
    simp only [List.mem_singleton] at hl
    rw [hl]
    simp [List.takeWhile, newline]

theorem ReserveSpace_skip (skipped : List (List Char))
    (h : ∀ l ∈ skipped, l.head? = some '#') (after : List (List Char)) :
    ∀ (before : List (List Char)) (counts : Nat × Nat),
      ReserveSpace (before ++ skipped ++ after) counts = ReserveSpace (before ++ after) counts := by
  intro before
  induction before with
  | nil =>
    induction skipped with
    | nil => intro counts; rfl
    | cons l ls ih =>
      intro counts
      have hl := h l (List.mem_cons_self _ _)
      obtain ⟨vertex_count, face_count⟩ := counts
      simp only [List.nil_append, List.cons_append, ReserveSpace, hl, beq_self_eq_true,
        Bool.or_true, if_true]
      exact ih (fun x hx => h x (List.mem_cons_of_mem _ hx)) _
  | cons l before ih =>
    intro counts
    obtain ⟨vertex_count, face_count⟩ := counts
    show ReserveSpace (l :: (before ++ skipped ++ after)) _ =
      ReserveSpace (l :: (before ++ after)) _
    unfold ReserveSpace
    simp only [ih]

theorem Parser.foldl_readLine_skip (skipped : List (List Char))
    (h : ∀ l ∈ skipped, l.head? = some '#') (before after : List (List Char)) (p : Parser F) :
    (before ++ skipped ++ after).foldl Parser.readLine p =
      (before ++ after).foldl Parser.readLine p := by
  have hs : ∀ q : Parser F, skipped.foldl Parser.readLine q = q := by
    induction skipped with
    | nil => intro q; rfl
    | cons l ls ih =>
      intro q
      have hl := h l (List.mem_cons_self _ _)
      rw [List.foldl_cons]
      have : q.readLine l = q := by
        simp [Parser.readLine, hl]
      rw [this]
      exact ih (fun x hx => h x (List.mem_cons_of_mem _ hx)) q
  rw [List.foldl_append, List.foldl_append, hs, List.foldl_append]

end InsertedLines

section LayoutClaim

variable {F : Type} [Field F]

/-- `LoadFile` on two files whose lines differ by lines that start with `#`. -/
theorem Parser.LoadFile_skip (p : Parser F) (fs fs1 : FileSystem) (path : String)
    (content content1 : List Char) (hopen : fs path = some content)
    (hopen1 : fs1 path = some content1) (before skipped after : List (List Char))
    (hskip : ∀ l ∈ skipped, l.head? = some '#')
    (h1 : fileLines content1 = before ++ skipped ++ after)
    (h : fileLines content = before ++ after) :
    p.LoadFile fs1 path = p.LoadFile fs path := by
  apply Parser.LoadFile_of_ReadData
  apply Parser.ReadData_of_lines _ fs fs1 path content content1 hopen hopen1
  · rw [h1, h, ReserveSpace_skip skipped hskip]
  · rw [h1, h, Parser.foldl_readLine_skip skipped hskip]

/-- `LoadFile` on two files of which the second has longer runs of spaces. -/
theorem Parser.LoadFile_spaces (p : Parser F) (fs fs1 : FileSystem) (path : String)
    (content content1 : List Char) (hopen : fs path = some content)
    (hopen1 : fs1 path = some content1) (h : SpaceRuns content content1) :
    p.LoadFile fs1 path = p.LoadFile fs path := by
  have hl := fileLines_congr content content1 h
  apply Parser.LoadFile_of_ReadData
  apply Parser.ReadData_of_lines _ fs fs1 path content content1 hopen hopen1
  · exact (ReserveSpace_congr _ _ hl _).symm
  · exact (Parser.foldl_readLine_congr _ _ hl _).symm

/-- Claim C32: for every file, a blank line or a comment line (white space,
then `#`) inserted in front of any line or appended after the last line, and
further spaces put behind any space of the file (so also a single space
between two tokens of a `v` or `f` line replaced by several), leave what
`Parser::LoadFile` returns and the vertices and faces it produces as they
are. -/
theorem Parser.LoadFile_layout (p : Parser F) (fs fs1 : FileSystem) (path : String)
    (pre post : List Char) (hopen : fs path = some (pre ++ post)) :
    (∀ ins : List Char, isBlankOrComment ins = true →
        (pre = [] ∨ pre.getLast? = some newline) →
        fs1 path = some (pre ++ ins ++ newline :: post) →
        p.LoadFile fs1 path = p.LoadFile fs path) ∧
      (∀ ins : List Char, isBlankOrComment ins = true → post = [] →
        fs1 path = some (pre ++ newline :: ins) → p.LoadFile fs1 path = p.LoadFile fs path) ∧
      (∀ k : Nat, pre.getLast? = some ' ' →
        fs1 path = some (pre ++ List.replicate k ' ' ++ post) →
        p.LoadFile fs1 path = p.LoadFile fs path) := by
  refine ⟨?_, ?_, ?_⟩
  · intro ins hins hpre hopen1
    have hskip := fileLines_blank_or_comment ins hins
    rcases hpre with hpre | hpre
    · subst hpre
      refine Parser.LoadFile_skip p fs fs1 path _ _ hopen hopen1 [] (fileLines ins)
        (fileLines post) hskip ?_ rfl
      rw [List.nil_append, List.nil_append, fileLines_append_newline _ ins post (le_refl _)]
    · obtain ⟨pre0, rfl⟩ : ∃ pre0, pre = pre0 ++ [newline] := by
        rcases List.eq_nil_or_concat pre with h | ⟨pre0, b, h⟩
        · rw [h] at hpre
          cases hpre
        · rw [h, List.concat_eq_append, List.getLast?_concat] at hpre
          cases hpre
          exact ⟨pre0, by rw [h, List.concat_eq_append]⟩
      refine Parser.LoadFile_skip p fs fs1 path _ _ hopen hopen1 (fileLines pre0) (fileLines ins)
        (fileLines post) hskip ?_ ?_
      · have e : pre0 ++ [newline] ++ ins ++ newline :: post =
            pre0 ++ newline :: (ins ++ newline :: post) := by simp
        rw [e, fileLines_append_newline _ pre0 _ (le_refl _),
          fileLines_append_newline _ ins post (le_refl _), List.append_assoc]
      · have e : pre0 ++ [newline] ++ post = pre0 ++ newline :: post := by simp
        rw [e, fileLines_append_newline _ pre0 _ (le_refl _)]
  · intro ins hins hpost hopen1
    subst hpost
    have hskip := fileLines_blank_or_comment ins hins
    refine Parser.LoadFile_skip p fs fs1 path _ _ hopen hopen1 (fileLines pre) (fileLines ins)
      [] hskip ?_ ?_
    · rw [fileLines_append_newline _ pre ins (le_refl _), List.append_nil]
    · rw [List.append_nil, List.append_nil]
  · intro k hpre hopen1
    obtain ⟨pre0, rfl⟩ : ∃ pre0, pre = pre0 ++ [' '] := by
      rcases List.eq_nil_or_concat pre with h | ⟨pre0, b, h⟩
      · rw [h] at hpre
        cases hpre
      · rw [h, List.concat_eq_append, List.getLast?_concat] at hpre
        cases hpre
        exact ⟨pre0, by rw [h, List.concat_eq_append]⟩
    refine Parser.LoadFile_spaces p fs fs1 path _ _ hopen hopen1 ?_
    have e : pre0 ++ [' '] ++ post = pre0 ++ ' ' :: post := by simp
    have e1 : pre0 ++ [' '] ++ List.replicate k ' ' ++ post =
        pre0 ++ ' ' :: (List.replicate k ' ' ++ post) := by simp
    rw [e, e1]
    exact SpaceRuns.append_left pre0 (SpaceRuns.replicate k post)

end LayoutClaim

section LayoutWitness

theorem Parser.LoadFile_layout_witness :
    threeVertexParser.LoadFile commentedFiles "point.obj" =
        threeVertexParser.LoadFile demoFiles "point.obj" ∧
      threeVertexParser.LoadFile spacedFiles "triangle.obj" =
        threeVertexParser.LoadFile demoFiles "triangle.obj" :=
  ⟨(Parser.LoadFile_layout threeVertexParser demoFiles commentedFiles "point.obj"
      "v 0 0 0\n".toList "f 1\n".toList rfl).1 "# one vertex".toList (by decide)
      (Or.inr (by decide)) (by decide),
    (Parser.LoadFile_layout threeVertexParser demoFiles spacedFiles "triangle.obj"
      "v 0 0 0\nv 2 0 0\nv 0 4 0\nf 1 ".toList "2 3\n".toList rfl).2.2 2 (by decide)
      (by decide)⟩

end LayoutWitness

/-! ## Vertex lines -/


section FloatTokens

variable {F : Type} [Field F]

theorem digits_then (ds rest : List Char) (hds : ∀ c ∈ ds, isDigit c = true)
    (hrest : ∀ c ∈ rest.head?, isDigit c = false) :
    (ds ++ rest).takeWhile isDigit = ds ∧ (ds ++ rest).dropWhile isDigit = rest := by
  obtain ⟨h1, h2⟩ := not_isDigit_head_of hrest
  exact ⟨by rw [takeWhile_append_of_all _ _ _ hds, h1, List.append_nil],
    by rw [dropWhile_append_of_all _ _ _ hds, h2]⟩

/-- What follows the mantissa of a well-formed float in front of `rest`. -/
theorem FloatToken.exponent_head (t : FloatToken) (ht : t.WF) (rest : List Char)
    (hend : endsFloat rest = true) :
    (∀ c ∈ (t.expMark ++ (t.expSign ++ (t.expDigits ++ rest))).head?, isDigit c = false) ∧
      ((t.expMark ++ (t.expSign ++ (t.expDigits ++ rest))).head? == some '.') = false := by
  obtain ⟨-, -, -, -, -, hexp⟩ := ht
  rcases hexp with ⟨h1, h2, h3⟩ | ⟨h1 | h1, -, -, -⟩
  · rw [h1, h2, h3]
    simp only [List.nil_append]
    unfold endsFloat at hend
    rcases hr : rest.head? with _ | c
    · simp
    · rw [hr] at hend
      simp only [Bool.not_eq_true', Bool.or_eq_false_iff] at hend
      refine ⟨?_, ?_⟩
      · intro d hd
        simp only [Option.mem_def, Option.some.injEq] at hd
        subst hd
        exact hend.1.1.1
      · simpa using hend.1.1.2
  · rw [h1]
    exact ⟨by simp [isDigit], by simp⟩
  · rw [h1]
    exact ⟨by simp [isDigit], by simp⟩

end FloatTokens

section FloatReading

variable {F : Type} [Field F]

/-- The mantissa of a well-formed float in front of `tail`, a text that
starts with neither a digit nor a point. -/
theorem FloatToken.mantissa (t : FloatToken) (ht : t.WF) (tail : List Char)
    (hd : ∀ c ∈ tail.head?, isDigit c = false) (hp : (tail.head? == some '.') = false) :
    (t.whole ++ (t.point ++ (t.frac ++ tail))).takeWhile isDigit = t.whole ∧
      (if ((t.whole ++ (t.point ++ (t.frac ++ tail))).dropWhile isDigit).head? == some '.' then
          (((t.whole ++ (t.point ++ (t.frac ++ tail))).dropWhile isDigit).drop 1).takeWhile isDigit
        else []) = t.frac ∧
      (if ((t.whole ++ (t.point ++ (t.frac ++ tail))).dropWhile isDigit).head? == some '.' then
          (((t.whole ++ (t.point ++ (t.frac ++ tail))).dropWhile isDigit).drop 1).dropWhile isDigit
        else (t.whole ++ (t.point ++ (t.frac ++ tail))).dropWhile isDigit) = tail := by
  obtain ⟨-, hw, hpt, hf, -, -⟩ := ht
  rcases hpt with ⟨h1, h2⟩ | h1
  · rw [h1, h2]
    simp only [List.nil_append]
    obtain ⟨e1, e2⟩ := digits_then t.whole tail hw hd
    rw [e1, e2, hp]
    simp
  · rw [h1]
    have hdot : ∀ c ∈ (['.'] ++ (t.frac ++ tail)).head?, isDigit c = false := by
      intro c hc
      simp only [List.singleton_append, List.head?_cons, Option.mem_def,
        Option.some.injEq] at hc
      subst hc
      decide
    obtain ⟨e1, e2⟩ := digits_then t.whole (['.'] ++ (t.frac ++ tail)) hw hdot
    obtain ⟨e3, e4⟩ := digits_then t.frac tail hf hd
    rw [e1, e2]
    simp [e3, e4]

/-- The first character of a well-formed float without its sign. -/
theorem FloatToken.body_head (t : FloatToken) (ht : t.WF) (tail : List Char) :
    ∃ c r, t.whole ++ (t.point ++ (t.frac ++ tail)) = c :: r ∧ isSpace c = false ∧
      c ≠ '-' ∧ c ≠ '+' := by
  obtain ⟨-, hw, hpt, hf, hne, -⟩ := ht
  rcases hq : t.whole with _ | ⟨d, ds⟩
  · rw [hq] at hne
    have hfne : t.frac ≠ [] := by
      rcases hne with h | h
      · exact absurd rfl h
      · exact h
    rcases hpt with ⟨-, h2⟩ | h1
    · exact absurd h2 hfne
    · rw [h1]
      exact ⟨'.', t.frac ++ tail, rfl, by decide, by decide, by decide⟩
  · have hd : isDigit d = true := hw d (by simp [hq])
    refine ⟨d, ds ++ (t.point ++ (t.frac ++ tail)), rfl, isSpace_of_isDigit hd, ?_, ?_⟩
    · rintro rfl
      exact absurd hd (by decide)
    · rintro rfl
      exact absurd hd (by decide)

/-- The white space and the sign in front of a float. -/
theorem FloatToken.skip_sign (t : FloatToken) (ht : t.WF) (ws tail : List Char)
    (hws : ∀ d ∈ ws, isSpace d = true) :
    ∃ c r, skipWs (ws ++ (t.sign ++ (t.whole ++ (t.point ++ (t.frac ++ tail))))) = c :: r ∧
      (if c == '-' || c == '+' then r else c :: r) =
        t.whole ++ (t.point ++ (t.frac ++ tail)) ∧
      (c == '-') = decide (t.sign = ['-']) := by
  obtain ⟨c, r, hb, hsp, hm, hpl⟩ := t.body_head ht tail
  rw [hb]
  rcases ht.1 with hs | hs | hs
  · refine ⟨c, r, ?_, ?_, ?_⟩
    · rw [hs]
      exact skipWs_append ws c r hws hsp
    · simp [hm, hpl]
    · rw [hs]
      simp [hm]
  · refine ⟨'-', c :: r, ?_, ?_, ?_⟩
    · rw [hs]
      exact skipWs_append ws '-' (c :: r) hws (by decide)
    · simp
    · rw [hs]
      simp
  · refine ⟨'+', c :: r, ?_, ?_, ?_⟩
    · rw [hs]
      exact skipWs_append ws '+' (c :: r) hws (by decide)
    · simp
    · rw [hs]
      simp

end FloatReading

section FloatReadingToken

variable {F : Type} [Field F]

/-- The exponent of a well-formed float in front of `rest`, a text that cannot
continue the float. -/
theorem FloatToken.exponent (t : FloatToken) (ht : t.WF) (rest : List Char)
    (hend : endsFloat rest = true) :
    (t.expMark = [] ∧ t.expSign = [] ∧ t.expDigits = [] ∧
        t.expMark ++ (t.expSign ++ (t.expDigits ++ rest)) = rest ∧
        ((rest.head? == some 'e' || rest.head? == some 'E') = false)) ∨
      (t.expMark ≠ [] ∧ t.expDigits ≠ [] ∧
        (((t.expMark ++ (t.expSign ++ (t.expDigits ++ rest))).head? == some 'e' ||
          (t.expMark ++ (t.expSign ++ (t.expDigits ++ rest))).head? == some 'E') = true) ∧
        (t.expMark ++ (t.expSign ++ (t.expDigits ++ rest))).drop 1 =
          t.expSign ++ (t.expDigits ++ rest) ∧
        ((t.expSign ++ (t.expDigits ++ rest)).head? == some '-') = decide (t.expSign = ['-']) ∧
        (if (t.expSign ++ (t.expDigits ++ rest)).head? == some '-' ||
            (t.expSign ++ (t.expDigits ++ rest)).head? == some '+' then
          (t.expSign ++ (t.expDigits ++ rest)).drop 1
        else t.expSign ++ (t.expDigits ++ rest)) = t.expDigits ++ rest ∧
        (t.expDigits ++ rest).takeWhile isDigit = t.expDigits ∧
        (t.expDigits ++ rest).dropWhile isDigit = rest) := by
  obtain ⟨-, -, -, -, -, hexp⟩ := ht
  have hrd : ∀ c ∈ rest.head?, isDigit c = false := by
    intro c hc
    unfold endsFloat at hend
    simp only [Option.mem_def] at hc
    rw [hc] at hend
    simp only [Bool.not_eq_true', Bool.or_eq_false_iff] at hend
    exact hend.1.1.1
  rcases hexp with ⟨h1, h2, h3⟩ | ⟨hm, hs, hne, hdig⟩
  · left
    refine ⟨h1, h2, h3, by rw [h1, h2, h3]; rfl, ?_⟩
    unfold endsFloat at hend
    rcases hr : rest.head? with _ | c
    · rfl
    · rw [hr] at hend
      simp only [Bool.not_eq_true', Bool.or_eq_false_iff] at hend
      have a := hend.1.2
      have b := hend.2
      simp only [beq_eq_false_iff_ne, ne_eq] at a b
      simp [a, b]
  · right
    obtain ⟨e1, e2⟩ := digits_then t.expDigits rest hdig hrd
    obtain ⟨d, ds, hds⟩ : ∃ d ds, t.expDigits = d :: ds := by
      rcases hq : t.expDigits with _ | ⟨d, ds⟩
      · exact absurd hq hne
      · exact ⟨d, ds, rfl⟩
    have hd : isDigit d = true := hdig d (by simp [hds])
    have hdm : d ≠ '-' := by
      rintro rfl
      exact absurd hd (by decide)
    have hdp : d ≠ '+' := by
      rintro rfl
      exact absurd hd (by decide)
    refine ⟨?_, hne, ?_, ?_, ?_, ?_, e1, e2⟩
    · rcases hm with h | h <;> rw [h] <;> simp
    · rcases hm with h | h <;> rw [h] <;> simp
    · rcases hm with h | h <;> rw [h] <;> simp
    · rcases hs with h | h | h <;> rw [h] <;> simp [hds, hdm]
    · rcases hs with h | h | h <;> rw [h] <;> simp [hds, hdm, hdp]

/-- Reading a well-formed float: `stream >> vertex` on white space, the text of
the float, then text that cannot continue it, leaves that text unread; it
yields the value of the float when the float is in the range of `float`, and
fails when it is not. -/
theorem IStream.readFloat_token_cases (t : FloatToken) (ht : t.WF) (ws rest : List Char)
    (hws : ∀ d ∈ ws, isSpace d = true) (hend : endsFloat rest = true) :
    (IStream.readFloat ⟨ws ++ (t.text ++ rest), false⟩ : IStream × Option F) =
      if t.exceeds = true then (⟨rest, true⟩, none) else (⟨rest, false⟩, some t.value) := by
  have htext : t.text ++ rest = t.sign ++ (t.whole ++ (t.point ++ (t.frac ++
      (t.expMark ++ (t.expSign ++ (t.expDigits ++ rest)))))) := by
    unfold FloatToken.text
    simp only [List.append_assoc]
  obtain ⟨hd, hp⟩ := t.exponent_head ht rest hend
  obtain ⟨c, r, hsk, hb0, hneg⟩ :=
    t.skip_sign ht ws (t.expMark ++ (t.expSign ++ (t.expDigits ++ rest))) hws
  obtain ⟨hip, hfp, hb3⟩ :=
    t.mantissa ht (t.expMark ++ (t.expSign ++ (t.expDigits ++ rest))) hd hp
  have hne : ¬ (t.whole = [] ∧ t.frac = []) := by
    rintro ⟨h1, h2⟩
    rcases ht.2.2.2.2.1 with h | h
    · exact h h1
    · exact h h2
  rw [htext]
  unfold IStream.readFloat FloatToken.value FloatToken.exceeds
  simp only [Bool.false_eq_true, if_false, hsk, hb0, hip, hfp, hb3, hne]
  simp only [hneg]
  rcases t.exponent ht rest hend with ⟨h1, hs, hds, h2, h3⟩ |
    ⟨h1, h2, h3, h4, h5, h6, h7, h8⟩
  · rw [h2, h3, hs, hds]
    have e0 : digitsVal ([] : List Char) = 0 := rfl
    have e1 : decide (([] : List Char) = ['-']) = false := by decide
    rw [e0, e1]
    by_cases hx : exceedsFloat (digitsVal (t.whole ++ t.frac)) t.frac.length false 0 = true
    · simp [hx]
    · simp [hx, h1]
  · rw [h3]
    simp only [if_true, h4, h6, h7, h8, h2, if_false]
    simp only [h5]
    by_cases hx : exceedsFloat (digitsVal (t.whole ++ t.frac)) t.frac.length
        (decide (t.expSign = ['-'])) (digitsVal t.expDigits) = true
    · simp [hx]
    · by_cases hs : t.expSign = ['-']
      · simp [hx, hs, h1]
      · simp [hx, hs, h1]

/-- Reading a well-formed float in the range of `float` yields its value. -/
theorem IStream.readFloat_token (t : FloatToken) (ht : t.WF) (hin : t.exceeds = false)
    (ws rest : List Char) (hws : ∀ d ∈ ws, isSpace d = true) (hend : endsFloat rest = true) :
    (IStream.readFloat ⟨ws ++ (t.text ++ rest), false⟩ : IStream × Option F) =
      (⟨rest, false⟩, some t.value) := by
  rw [IStream.readFloat_token_cases t ht ws rest hws hend, hin]
  rfl

/-- Reading a well-formed float out of the range of `float` fails. -/
theorem IStream.readFloat_token_overflow (t : FloatToken) (ht : t.WF) (hout : t.exceeds = true)
    (ws rest : List Char) (hws : ∀ d ∈ ws, isSpace d = true) (hend : endsFloat rest = true) :
    (IStream.readFloat ⟨ws ++ (t.text ++ rest), false⟩ : IStream × Option F) =
      (⟨rest, true⟩, none) := by
  rw [IStream.readFloat_token_cases t ht ws rest hws hend, hout]
  rfl

end FloatReadingToken

section FloatRange

variable {F : Type} [LinearOrderedField F]

theorem abs_signed (b : Prop) [Decidable b] (x : F) (hx : 0 ≤ x) :
    |(if b then (-1 : F) else 1) * x| = x := by
  split_ifs
  · rw [neg_one_mul, abs_neg, abs_of_nonneg hx]
  · rw [one_mul, abs_of_nonneg hx]

/-- The range test on the digits of a float is the comparison of the magnitude
of its value with `floatOverflow`. -/
theorem FloatToken.exceeds_iff (t : FloatToken) (ht : t.WF) :
    t.exceeds = true ↔ (floatOverflow : F) ≤ |(t.value : F)| := by
  have h10 : ∀ n : Nat, (0 : F) < (10 : F) ^ n := fun n => pow_pos (by norm_num) n
  have hm : (0 : F) ≤ (digitsVal (t.whole ++ t.frac) : F) / (10 : F) ^ t.frac.length :=
    div_nonneg (Nat.cast_nonneg _) (le_of_lt (h10 _))
  unfold FloatToken.exceeds FloatToken.value exceedsFloat
  obtain ⟨-, -, -, -, -, hexp⟩ := ht
  rcases hexp with ⟨h1, h2, h3⟩ | ⟨hmk, -, -, -⟩
  · have e0 : digitsVal ([] : List Char) = 0 := rfl
    have e1 : decide (([] : List Char) = ['-']) = false := by decide
    rw [h2, h3, e0, e1]
    simp only [Bool.false_eq_true, if_false, h1, if_true, pow_zero, mul_one,
      decide_eq_true_eq]
    rw [abs_signed _ _ hm, le_div_iff₀ (h10 _)]
    exact_mod_cast Iff.rfl
  · have hne : t.expMark ≠ [] := by
      rcases hmk with h | h <;> rw [h] <;> simp
    by_cases hs : t.expSign = ['-']
    · simp only [hs, decide_True, if_true, if_neg hne, decide_eq_true_eq]
      rw [mul_div_assoc, abs_signed _ _ (div_nonneg hm (le_of_lt (h10 _))), div_div,
        le_div_iff₀ (mul_pos (h10 _) (h10 _)), ← pow_add]
      exact_mod_cast Iff.rfl
    · simp only [hs, decide_False, Bool.false_eq_true, if_false, if_neg hne,
        decide_eq_true_eq]
      rw [mul_assoc, abs_signed _ _ (mul_nonneg hm (le_of_lt (h10 _))), div_mul_eq_mul_div,
        le_div_iff₀ (h10 _)]
      exact_mod_cast Iff.rfl

end FloatRange

section VertexLines

variable {F : Type} [Field F]

/-- Text that does not start with a float fails the extraction. -/
theorem IStream.readFloat_no_float (s : List Char) (h : startsWithFloat s = false) :
    (IStream.readFloat ⟨s, false⟩ : IStream × Option F).2 = none := by
  unfold startsWithFloat at h
  unfold IStream.readFloat
  simp only [Bool.false_eq_true, if_false]
  rcases hs : skipWs s with _ | ⟨c, r⟩
  · rfl
  · rw [hs] at h
    simp only at h ⊢
    generalize (if (c == '-' || c == '+') = true then r else c :: r) = b0 at h ⊢
    rcases b0 with _ | ⟨d, more⟩
    · simp
    · simp only [Bool.or_eq_false_iff, Bool.and_eq_false_iff] at h
      obtain ⟨hd, hdot⟩ := h
      have e1 : (d :: more).takeWhile isDigit = [] := by
        simp [List.takeWhile, hd]
      have e2 : (d :: more).dropWhile isDigit = d :: more := by
        simp [List.dropWhile, hd]
      rw [e1, e2]
      simp only [List.head?_cons, List.drop_succ_cons, List.drop_zero]
      have hfp : (if (some d == some '.') = true then more.takeWhile isDigit else []) = [] := by
        by_cases hq : (some d == some '.') = true
        · rw [if_pos hq]
          have hd1 : (d == '.') = true := by simpa using hq
          rcases hdot with h1 | h1
          · rw [hd1] at h1
            exact absurd h1 (by decide)
          · rcases more with _ | ⟨m, ms⟩
            · rfl
            · have hm : isDigit m = false := by simpa using h1
              simp [List.takeWhile, hm]
        · rw [if_neg hq]
      rw [hfp]
      simp

theorem length_le_floatTail (rest : List Char) (ts : List FloatToken) :
    ts.length ≤ (floatTail rest ts).length := by
  induction ts with
  | nil => exact Nat.zero_le _
  | cons t ts ih =>
    simp only [floatTail, List.length_append, List.length_replicate, List.length_cons]
    omega

theorem endsFloat_floatTail (rest : List Char) (hend : endsFloat rest = true)
    (ts : List FloatToken) : endsFloat (floatTail rest ts) = true := by
  rcases ts with _ | ⟨t, ts⟩
  · exact hend
  · simp only [floatTail, List.replicate_succ, List.cons_append]
    rfl

theorem floatTail_append (rest : List Char) (ts : List FloatToken) (t : FloatToken) :
    floatTail rest (ts ++ [t]) =
      floatTail (List.replicate (t.gap + 1) ' ' ++ (t.text ++ rest)) ts := by
  induction ts with
  | nil => rfl
  | cons u us ih =>
    show List.replicate (u.gap + 1) ' ' ++ (u.text ++ floatTail rest (us ++ [t])) = _
    rw [ih]
    rfl

/-- The loop of `ParseVertex` on well-formed floats in the range of `float`,
followed by text on which the extraction fails. -/
theorem ParseVertexLoop_tokens (rest : List Char) (hend : endsFloat rest = true)
    (hstop : (IStream.readFloat ⟨rest, false⟩ : IStream × Option F).2 = none) :
    ∀ (ts : List FloatToken), (∀ t ∈ ts, t.WF ∧ t.exceeds = false) →
      ∀ (fuel : Nat) (vertices : List F), ts.length < fuel →
      ParseVertexLoop fuel ⟨floatTail rest ts, false⟩ vertices =
        vertices ++ ts.map (fun t => (t.value : F)) := by
  intro ts
  induction ts with
  | nil =>
    intro _ fuel vertices hfuel
    obtain ⟨k, rfl⟩ : ∃ k, fuel = k + 1 := ⟨fuel - 1, by omega⟩
    rcases hr : (IStream.readFloat ⟨rest, false⟩ : IStream × Option F) with ⟨s1, _ | v⟩
    · simp only [ParseVertexLoop, floatTail, hr, List.map_nil, List.append_nil]
    · rw [hr] at hstop
      exact absurd hstop (by simp)
  | cons t ts ih =>
    intro hwf fuel vertices hfuel
    obtain ⟨k, rfl⟩ : ∃ k, fuel = k + 1 := ⟨fuel - 1, by
      simp only [List.length_cons] at hfuel
      omega⟩
    have ht := hwf t (List.mem_cons_self _ _)
    have hts : ∀ u ∈ ts, u.WF ∧ u.exceeds = false :=
      fun u hu => hwf u (List.mem_cons_of_mem _ hu)
    have hws : ∀ c ∈ List.replicate (t.gap + 1) ' ', isSpace c = true := by
      intro c hc
      rw [List.eq_of_mem_replicate hc]
      exact isSpace_space
    have hread := IStream.readFloat_token (F := F) t ht.1 ht.2
      (List.replicate (t.gap + 1) ' ') (floatTail rest ts) hws (endsFloat_floatTail rest hend ts)
    simp only [ParseVertexLoop, floatTail, hread]
    rw [ih hts k _ (by simpa using hfuel)]
    simp

/-- A vertex line made of well-formed floats in the range of `float`, each
after one or more spaces, followed by text that cannot continue the last float
and on which the extraction fails: the values of the floats are appended, and
nothing else changes. -/
theorem Parser.readLine_floats (p : Parser F) (ts : List FloatToken) (rest : List Char)
    (hwf : ∀ t ∈ ts, t.WF ∧ t.exceeds = false) (hend : endsFloat rest = true)
    (hstop : (IStream.readFloat ⟨rest, false⟩ : IStream × Option F).2 = none) :
    p.readLine ('v' :: floatTail rest ts) =
      ⟨⟨p.data_.vertices ++ ts.map (fun t => (t.value : F)), p.data_.faces⟩⟩ := by
  have hsk : skipWs ('v' :: floatTail rest ts) = 'v' :: floatTail rest ts := by
    simpa using skipWs_append [] 'v' (floatTail rest ts) (by simp) (by decide)
  have hfuel : ts.length < (floatTail rest ts).length + 1 := by
    have := length_le_floatTail rest ts
    omega
  unfold Parser.readLine Parser.ParseVertex IStream.ofLine IStream.readChar
  simp only [Bool.false_eq_true, if_false, hsk]
  rw [ParseVertexLoop_tokens rest hend hstop ts hwf _ _ hfuel]
  simp

/-- A vertex line whose floats in the range of `float` are followed by a
well-formed float out of that range: the reading ends at that float. -/
theorem Parser.readLine_floats_overflow (p : Parser F) (ts : List FloatToken)
    (t : FloatToken) (rest : List Char) (hwf : ∀ u ∈ ts, u.WF ∧ u.exceeds = false)
    (ht : t.WF) (hout : t.exceeds = true) (hend : endsFloat rest = true) :
    p.readLine ('v' :: floatTail rest (ts ++ [t])) =
      ⟨⟨p.data_.vertices ++ ts.map (fun u => (u.value : F)), p.data_.faces⟩⟩ := by
  have hws : ∀ c ∈ List.replicate (t.gap + 1) ' ', isSpace c = true := by
    intro c hc
    rw [List.eq_of_mem_replicate hc]
    exact isSpace_space
  have hread := IStream.readFloat_token_overflow (F := F) t ht hout
    (List.replicate (t.gap + 1) ' ') rest hws hend
  rw [floatTail_append]
  exact Parser.readLine_floats p ts _ hwf (by simp only [List.replicate_succ, List.cons_append]; rfl)
    (by rw [hread])

/-- A line whose second character cannot start a float appends nothing. -/
theorem Parser.readLine_other_tag (p : Parser F) (c : Char) (more : List Char)
    (hc : startsWithFloat (c :: more) = false) :
    p.readLine ('v' :: c :: more) = p := by
  have hsk : skipWs ('v' :: c :: more) = 'v' :: c :: more := by
    simpa using skipWs_append [] 'v' (c :: more) (by simp) (by decide)
  have h := IStream.readFloat_no_float (F := F) (c :: more) hc
  unfold Parser.readLine Parser.ParseVertex IStream.ofLine IStream.readChar
  simp only [Bool.false_eq_true, if_false, hsk]
  rcases hr : (IStream.readFloat ⟨c :: more, false⟩ : IStream × Option F) with ⟨s1, _ | v⟩
  · simp [ParseVertexLoop, hr]
  · rw [hr] at h
    exact absurd h (by simp)

/-- The characters a well-formed float is written with. -/
theorem FloatToken.text_chars (t : FloatToken) (ht : t.WF) :
    ∀ c ∈ t.text, isDigit c = true ∨ c = '-' ∨ c = '+' ∨ c = '.' ∨ c = 'e' ∨ c = 'E' := by
  obtain ⟨hs, hw, hp, hf, -, he⟩ := ht
  intro c hc
  unfold FloatToken.text at hc
  simp only [List.mem_append] at hc
  rcases hc with h | h | h | h | h | h | h
  · rcases hs with e | e | e <;> rw [e] at h <;> simp at h <;> simp [h]
  · exact Or.inl (hw c h)
  · rcases hp with ⟨e, -⟩ | e
    · rw [e] at h
      simp at h
    · rw [e] at h
      simp at h
      simp [h]
  · exact Or.inl (hf c h)
  · rcases he with ⟨e, -, -⟩ | ⟨e | e, -, -, -⟩ <;> rw [e] at h <;> simp at h <;> simp [h]
  · rcases he with ⟨-, e, -⟩ | ⟨-, e | e | e, -, -⟩ <;> rw [e] at h <;> simp at h <;> simp [h]
  · rcases he with ⟨-, -, e⟩ | ⟨-, -, -, e⟩
    · rw [e] at h
      simp at h
    · exact Or.inl (e c h)

end VertexLines

section VertexLineClaim

/-- Claim C33, amended: a 'v' line appends to the vertex buffer, in order, all
the floats in the range of `float` that follow the tag up to the first text
that does not start with such a float, where a token that starts with a float
and goes on with characters that cannot continue it still contributes that
float, and a float out of range ends the reading. For well-formed floats `ts`
in range, each after one or more spaces, `readLine` appends exactly the values
of `ts` and leaves the faces alone when they are followed by `rest`, which
cannot continue a float and does not start with one, and also when they are
followed by a well-formed float out of range; a float is out of range when the
magnitude of its value is at least `2^128 - 2^103`. In particular 'v x y z'
with x, y, z in range appends exactly x, y, z; a line whose tag is 'vt' or
'vn' leaves the parser as it is; and loading the cube file with 8 'v' lines,
4 'vt' lines, 6 'vn' lines and 12 faces succeeds with the faces the test
expects and exactly 24 vertex floats. -/
theorem Parser.readLine_vertex_line :
    (∀ (p : Parser ℚ) (ts : List FloatToken) (rest : List Char),
      (∀ t ∈ ts, t.WF ∧ t.exceeds = false) → endsFloat rest = true →
        startsWithFloat rest = false →
        p.readLine ('v' :: floatTail rest ts) =
          ⟨⟨p.data_.vertices ++ ts.map (fun t => (t.value : ℚ)), p.data_.faces⟩⟩) ∧
    (∀ (p : Parser ℚ) (ts : List FloatToken) (t : FloatToken) (rest : List Char),
      (∀ u ∈ ts, u.WF ∧ u.exceeds = false) → t.WF → t.exceeds = true →
        endsFloat rest = true →
        p.readLine ('v' :: floatTail rest (ts ++ [t])) =
          ⟨⟨p.data_.vertices ++ ts.map (fun u => (u.value : ℚ)), p.data_.faces⟩⟩) ∧
    (∀ t : FloatToken, t.WF →
      (t.exceeds = true ↔ ((floatOverflow : Nat) : ℚ) ≤ |(t.value : ℚ)|)) ∧
    (∀ (p : Parser ℚ) (x y z : FloatToken), x.WF → y.WF → z.WF →
      x.exceeds = false → y.exceeds = false → z.exceeds = false →
      p.readLine ('v' :: floatTail [] [x, y, z]) =
        ⟨⟨p.data_.vertices ++ [x.value, y.value, z.value], p.data_.faces⟩⟩) ∧
    (∀ (p : Parser ℚ) (more : List Char),
      p.readLine ('v' :: 't' :: more) = p ∧ p.readLine ('v' :: 'n' :: more) = p) ∧
    ((Parser.cleared : Parser ℚ).LoadFile textureFiles "cube_with_textures.obj").2 = none ∧
    ((Parser.cleared : Parser ℚ).LoadFile textureFiles "cube_with_textures.obj").1.data_.faces =
      expectedTextureFaces ∧
    ((Parser.cleared : Parser ℚ).LoadFile textureFiles
      "cube_with_textures.obj").1.data_.vertices.length = 24 := by
  refine ⟨?_, ?_, ?_, ?_, ?_, ?_, ?_, ?_⟩
  · intro p ts rest hwf hend hstop
    exact Parser.readLine_floats p ts rest hwf hend (IStream.readFloat_no_float rest hstop)
  · intro p ts t rest hwf ht hout hend
    exact Parser.readLine_floats_overflow p ts t rest hwf ht hout hend
  · intro t ht
    exact t.exceeds_iff ht
  · intro p x y z hx hy hz hx1 hy1 hz1
    have hwf : ∀ t ∈ [x, y, z], t.WF ∧ t.exceeds = false := by
      intro t ht
      simp only [List.mem_cons, List.mem_singleton, List.not_mem_nil, or_false] at ht
      rcases ht with rfl | rfl | rfl
      · exact ⟨hx, hx1⟩
      · exact ⟨hy, hy1⟩
      · exact ⟨hz, hz1⟩
    exact Parser.readLine_floats p [x, y, z] [] hwf (by decide)
      (IStream.readFloat_no_float [] (by decide))
  · intro p more
    exact ⟨Parser.readLine_other_tag p 't' more (by simp [startsWithFloat, skipWs, isSpace, isDigit]),
      Parser.readLine_other_tag p 'n' more (by simp [startsWithFloat, skipWs, isSpace, isDigit])⟩
  · set_option maxRecDepth 100000 in decide
  · set_option maxRecDepth 100000 in decide
  · set_option maxRecDepth 100000 in decide

/-- The line `v 1.5 -2e1   .25 # corner`: the three floats are appended to the
buffer of a parser that already holds a vertex; a 'vt' line changes nothing;
and on the line `v 1 1e39 3` only 1 is appended, `1e39` being out of the
range of `float`. -/
theorem Parser.readLine_vertex_line_witness :
    threeVertexParser.readLine "v 1.5 -2e1   .25 # corner".toList =
        ⟨⟨[0, 0, 0, 1, 0, 0, 0, 1, 0, 3 / 2, -20, 1 / 4], []⟩⟩ ∧
      threeVertexParser.readLine "vt 0.5 0.5".toList = threeVertexParser ∧
      ((Parser.cleared : Parser ℚ).readLine "v 1 1e39 3".toList).data_.vertices = [1] := by
  have h := Parser.readLine_vertex_line.1 threeVertexParser
    [⟨0, [], ['1'], ['.'], ['5'], [], [], []⟩, ⟨0, ['-'], ['2'], [], [], ['e'], [], ['1']⟩,
      ⟨2, [], [], ['.'], ['2', '5'], [], [], []⟩] " # corner".toList (by decide) (by decide)
    (by decide)
  have h2 := (Parser.readLine_vertex_line.2.2.2.2.1 threeVertexParser "0.5 0.5".toList).1
  have h3 := Parser.readLine_vertex_line.2.1 Parser.cleared [plainFloat [] ['1']]
    ⟨0, [], ['1'], [], [], ['e'], [], ['3', '9']⟩ " 3".toList (by decide) (by decide)
    (by decide) (by decide)
  refine ⟨?_, h2, ?_⟩
  · have e : "v 1.5 -2e1   .25 # corner".toList = 'v' :: floatTail " # corner".toList
        [⟨0, [], ['1'], ['.'], ['5'], [], [], []⟩, ⟨0, ['-'], ['2'], [], [], ['e'], [], ['1']⟩,
          ⟨2, [], [], ['.'], ['2', '5'], [], [], []⟩] := by decide
    rw [e, h]
    simp [threeVertexParser, FloatToken.value, digitsVal, digitVal]
    norm_num
  · have e : "v 1 1e39 3".toList = 'v' :: floatTail " 3".toList
        ([plainFloat [] ['1']] ++ [⟨0, [], ['1'], [], [], ['e'], [], ['3', '9']⟩]) := by decide
    rw [e, h3]
    simp [Parser.cleared, plainFloat, FloatToken.value, digitsVal, digitVal]

/-- Claim C33 as stated fails on the line `v 1 2 3abc`: the tokens `1` and `2`
are floats, the third token `3abc` is not a float (no well-formed float is
written with the letter `a`), so the claim has the line append 1 and 2 only,
while the extraction reads the float `3` at the start of the token and the
line appends 1, 2 and 3. -/
theorem Parser.readLine_leading_float :
    ((Parser.cleared : Parser ℚ).readLine "v 1 2 3abc".toList).data_.vertices = [1, 2, 3] ∧
      ((plainFloat [] ['1']).WF ∧ (plainFloat [] ['1']).text = "1".toList ∧
        ((plainFloat [] ['1']).value : ℚ) = 1) ∧
      ((plainFloat [] ['2']).WF ∧ (plainFloat [] ['2']).text = "2".toList ∧
        ((plainFloat [] ['2']).value : ℚ) = 2) ∧
      (∀ t : FloatToken, t.WF → t.text ≠ "3abc".toList) := by
  refine ⟨?_, ⟨by decide, by decide, ?_⟩, ⟨by decide, by decide, ?_⟩, ?_⟩
  · have e : "v 1 2 3abc".toList = 'v' :: floatTail "abc".toList
        [plainFloat [] ['1'], plainFloat [] ['2'], plainFloat [] ['3']] := by decide
    rw [e, Parser.readLine_floats _ _ _ (by decide) (by decide)
      (IStream.readFloat_no_float _ (by decide))]
    simp [Parser.cleared, plainFloat, FloatToken.value, digitsVal, digitVal]
  · simp [plainFloat, FloatToken.value, digitsVal, digitVal]
  · simp [plainFloat, FloatToken.value, digitsVal, digitVal]
  · intro t ht h
    have ha := t.text_chars ht 'a' (by rw [h]; decide)
    revert ha
    decide

end VertexLineClaim

end s21
